import Mathlib

/-!
# PZdabWriter: a shallow embedding of `src/PZdabWriter.cxx`

The writer serialises banks into fixed-size ZEBRA physical blocks.  The model
below follows the C++ member functions one by one.  Words are natural numbers
(32-bit values); the block buffer `mbuf` is a list of `NWREC` words; the output
file is kept as the words lying before the file position (`behind`) and the
words lying at or after it (`ahead`), so that a write appends to `behind` and
overwrites the front of `ahead`.

Everything that `PZdabWriter.cxx` uses but does not declare (the constants of
the headers, the byte-swap macro, `PZdabFile::GetSize`, the outcome of stdio
calls) is collected in the structure `Env`.
-/

namespace PZdabWriter

/-! ## Constants -/

/-- Modelled from the spec: the physical-block header is the first 8 words of a
block; `mpr[0..7]` are exactly the entries the constructor assigns. -/
def NPHREC : Nat := 8

/-- Modelled from the spec: the logical-record header is a length word and a
type word; `mlr[1]` is the last entry the source assigns. -/
def NLOGIC : Nat := 2

/-- Modelled from the spec: the pilot is ten words; the source places the first
entry of the relocation table at `mpili[10]`. -/
def NPILOT : Nat := 10

/-- Modelled from the spec: a bank header is nine words, `mbk[0..8]`. -/
def NBANK : Nat := 9

/-- The `BASE_LINK` define of the source. -/
def BASE_LINK : Nat := 301

/-- The `SUPP_BANK_LINK` define of the source. -/
def SUPP_BANK_LINK : Nat := 327

/-- Number of catalog entries in `sBankDef`. -/
def NUM_BANKS : Nat := 8

/-- Index of the primary, variable-length bank (first catalog entry). -/
def kZDABindex : Nat := 0

/-- Index of the supporting bank (second catalog entry). -/
def kMASTindex : Nat := 1

/-- Block-type word of an end-of-run steering block, `0x40000f00UL`. -/
def EOR_TAG : Nat := 0x40000f00

/-- Two to the 32: the modulus of `u_int32` arithmetic. -/
def U32 : Nat := 4294967296

/-- Number of words of an `iochar` array that the model keeps: the supporting
bank needs its I/O word and 25 link words. -/
def NIOCHAR : Nat := 26

/-- Conversion of a C `int` value to `u_int32`. -/
def u32cast (z : Int) : Nat := (z % 4294967296).toNat

/-! ## External declarations -/

/-- Declarations used by `PZdabWriter.cxx` that live outside it. -/
structure Env where
  /-- Words per physical block. -/
  NWREC : Nat
  ZEBRA_SIG0 : Nat
  ZEBRA_SIG1 : Nat
  ZEBRA_SIG2 : Nat
  ZEBRA_SIG3 : Nat
  /-- The effect of `SWAP_INT32` on one word (host order to wire order and back). -/
  swap : Nat → Nat
  /-- The result of `PZdabFile::GetSize` on the record in the caller's buffer, in bytes. -/
  GetSize : List Nat → Nat
  ZDAB_RECORD : Nat
  MAST_RECORD : Nat
  RHDR_RECORD : Nat
  EPED_RECORD : Nat
  TRIG_RECORD : Nat
  SOSL_RECORD : Nat
  CAST_RECORD : Nat
  CAAC_RECORD : Nat
  /-- The value of `WORD_SIZE(SBankMAST)`; likewise below. -/
  WORD_SIZE_MAST : Nat
  WORD_SIZE_RHDR : Nat
  WORD_SIZE_EPED : Nat
  WORD_SIZE_TRIG : Nat
  WORD_SIZE_SOSL : Nat
  WORD_SIZE_CAST : Nat
  WORD_SIZE_CAAC : Nat
  /-- The words of `mMastData` once the constructor has stored the two version numbers. -/
  mMastData : List Nat
  /-- Whether the stdio output call (`fwrite`, `fflush`, `fclose`) number `n` of the run fails. -/
  ioFail : Nat → Bool

/-! ## Data model -/

/-- One catalog entry, fields in the order of the initialiser in the source. -/
structure SBankDef where
  name : Nat
  id : Nat
  nwords : Nat
  nlinks : Nat
  status : Nat
  iochar : List Nat
deriving DecidableEq, Repr

/-- A stdio output call issued on the file handle. -/
inductive FileOp where
  | fwrite (nwords : Nat)
  | fflush
  | fclose
deriving DecidableEq, Repr

/-- The writer object together with the file it writes. -/
structure Writer where
  mBytesWritten : Nat
  mWritePos : Nat
  mError : Nat
  mCalcMD5 : Bool
  /-- Words fed to the MD5 accumulator so far, in order. -/
  mMD5 : List Nat
  mbuf : List Nat
  ipos : Nat
  irec : Nat
  /-- Whether `zdaboutput` is a non-null handle. -/
  zdaboutput : Bool
  mpr : List Nat
  mlr : List Nat
  mpili : List Nat
  mbk : List Nat
  sBankDef : List SBankDef
  /-- File words before the file position. -/
  behind : List Nat
  /-- File words at and after the file position. -/
  ahead : List Nat
  /-- Output calls issued so far. -/
  ops : List FileOp
deriving DecidableEq, Repr

/-- Pad an `iochar` initialiser with zeros to the array length. -/
def iocharInit (l : List Nat) : List Nat := l ++ List.replicate (NIOCHAR - l.length) 0

/-- The initial value of the static table `sBankDef`. -/
def sBankDefInit (e : Env) : List SBankDef :=
  [ { name := e.ZDAB_RECORD, id := 6, nwords := 0, nlinks := 0, status := 0x00000,
      iochar := iocharInit [0x0002000c] },
    { name := e.MAST_RECORD, id := 1, nwords := e.WORD_SIZE_MAST, nlinks := 25, status := 0x00004,
      iochar := iocharInit [0x00030025] },
    { name := e.RHDR_RECORD, id := 5, nwords := e.WORD_SIZE_RHDR, nlinks := 0, status := 0x00000,
      iochar := iocharInit [0x0002000c] },
    { name := e.EPED_RECORD, id := 6, nwords := e.WORD_SIZE_EPED, nlinks := 0, status := 0x00000,
      iochar := iocharInit [0x0002000c] },
    { name := e.TRIG_RECORD, id := 7, nwords := e.WORD_SIZE_TRIG, nlinks := 0, status := 0x00000,
      iochar := iocharInit [0x0002000c] },
    { name := e.SOSL_RECORD, id := 8, nwords := e.WORD_SIZE_SOSL, nlinks := 0, status := 0x00000,
      iochar := iocharInit [0x0323000c] },
    { name := e.CAST_RECORD, id := 10, nwords := e.WORD_SIZE_CAST, nlinks := 0, status := 0x80000,
      iochar := iocharInit [0xc9a3000e, 0x40041803, 0x000e005a] },
    { name := e.CAAC_RECORD, id := 11, nwords := e.WORD_SIZE_CAAC, nlinks := 0, status := 0x00000,
      iochar := iocharInit [0x0003000c] } ]

/-- Catalog entry at an index (a zero entry outside the table). -/
def bankAt (defs : List SBankDef) (i : Nat) : SBankDef :=
  defs.getD i { name := 0, id := 0, nwords := 0, nlinks := 0, status := 0, iochar := [] }

/-! ## Memory helpers -/

/-- Copy `data` over the words of `buf` starting at `pos` (`memcpy`). -/
def poke (buf : List Nat) (pos : Nat) (data : List Nat) : List Nat :=
  buf.take pos ++ data ++ buf.drop (pos + data.length)

/-- The macro call `SWAP_INT32(buf + off, n)`: swap `n` words in place. -/
def SWAP_INT32 (e : Env) (buf : List Nat) (off n : Nat) : List Nat :=
  buf.take off ++ ((buf.drop off).take n).map e.swap ++ buf.drop (off + n)

/-- The words `bank_ptr[0] .. bank_ptr[nsize-1]` read by the payload loop. -/
def window (bank : List Nat) (nsize : Nat) : List Nat :=
  (List.range nsize).map (fun i => bank.getD i 0)

/-! ## stdio calls -/

/-- The call `fwrite(data, size, 1, zdaboutput)`; the flag tells whether the item was written. -/
def fwrite (e : Env) (s : Writer) (data : List Nat) : Bool × Writer :=
  let s1 := { s with ops := s.ops ++ [FileOp.fwrite data.length] }
  if e.ioFail s.ops.length || !s.zdaboutput then (false, s1)
  else (true, { s1 with behind := s.behind ++ data, ahead := s.ahead.drop data.length })

/-- The call `fflush(zdaboutput)`; the flag tells whether it succeeded. -/
def fflush (e : Env) (s : Writer) : Bool × Writer :=
  (!e.ioFail s.ops.length, { s with ops := s.ops ++ [FileOp.fflush] })

/-- The call `fclose(zdaboutput)`; the flag tells whether it succeeded. -/
def fclose (e : Env) (s : Writer) : Bool × Writer :=
  (!e.ioFail s.ops.length && s.zdaboutput, { s with ops := s.ops ++ [FileOp.fclose] })

/-- The statements `fclose(zdaboutput); zdaboutput = NULL; mError = 1;`. -/
def closeOnError (e : Env) (s : Writer) : Writer :=
  { (fclose e s).2 with zdaboutput := false, mError := 1 }

/-! ## Member functions -/

/-- `AddRecord(data, nwords)`: copy, swap, advance the fill cursor. -/
def AddRecord (e : Env) (s : Writer) (data : List Nat) (nwords : Nat) : Writer :=
  { s with mbuf := SWAP_INT32 e (poke s.mbuf s.ipos (data.take nwords)) s.ipos nwords,
           ipos := s.ipos + nwords }

/-- The part of `FWrite` after the adjustment for an interim flush: the `fwrite` call
on `n` words of `mbuf` starting at `off` and the bookkeeping. -/
def FWriteRaw (e : Env) (s : Writer) (off n : Nat) : Nat × Writer :=
  let data := (s.mbuf.drop off).take n
  let r := fwrite e s data
  if r.1 then
    (r.2.mError, { r.2 with mBytesWritten := r.2.mBytesWritten + 4 * n,
                            mMD5 := if r.2.mCalcMD5 then r.2.mMD5 ++ data else r.2.mMD5 })
  else (1, { r.2 with mError := 1 })

/-- `FWrite(mbuf + off, n * sizeof(u_int32))`. -/
def FWrite (e : Env) (s : Writer) (off n : Nat) : Nat × Writer :=
  if s.mWritePos ≠ 0 ∧ n = e.NWREC then
    if s.mWritePos ≥ e.NWREC then (s.mError, { s with mWritePos := 0 })
    else FWriteRaw e { s with mWritePos := 0 } s.mWritePos (n - s.mWritePos)
  else FWriteRaw e s off n

/-- `WritePhysicalRecord()`: pad the block, reset the fill cursor, write. -/
def WritePhysicalRecord (e : Env) (s : Writer) : Nat × Writer :=
  let buf :=
    if s.ipos < e.NWREC - 1 then
      SWAP_INT32 e
        (poke s.mbuf s.ipos ([e.NWREC - s.ipos - 1, 5] ++ List.replicate (e.NWREC - s.ipos - 2) 0))
        s.ipos 2
    else if s.ipos < e.NWREC then s.mbuf.set s.ipos 0
    else s.mbuf
  FWrite e { s with mbuf := buf, ipos := 0 } 0 e.NWREC

/-- `Flush()`. -/
def Flush (e : Env) (s : Writer) : Int × Writer :=
  let r1 : Int × Writer :=
    if s.ipos > s.mWritePos then
      let r := FWrite e s s.mWritePos (s.ipos - s.mWritePos)
      ((r.1 : Int), { r.2 with mWritePos := r.2.ipos })
    else (0, s)
  let r2 : Int × Writer :=
    if r1.1 = 0 then
      let f := fflush e r1.2
      (if f.1 then 0 else -1, f.2)
    else r1
  if r2.1 ≠ 0 then (r2.1, closeOnError e r2.2) else r2

/-- The end-of-run record `meor`. -/
def meor : List Nat := [1, 1, 0]

/-- The end-of-ZEBRA record `meoz`. -/
def meoz : List Nat := [4, 1, 4294967295, 0, 0, 73]

/-- `Close()`. -/
def Close (e : Env) (s : Writer) : Nat × Writer :=
  if s.zdaboutput then
    let s1 := (WritePhysicalRecord e s).2
    let s2 := { s1 with mpr := (((s1.mpr.set 4 EOR_TAG).set 5 0).set 6 NPHREC).set 7 0 }
    let s3 := AddRecord e s2 s2.mpr s2.mpr.length
    let s4 := AddRecord e s3 meor meor.length
    let s5 := (WritePhysicalRecord e s4).2
    let s6 := AddRecord e s5 s5.mpr s5.mpr.length
    let s7 := AddRecord e s6 meoz meoz.length
    let s8 := (WritePhysicalRecord e s7).2
    let c := fclose e s8
    let s9 := if c.1 then c.2 else { c.2 with mError := 1 }
    (s9.mError, { s9 with zdaboutput := false })
  else (s.mError, s)

/-- `GetBankNWords(index)`. -/
def GetBankNWords (s : Writer) (index : Nat) : Nat := (bankAt s.sBankDef index).nwords

/-- `GetIndex(bank_name)`: the first catalog index with that name. -/
def GetIndex (s : Writer) (bank_name : Nat) : Option Nat :=
  (List.range NUM_BANKS).find? (fun i => (bankAt s.sBankDef i).name == bank_name)

/-! ## Construction -/

/-- The complete `NWREC`-word blocks of a file, in order; what successive
`fread(&mbuf, sizeof(mbuf), 1, f)` calls deliver. -/
def toBlocks (e : Env) (file : List Nat) : List (List Nat) :=
  (List.range (file.length / e.NWREC)).map (fun i => (file.drop (i * e.NWREC)).take e.NWREC)

/-- Outcome of the resume scan: whether the end-of-run block was found, the number of
blocks lying before it, and the values left in `irec` and `mbuf`. -/
structure ScanResult where
  found : Bool
  nblocks : Nat
  irec : Nat
  mbuf : List Nat
deriving DecidableEq, Repr

/-- The scanning loop of the constructor over the blocks still to be read.  `nfast` is
the counter of the inner loop (fast blocks still to skip), `k` the number of blocks
already read. A failed `fread` ends the scan without success. -/
def resumeScan (e : Env) : List (List Nat) → Nat → Nat → Nat → List Nat → ScanResult
  | [], _, irec, k, mbuf => { found := false, nblocks := k, irec := irec, mbuf := mbuf }
  | b :: rest, 0, irec, k, _ =>
    let m := SWAP_INT32 e b 0 e.NWREC
    if m.getD 0 0 ≠ e.ZEBRA_SIG0 ∨ m.getD 1 0 ≠ e.ZEBRA_SIG1 ∨
       m.getD 2 0 ≠ e.ZEBRA_SIG2 ∨ m.getD 3 0 ≠ e.ZEBRA_SIG3 then
      { found := false, nblocks := k + 1, irec := irec, mbuf := m }
    else if m.getD 4 0 = EOR_TAG then
      { found := true, nblocks := k, irec := irec, mbuf := m }
    else resumeScan e rest (m.getD 7 0) (m.getD 5 0) (k + 1) m
  | b :: rest, nfast + 1, irec, k, _ => resumeScan e rest nfast irec (k + 1) b

/-- The assignments of the constructor to the record templates, followed by the staging
of the first steering block (`mpr[5] = ++irec; ipos = 0; ADD_RECORD(mpr)`). -/
def initRecords (e : Env) (s : Writer) : Writer :=
  let irec := (s.irec + 1) % U32
  let mpr := [e.ZEBRA_SIG0, e.ZEBRA_SIG1, e.ZEBRA_SIG2, e.ZEBRA_SIG3, e.NWREC, irec, NPHREC, 0]
  let s1 := { s with irec := irec, mpr := mpr, mlr := [0, 2],
                     mpili := [0x4640e400, 37700, 0, 0, 0, 0, 0, 0, 0, 0, BASE_LINK, 0],
                     mbk := [0, 0, 0, 0, 0, 0, 0, 0, 0], ipos := 0 }
  AddRecord e s1 s1.mpr s1.mpr.length

/-- The constructor `PZdabWriter(file_name, calcMD5)`.  `existing` is the content of the
file when `fopen(name, "r+b")` succeeds, and `canCreate` tells whether `fopen(name, "wb")`
succeeds.  Members the constructor leaves unassigned on an early return are modelled as
zero or empty. -/
def new (e : Env) (file_name : Option String) (calcMD5 : Bool)
    (existing : Option (List Nat)) (canCreate : Bool) : Writer :=
  let s0 : Writer :=
    { mBytesWritten := 0, mWritePos := 0, mError := 0, mCalcMD5 := calcMD5, mMD5 := [],
      mbuf := List.replicate e.NWREC 0, ipos := 0, irec := 0, zdaboutput := false,
      mpr := [], mlr := [], mpili := [], mbk := [], sBankDef := sBankDefInit e,
      behind := [], ahead := existing.getD [], ops := [] }
  if file_name = none ∨ file_name = some "" then { s0 with mError := 1 }
  else
    let s1 := { s0 with irec := U32 - 1 }
    match existing with
    | some file =>
      let r := resumeScan e (toBlocks e file) 0 s1.irec 0 s1.mbuf
      if r.found then
        initRecords e { s1 with zdaboutput := true, irec := r.irec, mbuf := r.mbuf,
                                behind := file.take (r.nblocks * e.NWREC),
                                ahead := file.drop (r.nblocks * e.NWREC) }
      else
        let s2 := { s1 with zdaboutput := true, irec := r.irec, mbuf := r.mbuf }
        { (fclose e s2).2 with zdaboutput := false, mError := 1 }
    | none =>
      initRecords e { s1 with zdaboutput := canCreate }

/-! ## WriteBank -/

/-- Sizes computed at the start of `WriteBank`. -/
structure Sizes where
  nsize : Nat
  nio_nl : Nat
  hdr_size : Nat
  mast_nio_nl : Nat
  npilot : Nat
deriving DecidableEq, Repr

/-- Lines 337-342: resolve the size of the primary bank and swap its hit-count word. -/
def resolveZDAB (e : Env) (s : Writer) (bank : List Nat) (index : Nat) : Writer × List Nat :=
  if index = kZDABindex then
    ({ s with sBankDef :=
          s.sBankDef.set kZDABindex { bankAt s.sBankDef kZDABindex with nwords := e.GetSize bank / 4 } },
     SWAP_INT32 e bank 3 1)
  else (s, bank)

/-- Lines 344-363: the sizes of the record and the relocation entries of the pilot. -/
def computeSizes (s : Writer) (index : Nat) : Sizes × Writer :=
  let nsize := (bankAt s.sBankDef index).nwords
  let nio_nl := ((bankAt s.sBankDef index).iochar.getD 0 0) % 0x10000 - 12
  let hdr0 := 1 + nio_nl + NBANK
  if index ≠ kZDABindex then
    let mast_nio_nl := ((bankAt s.sBankDef kMASTindex).iochar.getD 0 0) % 0x10000 - 12
    let hdr_size := hdr0 + (1 + mast_nio_nl + NBANK + (bankAt s.sBankDef kMASTindex).nwords)
    let mpili := ((s.mpili.set 6 2).set 8 SUPP_BANK_LINK).set 11 (BASE_LINK + hdr_size + nsize)
    ({ nsize := nsize, nio_nl := nio_nl, hdr_size := hdr_size, mast_nio_nl := mast_nio_nl,
       npilot := NPILOT + 2 }, { s with mpili := mpili })
  else
    let mpili := (s.mpili.set 6 0).set 8 0
    ({ nsize := nsize, nio_nl := nio_nl, hdr_size := hdr0, mast_nio_nl := 0,
       npilot := NPILOT + 0 }, { s with mpili := mpili })

/-- The statements `mpr[5] = ++irec; mpr[6] = NPHREC; mpr[7] = 0; ADD_RECORD(mpr);`. -/
def newSteering (e : Env) (s : Writer) : Writer :=
  let irec := (s.irec + 1) % U32
  let s1 := { s with irec := irec, mpr := ((s.mpr.set 5 irec).set 6 NPHREC).set 7 0 }
  AddRecord e s1 s1.mpr s1.mpr.length

/-- Finish the current block and stage a new steering block; on a write failure close
the file instead.  The flag tells whether the write succeeded. -/
def startBlock (e : Env) (s : Writer) : Bool × Writer :=
  let r := WritePhysicalRecord e s
  if r.1 ≠ 0 then (false, closeOnError e r.2) else (true, newSteering e r.2)

/-- Lines 365-395: the two placement checks. The flag is false when a write failed. -/
def placeRecord (e : Env) (s : Writer) (z : Sizes) : Bool × Writer :=
  let r1 : Bool × Writer :=
    if s.mWritePos ≠ 0 ∧ s.ipos + NLOGIC + z.npilot + z.hdr_size + z.nsize > 2 * e.NWREC - NPHREC
    then startBlock e s else (true, s)
  if !r1.1 then r1
  else if r1.2.ipos ≥ u32cast ((e.NWREC : Int) - NLOGIC - z.npilot - z.hdr_size)
  then startBlock e r1.2 else r1

/-- Lines 407-412: the I/O and link words of the supporting bank, all links cleared and
the link of the bank being written set. -/
def mastIochar (s : Writer) (index : Nat) (z : Sizes) : List Nat :=
  let mast := bankAt s.sBankDef kMASTindex
  let io1 := poke mast.iochar (1 + (z.mast_nio_nl - mast.nlinks)) (List.replicate mast.nlinks 0)
  io1.set (1 + z.mast_nio_nl - (bankAt s.sBankDef index).id)
    (BASE_LINK + 1 + z.mast_nio_nl + NBANK + mast.nwords + 1 + z.nio_nl)

/-- Lines 417-424: the bank header `mbk` of the supporting bank. -/
def mastBankHeader (s : Writer) : List Nat :=
  let mast := bankAt s.sBankDef kMASTindex
  [s.mbk.getD 0 0, 0, 0, mast.id, mast.name, mast.nlinks, mast.nlinks, mast.nwords, mast.status]

/-- Lines 435-442: the bank header `mbk` of the payload bank. -/
def payloadBankHeader (s : Writer) (index nsize : Nat) : List Nat :=
  let b := bankAt s.sBankDef index
  [s.mbk.getD 0 0, SUPP_BANK_LINK, SUPP_BANK_LINK - b.id, b.id, b.name, b.nlinks, b.nlinks,
   nsize, b.status]

/-- Lines 405-429: synthesise the supporting bank in front of the payload bank. -/
def addMAST (e : Env) (s : Writer) (index : Nat) (z : Sizes) : Writer :=
  let mast2 : SBankDef := { bankAt s.sBankDef kMASTindex with iochar := mastIochar s index z }
  let s1 := { s with sBankDef := s.sBankDef.set kMASTindex mast2 }
  let s2 := AddRecord e s1 (mastIochar s index z) (z.mast_nio_nl + 1)
  let s3 := AddRecord e { s2 with mbk := mastBankHeader s2 } (mastBankHeader s2)
    (mastBankHeader s2).length
  AddRecord e s3 e.mMastData e.mMastData.length

/-- Lines 397-403: the logical-record header and the pilot. -/
def stagePilot (e : Env) (s : Writer) (z : Sizes) : Writer :=
  let mlr := s.mlr.set 0 (z.npilot + z.hdr_size + z.nsize)
  let s1 := AddRecord e { s with mlr := mlr } mlr mlr.length
  let mpili := s1.mpili.set 7 (z.hdr_size + z.nsize)
  AddRecord e { s1 with mpili := mpili } mpili z.npilot

/-- Lines 431-443: the I/O words and the bank header of the payload bank. -/
def stageBankHeader (e : Env) (s : Writer) (index : Nat) (z : Sizes) : Writer :=
  let s4 := AddRecord e s (bankAt s.sBankDef index).iochar (z.nio_nl + 1)
  AddRecord e { s4 with mbk := payloadBankHeader s4 index z.nsize }
    (payloadBankHeader s4 index z.nsize) (payloadBankHeader s4 index z.nsize).length

/-- Lines 397-443: logical-record header, pilot, supporting bank, I/O words and bank header. -/
def stageHeaders (e : Env) (s : Writer) (index : Nat) (z : Sizes) : Writer :=
  let s2 := stagePilot e s z
  let s3 := if index ≠ kZDABindex then addMAST e s2 index z else s2
  stageBankHeader e s3 index z

/-- The statements `mbuf[ipos] = w; ++ipos;` at the end of the loop body. -/
def storeWord (s : Writer) (w : Nat) : Writer :=
  { s with mbuf := s.mbuf.set s.ipos w, ipos := s.ipos + 1 }

/-- Lines 451-502: the payload loop over the words still to be copied; the number of
words left, `nsize - i`, is the length of the list.  Returns the state and the flag
`fast` at loop exit. -/
def payloadLoop (e : Env) : List Nat → Writer → Bool → Writer × Bool
  | [], s, fast => (s, fast)
  | w :: ws, s, fast =>
    if s.ipos > e.NWREC - 1 then
      let nleft := ws.length + 1
      if nleft > e.NWREC - NPHREC then
        if !fast && decide (s.mWritePos ≥ 7) then (closeOnError e s, fast)
        else
          let nfast := (nleft - (e.NWREC - NPHREC) - 1) / e.NWREC + 1
          let s1 := if !fast then { s with mbuf := s.mbuf.set 7 (e.swap nfast) } else s
          let r := FWrite e s1 0 e.NWREC
          if r.1 ≠ 0 then (closeOnError e r.2, true)
          else payloadLoop e ws (storeWord { r.2 with ipos := 0 } w) true
      else
        let r := FWrite e s 0 e.NWREC
        if r.1 ≠ 0 then (closeOnError e r.2, false)
        else
          let irec := (r.2.irec + 1) % U32
          let s2 := { r.2 with ipos := 0, irec := irec,
                               mpr := (r.2.mpr.set 5 irec).set 6 (NPHREC + nleft) }
          payloadLoop e ws (storeWord (AddRecord e s2 s2.mpr s2.mpr.length) w) false
    else payloadLoop e ws (storeWord s w) fast

/-- The state and the caller's buffer after lines 337-363, with the sizes. -/
def prepared (e : Env) (s : Writer) (bank : List Nat) (index : Nat) : Sizes × Writer × List Nat :=
  let r := resolveZDAB e s bank index
  let c := computeSizes r.1 index
  (c.1, c.2, r.2)

/-- The state right before the payload loop, when no write failed during placement. -/
def preLoop (e : Env) (s : Writer) (bank : List Nat) (index : Nat) : Writer :=
  let p := prepared e s bank index
  stageHeaders e (placeRecord e p.2.1 p.1).2 index p.1

/-- The caller's buffer as the payload loop reads it (after the swap of lines 445-448). -/
def loopBank (e : Env) (s : Writer) (bank : List Nat) (index : Nat) : List Nat :=
  let p := prepared e s bank index
  if index ≠ kZDABindex then SWAP_INT32 e p.2.2 0 p.1.nsize else p.2.2

/-- `WriteBank(bank_ptr, index)`: the return code, the writer and the caller's buffer. -/
def WriteBank (e : Env) (s : Writer) (bank : List Nat) (index : Nat) : Int × Writer × List Nat :=
  if !s.zdaboutput then (-1, s, bank)
  else if index = kMASTindex then (0, s, bank)
  else
    let p := prepared e s bank index
    let pl := placeRecord e p.2.1 p.1
    if !pl.1 then (-2, pl.2, p.2.2)
    else
      let bank2 := loopBank e s bank index
      let l := payloadLoop e (window bank2 p.1.nsize) (preLoop e s bank index) false
      let bank3 := SWAP_INT32 e bank2 0 p.1.nsize
      if l.1.mError ≠ 0 then (-1, l.1, bank3)
      else if l.2 then
        let r := WritePhysicalRecord e l.1
        if r.1 ≠ 0 then (-1, closeOnError e r.2, bank3)
        else (0, newSteering e r.2, bank3)
      else (0, l.1, bank3)

/-! ## A concrete environment -/

/-- Byte reversal of a 32-bit word; values that are not 32-bit words are left alone. -/
def bswap32 (w : Nat) : Nat :=
  if w < 4294967296 then
    (w % 256) * 16777216 + (w / 256 % 256) * 65536 + (w / 65536 % 256) * 256 + w / 16777216
  else w

/-- An instance of the external declarations: a little-endian host, 900-word blocks,
the ZEBRA block signature, four-character bank names, a caller buffer that holds exactly
one record, and stdio calls that fail exactly where `fails` says. -/
def sampleEnv (fails : Nat → Bool) : Env :=
  { NWREC := 900,
    ZEBRA_SIG0 := 0x0123CDEF, ZEBRA_SIG1 := 0x80708070,
    ZEBRA_SIG2 := 0x4321ABCD, ZEBRA_SIG3 := 0x80618061,
    swap := bswap32,
    GetSize := fun bank => 4 * bank.length,
    ZDAB_RECORD := 0x5a444142, MAST_RECORD := 0x4d415354, RHDR_RECORD := 0x52484452,
    EPED_RECORD := 0x45504544, TRIG_RECORD := 0x54524947, SOSL_RECORD := 0x534f534c,
    CAST_RECORD := 0x43415354, CAAC_RECORD := 0x43414143,
    WORD_SIZE_MAST := 2, WORD_SIZE_RHDR := 20, WORD_SIZE_EPED := 11, WORD_SIZE_TRIG := 25,
    WORD_SIZE_SOSL := 9, WORD_SIZE_CAST := 7, WORD_SIZE_CAAC := 7,
    mMastData := [0x4041374c, 0x4041374c],
    ioFail := fails }

/-- The sample environment in which no stdio call fails. -/
def okEnv : Env := sampleEnv (fun _ => false)

/-! ## Predicates used by the theorems -/

/-- The assumptions on the external declarations: `SWAP_INT32` undoes itself, a block
has room for the largest record header of the catalog, block sizes stay far below the
32-bit range, and `mMastData` has the size the catalog declares for the supporting bank. -/
structure Env.WellFormed (e : Env) : Prop where
  swap_swap : ∀ w, e.swap (e.swap w) = w
  roomy : NPHREC + NLOGIC + (NPILOT + 2) + (1 + 2 + NBANK) + (1 + 25 + NBANK + e.WORD_SIZE_MAST)
            < e.NWREC
  small : e.NWREC < 1073741824
  mast_len : e.mMastData.length = e.WORD_SIZE_MAST

/-- No stdio output call fails. -/
def Env.NoFail (e : Env) : Prop := ∀ n, e.ioFail n = false

/-! ### Reading an existing file -/

/-- Word `i` of a file block as the scan sees it, after `SWAP_INT32(mbuf, NWREC)`. -/
def wordOf (e : Env) (b : List Nat) (i : Nat) : Nat := (SWAP_INT32 e b 0 e.NWREC).getD i 0

/-- The block bears the four-word magic signature. -/
def HasMagic (e : Env) (b : List Nat) : Prop :=
  wordOf e b 0 = e.ZEBRA_SIG0 ∧ wordOf e b 1 = e.ZEBRA_SIG1 ∧
  wordOf e b 2 = e.ZEBRA_SIG2 ∧ wordOf e b 3 = e.ZEBRA_SIG3

/-- A group: a magic-bearing block followed by as many further blocks as its word 7 declares. -/
def IsGroup (e : Env) (g : List (List Nat)) : Prop :=
  ∃ h fast, g = h :: fast ∧ HasMagic e h ∧ fast.length = wordOf e h 7

/-- A magic-bearing block whose word 4 is the end-of-run tag. -/
def IsEndOfRun (e : Env) (b : List Nat) : Prop := HasMagic e b ∧ wordOf e b 4 = EOR_TAG

/-- Word `i` of the first block of a group. -/
def headWord (e : Env) (g : List (List Nat)) (i : Nat) : Nat := wordOf e (g.headD []) i

/-- The sequence number a resumed writer starts with: word 5 of the header of the last
group plus one (as a 32-bit number), and 0 when there is no group. -/
def resumedSeq (e : Env) (groups : List (List (List Nat))) : Nat :=
  match groups.getLast? with
  | none => 0
  | some g => (headWord e g 5 + 1) % U32

/-- The words of a freshly staged steering header with the given sequence number, as
they lie in the block buffer. -/
def stagedHeader (e : Env) (seq : Nat) : List Nat :=
  [e.ZEBRA_SIG0, e.ZEBRA_SIG1, e.ZEBRA_SIG2, e.ZEBRA_SIG3, e.NWREC, seq, NPHREC, 0].map e.swap

/-- The value the scan leaves in `irec`: word 5 of the header of the last group, or the
initial value when there is no group. -/
def lastSeq (e : Env) (irec : Nat) (groups : List (List (List Nat))) : Nat :=
  match groups.getLast? with
  | none => irec
  | some g => headWord e g 5

/-! ### State relations used by the theorems -/

/-- The members that neither a block transfer nor the payload loop changes. -/
structure Static (s t : Writer) : Prop where
  zdaboutput : t.zdaboutput = s.zdaboutput
  mError : t.mError = s.mError
  mCalcMD5 : t.mCalcMD5 = s.mCalcMD5
  mlr : t.mlr = s.mlr
  mpili : t.mpili = s.mpili
  mbk : t.mbk = s.mbk
  sBankDef : t.sBankDef = s.sBankDef
  buflen : t.mbuf.length = s.mbuf.length

/-- The padding that `WritePhysicalRecord` puts behind a block filled up to word `p`:
a padding record `[NWREC - p - 1, 5]` and zeros, a single zero word when one word is
free, nothing when the block is full. -/
def padWords (e : Env) (p : Nat) : List Nat :=
  if p < e.NWREC - 1 then
    [e.swap (e.NWREC - p - 1), e.swap 5] ++ List.replicate (e.NWREC - p - 2) 0
  else if p < e.NWREC then [0]
  else []

/-- The block buffer is in step with the file: the words before the file position are
whole blocks `cm` followed by the first `mWritePos` words of the buffer (the part an
interim flush has already transferred). -/
structure Synced (e : Env) (s : Writer) (cm : List Nat) : Prop where
  isOpen : s.zdaboutput = true
  noError : s.mError = 0
  buflen : s.mbuf.length = e.NWREC
  ipos_le : s.ipos ≤ e.NWREC
  wpos_le : s.mWritePos ≤ s.ipos
  behind_eq : s.behind = cm ++ s.mbuf.take s.mWritePos

/-- The state after the loop body has stored the words `ws` one after another without
reaching the end of the block. -/
def fill (s : Writer) (ws : List Nat) : Writer :=
  { s with mbuf := poke s.mbuf s.ipos ws, ipos := s.ipos + ws.length }

/-- The state in the steering branch of the loop body (lines 481-491) after the block has
been written and the continuation header staged, with `nleft` words still to copy. -/
def steerState (e : Env) (s : Writer) (nleft : Nat) : Writer :=
  let r := (FWrite e s 0 e.NWREC).2
  let irec := (r.irec + 1) % U32
  let s2 := { r with ipos := 0, irec := irec, mpr := (r.mpr.set 5 irec).set 6 (NPHREC + nleft) }
  AddRecord e s2 s2.mpr s2.mpr.length

/-- The state in the fast branch of the loop body (lines 456-479) after the block has
been written, when the loop is already in fast mode. -/
def fastState (e : Env) (s : Writer) : Writer :=
  { (FWrite e s 0 e.NWREC).2 with ipos := 0 }

/-- The number of fast blocks the loop announces when `nleft` words are left at the
first crossing: the expression of line 469. -/
def nfastOf (e : Env) (nleft : Nat) : Nat := (nleft - (e.NWREC - NPHREC) - 1) / e.NWREC + 1

/-- The continuation header staged by the steering branch, as it lies in the buffer. -/
def contHeader (e : Env) (s : Writer) (nleft : Nat) : List Nat :=
  ((s.mpr.set 5 ((s.irec + 1) % U32)).set 6 (NPHREC + nleft)).map e.swap

/-- The catalog differs from its initial value at most in the word count of the primary
bank and in the link words of the supporting bank. -/
def CatalogOK (e : Env) (defs : List SBankDef) : Prop :=
  defs.length = NUM_BANKS ∧ ∀ i, i < NUM_BANKS →
    (bankAt defs i).name = (bankAt (sBankDefInit e) i).name
    ∧ (bankAt defs i).id = (bankAt (sBankDefInit e) i).id
    ∧ (bankAt defs i).nlinks = (bankAt (sBankDefInit e) i).nlinks
    ∧ (bankAt defs i).status = (bankAt (sBankDefInit e) i).status
    ∧ (i ≠ kZDABindex → (bankAt defs i).nwords = (bankAt (sBankDefInit e) i).nwords)
    ∧ (bankAt defs i).iochar.length = NIOCHAR
    ∧ (bankAt defs i).iochar.getD 0 0 = (bankAt (sBankDefInit e) i).iochar.getD 0 0
    ∧ (i ≠ kMASTindex → (bankAt defs i).iochar = (bankAt (sBankDefInit e) i).iochar)

/-- The state of an open writer without error between two calls: the buffer holds a
block that starts with the staged steering header, the fill cursor lies behind that
header, the part before the durable cursor is on the file, whole blocks precede it. -/
structure Healthy (e : Env) (s : Writer) : Prop where
  isOpen : s.zdaboutput = true
  noError : s.mError = 0
  buflen : s.mbuf.length = e.NWREC
  ipos_ge : NPHREC ≤ s.ipos
  ipos_le : s.ipos ≤ e.NWREC
  wpos_le : s.mWritePos ≤ s.ipos
  synced : ∃ cm, s.behind = cm ++ s.mbuf.take s.mWritePos ∧ cm.length % e.NWREC = 0
  mpr_len : s.mpr.length = 8
  mpr_sig : s.mpr.take 5 = [e.ZEBRA_SIG0, e.ZEBRA_SIG1, e.ZEBRA_SIG2, e.ZEBRA_SIG3, e.NWREC]
  mpr_seq : s.mpr.getD 5 0 = s.irec
  mpr_fast : s.mpr.getD 7 0 = 0
  irec_lt : s.irec < U32
  header : s.mbuf.take 8 = s.mpr.map e.swap
  mlr_len : s.mlr.length = 2
  mlr_type : s.mlr.getD 1 0 = 2
  mpili_len : s.mpili.length = 12
  mbk_len : s.mbk.length = 9
  catalog : CatalogOK e s.sBankDef

/-- Number of words `stageHeaders` adds for a record with the given sizes. -/
def overhead (z : Sizes) : Nat := NLOGIC + z.npilot + z.hdr_size

/-- All words staged so far, in order: the words transferred in whole blocks followed
by the filled part of the block buffer. -/
def staged (s : Writer) : List Nat :=
  s.behind.take (s.behind.length - s.mWritePos) ++ s.mbuf.take s.ipos

/-- The state `t` arises from `s` by adding records to the buffer: the words below the
former fill cursor, the file and the steering-header template are untouched. -/
structure Added (s t : Writer) : Prop where
  buflen : t.mbuf.length = s.mbuf.length
  below : t.mbuf.take s.ipos = s.mbuf.take s.ipos
  ipos_le : s.ipos ≤ t.ipos
  behind : t.behind = s.behind
  mWritePos : t.mWritePos = s.mWritePos
  irec : t.irec = s.irec
  mpr : t.mpr = s.mpr
  zdaboutput : t.zdaboutput = s.zdaboutput
  mError : t.mError = s.mError
  mCalcMD5 : t.mCalcMD5 = s.mCalcMD5

/-- The state `t` arises from `s` by adding exactly `k` words to the buffer. -/
def Adds (s t : Writer) (k : Nat) : Prop := Added s t ∧ t.ipos = s.ipos + k

/-- The words the payload loop of a call stores, in order. -/
def payloadOf (e : Env) (s : Writer) (bank : List Nat) (index : Nat) : List Nat :=
  window (loopBank e s bank index) (prepared e s bank index).1.nsize

/-- The fill cursor right before the payload loop plus the number of payload words. -/
def totalOf (e : Env) (s : Writer) (bank : List Nat) (index : Nat) : Nat :=
  (preLoop e s bank index).ipos + (prepared e s bank index).1.nsize

/-- The filled part of the block right before the payload loop followed by the payload. -/
def regionOf (e : Env) (s : Writer) (bank : List Nat) (index : Nat) : List Nat :=
  (preLoop e s bank index).mbuf.take (preLoop e s bank index).ipos ++ payloadOf e s bank index

/-- The caller's buffer when `WriteBank` returns after the payload loop. -/
def bankAfter (e : Env) (s : Writer) (bank : List Nat) (index : Nat) : List Nat :=
  SWAP_INT32 e (loopBank e s bank index) 0 (prepared e s bank index).1.nsize

/-- The number of payload words still to copy at the first crossing of a block boundary. -/
def nleftOf (e : Env) (s : Writer) (bank : List Nat) (index : Nat) : Nat :=
  totalOf e s bank index - e.NWREC

/-- The steering block a call transfers when its first crossing enters fast mode: the
full block with word 7 set to the announced number of fast blocks. -/
def steeringOf (e : Env) (s : Writer) (bank : List Nat) (index : Nat) : List Nat :=
  ((regionOf e s bank index).take e.NWREC).set 7 (e.swap (nfastOf e (nleftOf e s bank index)))

/-- The payload words that lie behind the first crossing. -/
def tailOf (e : Env) (s : Writer) (bank : List Nat) (index : Nat) : List Nat :=
  (regionOf e s bank index).drop e.NWREC


/-- Two values of the catalog agree in every field of every entry except the word count
of the primary bank and the link words of the supporting bank (the words of its `iochar`
array after the first). -/
def CatalogKept (d d2 : List SBankDef) : Prop :=
  d2.length = d.length ∧ ∀ i,
    (bankAt d2 i).name = (bankAt d i).name
    ∧ (bankAt d2 i).id = (bankAt d i).id
    ∧ (bankAt d2 i).nlinks = (bankAt d i).nlinks
    ∧ (bankAt d2 i).status = (bankAt d i).status
    ∧ (i ≠ kZDABindex → (bankAt d2 i).nwords = (bankAt d i).nwords)
    ∧ (i ≠ kMASTindex → (bankAt d2 i).iochar = (bankAt d i).iochar)
    ∧ (bankAt d2 i).iochar.length = (bankAt d i).iochar.length
    ∧ (bankAt d2 i).iochar.getD 0 0 = (bankAt d i).iochar.getD 0 0


/-- The state `t` arises from `s` by `AddRecord` calls that store the `k` words `ws`
(given in host order) behind the former fill cursor. -/
def Emits (e : Env) (s t : Writer) (ws : List Nat) (k : Nat) : Prop :=
  t.mbuf.take t.ipos = s.mbuf.take s.ipos ++ ws.map e.swap
  ∧ ws.length = k ∧ t.ipos = s.ipos + k ∧ t.mbuf.length = s.mbuf.length

/-- The words of the supporting bank in front of the payload bank, in host order: its
I/O word and link words, its bank header, its data. -/
def mastWords (e : Env) (s : Writer) (index : Nat) (z : Sizes) : List Nat :=
  (mastIochar s index z).take (z.mast_nio_nl + 1) ++ mastBankHeader s ++ e.mMastData

/-- The words `WriteBank` stages in front of the payload, in host order: the
logical-record header, the pilot, the supporting bank (except for the primary bank), the
I/O words and the bank header of the payload bank. -/
def recordHeader (e : Env) (s : Writer) (index : Nat) (z : Sizes) : List Nat :=
  s.mlr.set 0 (z.npilot + z.hdr_size + z.nsize)
    ++ (s.mpili.set 7 (z.hdr_size + z.nsize)).take z.npilot
    ++ (if index ≠ kZDABindex then mastWords e s index z else [])
    ++ (bankAt s.sBankDef index).iochar.take (z.nio_nl + 1)
    ++ payloadBankHeader s index z.nsize


/-- The steering-header template after `Close` has set the end-of-run tag and cleared
the sequence number (lines 272-275). -/
def closingHeader (mpr : List Nat) : List Nat :=
  (((mpr.set 4 EOR_TAG).set 5 0).set 6 NPHREC).set 7 0

/-- The end-of-run block `Close` writes, as it lies on the file. -/
def eorBlock (e : Env) (mpr : List Nat) : List Nat :=
  (closingHeader mpr).map e.swap ++ meor.map e.swap ++ padWords e (8 + 3)

/-- The end-of-container block `Close` writes, as it lies on the file. -/
def eozBlock (e : Env) (mpr : List Nat) : List Nat :=
  (closingHeader mpr).map e.swap ++ meoz.map e.swap ++ padWords e (8 + 6)


/-- The words `WriteBank` stages behind the two-word logical-record header and in front
of the payload, in host order: the pilot, the supporting bank (except for the primary
bank), the I/O words and the bank header of the payload bank. -/
def recordRest (e : Env) (s : Writer) (index : Nat) (z : Sizes) : List Nat :=
  (s.mpili.set 7 (z.hdr_size + z.nsize)).take z.npilot
    ++ (if index ≠ kZDABindex then mastWords e s index z else [])
    ++ (bankAt s.sBankDef index).iochar.take (z.nio_nl + 1)
    ++ payloadBankHeader s index z.nsize

/-- The state in which `WriteBank` stages the record headers: after the sizes have been
computed and the placement checks have run. -/
def placed (e : Env) (s : Writer) (bank : List Nat) (index : Nat) : Writer :=
  (placeRecord e (prepared e s bank index).2.1 (prepared e s bank index).1).2


/-- A block of `NWREC` words that starts with a steering header: the magic words,
`NWREC` in word 4, the sequence number `seq` in word 5 and the number `nfast` of fast
blocks that follow in word 7 (as read from the file, in host order). -/
def Heads (e : Env) (hd : List Nat) (seq nfast : Nat) : Prop :=
  hd.length = e.NWREC ∧ HasMagic e hd ∧ wordOf e hd 4 = e.NWREC ∧ wordOf e hd 5 = seq
  ∧ wordOf e hd 7 = nfast

/-- A list of groups of blocks as a writer produces them: every group is a steering
block followed by exactly the fast blocks its header announces, all blocks have `NWREC`
words, and the sequence numbers of the steering blocks are `first`, `first + 1`, ... as
32-bit numbers, in order. -/
def GroupsOK (e : Env) (first : Nat) (groups : List (List (List Nat))) : Prop :=
  (∀ g ∈ groups, ∃ hd fast seq, g = hd :: fast ∧ Heads e hd seq fast.length
      ∧ ∀ b ∈ fast, b.length = e.NWREC)
  ∧ groups.map (fun g => headWord e g 5)
      = (List.range groups.length).map (fun j => (first + j) % U32)

/-- The writer has transferred, behind the words `base` that were on the file at
construction, whole groups of blocks with consecutive sequence numbers starting at
`first`, and the steering header staged in its buffer carries the next one. -/
def Chained (e : Env) (base : List Nat) (first : Nat) (s : Writer) : Prop :=
  ∃ groups, GroupsOK e first groups ∧ Synced e s (base ++ groups.flatten.flatten)
    ∧ s.irec = (first + groups.length) % U32


/-- A call a client makes on an open writer. -/
inductive Call where
  | writeBank (bank : List Nat) (index : Nat)
  | flush
deriving DecidableEq, Repr

/-- The writer after a sequence of `WriteBank` and `Flush` calls. -/
def run (e : Env) : Writer → List Call → Writer
  | s, [] => s
  | s, Call.writeBank bank index :: cs => run e (WriteBank e s bank index).2.1 cs
  | s, Call.flush :: cs => run e (Flush e s).2 cs

/-- Every `WriteBank` call of the sequence names a catalog entry. -/
def ValidCalls (cs : List Call) : Prop :=
  ∀ c ∈ cs, match c with
    | Call.writeBank _ index => index < NUM_BANKS
    | Call.flush => True


/-- The bounds of the block buffer: the buffer has `NWREC` words, the fill cursor lies
between the end of the steering header and the end of the buffer, the durable cursor
does not pass the fill cursor, and the buffer starts with the staged steering header,
which bears the magic words. -/
def InBounds (e : Env) (s : Writer) : Prop :=
  s.mbuf.length = e.NWREC ∧ s.ipos ≤ e.NWREC ∧ s.mWritePos ≤ s.ipos ∧ NPHREC ≤ s.ipos
  ∧ s.mbuf.take 8 = s.mpr.map e.swap
  ∧ s.mpr.take 4 = [e.ZEBRA_SIG0, e.ZEBRA_SIG1, e.ZEBRA_SIG2, e.ZEBRA_SIG3]


/-- An existing file of two blocks for the sample environment: a steering block whose
header carries the sequence number `0xFFFFFFFE`, and an end-of-run block. -/
def wrapFile : List Nat :=
  ([0x0123CDEF, 0x80708070, 0x4321ABCD, 0x80618061, 900, 0xFFFFFFFE, 8, 0].map bswap32
      ++ List.replicate 892 0)
    ++ ([0x0123CDEF, 0x80708070, 0x4321ABCD, 0x80618061, 0x40000f00, 0, 8, 0].map bswap32
      ++ List.replicate 892 0)


/-- The content of the file once `Close` has returned. -/
def fileAfterClose (e : Env) (s : Writer) : List Nat :=
  (Close e s).2.behind ++ (Close e s).2.ahead


/-- The values of the durable cursor `mWritePos` at the evaluations of the guard
`if (mWritePos >= 7)` of line 460 in the payload loop, in order.  The guard is evaluated
when a block boundary is crossed with more than `NWREC - NPHREC` words left and `fast`
still clear, that is when fast-block mode is entered, and it aborts the call when the
value is at least 7.  The function follows `payloadLoop` step by step. -/
def guardCursors (e : Env) : List Nat → Writer → Bool → List Nat
  | [], _, _ => []
  | w :: ws, s, fast =>
    if s.ipos > e.NWREC - 1 then
      let nleft := ws.length + 1
      if nleft > e.NWREC - NPHREC then
        if !fast && decide (s.mWritePos ≥ 7) then [s.mWritePos]
        else
          let nfast := (nleft - (e.NWREC - NPHREC) - 1) / e.NWREC + 1
          let s1 := if !fast then { s with mbuf := s.mbuf.set 7 (e.swap nfast) } else s
          let r := FWrite e s1 0 e.NWREC
          let seen := if !fast then [s.mWritePos] else []
          if r.1 ≠ 0 then seen
          else seen ++ guardCursors e ws (storeWord { r.2 with ipos := 0 } w) true
      else
        let r := FWrite e s 0 e.NWREC
        if r.1 ≠ 0 then []
        else
          let irec := (r.2.irec + 1) % U32
          let s2 := { r.2 with ipos := 0, irec := irec,
                               mpr := (r.2.mpr.set 5 irec).set 6 (NPHREC + nleft) }
          guardCursors e ws (storeWord (AddRecord e s2 s2.mpr s2.mpr.length) w) false
    else guardCursors e ws (storeWord s w) fast

/-- The values of the durable cursor at the evaluations of the guard of line 460 during
one `WriteBank` call: none when the call returns before the payload loop. -/
def guardCursorsOf (e : Env) (s : Writer) (bank : List Nat) (index : Nat) : List Nat :=
  if !s.zdaboutput then []
  else if index = kMASTindex then []
  else
    let p := prepared e s bank index
    let pl := placeRecord e p.2.1 p.1
    if !pl.1 then []
    else guardCursors e (window (loopBank e s bank index) p.1.nsize) (preLoop e s bank index) false

/-- The shape of the writer that no call disturbs, whatever the outcome of the stdio
calls: the block buffer has `NWREC` words, the fill cursor does not pass its end, the
templates of the steering header and of the logical-record header have their lengths,
and the catalog is intact. -/
structure Sane (e : Env) (s : Writer) : Prop where
  buflen : s.mbuf.length = e.NWREC
  ipos_le : s.ipos ≤ e.NWREC
  mpr_len : s.mpr.length = 8
  mlr_len : s.mlr.length = 2
  catalog : CatalogOK e s.sBankDef

end PZdabWriter

/-! ## Theorems -/

namespace PZdabWriter

/-! ### Byte swapping -/

theorem bswap32_lt (w : Nat) (h : w < 4294967296) : bswap32 w < 4294967296 := by
  unfold bswap32
  rw [if_pos h]
  omega

theorem bswap32_bytes (b0 b1 b2 b3 : Nat) (h0 : b0 < 256) (h1 : b1 < 256) (h2 : b2 < 256)
    (h3 : b3 < 256) :
    bswap32 (b0 + 256 * b1 + 65536 * b2 + 16777216 * b3)
      = b3 + 256 * b2 + 65536 * b1 + 16777216 * b0 := by
  unfold bswap32
  rw [if_pos (by omega)]
  omega

theorem bswap32_bswap32 (w : Nat) : bswap32 (bswap32 w) = w := by
  by_cases h : w < 4294967296
  · have hw : w = w % 256 + 256 * (w / 256 % 256) + 65536 * (w / 65536 % 256)
        + 16777216 * (w / 16777216) := by omega
    have hb : w / 16777216 < 256 := by omega
    rw [hw, bswap32_bytes _ _ _ _ (by omega) (by omega) (by omega) hb,
      bswap32_bytes _ _ _ _ hb (by omega) (by omega) (by omega)]
  · unfold bswap32
    rw [if_neg h, if_neg h]

theorem SWAP_INT32_nil (e : Env) (off n : Nat) : SWAP_INT32 e [] off n = [] := by
  simp [SWAP_INT32]

theorem SWAP_INT32_zero (e : Env) (b : List Nat) (off : Nat) : SWAP_INT32 e b off 0 = b := by
  simp [SWAP_INT32]

theorem SWAP_INT32_cons_succ (e : Env) (x : Nat) (b : List Nat) (off n : Nat) :
    SWAP_INT32 e (x :: b) (off + 1) n = x :: SWAP_INT32 e b off n := by
  simp [SWAP_INT32, Nat.add_right_comm]

theorem SWAP_INT32_cons_zero (e : Env) (x : Nat) (b : List Nat) (n : Nat) :
    SWAP_INT32 e (x :: b) 0 (n + 1) = e.swap x :: SWAP_INT32 e b 0 n := by
  simp [SWAP_INT32]

theorem SWAP_INT32_twice (e : Env) (h : ∀ w, e.swap (e.swap w) = w) (b : List Nat) (off n : Nat) :
    SWAP_INT32 e (SWAP_INT32 e b off n) off n = b := by
  induction b generalizing off n with
  | nil => simp [SWAP_INT32_nil]
  | cons x b ih =>
    cases off with
    | succ off => rw [SWAP_INT32_cons_succ, SWAP_INT32_cons_succ, ih]
    | zero =>
      cases n with
      | zero => rw [SWAP_INT32_zero, SWAP_INT32_zero]
      | succ n => rw [SWAP_INT32_cons_zero, SWAP_INT32_cons_zero, ih, h]

theorem SWAP_INT32_length (e : Env) (b : List Nat) (off n : Nat) :
    (SWAP_INT32 e b off n).length = b.length := by
  induction b generalizing off n with
  | nil => simp [SWAP_INT32_nil]
  | cons x b ih =>
    cases off with
    | succ off => rw [SWAP_INT32_cons_succ, List.length_cons, List.length_cons, ih]
    | zero =>
      cases n with
      | zero => rw [SWAP_INT32_zero]
      | succ n => rw [SWAP_INT32_cons_zero, List.length_cons, List.length_cons, ih]

/-! ### Close, and calls on a writer without a file handle -/

theorem Close_of_closed (e : Env) (s : Writer) (h : s.zdaboutput = false) :
    Close e s = (s.mError, s) := by
  simp [Close, h]

theorem Close_closes (e : Env) (s : Writer) : (Close e s).2.zdaboutput = false := by
  unfold Close
  by_cases h : s.zdaboutput = true
  · simp [h]
  · simp [h]

theorem Close_status (e : Env) (s : Writer) : (Close e s).1 = (Close e s).2.mError := by
  unfold Close
  by_cases h : s.zdaboutput = true
  · simp [h]
  · simp [h]

theorem WriteBank_of_closed (e : Env) (s : Writer) (bank : List Nat) (index : Nat)
    (h : s.zdaboutput = false) : WriteBank e s bank index = (-1, s, bank) := by
  simp [WriteBank, h]

/-- C9: a second `Close` returns the status the first one returned and leaves the whole
state (writer members, file content and position, log of output calls) as the first
call left it. -/
theorem C9_close_idempotent (e : Env) (s : Writer) :
    Close e (Close e s).2 = ((Close e s).1, (Close e s).2) := by
  rw [Close_of_closed e _ (Close_closes e s), ← Close_status]

set_option maxRecDepth 100000 in
/-- C6: `Flush` on a writer whose file an earlier failed `fflush` closed: the call issues
an `fflush` on the null handle and returns 0, while `WriteBank` on the same state returns
-1 and changes nothing. -/
theorem C6_flush_on_closed_writer :
    (Flush (sampleEnv (fun n => n == 1))
        (new (sampleEnv (fun n => n == 1)) (some "run.zdab") false none true)).2.zdaboutput = false
    ∧ (Flush (sampleEnv (fun n => n == 1))
        (new (sampleEnv (fun n => n == 1)) (some "run.zdab") false none true)).2.mError = 1
    ∧ (Flush (sampleEnv (fun n => n == 1))
        (Flush (sampleEnv (fun n => n == 1))
          (new (sampleEnv (fun n => n == 1)) (some "run.zdab") false none true)).2).1 = 0
    ∧ (Flush (sampleEnv (fun n => n == 1))
        (Flush (sampleEnv (fun n => n == 1))
          (new (sampleEnv (fun n => n == 1)) (some "run.zdab") false none true)).2).2.ops
      = [FileOp.fwrite 8, FileOp.fflush, FileOp.fclose, FileOp.fflush]
    ∧ (WriteBank (sampleEnv (fun n => n == 1))
        (Flush (sampleEnv (fun n => n == 1))
          (new (sampleEnv (fun n => n == 1)) (some "run.zdab") false none true)).2
        [1, 2, 3, 4] kZDABindex).1 = -1 := by
  decide

set_option maxRecDepth 100000 in
/-- C7: when the file can neither be opened nor created, the constructor ends with no
file handle but with the error flag still 0, and `Close` returns 0. -/
theorem C7_create_failure_keeps_flag_clear :
    (new okEnv (some "run.zdab") false none false).zdaboutput = false
    ∧ (new okEnv (some "run.zdab") false none false).mError = 0
    ∧ (Close okEnv (new okEnv (some "run.zdab") false none false)).1 = 0
    ∧ (new okEnv (some "") false none false).mError = 1 := by
  decide

set_option maxRecDepth 100000 in
/-- C8: a write failure in the payload loop makes `WriteBank` return -1, the code it
also returns when the file is not open; a write failure during placement returns -2. -/
theorem C8_failed_write_returns_closed_code :
    (new (sampleEnv (fun n => n == 0)) (some "run.zdab") false none true).zdaboutput = true
    ∧ (WriteBank (sampleEnv (fun n => n == 0))
        (new (sampleEnv (fun n => n == 0)) (some "run.zdab") false none true)
        (List.replicate 871 0) kZDABindex).1 = -1
    ∧ (WriteBank (sampleEnv (fun n => n == 0))
        (WriteBank (sampleEnv (fun n => n == 0))
          (new (sampleEnv (fun n => n == 0)) (some "run.zdab") false none true)
          (List.replicate 871 0) kZDABindex).2.1
        (List.replicate 871 0) kZDABindex).1 = -1
    ∧ (WriteBank (sampleEnv (fun n => n == 0))
        (WriteBank (sampleEnv (fun n => n == 0))
          (new (sampleEnv (fun n => n == 0)) (some "run.zdab") false none true)
          (List.replicate 860 0) kZDABindex).2.1
        (List.replicate 4 0) kZDABindex).1 = -2 := by
  decide

/-! ### The caller's buffer -/

set_option maxRecDepth 100000 in
/-- C2: `WriteBank` does not leave a primary bank as it found it.  After a successful
call with the four-word record `[1, 2, 3, 4]` the caller's buffer holds
`[0x01000000, 0x02000000, 0x03000000, 4]`: the swap to the external format is skipped for
the primary bank (only word 3 is swapped on entry), the swap back after the payload
loop is not.  A run-header bank of 20 words given to the same writer comes back as
supplied.  When the call returns -2 (a write fails during placement) the primary bank
comes back with word 3 still swapped. -/
theorem C2_primary_buffer_changed :
    (WriteBank okEnv (new okEnv (some "run.zdab") false none true) [1, 2, 3, 4] kZDABindex).1 = 0
    ∧ (WriteBank okEnv (new okEnv (some "run.zdab") false none true) [1, 2, 3, 4] kZDABindex).2.2
        = [16777216, 33554432, 50331648, 4]
    ∧ (WriteBank okEnv (new okEnv (some "run.zdab") false none true) [1, 2, 3, 4] kZDABindex).2.2
        ≠ [1, 2, 3, 4]
    ∧ (WriteBank okEnv (new okEnv (some "run.zdab") false none true) (List.range 20) 2).1 = 0
    ∧ (WriteBank okEnv (new okEnv (some "run.zdab") false none true) (List.range 20) 2).2.2
        = List.range 20
    ∧ (WriteBank (sampleEnv (fun n => n == 0))
        (WriteBank (sampleEnv (fun n => n == 0))
          (new (sampleEnv (fun n => n == 0)) (some "run.zdab") false none true)
          (List.replicate 860 0) kZDABindex).2.1
        [1, 2, 3, 4] kZDABindex).1 = -2
    ∧ (WriteBank (sampleEnv (fun n => n == 0))
        (WriteBank (sampleEnv (fun n => n == 0))
          (new (sampleEnv (fun n => n == 0)) (some "run.zdab") false none true)
          (List.replicate 860 0) kZDABindex).2.1
        [1, 2, 3, 4] kZDABindex).2.2 = [1, 2, 3, 67108864] := by
  decide

/-- The other banks: for every bank type other than the primary bank, and for every bank
type when the file is not open, the caller's buffer holds on return the words it held on
entry, whatever the state, the payload and the outcome of the stdio calls. -/
theorem WriteBank_buffer_restored (e : Env) (s : Writer) (bank : List Nat) (index : Nat)
    (hswap : ∀ w, e.swap (e.swap w) = w)
    (h : index ≠ kZDABindex ∨ s.zdaboutput = false) :
    (WriteBank e s bank index).2.2 = bank := by
  by_cases hc : s.zdaboutput = false
  · rw [WriteBank_of_closed e s bank index hc]
  · have hi : index ≠ kZDABindex := by
      cases h with
      | inl h => exact h
      | inr h => exact absurd h hc
    have hp : (prepared e s bank index).2.2 = bank := by
      simp [prepared, resolveZDAB, hi]
    have hl : loopBank e s bank index
        = SWAP_INT32 e bank 0 (prepared e s bank index).1.nsize := by
      simp only [loopBank, hp, if_pos hi]
    unfold WriteBank
    simp only [hl, SWAP_INT32_twice e hswap, hp]
    split_ifs <;> rfl

/-- An instance of `WriteBank_buffer_restored`: a run-header bank of 20 words, written
while the first stdio call fails, comes back as supplied. -/
theorem WriteBank_buffer_restored_example :
    (WriteBank (sampleEnv (fun n => n == 0))
      (new (sampleEnv (fun n => n == 0)) (some "run.zdab") false none true)
      (List.range 20) 2).2.2 = List.range 20 :=
  WriteBank_buffer_restored (sampleEnv (fun n => n == 0))
    (new (sampleEnv (fun n => n == 0)) (some "run.zdab") false none true) (List.range 20) 2
    bswap32_bswap32 (Or.inl (by decide))

/-! ### The resume scan -/

theorem resumeScan_skip (e : Env) (n : Nat) :
    ∀ (bl : List (List Nat)) (irec k : Nat) (mbuf : List Nat),
      (n ≤ bl.length → ∃ m, resumeScan e bl n irec k mbuf
          = resumeScan e (bl.drop n) 0 irec (k + n) m)
      ∧ (bl.length < n → (resumeScan e bl n irec k mbuf).found = false) := by
  induction n with
  | zero =>
    intro bl irec k mbuf
    exact ⟨fun _ => ⟨mbuf, by simp⟩, fun h => absurd h (Nat.not_lt_zero _)⟩
  | succ n ih =>
    intro bl irec k mbuf
    cases bl with
    | nil =>
      refine ⟨fun h => absurd h (by simp), fun _ => ?_⟩
      simp [resumeScan]
    | cons b rest =>
      have h := ih rest irec (k + 1) b
      refine ⟨fun hle => ?_, fun hlt => ?_⟩
      · obtain ⟨m, hm⟩ := h.1 (by simpa using hle)
        refine ⟨m, ?_⟩
        simp only [resumeScan, List.drop_succ_cons]
        rw [hm]
        congr 1
        omega
      · simp only [resumeScan]
        exact h.2 (by simpa using hlt)

theorem resumeScan_header (e : Env) (b : List Nat) (rest : List (List Nat)) (irec k : Nat)
    (mbuf : List Nat) (hm : HasMagic e b) (hne : wordOf e b 4 ≠ EOR_TAG) :
    resumeScan e (b :: rest) 0 irec k mbuf
      = resumeScan e rest (wordOf e b 7) (wordOf e b 5) (k + 1) (SWAP_INT32 e b 0 e.NWREC) := by
  obtain ⟨h0, h1, h2, h3⟩ := hm
  unfold wordOf at h0 h1 h2 h3 hne
  simp only [resumeScan, wordOf]
  rw [if_neg (by rw [h0, h1, h2, h3]; simp), if_neg hne]

theorem resumeScan_eor (e : Env) (b : List Nat) (rest : List (List Nat)) (irec k : Nat)
    (mbuf : List Nat) (hm : IsEndOfRun e b) :
    resumeScan e (b :: rest) 0 irec k mbuf
      = { found := true, nblocks := k, irec := irec, mbuf := SWAP_INT32 e b 0 e.NWREC } := by
  obtain ⟨⟨h0, h1, h2, h3⟩, h4⟩ := hm
  unfold wordOf at h0 h1 h2 h3 h4
  simp only [resumeScan]
  rw [if_neg (by rw [h0, h1, h2, h3]; simp), if_pos h4]

theorem resumeScan_nomagic (e : Env) (b : List Nat) (rest : List (List Nat)) (irec k : Nat)
    (mbuf : List Nat) (hm : ¬ HasMagic e b) :
    (resumeScan e (b :: rest) 0 irec k mbuf).found = false := by
  unfold HasMagic wordOf at hm
  simp only [resumeScan]
  split_ifs with h1 h2
  · rfl
  · exact absurd (by
      simp only [not_or, not_not] at h1
      exact h1) hm
  · exact absurd (by
      simp only [not_or, not_not] at h1
      exact h1) hm

theorem lastSeq_cons (e : Env) (irec : Nat) (g : List (List Nat)) (gs : List (List (List Nat))) :
    lastSeq e irec (g :: gs) = lastSeq e (headWord e g 5) gs := by
  cases gs with
  | nil => simp [lastSeq]
  | cons g2 gs =>
    simp only [lastSeq, List.getLast?_cons_cons]
    cases h : (g2 :: gs).getLast? with
    | none => simp at h
    | some x => rfl

theorem resumedSeq_eq (e : Env) (groups : List (List (List Nat))) :
    resumedSeq e groups = (lastSeq e (U32 - 1) groups + 1) % U32 := by
  unfold resumedSeq lastSeq
  cases groups.getLast? with
  | none => simp [U32]
  | some g => rfl

theorem resumeScan_sound (e : Env) (n : Nat) :
    ∀ (bl : List (List Nat)) (irec k : Nat) (mbuf : List Nat), bl.length ≤ n →
      (resumeScan e bl 0 irec k mbuf).found = true →
      ∃ groups eor rest, bl = groups.flatten ++ eor :: rest
        ∧ (∀ g ∈ groups, IsGroup e g ∧ headWord e g 4 ≠ EOR_TAG)
        ∧ IsEndOfRun e eor
        ∧ (resumeScan e bl 0 irec k mbuf).nblocks = k + groups.flatten.length
        ∧ (resumeScan e bl 0 irec k mbuf).irec = lastSeq e irec groups
        ∧ (resumeScan e bl 0 irec k mbuf).mbuf = SWAP_INT32 e eor 0 e.NWREC := by
  induction n with
  | zero =>
    intro bl irec k mbuf hlen hf
    have : bl = [] := List.length_eq_zero.mp (Nat.le_zero.mp hlen)
    subst this
    simp [resumeScan] at hf
  | succ n ih =>
    intro bl irec k mbuf hlen hf
    cases bl with
    | nil => simp [resumeScan] at hf
    | cons b rest =>
      by_cases hm : HasMagic e b
      · by_cases h4 : wordOf e b 4 = EOR_TAG
        · rw [resumeScan_eor e b rest irec k mbuf ⟨hm, h4⟩]
          exact ⟨[], b, rest, by simp, by simp, ⟨hm, h4⟩, by simp, by simp [lastSeq], rfl⟩
        · rw [resumeScan_header e b rest irec k mbuf hm h4] at hf ⊢
          have hs := resumeScan_skip e (wordOf e b 7) rest (wordOf e b 5) (k + 1)
            (SWAP_INT32 e b 0 e.NWREC)
          have hle : wordOf e b 7 ≤ rest.length := by
            by_contra hc
            rw [hs.2 (by omega)] at hf
            exact Bool.false_ne_true hf
          obtain ⟨m, hm2⟩ := hs.1 hle
          rw [hm2] at hf ⊢
          have hlen2 : (rest.drop (wordOf e b 7)).length ≤ n := by
            simp only [List.length_drop, List.length_cons] at hlen ⊢
            omega
          obtain ⟨groups, eor, rest2, hbl, hg, heor, hnb, hirec, hmbuf⟩ :=
            ih (rest.drop (wordOf e b 7)) (wordOf e b 5) (k + 1 + wordOf e b 7) m hlen2 hf
          refine ⟨(b :: rest.take (wordOf e b 7)) :: groups, eor, rest2, ?_, ?_, heor, ?_, ?_, hmbuf⟩
          · simp only [List.flatten_cons, List.cons_append, List.append_assoc]
            rw [← hbl, List.take_append_drop]
          · intro g hgm
            rcases List.mem_cons.mp hgm with hg1 | hg1
            · subst hg1
              refine ⟨⟨b, rest.take (wordOf e b 7), rfl, hm, ?_⟩, ?_⟩
              · simp [List.length_take, hle]
              · simpa [headWord] using h4
            · exact hg g hg1
          · rw [hnb]
            simp only [List.flatten_cons, List.length_append, List.length_cons, List.length_take]
            omega
          · rw [hirec, lastSeq_cons]
            simp [headWord]
      · rw [resumeScan_nomagic e b rest irec k mbuf hm] at hf
        exact absurd hf Bool.false_ne_true

theorem resumeScan_complete (e : Env) (groups : List (List (List Nat))) :
    ∀ (bl : List (List Nat)) (eor : List Nat) (rest : List (List Nat)) (irec k : Nat)
      (mbuf : List Nat), bl = groups.flatten ++ eor :: rest → (∀ g ∈ groups, IsGroup e g) →
      IsEndOfRun e eor → (resumeScan e bl 0 irec k mbuf).found = true := by
  induction groups with
  | nil =>
    intro bl eor rest irec k mbuf hbl _ heor
    subst hbl
    simp only [List.flatten_nil, List.nil_append]
    rw [resumeScan_eor e eor rest irec k mbuf heor]
  | cons g gs ih =>
    intro bl eor rest irec k mbuf hbl hg heor
    obtain ⟨h, fast, hgeq, hm, hfl⟩ := hg g (List.mem_cons_self _ _)
    subst hgeq
    subst hbl
    simp only [List.flatten_cons, List.cons_append, List.append_assoc]
    by_cases h4 : wordOf e h 4 = EOR_TAG
    · rw [resumeScan_eor e h _ irec k mbuf ⟨hm, h4⟩]
    · rw [resumeScan_header e h _ irec k mbuf hm h4]
      have hs := resumeScan_skip e (wordOf e h 7) (fast ++ (gs.flatten ++ eor :: rest))
        (wordOf e h 5) (k + 1) (SWAP_INT32 e h 0 e.NWREC)
      obtain ⟨m, hm2⟩ := hs.1 (by simp only [List.length_append]; omega)
      rw [hm2, ← hfl, List.drop_left]
      exact ih _ eor rest _ _ m rfl (fun g2 hg2 => hg g2 (List.mem_cons_of_mem _ hg2)) heor

/-! ### Buffer helpers -/

theorem SWAP_INT32_poke (e : Env) (buf : List Nat) (p : Nat) (d : List Nat) (n : Nat)
    (hp : p ≤ buf.length) (hn : n = d.length) :
    SWAP_INT32 e (poke buf p d) p n = poke buf p (d.map e.swap) := by
  subst hn
  have h1 : (buf.take p).length = p := by simp [List.length_take, hp]
  have e1 : (buf.take p ++ d ++ buf.drop (p + d.length)).take p = buf.take p := by
    rw [List.append_assoc, List.take_left' h1]
  have e2 : (buf.take p ++ d ++ buf.drop (p + d.length)).drop p
      = d ++ buf.drop (p + d.length) := by
    rw [List.append_assoc, List.drop_left' h1]
  have e3 : (buf.take p ++ d ++ buf.drop (p + d.length)).drop (p + d.length)
      = buf.drop (p + d.length) := by
    rw [List.drop_left' (by simp [h1])]
  unfold SWAP_INT32 poke
  rw [e1, e2, e3, List.take_left, List.length_map]

theorem poke_length (buf : List Nat) (p : Nat) (d : List Nat) (h : p + d.length ≤ buf.length) :
    (poke buf p d).length = buf.length := by
  unfold poke
  simp only [List.length_append, List.length_take, List.length_drop]
  omega

theorem take_poke_self (buf : List Nat) (p : Nat) (d : List Nat) (hp : p ≤ buf.length) :
    (poke buf p d).take (p + d.length) = buf.take p ++ d := by
  unfold poke
  rw [List.take_left' (by simp [List.length_take, hp])]

theorem AddRecord_mbuf (e : Env) (s : Writer) (data : List Nat) (n : Nat)
    (hn : n = data.length) (hp : s.ipos ≤ s.mbuf.length) :
    (AddRecord e s data n).mbuf = poke s.mbuf s.ipos (data.map e.swap) := by
  subst hn
  simp only [AddRecord, List.take_length]
  exact SWAP_INT32_poke e s.mbuf s.ipos data data.length hp rfl

theorem initRecords_mbuf_take (e : Env) (s : Writer) :
    (initRecords e s).mbuf.take 8 = stagedHeader e ((s.irec + 1) % U32) := by
  unfold initRecords
  rw [AddRecord_mbuf e _ _ _ rfl (Nat.zero_le _)]
  simp [poke, stagedHeader]

theorem toBlocks_block (e : Env) (file : List Nat) (pre : List (List Nat)) (b : List Nat)
    (rest : List (List Nat)) (h : toBlocks e file = pre ++ b :: rest) :
    b = (file.drop (pre.length * e.NWREC)).take e.NWREC := by
  have h1 : (toBlocks e file)[pre.length]? = some b := by
    rw [h, List.getElem?_append_right (Nat.le_refl _)]
    simp
  unfold toBlocks at h1
  rw [List.getElem?_map] at h1
  cases h2 : (List.range (file.length / e.NWREC))[pre.length]? with
  | none => rw [h2] at h1; simp at h1
  | some i =>
    rw [h2] at h1
    have h3 : i = pre.length := by
      have := List.getElem?_range (m := file.length / e.NWREC) (n := pre.length)
      by_cases hlt : pre.length < file.length / e.NWREC
      · rw [List.getElem?_range hlt] at h2
        exact (Option.some.inj h2).symm
      · rw [List.getElem?_eq_none (by simpa using hlt)] at h2
        exact absurd h2 (by simp)
    subst h3
    simpa using h1.symm

theorem new_existing (e : Env) (name : String) (calcMD5 canCreate : Bool) (file : List Nat)
    (hname : name ≠ "") :
    new e (some name) calcMD5 (some file) canCreate =
      if (resumeScan e (toBlocks e file) 0 (U32 - 1) 0 (List.replicate e.NWREC 0)).found then
        initRecords e
          { mBytesWritten := 0, mWritePos := 0, mError := 0, mCalcMD5 := calcMD5, mMD5 := [],
            mbuf := (resumeScan e (toBlocks e file) 0 (U32 - 1) 0 (List.replicate e.NWREC 0)).mbuf,
            ipos := 0,
            irec := (resumeScan e (toBlocks e file) 0 (U32 - 1) 0 (List.replicate e.NWREC 0)).irec,
            zdaboutput := true, mpr := [], mlr := [], mpili := [], mbk := [],
            sBankDef := sBankDefInit e,
            behind := file.take
              ((resumeScan e (toBlocks e file) 0 (U32 - 1) 0 (List.replicate e.NWREC 0)).nblocks
                * e.NWREC),
            ahead := file.drop
              ((resumeScan e (toBlocks e file) 0 (U32 - 1) 0 (List.replicate e.NWREC 0)).nblocks
                * e.NWREC),
            ops := [] }
      else
        { mBytesWritten := 0, mWritePos := 0, mError := 1, mCalcMD5 := calcMD5, mMD5 := [],
          mbuf := (resumeScan e (toBlocks e file) 0 (U32 - 1) 0 (List.replicate e.NWREC 0)).mbuf,
          ipos := 0,
          irec := (resumeScan e (toBlocks e file) 0 (U32 - 1) 0 (List.replicate e.NWREC 0)).irec,
          zdaboutput := false, mpr := [], mlr := [], mpili := [], mbk := [],
          sBankDef := sBankDefInit e, behind := [], ahead := file, ops := [FileOp.fclose] } := by
  unfold new
  rw [if_neg (by simp [hname])]
  simp [fclose]

theorem initRecords_frame (e : Env) (s : Writer) :
    (initRecords e s).zdaboutput = s.zdaboutput ∧ (initRecords e s).mError = s.mError
    ∧ (initRecords e s).behind = s.behind ∧ (initRecords e s).ahead = s.ahead
    ∧ (initRecords e s).ipos = 8 ∧ (initRecords e s).mWritePos = s.mWritePos
    ∧ (initRecords e s).irec = (s.irec + 1) % U32 := by
  simp [initRecords, AddRecord]

/-- C4: the resume scan of the constructor on an existing file, as a function of the
file's blocks.  It succeeds (the writer keeps a file handle) exactly when the blocks are
a series of groups followed by an end-of-run block.  On success the scan has stopped at
the first end-of-run block standing at a header position: the file position is the start
of that block, and the staged header carries the sequence number `resumedSeq` (word 5 of
the last group's header plus one as a 32-bit number, 0 without a group).  Otherwise the
writer has no file handle and the error flag is set. -/
theorem C4_resume_scan (e : Env) (name : String) (calcMD5 canCreate : Bool) (file : List Nat)
    (hname : name ≠ "") :
    ((new e (some name) calcMD5 (some file) canCreate).zdaboutput = true ↔
      ∃ (groups : List (List (List Nat))) (eor : List Nat) (rest : List (List Nat)),
        toBlocks e file = groups.flatten ++ eor :: rest
        ∧ (∀ g ∈ groups, IsGroup e g) ∧ IsEndOfRun e eor)
    ∧ ((new e (some name) calcMD5 (some file) canCreate).zdaboutput = true →
      ∃ (groups : List (List (List Nat))) (eor : List Nat) (rest : List (List Nat)),
        toBlocks e file = groups.flatten ++ eor :: rest
        ∧ (∀ g ∈ groups, IsGroup e g ∧ headWord e g 4 ≠ EOR_TAG) ∧ IsEndOfRun e eor
        ∧ (new e (some name) calcMD5 (some file) canCreate).behind
            = file.take (groups.flatten.length * e.NWREC)
        ∧ (new e (some name) calcMD5 (some file) canCreate).ahead
            = file.drop (groups.flatten.length * e.NWREC)
        ∧ (new e (some name) calcMD5 (some file) canCreate).ahead.take e.NWREC = eor
        ∧ (new e (some name) calcMD5 (some file) canCreate).mbuf.take 8
            = stagedHeader e (resumedSeq e groups)
        ∧ (new e (some name) calcMD5 (some file) canCreate).ipos = 8
        ∧ (new e (some name) calcMD5 (some file) canCreate).mError = 0)
    ∧ ((new e (some name) calcMD5 (some file) canCreate).zdaboutput = false →
      (new e (some name) calcMD5 (some file) canCreate).mError = 1) := by
  rw [new_existing e name calcMD5 canCreate file hname]
  cases hf : (resumeScan e (toBlocks e file) 0 (U32 - 1) 0 (List.replicate e.NWREC 0)).found with
  | false =>
    rw [if_neg (by simp)]
    refine ⟨⟨fun h => absurd h (by simp), fun ⟨groups, eor, rest, hbl, hg, heor⟩ => ?_⟩,
      fun h => absurd h (by simp), fun _ => rfl⟩
    have := resumeScan_complete e groups _ eor rest (U32 - 1) 0 (List.replicate e.NWREC 0) hbl hg
      heor
    rw [hf] at this
    exact absurd this (by simp)
  | true =>
    rw [if_pos rfl]
    obtain ⟨groups, eor, rest, hbl, hg, heor, hnb, hirec, _⟩ :=
      resumeScan_sound e _ (toBlocks e file) (U32 - 1) 0 (List.replicate e.NWREC 0)
        (Nat.le_refl _) hf
    have hfr := initRecords_frame e
      { mBytesWritten := 0, mWritePos := 0, mError := 0, mCalcMD5 := calcMD5, mMD5 := [],
        mbuf := (resumeScan e (toBlocks e file) 0 (U32 - 1) 0 (List.replicate e.NWREC 0)).mbuf,
        ipos := 0,
        irec := (resumeScan e (toBlocks e file) 0 (U32 - 1) 0 (List.replicate e.NWREC 0)).irec,
        zdaboutput := true, mpr := [], mlr := [], mpili := [], mbk := [],
        sBankDef := sBankDefInit e,
        behind := file.take
          ((resumeScan e (toBlocks e file) 0 (U32 - 1) 0 (List.replicate e.NWREC 0)).nblocks
            * e.NWREC),
        ahead := file.drop
          ((resumeScan e (toBlocks e file) 0 (U32 - 1) 0 (List.replicate e.NWREC 0)).nblocks
            * e.NWREC),
        ops := [] }
    obtain ⟨f1, f2, f3, f4, f5, _, _⟩ := hfr
    simp only [Nat.zero_add] at hnb
    refine ⟨⟨fun _ => ⟨groups, eor, rest, hbl, fun g hgm => (hg g hgm).1, heor⟩, fun _ => f1⟩,
      fun _ => ⟨groups, eor, rest, hbl, hg, heor, ?_, ?_, ?_, ?_, f5, f2⟩,
      fun h => ?_⟩
    · rw [f3, hnb]
    · rw [f4, hnb]
    · rw [f4, hnb]
      exact (toBlocks_block e file _ eor rest hbl).symm
    · rw [initRecords_mbuf_take, resumedSeq_eq]
      simp only [hirec]
    · rw [f1] at h
      exact absurd h (by simp)

theorem C4_resume_scan_witness :
    ("run.zdab" ≠ "") ∧
    ((new okEnv (some "run.zdab") false (some (List.replicate 900 0)) true).zdaboutput = false →
      (new okEnv (some "run.zdab") false (some (List.replicate 900 0)) true).mError = 1) :=
  ⟨by decide, (C4_resume_scan okEnv "run.zdab" false true (List.replicate 900 0) (by decide)).2.2⟩

/-! ### Block transfers -/

theorem Static_refl (s : Writer) : Static s s :=
  ⟨Eq.refl _, Eq.refl _, Eq.refl _, Eq.refl _, Eq.refl _, Eq.refl _, Eq.refl _, Eq.refl _⟩

theorem Static_trans {s t u : Writer} (h1 : Static s t) (h2 : Static t u) : Static s u :=
  ⟨h2.zdaboutput.trans h1.zdaboutput, h2.mError.trans h1.mError, h2.mCalcMD5.trans h1.mCalcMD5,
   h2.mlr.trans h1.mlr, h2.mpili.trans h1.mpili, h2.mbk.trans h1.mbk,
   h2.sBankDef.trans h1.sBankDef, h2.buflen.trans h1.buflen⟩

theorem padWords_length (e : Env) (p : Nat) (hp : p ≤ e.NWREC) :
    (padWords e p).length = e.NWREC - p := by
  unfold padWords
  split_ifs with h1 h2
  · simp only [List.length_append, List.length_cons, List.length_nil, List.length_replicate]
    omega
  · simp only [List.length_cons, List.length_nil]
    omega
  · simp only [List.length_nil]
    omega

theorem FWriteRaw_ok (e : Env) (hio : e.NoFail) (s : Writer) (off n : Nat)
    (hopen : s.zdaboutput = true) :
    (FWriteRaw e s off n).1 = s.mError
    ∧ (FWriteRaw e s off n).2.behind = s.behind ++ (s.mbuf.drop off).take n
    ∧ (FWriteRaw e s off n).2.mWritePos = s.mWritePos
    ∧ (FWriteRaw e s off n).2.mbuf = s.mbuf
    ∧ (FWriteRaw e s off n).2.ipos = s.ipos
    ∧ (FWriteRaw e s off n).2.irec = s.irec
    ∧ (FWriteRaw e s off n).2.mpr = s.mpr
    ∧ Static s (FWriteRaw e s off n).2 := by
  have h : e.ioFail s.ops.length = false := hio _
  refine ⟨?_, ?_, ?_, ?_, ?_, ?_, ?_, ⟨?_, ?_, ?_, ?_, ?_, ?_, ?_, ?_⟩⟩ <;>
    simp [FWriteRaw, fwrite, h, hopen]

/-- A whole-block `FWrite` on a synced writer leaves the whole block on the file. -/
theorem FWrite_block (e : Env) (hio : e.NoFail) (s : Writer) (cm : List Nat)
    (hopen : s.zdaboutput = true) (herr : s.mError = 0) (hlen : s.mbuf.length = e.NWREC)
    (hw : s.mWritePos ≤ e.NWREC) (hb : s.behind = cm ++ s.mbuf.take s.mWritePos) :
    (FWrite e s 0 e.NWREC).1 = 0
    ∧ (FWrite e s 0 e.NWREC).2.behind = cm ++ s.mbuf
    ∧ (FWrite e s 0 e.NWREC).2.mWritePos = 0
    ∧ (FWrite e s 0 e.NWREC).2.mbuf = s.mbuf
    ∧ (FWrite e s 0 e.NWREC).2.ipos = s.ipos
    ∧ (FWrite e s 0 e.NWREC).2.irec = s.irec
    ∧ (FWrite e s 0 e.NWREC).2.mpr = s.mpr
    ∧ Static s (FWrite e s 0 e.NWREC).2 := by
  unfold FWrite
  by_cases h0 : s.mWritePos = 0
  · rw [if_neg (by simp [h0])]
    obtain ⟨r1, r2, r3, r4, r5, r6, r7, r8⟩ := FWriteRaw_ok e hio s 0 e.NWREC hopen
    refine ⟨r1.trans herr, ?_, r3.trans h0, r4, r5, r6, r7, r8⟩
    rw [r2, hb, h0, ← hlen]
    simp
  · rw [if_pos ⟨h0, rfl⟩]
    by_cases h1 : s.mWritePos ≥ e.NWREC
    · rw [if_pos h1]
      have h2 : s.mWritePos = s.mbuf.length := by omega
      refine ⟨herr, ?_, rfl, rfl, rfl, rfl, rfl, ⟨rfl, rfl, rfl, rfl, rfl, rfl, rfl, rfl⟩⟩
      simp only [hb, h2, List.take_length]
    · rw [if_neg h1]
      obtain ⟨r1, r2, r3, r4, r5, r6, r7, r8⟩ :=
        FWriteRaw_ok e hio { s with mWritePos := 0 } s.mWritePos (e.NWREC - s.mWritePos) hopen
      refine ⟨r1.trans herr, ?_, r3, r4, r5, r6, r7,
        ⟨r8.zdaboutput, r8.mError, r8.mCalcMD5, r8.mlr, r8.mpili, r8.mbk, r8.sBankDef, r8.buflen⟩⟩
      dsimp only at r2
      have ht : List.take (e.NWREC - s.mWritePos) (List.drop s.mWritePos s.mbuf)
          = List.drop s.mWritePos s.mbuf :=
        List.take_of_length_le (by rw [List.length_drop]; omega)
      rw [r2, hb, List.append_assoc, ht, List.take_append_drop]

theorem padded_buffer (e : Env) (buf : List Nat) (p : Nat) (hlen : buf.length = e.NWREC)
    (hp : p ≤ e.NWREC) :
    (if p < e.NWREC - 1 then
      SWAP_INT32 e
        (poke buf p ([e.NWREC - p - 1, 5] ++ List.replicate (e.NWREC - p - 2) 0)) p 2
    else if p < e.NWREC then buf.set p 0
    else buf) = buf.take p ++ padWords e p := by
  unfold padWords
  split_ifs with h1 h2
  · have hl : (buf.take p).length = p := by simp [List.length_take]; omega
    have hd : buf.drop (p + ([e.NWREC - p - 1, 5] ++ List.replicate (e.NWREC - p - 2) 0).length)
        = [] := by
      apply List.drop_of_length_le
      simp only [List.length_append, List.length_cons, List.length_nil, List.length_replicate]
      omega
    unfold SWAP_INT32 poke
    rw [hd, List.append_nil, List.take_left' hl, List.drop_left' hl]
    have hd2 : (buf.take p ++ ([e.NWREC - p - 1, 5] ++ List.replicate (e.NWREC - p - 2) 0)).drop
        (p + 2) = List.replicate (e.NWREC - p - 2) 0 := by
      rw [← List.append_assoc]
      exact List.drop_left' (by simp [hl])
    rw [hd2]
    simp
  · have hpe : p < buf.length := by omega
    rw [List.set_eq_take_append_cons_drop, if_pos hpe,
      List.drop_of_length_le (by omega)]
  · rw [List.take_of_length_le (by omega), List.append_nil]

theorem WritePhysicalRecord_ok (e : Env) (hio : e.NoFail) (s : Writer) (cm : List Nat)
    (hs : Synced e s cm) :
    (WritePhysicalRecord e s).1 = 0
    ∧ (WritePhysicalRecord e s).2.behind = cm ++ (s.mbuf.take s.ipos ++ padWords e s.ipos)
    ∧ (WritePhysicalRecord e s).2.mWritePos = 0
    ∧ (WritePhysicalRecord e s).2.mbuf = s.mbuf.take s.ipos ++ padWords e s.ipos
    ∧ (WritePhysicalRecord e s).2.ipos = 0
    ∧ (WritePhysicalRecord e s).2.irec = s.irec
    ∧ (WritePhysicalRecord e s).2.mpr = s.mpr
    ∧ Static s (WritePhysicalRecord e s).2 := by
  have hbuf := padded_buffer e s.mbuf s.ipos hs.buflen hs.ipos_le
  have hl : (s.mbuf.take s.ipos ++ padWords e s.ipos).length = e.NWREC := by
    rw [List.length_append, padWords_length e _ hs.ipos_le, List.length_take, hs.buflen]
    have := hs.ipos_le
    omega
  unfold WritePhysicalRecord
  simp only [hbuf]
  have hw : s.mWritePos ≤ e.NWREC := le_trans hs.wpos_le hs.ipos_le
  have hb : s.behind = cm ++ (s.mbuf.take s.ipos ++ padWords e s.ipos).take s.mWritePos := by
    rw [hs.behind_eq, List.take_append_of_le_length (by
      rw [List.length_take, hs.buflen]
      have := hs.wpos_le
      have := hs.ipos_le
      omega), List.take_take, Nat.min_eq_left hs.wpos_le]
  obtain ⟨r1, r2, r3, r4, r5, r6, r7, r8⟩ := FWrite_block e hio
    { s with mbuf := s.mbuf.take s.ipos ++ padWords e s.ipos, ipos := 0 } cm hs.isOpen hs.noError hl
    hw hb
  refine ⟨r1, r2, r3, r4, r5, r6, r7,
    ⟨r8.zdaboutput, r8.mError, r8.mCalcMD5, r8.mlr, r8.mpili, r8.mbk, r8.sBankDef, ?_⟩⟩
  rw [r8.buflen]
  exact hl.trans hs.buflen.symm

/-! ### The payload loop -/

theorem fill_nil (s : Writer) : fill s [] = s := by
  cases s
  simp [fill, poke]

theorem poke_set (buf : List Nat) (p w : Nat) (a : List Nat) (hp : p < buf.length) :
    poke (buf.set p w) (p + 1) a = poke buf p (w :: a) := by
  have hl : (buf.take p).length = p := by rw [List.length_take]; omega
  unfold poke
  rw [List.set_eq_take_append_cons_drop, if_pos hp]
  have h1 : (buf.take p ++ w :: buf.drop (p + 1)).take (p + 1) = buf.take p ++ [w] := by
    rw [show buf.take p ++ w :: buf.drop (p + 1) = (buf.take p ++ [w]) ++ buf.drop (p + 1) by simp]
    exact List.take_left' (by simp [hl])
  have h2 : (buf.take p ++ w :: buf.drop (p + 1)).drop (p + 1 + a.length)
      = buf.drop (p + (w :: a).length) := by
    rw [show buf.take p ++ w :: buf.drop (p + 1) = (buf.take p ++ [w]) ++ buf.drop (p + 1) by simp,
      List.drop_append_eq_append_drop, List.drop_of_length_le (by simp [hl]), List.nil_append,
      List.drop_drop]
    congr 1
    simp only [List.length_append, hl, List.length_cons, List.length_nil]
    omega
  rw [h1, h2]
  simp

theorem fill_storeWord (s : Writer) (w : Nat) (a : List Nat) (hp : s.ipos < s.mbuf.length) :
    fill (storeWord s w) a = fill s (w :: a) := by
  simp only [fill, storeWord, poke_set s.mbuf s.ipos w a hp, List.length_cons]
  congr 1
  omega

theorem payloadLoop_fill (e : Env) (a : List Nat) :
    ∀ (b : List Nat) (s : Writer) (fast : Bool), s.mbuf.length = e.NWREC →
      s.ipos + a.length ≤ e.NWREC →
      payloadLoop e (a ++ b) s fast = payloadLoop e b (fill s a) fast := by
  induction a with
  | nil =>
    intro b s fast _ _
    rw [fill_nil, List.nil_append]
  | cons w a ih =>
    intro b s fast hlen hp
    simp only [List.length_cons] at hp
    have hnot : ¬ (s.ipos > e.NWREC - 1) := by omega
    rw [List.cons_append, payloadLoop, if_neg hnot]
    have h1 : (storeWord s w).mbuf.length = e.NWREC := by simp [storeWord, hlen]
    have h2 : (storeWord s w).ipos + a.length ≤ e.NWREC := by
      simp only [storeWord]
      omega
    rw [ih b (storeWord s w) fast h1 h2, fill_storeWord s w a (by omega)]

theorem payloadLoop_fill_all (e : Env) (a : List Nat) (s : Writer) (fast : Bool)
    (hlen : s.mbuf.length = e.NWREC) (hp : s.ipos + a.length ≤ e.NWREC) :
    payloadLoop e a s fast = (fill s a, fast) := by
  have := payloadLoop_fill e a [] s fast hlen hp
  rw [List.append_nil] at this
  rw [this, payloadLoop]

theorem payloadLoop_steer_step (e : Env) (w : Nat) (ws : List Nat) (s : Writer) (fast : Bool)
    (hW : 1 ≤ e.NWREC) (hp : s.ipos = e.NWREC) (hn : ws.length + 1 ≤ e.NWREC - NPHREC)
    (hr : (FWrite e s 0 e.NWREC).1 = 0) :
    payloadLoop e (w :: ws) s fast
      = payloadLoop e ws (storeWord (steerState e s (ws.length + 1)) w) false := by
  have h1 : s.ipos > e.NWREC - 1 := by omega
  have h2 : ¬ (ws.length + 1 > e.NWREC - NPHREC) := by omega
  rw [payloadLoop, if_pos h1]
  simp only [h2, if_false, hr, ne_eq, not_true_eq_false, steerState]

theorem payloadLoop_fast_step (e : Env) (w : Nat) (ws : List Nat) (s : Writer)
    (hW : 1 ≤ e.NWREC) (hp : s.ipos = e.NWREC) (hn : ws.length + 1 > e.NWREC - NPHREC)
    (hr : (FWrite e s 0 e.NWREC).1 = 0) :
    payloadLoop e (w :: ws) s true = payloadLoop e ws (storeWord (fastState e s) w) true := by
  have h1 : s.ipos > e.NWREC - 1 := by omega
  rw [payloadLoop, if_pos h1]
  simp only [hn, if_true, hr, ne_eq, not_true_eq_false, fastState, Bool.not_true, Bool.false_and,
    Bool.false_eq_true, if_false]

theorem payloadLoop_enter_step (e : Env) (w : Nat) (ws : List Nat) (s : Writer)
    (hW : 1 ≤ e.NWREC) (hp : s.ipos = e.NWREC) (hn : ws.length + 1 > e.NWREC - NPHREC)
    (hw : s.mWritePos < 7)
    (hr : (FWrite e { s with mbuf := s.mbuf.set 7 (e.swap (nfastOf e (ws.length + 1))) }
            0 e.NWREC).1 = 0) :
    payloadLoop e (w :: ws) s false
      = payloadLoop e ws
          (storeWord
            (fastState e { s with mbuf := s.mbuf.set 7 (e.swap (nfastOf e (ws.length + 1))) }) w)
          true := by
  have h1 : s.ipos > e.NWREC - 1 := by omega
  have h3 : ¬ (s.mWritePos ≥ 7) := by omega
  unfold nfastOf at hr
  rw [payloadLoop, if_pos h1]
  simp only [hn, if_true, h3, decide_False, Bool.and_false, Bool.false_eq_true, if_false,
    Bool.not_false, hr, ne_eq, not_true_eq_false, fastState, nfastOf]

theorem fill_mbuf_take (s : Writer) (a : List Nat) (hp : s.ipos ≤ s.mbuf.length) :
    (fill s a).mbuf.take (fill s a).ipos = s.mbuf.take s.ipos ++ a := by
  simp only [fill]
  exact take_poke_self s.mbuf s.ipos a hp

theorem fill_static (s : Writer) (a : List Nat) (hp : s.ipos + a.length ≤ s.mbuf.length) :
    Static s (fill s a) :=
  ⟨rfl, rfl, rfl, rfl, rfl, rfl, rfl, poke_length s.mbuf s.ipos a hp⟩

theorem take_poke_below (buf : List Nat) (p m : Nat) (d : List Nat) (hm : m ≤ p)
    (hp : p ≤ buf.length) : (poke buf p d).take m = buf.take m := by
  unfold poke
  rw [List.append_assoc, List.take_append_of_le_length (by rw [List.length_take]; omega),
    List.take_take, Nat.min_eq_left hm]

theorem Synced_fill (e : Env) (s : Writer) (cm a : List Nat) (hs : Synced e s cm)
    (hp : s.ipos + a.length ≤ e.NWREC) : Synced e (fill s a) cm := by
  have hb := hs.buflen
  refine ⟨hs.isOpen, hs.noError, ?_, hp, ?_, ?_⟩
  · exact (poke_length s.mbuf s.ipos a (by omega)).trans hb
  · exact le_trans hs.wpos_le (Nat.le_add_right _ _)
  · show s.behind = cm ++ (poke s.mbuf s.ipos a).take s.mWritePos
    rw [take_poke_below s.mbuf s.ipos s.mWritePos a hs.wpos_le (by have := hs.ipos_le; omega)]
    exact hs.behind_eq

theorem steerState_ok (e : Env) (hio : e.NoFail) (s : Writer) (cm : List Nat) (nleft : Nat)
    (hs : Synced e s cm) (hW : 8 ≤ e.NWREC) (hmpr : s.mpr.length = 8) :
    (FWrite e s 0 e.NWREC).1 = 0
    ∧ Synced e (steerState e s nleft) (cm ++ s.mbuf)
    ∧ (steerState e s nleft).mWritePos = 0
    ∧ (steerState e s nleft).ipos = 8
    ∧ (steerState e s nleft).mbuf.take 8 = contHeader e s nleft
    ∧ (steerState e s nleft).irec = (s.irec + 1) % U32
    ∧ (steerState e s nleft).mpr = (s.mpr.set 5 ((s.irec + 1) % U32)).set 6 (NPHREC + nleft)
    ∧ Static s (steerState e s nleft) := by
  obtain ⟨r1, r2, r3, r4, r5, r6, r7, r8⟩ := FWrite_block e hio s cm hs.isOpen hs.noError
    hs.buflen (le_trans hs.wpos_le hs.ipos_le) hs.behind_eq
  have hl : ((s.mpr.set 5 ((s.irec + 1) % U32)).set 6 (NPHREC + nleft)).length = 8 := by
    simp [hmpr]
  have hm : (steerState e s nleft).mbuf = poke s.mbuf 0 (contHeader e s nleft) := by
    unfold steerState
    rw [AddRecord_mbuf e _ _ _ rfl (Nat.zero_le _)]
    simp only [r4, r6, r7, contHeader]
  have hlen : (steerState e s nleft).mbuf.length = e.NWREC := by
    rw [hm, poke_length _ _ _ (by simp [contHeader, hl, hs.buflen]; omega), hs.buflen]
  have hip : (steerState e s nleft).ipos = 8 := by
    simp [steerState, AddRecord, r7, hmpr]
  refine ⟨r1, ⟨?_, ?_, hlen, ?_, ?_, ?_⟩, ?_, hip, ?_, ?_, ?_, ⟨?_, ?_, ?_, ?_, ?_, ?_, ?_, ?_⟩⟩
  · simp [steerState, AddRecord, r8.zdaboutput, hs.isOpen]
  · simp [steerState, AddRecord, r8.mError, hs.noError]
  · rw [hip]; exact hW
  · simp [steerState, AddRecord, r3]
  · simp [steerState, AddRecord, r3, r2]
  · simp [steerState, AddRecord, r3]
  · rw [hm]
    have hc : (contHeader e s nleft).length = 8 := by simp [contHeader, hmpr]
    have := take_poke_self s.mbuf 0 (contHeader e s nleft) (Nat.zero_le _)
    rw [Nat.zero_add, hc, List.take_zero, List.nil_append] at this
    exact this
  · simp [steerState, AddRecord, r6]
  · simp [steerState, AddRecord, r6, r7]
  · simp [steerState, AddRecord, r8.zdaboutput]
  · simp [steerState, AddRecord, r8.mError]
  · simp [steerState, AddRecord, r8.mCalcMD5]
  · simp [steerState, AddRecord, r8.mlr]
  · simp [steerState, AddRecord, r8.mpili]
  · simp [steerState, AddRecord, r8.mbk]
  · simp [steerState, AddRecord, r8.sBankDef]
  · rw [hlen, hs.buflen]

theorem fastState_ok (e : Env) (hio : e.NoFail) (s : Writer) (cm : List Nat)
    (hs : Synced e s cm) :
    (FWrite e s 0 e.NWREC).1 = 0
    ∧ Synced e (fastState e s) (cm ++ s.mbuf)
    ∧ (fastState e s).mWritePos = 0
    ∧ (fastState e s).ipos = 0
    ∧ (fastState e s).mbuf = s.mbuf
    ∧ (fastState e s).irec = s.irec
    ∧ (fastState e s).mpr = s.mpr
    ∧ Static s (fastState e s) := by
  obtain ⟨r1, r2, r3, r4, r5, r6, r7, r8⟩ := FWrite_block e hio s cm hs.isOpen hs.noError
    hs.buflen (le_trans hs.wpos_le hs.ipos_le) hs.behind_eq
  refine ⟨r1, ⟨?_, ?_, ?_, ?_, ?_, ?_⟩, r3, rfl, r4, r6, r7,
    ⟨r8.zdaboutput, r8.mError, r8.mCalcMD5, r8.mlr, r8.mpili, r8.mbk, r8.sBankDef, r8.buflen⟩⟩
  · exact r8.zdaboutput.trans hs.isOpen
  · exact r8.mError.trans hs.noError
  · exact r8.buflen.trans hs.buflen
  · exact Nat.zero_le _
  · show (FWrite e s 0 e.NWREC).2.mWritePos ≤ 0
    rw [r3]
  · show (FWrite e s 0 e.NWREC).2.behind = _
    rw [r2]
    show _ = cm ++ s.mbuf ++ List.take (FWrite e s 0 e.NWREC).2.mWritePos _
    rw [r3]
    simp

theorem split_at_block (e : Env) (s : Writer) (ws : List Nat) (hlen : s.mbuf.length = e.NWREC)
    (hp : s.ipos ≤ e.NWREC) (h1 : e.NWREC < s.ipos + ws.length) :
    ∃ a w b, ws = a ++ w :: b ∧ s.ipos + a.length = e.NWREC
      ∧ (s.mbuf.take s.ipos ++ ws).take e.NWREC = (fill s a).mbuf
      ∧ (s.mbuf.take s.ipos ++ ws).drop e.NWREC = w :: b
      ∧ b.length + 1 = s.ipos + ws.length - e.NWREC := by
  have hal : (ws.take (e.NWREC - s.ipos)).length = e.NWREC - s.ipos := by
    rw [List.length_take]; omega
  have hne : ws.drop (e.NWREC - s.ipos) ≠ [] := by
    intro h
    have := congrArg List.length h
    rw [List.length_drop, List.length_nil] at this
    omega
  obtain ⟨w, b, hwb⟩ := List.exists_cons_of_ne_nil hne
  have hws : ws = ws.take (e.NWREC - s.ipos) ++ w :: b := by
    rw [← hwb, List.take_append_drop]
  have htl : (s.mbuf.take s.ipos).length = s.ipos := by rw [List.length_take]; omega
  have hfull : (s.mbuf.take s.ipos ++ ws.take (e.NWREC - s.ipos)).length = e.NWREC := by
    rw [List.length_append, htl, hal]; omega
  have hfm : (fill s (ws.take (e.NWREC - s.ipos))).mbuf
      = s.mbuf.take s.ipos ++ ws.take (e.NWREC - s.ipos) := by
    simp only [fill, poke]
    rw [List.drop_of_length_le (by rw [hal]; omega), List.append_nil]
  refine ⟨ws.take (e.NWREC - s.ipos), w, b, hws, by rw [hal]; omega, ?_, ?_, ?_⟩
  · rw [hfm]
    conv_lhs => rw [hws, ← List.append_assoc]
    exact List.take_left' hfull
  · conv_lhs => rw [hws, ← List.append_assoc]
    exact List.drop_left' hfull
  · have := congrArg List.length hws
    rw [List.length_append, hal, List.length_cons] at this
    omega

theorem payloadLoop_steer (e : Env) (hio : e.NoFail) (s : Writer) (cm ws : List Nat) (fast : Bool)
    (hs : Synced e s cm) (hW : 8 ≤ e.NWREC) (hmpr : s.mpr.length = 8)
    (h1 : e.NWREC < s.ipos + ws.length) (h2 : s.ipos + ws.length ≤ 2 * e.NWREC - 8) :
    ∃ t, payloadLoop e ws s fast = (t, false)
      ∧ Synced e t (cm ++ (s.mbuf.take s.ipos ++ ws).take e.NWREC)
      ∧ t.mWritePos = 0
      ∧ t.ipos = 8 + (s.ipos + ws.length - e.NWREC)
      ∧ t.mbuf.take t.ipos = contHeader e s (s.ipos + ws.length - e.NWREC)
          ++ (s.mbuf.take s.ipos ++ ws).drop e.NWREC
      ∧ t.irec = (s.irec + 1) % U32
      ∧ t.mpr = (s.mpr.set 5 ((s.irec + 1) % U32)).set 6
          (NPHREC + (s.ipos + ws.length - e.NWREC))
      ∧ Static s t := by
  obtain ⟨a, w, b, hws, hal, htake, hdrop, hbl⟩ :=
    split_at_block e s ws hs.buflen hs.ipos_le h1
  have hs1 : Synced e (fill s a) cm := Synced_fill e s cm a hs (by omega)
  have hip1 : (fill s a).ipos = e.NWREC := by simp only [fill]; exact hal
  obtain ⟨r1, q1, q2, q3, q4, q5, q6, q7⟩ :=
    steerState_ok e hio (fill s a) cm (b.length + 1) hs1 hW hmpr
  have hX : (steerState e (fill s a) (b.length + 1)).ipos + (w :: b).length ≤ e.NWREC := by
    rw [q3, List.length_cons]; omega
  have hXl : (steerState e (fill s a) (b.length + 1)).mbuf.length = e.NWREC := q1.buflen
  refine ⟨fill (steerState e (fill s a) (b.length + 1)) (w :: b), ?_, ?_, ?_, ?_, ?_, ?_, ?_, ?_⟩
  · rw [hws, payloadLoop_fill e a (w :: b) s fast hs.buflen (by omega),
      payloadLoop_steer_step e w b (fill s a) fast (by omega) hip1 (by simp only [NPHREC]; omega) r1,
      payloadLoop_fill_all e b _ false (by simp [storeWord, hXl])
        (by simp only [storeWord]; rw [q3]; omega),
      fill_storeWord _ w b (by rw [hXl, q3]; omega)]
  · rw [htake]
    exact Synced_fill e _ _ (w :: b) q1 hX
  · exact q2
  · show (steerState e (fill s a) (b.length + 1)).ipos + (w :: b).length = _
    rw [q3, List.length_cons, hbl]
  · rw [fill_mbuf_take _ _ (by rw [hXl, q3]; omega), q3, q4, hdrop, ← hbl]
    rfl
  · exact q5
  · rw [← hbl]; exact q6
  · exact Static_trans (fill_static s a (by rw [hs.buflen]; omega))
      (Static_trans q7 (fill_static _ (w :: b) (by rw [hXl]; exact hX)))

theorem storeWord_eq_fill (s : Writer) (w : Nat) (hp : s.ipos < s.mbuf.length) :
    storeWord s w = fill s [w] := by
  rw [← fill_storeWord s w [] hp, fill_nil]

theorem payloadLoop_fast_advance (e : Env) (hio : e.NoFail) (s : Writer) (cm ws : List Nat)
    (hs : Synced e s cm) (hW : 8 ≤ e.NWREC)
    (h1 : e.NWREC + (e.NWREC - 8) < s.ipos + ws.length) :
    ∃ s2 ws2, payloadLoop e ws s true = payloadLoop e ws2 s2 true
      ∧ Synced e s2 (cm ++ (s.mbuf.take s.ipos ++ ws).take e.NWREC)
      ∧ s2.mWritePos = 0
      ∧ s2.ipos + ws2.length = s.ipos + ws.length - e.NWREC
      ∧ s2.mbuf.take s2.ipos ++ ws2 = (s.mbuf.take s.ipos ++ ws).drop e.NWREC
      ∧ s2.irec = s.irec ∧ s2.mpr = s.mpr ∧ Static s s2 := by
  obtain ⟨a, w, b, hws, hal, htake, hdrop, hbl⟩ :=
    split_at_block e s ws hs.buflen hs.ipos_le (by omega)
  have hs1 : Synced e (fill s a) cm := Synced_fill e s cm a hs (by omega)
  have hip1 : (fill s a).ipos = e.NWREC := by simp only [fill]; exact hal
  obtain ⟨r1, q1, q2, q3, q4, q5, q6, q7⟩ := fastState_ok e hio (fill s a) cm hs1
  have hXl : (fastState e (fill s a)).mbuf.length = e.NWREC := q1.buflen
  have hst : storeWord (fastState e (fill s a)) w = fill (fastState e (fill s a)) [w] :=
    storeWord_eq_fill _ w (by rw [hXl, q3]; omega)
  refine ⟨fill (fastState e (fill s a)) [w], b, ?_, ?_, ?_, ?_, ?_, ?_, ?_, ?_⟩
  · rw [hws, payloadLoop_fill e a (w :: b) s true hs.buflen (by omega),
      payloadLoop_fast_step e w b (fill s a) (by omega) hip1 (by simp only [NPHREC]; omega) r1, hst]
  · rw [htake]
    exact Synced_fill e _ _ [w] q1 (by rw [q3, List.length_singleton]; omega)
  · exact q2
  · show (fastState e (fill s a)).ipos + [w].length + b.length = _
    rw [q3, List.length_singleton]; omega
  · rw [fill_mbuf_take _ _ (by rw [hXl, q3]; omega), q3, hdrop]
    simp
  · exact q5
  · exact q6
  · exact Static_trans (fill_static s a (by rw [hs.buflen]; omega))
      (Static_trans q7 (fill_static _ [w] (by rw [hXl, q3, List.length_singleton]; omega)))

theorem take_take_drop (l : List Nat) (a b : Nat) :
    l.take a ++ (l.drop a).take b = l.take (a + b) := by
  rw [List.take_add]

/-- A run of the loop in fast mode that ends inside a fast block: `j` blocks are written
and the last `T - j * NWREC` words stay in the buffer. -/
theorem fastRun_endFast (e : Env) (hio : e.NoFail) (hW : 8 ≤ e.NWREC) (j : Nat) :
    ∀ (s : Writer) (cm ws : List Nat), Synced e s cm → s.mWritePos = 0 →
      ((j = 0 ∧ s.ipos + ws.length ≤ e.NWREC)
        ∨ (1 ≤ j ∧ j * e.NWREC + (e.NWREC - 8) < s.ipos + ws.length
            ∧ s.ipos + ws.length ≤ (j + 1) * e.NWREC)) →
      ∃ t, payloadLoop e ws s true = (t, true)
        ∧ Synced e t (cm ++ (s.mbuf.take s.ipos ++ ws).take (j * e.NWREC))
        ∧ t.mWritePos = 0
        ∧ t.ipos = s.ipos + ws.length - j * e.NWREC
        ∧ t.mbuf.take t.ipos = (s.mbuf.take s.ipos ++ ws).drop (j * e.NWREC)
        ∧ t.irec = s.irec ∧ t.mpr = s.mpr ∧ Static s t := by
  induction j with
  | zero =>
    intro s cm ws hs hw hc
    have hle : s.ipos + ws.length ≤ e.NWREC := by
      rcases hc with h | h
      · exact h.2
      · omega
    refine ⟨fill s ws, payloadLoop_fill_all e ws s true hs.buflen hle, ?_, hw, ?_, ?_, rfl, rfl,
      fill_static s ws (by rw [hs.buflen]; exact hle)⟩
    · simpa using Synced_fill e s cm ws hs hle
    · simp [fill]
    · rw [fill_mbuf_take s ws (by rw [hs.buflen]; exact hs.ipos_le)]
      simp
  | succ j ih =>
    intro s cm ws hs hw hc
    have hc2 : (j + 1) * e.NWREC + (e.NWREC - 8) < s.ipos + ws.length
        ∧ s.ipos + ws.length ≤ (j + 1 + 1) * e.NWREC := by
      rcases hc with h | h
      · omega
      · exact h.2
    have hexp : (j + 1) * e.NWREC = j * e.NWREC + e.NWREC := by ring
    have hexp2 : (j + 1 + 1) * e.NWREC = j * e.NWREC + e.NWREC + e.NWREC := by ring
    obtain ⟨s2, ws2, hloop, hs2, hw2, hT, hR, hirec, hmpr, hst⟩ :=
      payloadLoop_fast_advance e hio s cm ws hs hW (by omega)
    obtain ⟨t, ht, p1, p2, p3, p4, p5, p6, p7⟩ := ih s2 _ ws2 hs2 hw2 (by
      by_cases hj : j = 0
      · left; exact ⟨hj, by subst hj; omega⟩
      · right; exact ⟨by omega, by omega, by omega⟩)
    refine ⟨t, hloop.trans ht, ?_, p2, ?_, ?_, p5.trans hirec, p6.trans hmpr,
      Static_trans hst p7⟩
    · rw [hR, List.append_assoc, take_take_drop, Nat.add_comm e.NWREC, ← hexp] at p1
      exact p1
    · rw [p3, hT]; omega
    · rw [p4, hR, List.drop_drop, Nat.add_comm e.NWREC, ← hexp]

/-- A run of the loop in fast mode that ends in a steering block: `j + 1` blocks are
written, then a continuation header is staged and followed by the remaining words. -/
theorem fastRun_endSteer (e : Env) (hio : e.NoFail) (hW : 8 ≤ e.NWREC) (j : Nat) :
    ∀ (s : Writer) (cm ws : List Nat), Synced e s cm → s.mWritePos = 0 → s.mpr.length = 8 →
      (j + 1) * e.NWREC < s.ipos + ws.length →
      s.ipos + ws.length ≤ (j + 1) * e.NWREC + (e.NWREC - 8) →
      ∃ t, payloadLoop e ws s true = (t, false)
        ∧ Synced e t (cm ++ (s.mbuf.take s.ipos ++ ws).take ((j + 1) * e.NWREC))
        ∧ t.mWritePos = 0
        ∧ t.ipos = 8 + (s.ipos + ws.length - (j + 1) * e.NWREC)
        ∧ t.mbuf.take t.ipos = contHeader e s (s.ipos + ws.length - (j + 1) * e.NWREC)
            ++ (s.mbuf.take s.ipos ++ ws).drop ((j + 1) * e.NWREC)
        ∧ t.irec = (s.irec + 1) % U32
        ∧ t.mpr = (s.mpr.set 5 ((s.irec + 1) % U32)).set 6
            (NPHREC + (s.ipos + ws.length - (j + 1) * e.NWREC))
        ∧ Static s t := by
  induction j with
  | zero =>
    intro s cm ws hs _ hmpr h1 h2
    simp only [Nat.zero_add, Nat.one_mul] at h1 h2 ⊢
    exact payloadLoop_steer e hio s cm ws true hs hW hmpr h1 (by omega)
  | succ j ih =>
    intro s cm ws hs _ hmpr h1 h2
    have hexp : (j + 1 + 1) * e.NWREC = (j + 1) * e.NWREC + e.NWREC := by ring
    have hpos : e.NWREC ≤ (j + 1) * e.NWREC := Nat.le_mul_of_pos_left _ (Nat.succ_pos _)
    obtain ⟨s2, ws2, hloop, hs2, hw2, hT, hR, hirec, hmpr2, hst⟩ :=
      payloadLoop_fast_advance e hio s cm ws hs hW (by omega)
    obtain ⟨t, ht, p1, p2, p3, p4, p5, p6, p7⟩ := ih s2 _ ws2 hs2 hw2 (by rw [hmpr2]; exact hmpr)
      (by omega) (by omega)
    have hsub : s2.ipos + ws2.length - (j + 1) * e.NWREC
        = s.ipos + ws.length - (j + 1 + 1) * e.NWREC := by omega
    refine ⟨t, hloop.trans ht, ?_, p2, ?_, ?_, ?_, ?_, Static_trans hst p7⟩
    · rw [hR, List.append_assoc, take_take_drop, Nat.add_comm e.NWREC, ← hexp] at p1
      exact p1
    · rw [p3, hsub]
    · rw [p4, hR, List.drop_drop, Nat.add_comm e.NWREC, ← hexp, hsub]
      simp only [contHeader, hirec, hmpr2]
    · rw [p5, hirec]
    · rw [p6, hirec, hmpr2, hsub]

/-! ### Sizes and placement -/

theorem catalog_init (e : Env) (i : Nat) (hi : i < NUM_BANKS) :
    (i ≠ kMASTindex → ((bankAt (sBankDefInit e) i).iochar.getD 0 0) % 0x10000 - 12 ≤ 2)
    ∧ (i = kMASTindex → ((bankAt (sBankDefInit e) i).iochar.getD 0 0) % 0x10000 - 12 = 25)
    ∧ (i = kMASTindex → (bankAt (sBankDefInit e) i).nwords = e.WORD_SIZE_MAST
        ∧ (bankAt (sBankDefInit e) i).nlinks = 25)
    ∧ (i ≠ kZDABindex → (bankAt (sBankDefInit e) i).id ≤ 11 ∧ 1 ≤ (bankAt (sBankDefInit e) i).id) := by
  unfold NUM_BANKS at hi
  interval_cases i <;>
    simp [sBankDefInit, bankAt, iocharInit, kMASTindex, kZDABindex, NIOCHAR]

theorem catalog_entry (e : Env) (defs : List SBankDef) (hc : CatalogOK e defs) (i : Nat)
    (hi : i < NUM_BANKS) :
    (i ≠ kMASTindex → ((bankAt defs i).iochar.getD 0 0) % 0x10000 - 12 ≤ 2)
    ∧ (i = kMASTindex → ((bankAt defs i).iochar.getD 0 0) % 0x10000 - 12 = 25)
    ∧ (bankAt defs i).iochar.length = NIOCHAR
    ∧ (i = kMASTindex → (bankAt defs i).nwords = e.WORD_SIZE_MAST
        ∧ (bankAt defs i).nlinks = 25)
    ∧ (i ≠ kZDABindex → (bankAt defs i).id ≤ 11 ∧ 1 ≤ (bankAt defs i).id) := by
  obtain ⟨_, h⟩ := hc
  obtain ⟨_, h2, h3, _, h5, h6, h7, _⟩ := h i hi
  obtain ⟨c1, c2, c3, c4⟩ := catalog_init e i hi
  rw [h7, h2, h3]
  refine ⟨c1, c2, h6, fun hm => ?_, c4⟩
  rw [h5 (by rw [hm]; decide)]
  exact c3 hm

theorem Added_refl (s : Writer) : Added s s :=
  ⟨Eq.refl _, Eq.refl _, Nat.le_refl _, Eq.refl _, Eq.refl _, Eq.refl _, Eq.refl _, Eq.refl _,
   Eq.refl _, Eq.refl _⟩

theorem Added_trans {s t u : Writer} (h1 : Added s t) (h2 : Added t u) : Added s u := by
  refine ⟨h2.buflen.trans h1.buflen, ?_, le_trans h1.ipos_le h2.ipos_le,
    h2.behind.trans h1.behind, h2.mWritePos.trans h1.mWritePos, h2.irec.trans h1.irec,
    h2.mpr.trans h1.mpr, h2.zdaboutput.trans h1.zdaboutput, h2.mError.trans h1.mError,
    h2.mCalcMD5.trans h1.mCalcMD5⟩
  have h3 := congrArg (List.take s.ipos) h2.below
  rw [List.take_take, List.take_take, Nat.min_eq_left h1.ipos_le] at h3
  rw [h3, h1.below]

theorem SWAP_INT32_take_below (e : Env) (buf : List Nat) (off n p : Nat) (hp : p ≤ off)
    (ho : off ≤ buf.length) : (SWAP_INT32 e buf off n).take p = buf.take p := by
  unfold SWAP_INT32
  rw [List.append_assoc, List.take_append_of_le_length (by rw [List.length_take]; omega),
    List.take_take, Nat.min_eq_left hp]

theorem AddRecord_added (e : Env) (s : Writer) (data : List Nat) (n : Nat)
    (h : s.ipos + n ≤ s.mbuf.length) :
    Added s (AddRecord e s data n) ∧ (AddRecord e s data n).ipos = s.ipos + n := by
  have hl : (poke s.mbuf s.ipos (data.take n)).length = s.mbuf.length :=
    poke_length _ _ _ (by rw [List.length_take]; omega)
  refine ⟨⟨?_, ?_, Nat.le_add_right _ _, rfl, rfl, rfl, rfl, rfl, rfl, rfl⟩, rfl⟩
  · show (SWAP_INT32 e _ _ _).length = _
    rw [SWAP_INT32_length, hl]
  · show (SWAP_INT32 e _ _ _).take s.ipos = _
    rw [SWAP_INT32_take_below e _ _ _ _ (Nat.le_refl _) (by rw [hl]; omega),
      take_poke_below _ _ _ _ (Nat.le_refl _) (by omega)]

theorem bankAt_set (defs : List SBankDef) (i j : Nat) (x : SBankDef) (hi : i < defs.length) :
    bankAt (defs.set i x) j = if i = j then x else bankAt defs j := by
  unfold bankAt
  rw [List.getD_eq_getElem?_getD, List.getD_eq_getElem?_getD, List.getElem?_set]
  by_cases h : i = j
  · subst h
    simp [hi]
  · simp [h]

theorem CatalogOK_set_nwords (e : Env) (defs : List SBankDef) (n : Nat) (hc : CatalogOK e defs) :
    CatalogOK e (defs.set kZDABindex { bankAt defs kZDABindex with nwords := n }) := by
  obtain ⟨hl, h⟩ := hc
  refine ⟨by rw [List.length_set]; exact hl, fun i hi => ?_⟩
  rw [bankAt_set defs kZDABindex i _ (by rw [hl]; decide)]
  by_cases h0 : kZDABindex = i
  · subst h0
    rw [if_pos rfl]
    obtain ⟨a1, a2, a3, a4, _, a6, a7, a8⟩ := h kZDABindex hi
    exact ⟨a1, a2, a3, a4, fun hne => absurd rfl hne, a6, a7, a8⟩
  · rw [if_neg h0]
    exact h i hi

theorem prepared_ok (e : Env) (s : Writer) (hs : Healthy e s) (bank : List Nat)
    (index : Nat) (hidx : index < NUM_BANKS) (hne : index ≠ kMASTindex)
    (hmast : e.mMastData.length = e.WORD_SIZE_MAST) :
    Healthy e (prepared e s bank index).2.1
    ∧ Added s (prepared e s bank index).2.1
    ∧ (prepared e s bank index).2.1.ipos = s.ipos
    ∧ (prepared e s bank index).2.1.mbuf = s.mbuf
    ∧ (prepared e s bank index).1.nio_nl ≤ 2
    ∧ (prepared e s bank index).1.nio_nl
        = ((bankAt (prepared e s bank index).2.1.sBankDef index).iochar.getD 0 0) % 0x10000 - 12
    ∧ (prepared e s bank index).1.nsize
        = (bankAt (prepared e s bank index).2.1.sBankDef index).nwords
    ∧ (index = kZDABindex →
        (prepared e s bank index).1.hdr_size = 1 + (prepared e s bank index).1.nio_nl + NBANK
        ∧ (prepared e s bank index).1.npilot = NPILOT)
    ∧ (index ≠ kZDABindex →
        (prepared e s bank index).1.hdr_size = 1 + (prepared e s bank index).1.nio_nl + NBANK
          + (1 + 25 + NBANK + e.mMastData.length)
        ∧ (prepared e s bank index).1.npilot = NPILOT + 2
        ∧ (prepared e s bank index).1.mast_nio_nl = 25) := by
  by_cases h0 : index = kZDABindex
  · subst h0
    have hc := CatalogOK_set_nwords e s.sBankDef (e.GetSize bank / 4) hs.catalog
    have hn := (catalog_entry e _ hc kZDABindex hidx).1 hne
    refine ⟨⟨hs.isOpen, hs.noError, hs.buflen, hs.ipos_ge, hs.ipos_le, hs.wpos_le, hs.synced,
      hs.mpr_len, hs.mpr_sig, hs.mpr_seq, hs.mpr_fast, hs.irec_lt, hs.header, hs.mlr_len,
      hs.mlr_type, ?_, hs.mbk_len, ?_⟩,
      ⟨rfl, rfl, Nat.le_refl _, rfl, rfl, rfl, rfl, rfl, rfl, rfl⟩, rfl, rfl, ?_, ?_, ?_, ?_, ?_⟩
    · simp [prepared, resolveZDAB, computeSizes, hs.mpili_len]
    · simpa [prepared, resolveZDAB, computeSizes] using hc
    · simpa [prepared, resolveZDAB, computeSizes] using hn
    · simp [prepared, resolveZDAB, computeSizes]
    · simp [prepared, resolveZDAB, computeSizes]
    · intro _
      simp [prepared, resolveZDAB, computeSizes]
    · intro h
      exact absurd rfl h
  · have hn := (catalog_entry e _ hs.catalog index hidx).1 hne
    obtain ⟨_, m2, _, m4, _⟩ := catalog_entry e _ hs.catalog kMASTindex (by decide)
    have hm2 := m2 rfl
    have hm4 := (m4 rfl).1
    have h0n : index ≠ kZDABindex := h0
    simp only [prepared, resolveZDAB, computeSizes, if_neg h0, if_pos h0n]
    refine ⟨⟨hs.isOpen, hs.noError, hs.buflen, hs.ipos_ge, hs.ipos_le, hs.wpos_le, hs.synced,
      hs.mpr_len, hs.mpr_sig, hs.mpr_seq, hs.mpr_fast, hs.irec_lt, hs.header, hs.mlr_len,
      hs.mlr_type, ?_, hs.mbk_len, hs.catalog⟩,
      ⟨rfl, rfl, Nat.le_refl _, rfl, rfl, rfl, rfl, rfl, rfl, rfl⟩, ?_⟩
    · simp [hs.mpili_len]
    · rw [hm2, hm4, hmast]
      simp only [true_and, and_true, implies_true]
      exact ⟨hn, fun h => absurd h h0⟩

/-! ### Staging the record headers -/

theorem Adds_refl (s : Writer) : Adds s s 0 := ⟨Added_refl s, Eq.refl _⟩

theorem adds_AddRecord (e : Env) (s t : Writer) (k k2 : Nat) (data : List Nat) (n : Nat)
    (h : Adds s t k) (hk : k2 = k + n) (hroom : s.ipos + k2 ≤ s.mbuf.length) :
    Adds s (AddRecord e t data n) k2 := by
  obtain ⟨a, i⟩ := AddRecord_added e t data n (by rw [h.2, h.1.buflen]; omega)
  exact ⟨Added_trans h.1 a, by rw [i, h.2, hk]; omega⟩

theorem adds_sBankDef (s t : Writer) (k : Nat) (d : List SBankDef) (h : Adds s t k) :
    Adds s { t with sBankDef := d } k :=
  ⟨⟨h.1.buflen, h.1.below, h.1.ipos_le, h.1.behind, h.1.mWritePos, h.1.irec, h.1.mpr,
    h.1.zdaboutput, h.1.mError, h.1.mCalcMD5⟩, h.2⟩

theorem adds_mbk (s t : Writer) (k : Nat) (d : List Nat) (h : Adds s t k) :
    Adds s { t with mbk := d } k :=
  ⟨⟨h.1.buflen, h.1.below, h.1.ipos_le, h.1.behind, h.1.mWritePos, h.1.irec, h.1.mpr,
    h.1.zdaboutput, h.1.mError, h.1.mCalcMD5⟩, h.2⟩

theorem adds_mlr (s t : Writer) (k : Nat) (d : List Nat) (h : Adds s t k) :
    Adds s { t with mlr := d } k :=
  ⟨⟨h.1.buflen, h.1.below, h.1.ipos_le, h.1.behind, h.1.mWritePos, h.1.irec, h.1.mpr,
    h.1.zdaboutput, h.1.mError, h.1.mCalcMD5⟩, h.2⟩

theorem adds_mpili (s t : Writer) (k : Nat) (d : List Nat) (h : Adds s t k) :
    Adds s { t with mpili := d } k :=
  ⟨⟨h.1.buflen, h.1.below, h.1.ipos_le, h.1.behind, h.1.mWritePos, h.1.irec, h.1.mpr,
    h.1.zdaboutput, h.1.mError, h.1.mCalcMD5⟩, h.2⟩

theorem addMAST_adds (e : Env) (s t : Writer) (k k2 : Nat) (index : Nat) (z : Sizes)
    (h : Adds s t k) (hk : k2 = k + (z.mast_nio_nl + 1) + 9 + e.mMastData.length)
    (hroom : s.ipos + k2 ≤ s.mbuf.length) :
    Adds s (addMAST e t index z) k2 := by
  unfold addMAST
  simp only []
  refine adds_AddRecord e s _ (k + (z.mast_nio_nl + 1) + 9) _ _ _ ?_ hk hroom
  refine adds_AddRecord e s _ (k + (z.mast_nio_nl + 1)) _ _ _ ?_ rfl (by omega)
  refine adds_mbk s _ _ _ ?_
  refine adds_AddRecord e s _ k _ _ _ ?_ rfl (by omega)
  exact adds_sBankDef s t k _ h

theorem stagePilot_adds (e : Env) (s : Writer) (z : Sizes) (hmlr : s.mlr.length = 2)
    (hroom : s.ipos + (2 + z.npilot) ≤ s.mbuf.length) :
    Adds s (stagePilot e s z) (2 + z.npilot) := by
  unfold stagePilot
  simp only []
  refine adds_AddRecord e s _ 2 _ _ _ ?_ rfl hroom
  refine adds_mpili s _ _ _ ?_
  refine adds_AddRecord e s _ 0 _ _ _ ?_ (by simp [hmlr]) (by omega)
  exact adds_mlr s s 0 _ (Adds_refl s)

theorem stageBankHeader_adds (e : Env) (s t : Writer) (k k2 : Nat) (index : Nat) (z : Sizes)
    (h : Adds s t k) (hk : k2 = k + (z.nio_nl + 1) + 9)
    (hroom : s.ipos + k2 ≤ s.mbuf.length) :
    Adds s (stageBankHeader e t index z) k2 := by
  unfold stageBankHeader
  simp only []
  refine adds_AddRecord e s _ (k + (z.nio_nl + 1)) _ _ _ ?_ hk hroom
  refine adds_mbk s _ _ _ ?_
  exact adds_AddRecord e s _ k _ _ _ h rfl (by omega)

theorem stageHeaders_adds (e : Env) (s : Writer) (index : Nat) (z : Sizes)
    (hmlr : s.mlr.length = 2)
    (hz0 : index = kZDABindex → z.hdr_size = 1 + z.nio_nl + NBANK)
    (hz1 : index ≠ kZDABindex → z.hdr_size = 1 + z.nio_nl + NBANK
        + (1 + z.mast_nio_nl + NBANK + e.mMastData.length))
    (hroom : s.ipos + overhead z ≤ s.mbuf.length) :
    Adds s (stageHeaders e s index z) (overhead z) := by
  unfold overhead NLOGIC at *
  unfold stageHeaders
  simp only []
  by_cases h0 : index = kZDABindex
  · have hz := hz0 h0
    unfold NBANK at hz
    rw [if_neg (by simp [h0])]
    exact stageBankHeader_adds e s _ (2 + z.npilot) _ index z
      (stagePilot_adds e s z hmlr (by omega)) (by omega) hroom
  · have hz := hz1 h0
    unfold NBANK at hz
    rw [if_pos h0]
    refine stageBankHeader_adds e s _
      (2 + z.npilot + (z.mast_nio_nl + 1) + 9 + e.mMastData.length) _ index z ?_ (by omega) hroom
    exact addMAST_adds e s _ (2 + z.npilot) _ index z
      (stagePilot_adds e s z hmlr (by omega)) rfl (by omega)

theorem CatalogOK_set_mast (e : Env) (defs : List SBankDef) (io : List Nat)
    (hc : CatalogOK e defs) (hl : io.length = NIOCHAR)
    (h0 : io.getD 0 0 = (bankAt defs kMASTindex).iochar.getD 0 0) :
    CatalogOK e (defs.set kMASTindex { bankAt defs kMASTindex with iochar := io }) := by
  obtain ⟨hlen, h⟩ := hc
  refine ⟨by rw [List.length_set]; exact hlen, fun i hi => ?_⟩
  rw [bankAt_set defs kMASTindex i _ (by rw [hlen]; decide)]
  by_cases h1 : kMASTindex = i
  · subst h1
    rw [if_pos rfl]
    obtain ⟨a1, a2, a3, a4, a5, _, a7, _⟩ := h kMASTindex hi
    exact ⟨a1, a2, a3, a4, a5, hl, h0.trans a7, fun hne => absurd rfl hne⟩
  · rw [if_neg h1]
    exact h i hi

theorem mastIochar_ok (e : Env) (s : Writer) (index : Nat) (z : Sizes)
    (hc : CatalogOK e s.sBankDef) (hidx : index < NUM_BANKS) (h0 : index ≠ kZDABindex)
    (hm : z.mast_nio_nl = 25) :
    (mastIochar s index z).length = NIOCHAR
    ∧ (mastIochar s index z).getD 0 0 = (bankAt s.sBankDef kMASTindex).iochar.getD 0 0 := by
  obtain ⟨_, _, m3, m4, _⟩ := catalog_entry e _ hc kMASTindex (by decide)
  obtain ⟨_, _, _, _, i5⟩ := catalog_entry e _ hc index hidx
  have hid := i5 h0
  have hnl := (m4 rfl).2
  unfold NIOCHAR at m3 ⊢
  unfold mastIochar
  simp only [hm, hnl, Nat.sub_self, Nat.add_zero]
  have hpl : (poke (bankAt s.sBankDef kMASTindex).iochar 1 (List.replicate 25 0)).length = 26 := by
    rw [poke_length _ _ _ (by rw [List.length_replicate, m3]), m3]
  refine ⟨by rw [List.length_set, hpl], ?_⟩
  rw [List.getD_eq_getElem?_getD, List.getD_eq_getElem?_getD, List.getElem?_set,
    if_neg (by omega)]
  unfold poke
  cases hio : (bankAt s.sBankDef kMASTindex).iochar with
  | nil => rw [hio] at m3; simp at m3
  | cons x xs => simp

theorem stageHeaders_templates (e : Env) (s : Writer) (index : Nat) (z : Sizes) :
    (stageHeaders e s index z).mlr = s.mlr.set 0 (z.npilot + z.hdr_size + z.nsize)
    ∧ (stageHeaders e s index z).mpili = s.mpili.set 7 (z.hdr_size + z.nsize)
    ∧ (stageHeaders e s index z).mbk.length = 9
    ∧ (stageHeaders e s index z).sBankDef
        = if index ≠ kZDABindex then
            s.sBankDef.set kMASTindex
              { bankAt s.sBankDef kMASTindex with iochar := mastIochar s index z }
          else s.sBankDef := by
  by_cases h0 : index = kZDABindex
  · simp [stageHeaders, stagePilot, stageBankHeader, AddRecord, h0, payloadBankHeader]
  · simp [stageHeaders, stagePilot, stageBankHeader, AddRecord, h0, payloadBankHeader, addMAST,
      mastIochar]

theorem Healthy.toSynced {e : Env} {s : Writer} (hs : Healthy e s) :
    ∃ cm, Synced e s cm ∧ cm.length % e.NWREC = 0 := by
  obtain ⟨cm, h1, h2⟩ := hs.synced
  exact ⟨cm, ⟨hs.isOpen, hs.noError, hs.buflen, hs.ipos_le, hs.wpos_le, h1⟩, h2⟩

theorem Added.take_le {s t : Writer} (h : Added s t) (n : Nat) (hn : n ≤ s.ipos) :
    t.mbuf.take n = s.mbuf.take n := by
  have h3 := congrArg (List.take n) h.below
  rw [List.take_take, List.take_take, Nat.min_eq_left hn] at h3
  exact h3

theorem Added.synced {e : Env} {s t : Writer} {cm : List Nat} (h : Added s t)
    (hs : Synced e s cm) (hle : t.ipos ≤ e.NWREC) : Synced e t cm := by
  refine ⟨h.zdaboutput.trans hs.isOpen, h.mError.trans hs.noError, h.buflen.trans hs.buflen,
    hle, ?_, ?_⟩
  · rw [h.mWritePos]; exact le_trans hs.wpos_le h.ipos_le
  · rw [h.behind, h.mWritePos, h.take_le _ hs.wpos_le]
    exact hs.behind_eq

theorem stageHeaders_healthy (e : Env) (s : Writer) (index : Nat) (z : Sizes)
    (hs : Healthy e s) (hidx : index < NUM_BANKS)
    (hz0 : index = kZDABindex → z.hdr_size = 1 + z.nio_nl + NBANK)
    (hz1 : index ≠ kZDABindex → z.hdr_size = 1 + z.nio_nl + NBANK
        + (1 + z.mast_nio_nl + NBANK + e.mMastData.length) ∧ z.mast_nio_nl = 25)
    (hroom : s.ipos + overhead z ≤ e.NWREC) :
    Healthy e (stageHeaders e s index z) := by
  obtain ⟨ha, hi⟩ := stageHeaders_adds e s index z hs.mlr_len hz0 (fun h => (hz1 h).1)
    (by rw [hs.buflen]; exact hroom)
  obtain ⟨t1, t2, t3, t4⟩ := stageHeaders_templates e s index z
  obtain ⟨cm, hsy, hcm⟩ := hs.toSynced
  have hsy2 := ha.synced hsy (by rw [hi]; exact hroom)
  refine ⟨hsy2.isOpen, hsy2.noError, hsy2.buflen, ?_, hsy2.ipos_le, hsy2.wpos_le,
    ⟨cm, hsy2.behind_eq, hcm⟩, ?_, ?_, ?_, ?_, ?_, ?_, ?_, ?_, ?_, t3, ?_⟩
  · rw [hi]; exact le_trans hs.ipos_ge (Nat.le_add_right _ _)
  · rw [ha.mpr]; exact hs.mpr_len
  · rw [ha.mpr]; exact hs.mpr_sig
  · rw [ha.mpr, ha.irec]; exact hs.mpr_seq
  · rw [ha.mpr]; exact hs.mpr_fast
  · rw [ha.irec]; exact hs.irec_lt
  · rw [ha.mpr, ha.take_le 8 hs.ipos_ge]; exact hs.header
  · rw [t1, List.length_set]; exact hs.mlr_len
  · rw [t1, List.getD_eq_getElem?_getD, List.getElem?_set, if_neg (by decide),
      ← List.getD_eq_getElem?_getD]
    exact hs.mlr_type
  · rw [t2, List.length_set]; exact hs.mpili_len
  · rw [t4]
    by_cases h0 : index = kZDABindex
    · rw [if_neg (by simp [h0])]; exact hs.catalog
    · rw [if_pos h0]
      obtain ⟨m1, m2⟩ := mastIochar_ok e s index z hs.catalog hidx h0 (hz1 h0).2
      exact CatalogOK_set_mast e _ _ hs.catalog m1 m2

/-! ### Starting a new steering block -/

theorem list_length_eight (l : List Nat) (h : l.length = 8) :
    ∃ a0 a1 a2 a3 a4 a5 a6 a7, l = [a0, a1, a2, a3, a4, a5, a6, a7] := by
  match l, h with
  | [a0, a1, a2, a3, a4, a5, a6, a7], _ => exact ⟨a0, a1, a2, a3, a4, a5, a6, a7, rfl⟩

theorem newSteering_ok (e : Env) (r : Writer) (cm : List Nat) (hs : Synced e r cm)
    (hW : 8 ≤ e.NWREC) (hi : r.ipos = 0) (hw : r.mWritePos = 0) (hmpr : r.mpr.length = 8) :
    Synced e (newSteering e r) cm
    ∧ (newSteering e r).mWritePos = 0
    ∧ (newSteering e r).ipos = 8
    ∧ (newSteering e r).mbuf.take 8 = (newSteering e r).mpr.map e.swap
    ∧ (newSteering e r).mpr = ((r.mpr.set 5 ((r.irec + 1) % U32)).set 6 NPHREC).set 7 0
    ∧ (newSteering e r).irec = (r.irec + 1) % U32
    ∧ Static r (newSteering e r) := by
  have hl : (((r.mpr.set 5 ((r.irec + 1) % U32)).set 6 NPHREC).set 7 0).length = 8 := by
    simp [hmpr]
  have hm : (newSteering e r).mbuf
      = poke r.mbuf 0 ((((r.mpr.set 5 ((r.irec + 1) % U32)).set 6 NPHREC).set 7 0).map e.swap) := by
    unfold newSteering
    rw [AddRecord_mbuf e _ _ _ rfl (by show r.ipos ≤ _; rw [hi]; exact Nat.zero_le _)]
    show poke r.mbuf r.ipos _ = _
    rw [hi]
  have hlen : (newSteering e r).mbuf.length = e.NWREC := by
    rw [hm, poke_length _ _ _ (by rw [List.length_map, hl, hs.buflen]; omega), hs.buflen]
  have hip : (newSteering e r).ipos = 8 := by
    show r.ipos + _ = 8
    rw [hi, hl]
  have hwp : (newSteering e r).mWritePos = 0 := hw
  refine ⟨⟨hs.isOpen, hs.noError, hlen, by rw [hip]; exact hW, by rw [hwp]; exact Nat.zero_le _,
    ?_⟩, hwp, hip, ?_, rfl, rfl, ⟨rfl, rfl, rfl, rfl, rfl, rfl, rfl, by rw [hlen, hs.buflen]⟩⟩
  · rw [hwp, List.take_zero, List.append_nil]
    have := hs.behind_eq
    rw [hw, List.take_zero, List.append_nil] at this
    exact this
  · rw [hm]
    have := take_poke_self r.mbuf 0
      ((((r.mpr.set 5 ((r.irec + 1) % U32)).set 6 NPHREC).set 7 0).map e.swap) (Nat.zero_le _)
    rw [Nat.zero_add, List.length_map, hl, List.take_zero, List.nil_append] at this
    exact this

theorem steering_template (e : Env) (mpr : List Nat) (x y : Nat) (hlen : mpr.length = 8)
    (hsig : mpr.take 5 = [e.ZEBRA_SIG0, e.ZEBRA_SIG1, e.ZEBRA_SIG2, e.ZEBRA_SIG3, e.NWREC])
    (hfast : mpr.getD 7 0 = 0) :
    ((mpr.set 5 x).set 6 y).length = 8
    ∧ ((mpr.set 5 x).set 6 y).take 5
        = [e.ZEBRA_SIG0, e.ZEBRA_SIG1, e.ZEBRA_SIG2, e.ZEBRA_SIG3, e.NWREC]
    ∧ ((mpr.set 5 x).set 6 y).getD 5 0 = x
    ∧ ((mpr.set 5 x).set 6 y).getD 7 0 = 0
    ∧ (((mpr.set 5 x).set 6 y).set 7 0) = (mpr.set 5 x).set 6 y := by
  obtain ⟨a0, a1, a2, a3, a4, a5, a6, a7, rfl⟩ := list_length_eight mpr hlen
  simp at hsig hfast ⊢
  exact ⟨hsig, hfast, hfast.symm⟩

theorem startBlock_ok (e : Env) (hio : e.NoFail) (s : Writer) (cm : List Nat)
    (hs : Healthy e s) (hsy : Synced e s cm) (hcm : cm.length % e.NWREC = 0)
    (hW : 8 ≤ e.NWREC) :
    (startBlock e s).1 = true
    ∧ Healthy e (startBlock e s).2
    ∧ Synced e (startBlock e s).2 (cm ++ (s.mbuf.take s.ipos ++ padWords e s.ipos))
    ∧ (startBlock e s).2.mWritePos = 0
    ∧ (startBlock e s).2.ipos = 8
    ∧ (startBlock e s).2.irec = (s.irec + 1) % U32
    ∧ (startBlock e s).2.mpr = (s.mpr.set 5 ((s.irec + 1) % U32)).set 6 NPHREC
    ∧ Static s (startBlock e s).2 := by
  obtain ⟨r1, r2, r3, r4, r5, r6, r7, r8⟩ := WritePhysicalRecord_ok e hio s cm hsy
  have hblk : (s.mbuf.take s.ipos ++ padWords e s.ipos).length = e.NWREC := by
    rw [← r4, r8.buflen, hs.buflen]
  have hsyr : Synced e (WritePhysicalRecord e s).2
      (cm ++ (s.mbuf.take s.ipos ++ padWords e s.ipos)) :=
    ⟨r8.zdaboutput.trans hs.isOpen, r8.mError.trans hs.noError, r8.buflen.trans hs.buflen,
      by rw [r5]; exact Nat.zero_le _, by rw [r3, r5], by rw [r2, r3]; simp⟩
  obtain ⟨q1, q2, q3, q4, q5, q6, q7⟩ := newSteering_ok e (WritePhysicalRecord e s).2 _ hsyr hW
    r5 r3 (by rw [r7]; exact hs.mpr_len)
  rw [r6, r7] at q5
  rw [r6] at q6
  obtain ⟨p1, p2, p3, p4, p5⟩ := steering_template e s.mpr ((s.irec + 1) % U32) NPHREC
    hs.mpr_len hs.mpr_sig hs.mpr_fast
  rw [p5] at q5
  have hst : Static s (startBlock e s).2 := by
    unfold startBlock
    simp only [r1, ne_eq, not_true_eq_false, if_false]
    exact Static_trans r8 q7
  have heq : (startBlock e s).2 = newSteering e (WritePhysicalRecord e s).2 := by
    unfold startBlock
    simp only [r1, ne_eq, not_true_eq_false, if_false]
  refine ⟨?_, ?_, ?_, ?_, ?_, ?_, ?_, hst⟩
  · unfold startBlock
    simp only [r1, ne_eq, not_true_eq_false, if_false]
  · rw [heq]
    refine ⟨q1.isOpen, q1.noError, q1.buflen, by rw [q3]; exact Nat.le_refl _, q1.ipos_le,
      q1.wpos_le, ⟨_, q1.behind_eq, ?_⟩, by rw [q5]; exact p1, by rw [q5]; exact p2,
      by rw [q5, q6]; exact p3, by rw [q5]; exact p4, by rw [q6]; exact Nat.mod_lt _ (by decide),
      by rw [q4], ?_, ?_, ?_, ?_, ?_⟩
    · rw [List.length_append, hblk]
      simp [hcm]
    · rw [← heq, hst.mlr]; exact hs.mlr_len
    · rw [← heq, hst.mlr]; exact hs.mlr_type
    · rw [← heq, hst.mpili]; exact hs.mpili_len
    · rw [← heq, hst.mbk]; exact hs.mbk_len
    · rw [← heq, hst.sBankDef]; exact hs.catalog
  · rw [heq]; exact q1
  · rw [heq]; exact q2
  · rw [heq]; exact q3
  · rw [heq]; exact q6
  · rw [heq]; exact q5

/-! ### Placement of the record -/

theorem u32cast_room (W a b c : Nat) (h1 : a + b + c ≤ W) (h2 : W < 4294967296) :
    u32cast ((W : Int) - a - b - c) = W - (a + b + c) := by
  unfold u32cast
  omega

theorem placeRecord_eq (e : Env) (s : Writer) (z : Sizes) (hio : e.NoFail) (hs : Healthy e s)
    (hroom : NPHREC + overhead z < e.NWREC) (hsmall : e.NWREC < 1073741824) :
    placeRecord e s z
      = if (s.mWritePos ≠ 0 ∧ s.ipos + overhead z + z.nsize > 2 * e.NWREC - NPHREC)
            ∨ s.ipos + overhead z ≥ e.NWREC
        then startBlock e s else (true, s) := by
  obtain ⟨cm, hsy, hcm⟩ := hs.toSynced
  unfold NPHREC at hroom
  obtain ⟨b1, _, _, _, b5, _⟩ := startBlock_ok e hio s cm hs hsy hcm (by omega)
  have hu : u32cast ((e.NWREC : Int) - NLOGIC - z.npilot - z.hdr_size)
      = e.NWREC - overhead z := by
    unfold overhead
    exact u32cast_room e.NWREC NLOGIC z.npilot z.hdr_size (by unfold overhead at hroom; omega)
      (by omega)
  unfold placeRecord
  simp only [hu]
  have hov : s.ipos + NLOGIC + z.npilot + z.hdr_size + z.nsize
      = s.ipos + overhead z + z.nsize := by unfold overhead; omega
  rw [hov]
  by_cases c1 : s.mWritePos ≠ 0 ∧ s.ipos + overhead z + z.nsize > 2 * e.NWREC - NPHREC
  · rw [if_pos c1, if_pos (Or.inl c1)]
    simp only [b1, Bool.not_true, Bool.false_eq_true, if_false]
    rw [if_neg (by rw [b5]; omega)]
  · rw [if_neg c1]
    simp only [Bool.not_true, Bool.false_eq_true, if_false]
    by_cases c2 : s.ipos + overhead z ≥ e.NWREC
    · rw [if_pos (by omega), if_pos (Or.inr c2)]
    · rw [if_neg (by omega), if_neg (by
        intro h
        rcases h with h | h
        · exact c1 h
        · exact c2 h)]

theorem overhead_bound (e : Env) (hwf : e.WellFormed) (s : Writer) (hs : Healthy e s)
    (bank : List Nat) (index : Nat) (hidx : index < NUM_BANKS) (hne : index ≠ kMASTindex) :
    NPHREC + overhead (prepared e s bank index).1 < e.NWREC := by
  obtain ⟨_, _, _, _, p5, _, _, p8, p9⟩ := prepared_ok e s hs bank index hidx hne hwf.mast_len
  have hr := hwf.roomy
  rw [← hwf.mast_len] at hr
  unfold overhead
  unfold NPHREC NLOGIC NPILOT NBANK at *
  by_cases h0 : index = kZDABindex
  · obtain ⟨a, b⟩ := p8 h0
    omega
  · obtain ⟨a, b, _⟩ := p9 h0
    omega

/-- The state right before the payload loop of a call on a healthy writer. -/
theorem preLoop_ok (e : Env) (hwf : e.WellFormed) (hio : e.NoFail) (s : Writer)
    (hs : Healthy e s) (bank : List Nat) (index : Nat) (hidx : index < NUM_BANKS)
    (hne : index ≠ kMASTindex) (cm : List Nat) (hsy : Synced e s cm)
    (hcm : cm.length % e.NWREC = 0) :
    (placeRecord e (prepared e s bank index).2.1 (prepared e s bank index).1).1 = true
    ∧ Healthy e (placeRecord e (prepared e s bank index).2.1 (prepared e s bank index).1).2
    ∧ Healthy e (preLoop e s bank index)
    ∧ Adds (placeRecord e (prepared e s bank index).2.1 (prepared e s bank index).1).2
        (preLoop e s bank index) (overhead (prepared e s bank index).1)
    ∧ (preLoop e s bank index).ipos < e.NWREC
    ∧ ((preLoop e s bank index).mWritePos ≠ 0 →
        (preLoop e s bank index).ipos + (prepared e s bank index).1.nsize
          ≤ 2 * e.NWREC - NPHREC)
    ∧ ∃ cm2, Synced e (preLoop e s bank index) cm2 ∧ cm2.length % e.NWREC = 0
        ∧ Synced e (placeRecord e (prepared e s bank index).2.1 (prepared e s bank index).1).2 cm2
        ∧ ((cm2 = cm
            ∧ (placeRecord e (prepared e s bank index).2.1 (prepared e s bank index).1).2
                = (prepared e s bank index).2.1)
          ∨ (cm2 = cm ++ (s.mbuf.take s.ipos ++ padWords e s.ipos)
            ∧ (placeRecord e (prepared e s bank index).2.1 (prepared e s bank index).1).2
                = (startBlock e (prepared e s bank index).2.1).2)) := by
  obtain ⟨p1, p2, p3, p4, p5, p6, p7, p8, p9⟩ :=
    prepared_ok e s hs bank index hidx hne hwf.mast_len
  have hov := overhead_bound e hwf s hs bank index hidx hne
  have hW : 8 ≤ e.NWREC := by unfold NPHREC at hov; omega
  have hsyp : Synced e (prepared e s bank index).2.1 cm := p2.synced hsy p1.ipos_le
  have heq := placeRecord_eq e (prepared e s bank index).2.1 (prepared e s bank index).1 hio p1
    hov hwf.small
  obtain ⟨b1, b2, b3, b4, b5, b6, b7, b8⟩ :=
    startBlock_ok e hio (prepared e s bank index).2.1 cm p1 hsyp hcm hW
  have hz0 : index = kZDABindex → (prepared e s bank index).1.hdr_size
      = 1 + (prepared e s bank index).1.nio_nl + NBANK := fun h => (p8 h).1
  have hz1 : index ≠ kZDABindex → (prepared e s bank index).1.hdr_size
      = 1 + (prepared e s bank index).1.nio_nl + NBANK
        + (1 + (prepared e s bank index).1.mast_nio_nl + NBANK + e.mMastData.length)
      ∧ (prepared e s bank index).1.mast_nio_nl = 25 := fun h => by
    obtain ⟨a, _, c⟩ := p9 h
    rw [c]
    exact ⟨a, rfl⟩
  by_cases c : ((prepared e s bank index).2.1.mWritePos ≠ 0
        ∧ (prepared e s bank index).2.1.ipos + overhead (prepared e s bank index).1
            + (prepared e s bank index).1.nsize > 2 * e.NWREC - NPHREC)
      ∨ (prepared e s bank index).2.1.ipos + overhead (prepared e s bank index).1 ≥ e.NWREC
  · rw [if_pos c] at heq
    have hroom : (startBlock e (prepared e s bank index).2.1).2.ipos
        + overhead (prepared e s bank index).1 ≤ e.NWREC := by
      rw [b5]; unfold NPHREC at hov; omega
    have hh := stageHeaders_healthy e _ index _ b2 hidx hz0 hz1 hroom
    have ha := stageHeaders_adds e (startBlock e (prepared e s bank index).2.1).2 index
      (prepared e s bank index).1 b2.mlr_len hz0 (fun h => (hz1 h).1)
      (by rw [b2.buflen]; exact hroom)
    have hpre : preLoop e s bank index = stageHeaders e
        (startBlock e (prepared e s bank index).2.1).2 index (prepared e s bank index).1 := by
      unfold preLoop
      simp only [heq]
    rw [heq, hpre]
    refine ⟨b1, b2, hh, ha, ?_, ?_, ⟨_, ha.1.synced b3 hh.ipos_le, ?_, b3, Or.inr ⟨?_, rfl⟩⟩⟩
    · rw [ha.2, b5]; unfold NPHREC at hov; omega
    · intro h
      rw [ha.1.mWritePos, b4] at h
      exact absurd rfl h
    · have hbl : (s.mbuf.take s.ipos ++ padWords e s.ipos).length = e.NWREC := by
        rw [List.length_append, padWords_length e _ hs.ipos_le, List.length_take, hs.buflen]
        have := hs.ipos_le
        omega
      rw [p4, p3, List.length_append, hbl]
      simp [hcm]
    · rw [p4, p3]
  · rw [if_neg c] at heq
    have hc1 : (prepared e s bank index).2.1.ipos + overhead (prepared e s bank index).1
        < e.NWREC := by
      by_contra h
      exact c (Or.inr (by omega))
    have hh := stageHeaders_healthy e _ index _ p1 hidx hz0 hz1 (by omega)
    have ha := stageHeaders_adds e (prepared e s bank index).2.1 index
      (prepared e s bank index).1 p1.mlr_len hz0 (fun h => (hz1 h).1)
      (by rw [p1.buflen]; omega)
    have hpre : preLoop e s bank index = stageHeaders e
        (prepared e s bank index).2.1 index (prepared e s bank index).1 := by
      unfold preLoop
      simp only [heq]
    rw [heq, hpre]
    refine ⟨rfl, p1, hh, ha, ?_, ?_, ⟨cm, ha.1.synced hsyp hh.ipos_le, hcm, hsyp,
      Or.inl ⟨rfl, rfl⟩⟩⟩
    · rw [ha.2]; exact hc1
    · intro h
      rw [ha.1.mWritePos] at h
      rw [ha.2]
      by_contra hgt
      exact c (Or.inl ⟨h, by omega⟩)

/-! ### Entering fast mode -/

theorem nfastOf_bounds (e : Env) (nleft : Nat) (hW : 8 ≤ e.NWREC)
    (hn : nleft > e.NWREC - NPHREC) :
    1 ≤ nfastOf e nleft
    ∧ (nfastOf e nleft - 1) * e.NWREC + (e.NWREC - 8) < nleft
    ∧ nleft ≤ nfastOf e nleft * e.NWREC + (e.NWREC - 8) := by
  unfold nfastOf
  unfold NPHREC at *
  obtain ⟨q, hq⟩ : ∃ q, nleft - (e.NWREC - 8) - 1 = q := ⟨_, rfl⟩
  have hq2 : nleft = q + (e.NWREC - 8) + 1 := by omega
  rw [hq]
  have hd := Nat.div_add_mod q e.NWREC
  have hm := Nat.mod_lt q (show e.NWREC > 0 by omega)
  have hcomm : e.NWREC * (q / e.NWREC) = q / e.NWREC * e.NWREC := Nat.mul_comm _ _
  have hexp : (q / e.NWREC + 1) * e.NWREC = q / e.NWREC * e.NWREC + e.NWREC := by ring
  rw [Nat.add_sub_cancel, hexp]
  generalize q / e.NWREC * e.NWREC = x at *
  generalize q % e.NWREC = y at *
  refine ⟨Nat.le_add_left _ _, ?_, ?_⟩ <;> omega

theorem nfastOf_eq_ceil (e : Env) (nleft : Nat) (hW : 8 ≤ e.NWREC)
    (hn : nleft > e.NWREC - NPHREC) :
    nfastOf e nleft = (nleft - (e.NWREC - NPHREC) + e.NWREC - 1) / e.NWREC := by
  unfold nfastOf
  unfold NPHREC at *
  have h : nleft - (e.NWREC - 8) + e.NWREC - 1 = (nleft - (e.NWREC - 8) - 1) + e.NWREC := by
    omega
  rw [h, Nat.add_div_right _ (by omega)]

theorem payloadLoop_enter (e : Env) (hio : e.NoFail) (hW : 8 ≤ e.NWREC) (s : Writer)
    (cm ws : List Nat) (hs : Synced e s cm) (hw : s.mWritePos = 0)
    (hT : s.ipos + ws.length > 2 * e.NWREC - NPHREC) :
    ∃ s2 ws2, payloadLoop e ws s false = payloadLoop e ws2 s2 true
      ∧ Synced e s2 (cm ++ ((s.mbuf.take s.ipos ++ ws).take e.NWREC).set 7
          (e.swap (nfastOf e (s.ipos + ws.length - e.NWREC))))
      ∧ s2.mWritePos = 0
      ∧ s2.ipos + ws2.length = s.ipos + ws.length - e.NWREC
      ∧ s2.mbuf.take s2.ipos ++ ws2 = (s.mbuf.take s.ipos ++ ws).drop e.NWREC
      ∧ s2.irec = s.irec ∧ s2.mpr = s.mpr ∧ Static s s2 := by
  unfold NPHREC at hT
  obtain ⟨a, w, b, hws, hal, htake, hdrop, hbl⟩ :=
    split_at_block e s ws hs.buflen hs.ipos_le (by omega)
  have hs1 : Synced e (fill s a) cm := Synced_fill e s cm a hs (by omega)
  have hip1 : (fill s a).ipos = e.NWREC := by simp only [fill]; exact hal
  have hs1' : Synced e
      { fill s a with mbuf := (fill s a).mbuf.set 7 (e.swap (nfastOf e (b.length + 1))) } cm := by
    refine ⟨hs1.isOpen, hs1.noError, ?_, hs1.ipos_le, hs1.wpos_le, ?_⟩
    · show (List.set _ _ _).length = _
      rw [List.length_set]; exact hs1.buflen
    · show s.behind = cm ++ List.take s.mWritePos _
      rw [hw, List.take_zero, List.append_nil]
      have := hs.behind_eq
      rw [hw, List.take_zero, List.append_nil] at this
      exact this
  obtain ⟨r1, q1, q2, q3, q4, q5, q6, q7⟩ := fastState_ok e hio _ cm hs1'
  have hXl := q1.buflen
  have hst := storeWord_eq_fill (fastState e
      { fill s a with mbuf := (fill s a).mbuf.set 7 (e.swap (nfastOf e (b.length + 1))) }) w
    (by rw [hXl, q3]; omega)
  refine ⟨fill (fastState e
      { fill s a with mbuf := (fill s a).mbuf.set 7 (e.swap (nfastOf e (b.length + 1))) }) [w],
    b, ?_, ?_, ?_, ?_, ?_, ?_, ?_, ?_⟩
  · rw [hws, payloadLoop_fill e a (w :: b) s false hs.buflen (by omega),
      payloadLoop_enter_step e w b (fill s a) (by omega) hip1 (by simp only [NPHREC]; omega)
        (by show s.mWritePos < 7; omega) r1, hst]
  · rw [htake, ← hbl]
    exact Synced_fill e _ _ [w] q1 (by rw [q3, List.length_singleton]; omega)
  · exact q2
  · show (fastState e _).ipos + [w].length + b.length = _
    rw [q3, List.length_singleton]; omega
  · rw [fill_mbuf_take _ _ (by rw [hXl, q3]; omega), q3, hdrop]
    simp
  · exact q5
  · exact q6
  · have h1 : Static s (fill s a) := fill_static s a (by rw [hs.buflen]; omega)
    have h2 : Static (fill s a)
        { fill s a with mbuf := (fill s a).mbuf.set 7 (e.swap (nfastOf e (b.length + 1))) } :=
      ⟨rfl, rfl, rfl, rfl, rfl, rfl, rfl, by show (List.set _ _ _).length = _; rw [List.length_set]⟩
    exact Static_trans h1 (Static_trans h2 (Static_trans q7
      (fill_static _ [w] (by rw [hXl, q3, List.length_singleton]; omega))))

/-- The payload loop when the first crossing enters fast mode.  With `nleft` words left
at the crossing and `k = nfastOf nleft`, the steering block goes out with word 7 set to
`k`; then either the payload ends inside the `k`-th fast block (`k - 1` fast blocks are
written by the loop, the last one is still in the buffer), or `k` fast blocks are
written and the rest follows a continuation header. -/
theorem payloadLoop_fastmode (e : Env) (hio : e.NoFail) (hW : 8 ≤ e.NWREC) (s : Writer)
    (cm ws : List Nat) (hs : Synced e s cm) (hw : s.mWritePos = 0) (hmpr : s.mpr.length = 8)
    (hT : s.ipos + ws.length > 2 * e.NWREC - NPHREC) :
    (s.ipos + ws.length - e.NWREC ≤ nfastOf e (s.ipos + ws.length - e.NWREC) * e.NWREC →
      ∃ t, payloadLoop e ws s false = (t, true)
        ∧ Synced e t (cm ++ ((s.mbuf.take s.ipos ++ ws).take e.NWREC).set 7
              (e.swap (nfastOf e (s.ipos + ws.length - e.NWREC)))
            ++ ((s.mbuf.take s.ipos ++ ws).drop e.NWREC).take
              ((nfastOf e (s.ipos + ws.length - e.NWREC) - 1) * e.NWREC))
        ∧ t.mWritePos = 0
        ∧ t.ipos = s.ipos + ws.length - e.NWREC
            - (nfastOf e (s.ipos + ws.length - e.NWREC) - 1) * e.NWREC
        ∧ t.mbuf.take t.ipos = ((s.mbuf.take s.ipos ++ ws).drop e.NWREC).drop
            ((nfastOf e (s.ipos + ws.length - e.NWREC) - 1) * e.NWREC)
        ∧ t.irec = s.irec ∧ t.mpr = s.mpr ∧ Static s t)
    ∧ (nfastOf e (s.ipos + ws.length - e.NWREC) * e.NWREC < s.ipos + ws.length - e.NWREC →
      ∃ t, payloadLoop e ws s false = (t, false)
        ∧ Synced e t (cm ++ ((s.mbuf.take s.ipos ++ ws).take e.NWREC).set 7
              (e.swap (nfastOf e (s.ipos + ws.length - e.NWREC)))
            ++ ((s.mbuf.take s.ipos ++ ws).drop e.NWREC).take
              (nfastOf e (s.ipos + ws.length - e.NWREC) * e.NWREC))
        ∧ t.mWritePos = 0
        ∧ t.ipos = 8 + (s.ipos + ws.length - e.NWREC
            - nfastOf e (s.ipos + ws.length - e.NWREC) * e.NWREC)
        ∧ t.mbuf.take t.ipos
            = contHeader e s (s.ipos + ws.length - e.NWREC
                - nfastOf e (s.ipos + ws.length - e.NWREC) * e.NWREC)
              ++ ((s.mbuf.take s.ipos ++ ws).drop e.NWREC).drop
                (nfastOf e (s.ipos + ws.length - e.NWREC) * e.NWREC)
        ∧ t.irec = (s.irec + 1) % U32
        ∧ t.mpr = (s.mpr.set 5 ((s.irec + 1) % U32)).set 6
            (NPHREC + (s.ipos + ws.length - e.NWREC
              - nfastOf e (s.ipos + ws.length - e.NWREC) * e.NWREC))
        ∧ Static s t) := by
  obtain ⟨s2, ws2, hloop, hs2, hw2, hT2, hR2, hirec, hmpr2, hst⟩ :=
    payloadLoop_enter e hio hW s cm ws hs hw hT
  have hn : s.ipos + ws.length - e.NWREC > e.NWREC - NPHREC := by
    unfold NPHREC at *; omega
  obtain ⟨k1, k2, k3⟩ := nfastOf_bounds e _ hW hn
  generalize nfastOf e (s.ipos + ws.length - e.NWREC) = k at *
  obtain ⟨j, rfl⟩ : ∃ j, k = j + 1 := ⟨k - 1, by omega⟩
  rw [Nat.add_sub_cancel] at k2 ⊢
  refine ⟨fun hle => ?_, fun hgt => ?_⟩
  · obtain ⟨t, ht, p1, p2, p3, p4, p5, p6, p7⟩ := fastRun_endFast e hio hW j s2 _ ws2 hs2 hw2 (by
      rw [hT2]
      by_cases hj : j = 0
      · left; subst hj; exact ⟨rfl, by omega⟩
      · right; exact ⟨by omega, k2, hle⟩)
    rw [hR2] at p1 p4
    rw [hT2] at p3
    exact ⟨t, hloop.trans ht, p1, p2, p3, p4, p5.trans hirec, p6.trans hmpr2,
      Static_trans hst p7⟩
  · obtain ⟨t, ht, p1, p2, p3, p4, p5, p6, p7⟩ := fastRun_endSteer e hio hW j s2 _ ws2 hs2 hw2
      (by rw [hmpr2]; exact hmpr) (by rw [hT2]; exact hgt) (by rw [hT2]; exact k3)
    rw [hR2] at p1 p4
    rw [hT2] at p3 p4 p6
    refine ⟨t, hloop.trans ht, p1, p2, p3, ?_, by rw [p5, hirec], by rw [p6, hirec, hmpr2],
      Static_trans hst p7⟩
    rw [p4]
    simp only [contHeader, hirec, hmpr2]

/-- Finishing the block of a state `s` that shares templates and sequence counter with a
healthy state `s0` (as the state at the end of a fast run does) and staging a new
steering block. -/
theorem startBlock_from (e : Env) (hio : e.NoFail) (s0 s : Writer) (cm : List Nat)
    (h0 : Healthy e s0) (hst0 : Static s0 s) (hmpr : s.mpr = s0.mpr) (hirec : s.irec = s0.irec)
    (hsy : Synced e s cm) (hcm : cm.length % e.NWREC = 0) (hW : 8 ≤ e.NWREC) :
    (startBlock e s).1 = true
    ∧ (WritePhysicalRecord e s).1 = 0
    ∧ (startBlock e s).2 = newSteering e (WritePhysicalRecord e s).2
    ∧ Healthy e (startBlock e s).2
    ∧ Synced e (startBlock e s).2 (cm ++ (s.mbuf.take s.ipos ++ padWords e s.ipos))
    ∧ (startBlock e s).2.mWritePos = 0
    ∧ (startBlock e s).2.ipos = 8
    ∧ (startBlock e s).2.irec = (s0.irec + 1) % U32
    ∧ (startBlock e s).2.mpr = (s0.mpr.set 5 ((s0.irec + 1) % U32)).set 6 NPHREC
    ∧ Static s0 (startBlock e s).2 := by
  obtain ⟨r1, r2, r3, r4, r5, r6, r7, r8⟩ := WritePhysicalRecord_ok e hio s cm hsy
  have hblk : (s.mbuf.take s.ipos ++ padWords e s.ipos).length = e.NWREC := by
    rw [← r4, r8.buflen, hsy.buflen]
  have hsyr : Synced e (WritePhysicalRecord e s).2
      (cm ++ (s.mbuf.take s.ipos ++ padWords e s.ipos)) :=
    ⟨r8.zdaboutput.trans hsy.isOpen, r8.mError.trans hsy.noError, r8.buflen.trans hsy.buflen,
      by rw [r5]; exact Nat.zero_le _, by rw [r3, r5], by rw [r2, r3]; simp⟩
  obtain ⟨q1, q2, q3, q4, q5, q6, q7⟩ := newSteering_ok e (WritePhysicalRecord e s).2 _ hsyr hW
    r5 r3 (by rw [r7, hmpr]; exact h0.mpr_len)
  rw [r6, r7, hirec, hmpr] at q5
  rw [r6, hirec] at q6
  obtain ⟨p1, p2, p3, p4, p5⟩ := steering_template e s0.mpr ((s0.irec + 1) % U32) NPHREC
    h0.mpr_len h0.mpr_sig h0.mpr_fast
  rw [p5] at q5
  have heq : (startBlock e s).2 = newSteering e (WritePhysicalRecord e s).2 := by
    unfold startBlock
    simp only [r1, ne_eq, not_true_eq_false, if_false]
  have hst : Static s0 (startBlock e s).2 := by
    rw [heq]
    exact Static_trans hst0 (Static_trans r8 q7)
  refine ⟨?_, r1, heq, ?_, ?_, ?_, ?_, ?_, ?_, hst⟩
  · unfold startBlock
    simp only [r1, ne_eq, not_true_eq_false, if_false]
  · rw [heq]
    refine ⟨q1.isOpen, q1.noError, q1.buflen, by rw [q3]; exact Nat.le_refl _, q1.ipos_le,
      q1.wpos_le, ⟨_, q1.behind_eq, ?_⟩, by rw [q5]; exact p1, by rw [q5]; exact p2,
      by rw [q5, q6]; exact p3, by rw [q5]; exact p4, by rw [q6]; exact Nat.mod_lt _ (by decide),
      by rw [q4], ?_, ?_, ?_, ?_, ?_⟩
    · rw [List.length_append, hblk]
      simp [hcm]
    · rw [← heq, hst.mlr]; exact h0.mlr_len
    · rw [← heq, hst.mlr]; exact h0.mlr_type
    · rw [← heq, hst.mpili]; exact h0.mpili_len
    · rw [← heq, hst.mbk]; exact h0.mbk_len
    · rw [← heq, hst.sBankDef]; exact h0.catalog
  · rw [heq]; exact q1
  · rw [heq]; exact q2
  · rw [heq]; exact q3
  · rw [heq]; exact q6
  · rw [heq]; exact q5

/-! ### WriteBank as a whole -/

theorem WriteBank_slow (e : Env) (s : Writer) (bank : List Nat) (index : Nat) (t : Writer)
    (hopen : s.zdaboutput = true) (hne : index ≠ kMASTindex)
    (hpl : (placeRecord e (prepared e s bank index).2.1 (prepared e s bank index).1).1 = true)
    (hloop : payloadLoop e (window (loopBank e s bank index) (prepared e s bank index).1.nsize)
      (preLoop e s bank index) false = (t, false))
    (herr : t.mError = 0) :
    WriteBank e s bank index
      = (0, t, SWAP_INT32 e (loopBank e s bank index) 0 (prepared e s bank index).1.nsize) := by
  unfold WriteBank
  simp only [hopen, hne, hpl, hloop, herr, Bool.not_true, Bool.false_eq_true, if_false, ne_eq,
    not_true_eq_false]

theorem WriteBank_fast (e : Env) (s : Writer) (bank : List Nat) (index : Nat) (t : Writer)
    (hopen : s.zdaboutput = true) (hne : index ≠ kMASTindex)
    (hpl : (placeRecord e (prepared e s bank index).2.1 (prepared e s bank index).1).1 = true)
    (hloop : payloadLoop e (window (loopBank e s bank index) (prepared e s bank index).1.nsize)
      (preLoop e s bank index) false = (t, true))
    (herr : t.mError = 0) (hwr : (WritePhysicalRecord e t).1 = 0) :
    WriteBank e s bank index
      = (0, newSteering e (WritePhysicalRecord e t).2,
          SWAP_INT32 e (loopBank e s bank index) 0 (prepared e s bank index).1.nsize) := by
  unfold WriteBank
  simp only [hopen, hne, hpl, hloop, herr, hwr, Bool.not_true, Bool.false_eq_true, if_false,
    ne_eq, not_true_eq_false, if_true]

theorem window_length (bank : List Nat) (n : Nat) : (window bank n).length = n := by
  simp [window]

theorem window_eq_take (bank : List Nat) (n : Nat) (h : n ≤ bank.length) :
    window bank n = bank.take n := by
  apply List.ext_getElem?
  intro i
  unfold window
  rw [List.getElem?_map, List.getElem?_take]
  by_cases hi : i < n
  · rw [List.getElem?_range hi, if_pos hi]
    have hb : i < bank.length := by omega
    simp [List.getD_eq_getElem?_getD, List.getElem?_eq_getElem hb]
  · rw [List.getElem?_eq_none (by simpa using hi), if_neg hi]
    rfl

theorem Added.healthy {e : Env} {s t : Writer} (hs : Healthy e s) (ha : Added s t)
    (hle : t.ipos ≤ e.NWREC) (h1 : t.mlr = s.mlr) (h2 : t.mpili = s.mpili) (h3 : t.mbk = s.mbk)
    (h4 : t.sBankDef = s.sBankDef) : Healthy e t := by
  obtain ⟨cm, hsy, hcm⟩ := hs.toSynced
  have hsy2 := ha.synced hsy hle
  exact ⟨hsy2.isOpen, hsy2.noError, hsy2.buflen, le_trans hs.ipos_ge ha.ipos_le, hle,
    hsy2.wpos_le, ⟨cm, hsy2.behind_eq, hcm⟩, by rw [ha.mpr]; exact hs.mpr_len,
    by rw [ha.mpr]; exact hs.mpr_sig, by rw [ha.mpr, ha.irec]; exact hs.mpr_seq,
    by rw [ha.mpr]; exact hs.mpr_fast, by rw [ha.irec]; exact hs.irec_lt,
    by rw [ha.mpr, ha.take_le 8 hs.ipos_ge]; exact hs.header,
    by rw [h1]; exact hs.mlr_len, by rw [h1]; exact hs.mlr_type, by rw [h2]; exact hs.mpili_len,
    by rw [h3]; exact hs.mbk_len, by rw [h4]; exact hs.catalog⟩

theorem fill_added (s : Writer) (a : List Nat) (h : s.ipos + a.length ≤ s.mbuf.length) :
    Added s (fill s a) :=
  ⟨poke_length s.mbuf s.ipos a h,
   take_poke_below s.mbuf s.ipos s.ipos a (Nat.le_refl _) (by omega),
   Nat.le_add_right _ _, rfl, rfl, rfl, rfl, rfl, rfl, rfl⟩

theorem fill_healthy (e : Env) (s : Writer) (a : List Nat) (hs : Healthy e s)
    (h : s.ipos + a.length ≤ e.NWREC) : Healthy e (fill s a) :=
  (fill_added s a (by rw [hs.buflen]; exact h)).healthy hs h rfl rfl rfl rfl

/-- A state that holds a freshly staged continuation header is healthy. -/
theorem Healthy.of_steer {e : Env} {s1 t : Writer} {cm : List Nat} (h1 : Healthy e s1)
    (hst : Static s1 t) (hsy : Synced e t cm) (hcm : cm.length % e.NWREC = 0)
    (hip : 8 ≤ t.ipos) (y : Nat)
    (hm : t.mpr = (s1.mpr.set 5 ((s1.irec + 1) % U32)).set 6 y)
    (hir : t.irec = (s1.irec + 1) % U32) (hhdr : t.mbuf.take 8 = t.mpr.map e.swap) :
    Healthy e t := by
  obtain ⟨p1, p2, p3, p4, _⟩ := steering_template e s1.mpr ((s1.irec + 1) % U32) y
    h1.mpr_len h1.mpr_sig h1.mpr_fast
  exact ⟨hsy.isOpen, hsy.noError, hsy.buflen, hip, hsy.ipos_le, hsy.wpos_le,
    ⟨cm, hsy.behind_eq, hcm⟩, by rw [hm]; exact p1, by rw [hm]; exact p2,
    by rw [hm, hir]; exact p3, by rw [hm]; exact p4, by rw [hir]; exact Nat.mod_lt _ (by decide),
    hhdr, by rw [hst.mlr]; exact h1.mlr_len, by rw [hst.mlr]; exact h1.mlr_type,
    by rw [hst.mpili]; exact h1.mpili_len, by rw [hst.mbk]; exact h1.mbk_len,
    by rw [hst.sBankDef]; exact h1.catalog⟩

theorem contHeader_length (e : Env) (s : Writer) (n : Nat) (h : s.mpr.length = 8) :
    (contHeader e s n).length = 8 := by
  simp [contHeader, h]

theorem take_header (hdr rest buf : List Nat) (n : Nat) (hl : hdr.length = 8) (hn : 8 ≤ n)
    (h : buf.take n = hdr ++ rest) : buf.take 8 = hdr := by
  have h2 := congrArg (List.take 8) h
  rw [List.take_take, Nat.min_eq_left hn, List.take_left' hl] at h2
  exact h2

theorem payloadOf_length (e : Env) (s : Writer) (bank : List Nat) (index : Nat) :
    (payloadOf e s bank index).length = (prepared e s bank index).1.nsize :=
  window_length _ _

/-- The record fits into the current block: the call transfers nothing and leaves the
payload behind the staged headers. -/
theorem WriteBank_fits (e : Env) (hwf : e.WellFormed) (hio : e.NoFail) (s : Writer)
    (hs : Healthy e s) (bank : List Nat) (index : Nat) (hidx : index < NUM_BANKS)
    (hne : index ≠ kMASTindex) (hT : totalOf e s bank index ≤ e.NWREC) :
    WriteBank e s bank index
      = (0, fill (preLoop e s bank index) (payloadOf e s bank index), bankAfter e s bank index)
    ∧ Healthy e (fill (preLoop e s bank index) (payloadOf e s bank index)) := by
  obtain ⟨cm, hsy, hcm⟩ := hs.toSynced
  obtain ⟨a1, a2, a3, a4, a5, a6, cm2, a7, a8, _⟩ :=
    preLoop_ok e hwf hio s hs bank index hidx hne cm hsy hcm
  have hlen : (preLoop e s bank index).ipos + (payloadOf e s bank index).length ≤ e.NWREC := by
    rw [payloadOf_length]; exact hT
  have hloop := payloadLoop_fill_all e (payloadOf e s bank index) (preLoop e s bank index) false
    a3.buflen hlen
  exact ⟨WriteBank_slow e s bank index _ hs.isOpen hne a1 hloop a3.noError,
    fill_healthy e _ _ a3 hlen⟩

/-- The payload crosses the block boundary once and the rest fits behind a continuation
header: one block is transferred. -/
theorem WriteBank_continues (e : Env) (hwf : e.WellFormed) (hio : e.NoFail) (s : Writer)
    (hs : Healthy e s) (bank : List Nat) (index : Nat) (hidx : index < NUM_BANKS)
    (hne : index ≠ kMASTindex) (cm2 : List Nat) (hsy2 : Synced e (preLoop e s bank index) cm2)
    (hcm2 : cm2.length % e.NWREC = 0)
    (hT1 : e.NWREC < totalOf e s bank index)
    (hT2 : totalOf e s bank index ≤ 2 * e.NWREC - NPHREC) :
    ∃ t, WriteBank e s bank index = (0, t, bankAfter e s bank index)
      ∧ Healthy e t
      ∧ Synced e t (cm2 ++ (regionOf e s bank index).take e.NWREC)
      ∧ t.mWritePos = 0
      ∧ t.ipos = 8 + (totalOf e s bank index - e.NWREC)
      ∧ t.mbuf.take t.ipos
          = contHeader e (preLoop e s bank index) (totalOf e s bank index - e.NWREC)
            ++ (regionOf e s bank index).drop e.NWREC
      ∧ t.irec = ((preLoop e s bank index).irec + 1) % U32
      ∧ Static (preLoop e s bank index) t := by
  obtain ⟨cm, hsy, hcm⟩ := hs.toSynced
  obtain ⟨a1, a2, a3, a4, a5, a6, _⟩ :=
    preLoop_ok e hwf hio s hs bank index hidx hne cm hsy hcm
  have hW : 8 ≤ e.NWREC := by
    have := overhead_bound e hwf s hs bank index hidx hne
    unfold NPHREC at this; omega
  unfold totalOf at hT1 hT2
  unfold NPHREC at hT2
  obtain ⟨t, ht, p1, p2, p3, p4, p5, p6, p7⟩ := payloadLoop_steer e hio (preLoop e s bank index)
    cm2 (payloadOf e s bank index) false hsy2 hW a3.mpr_len
    (by rw [payloadOf_length]; exact hT1) (by rw [payloadOf_length]; exact hT2)
  rw [payloadOf_length] at p3 p4 p6
  have hR : ((preLoop e s bank index).mbuf.take (preLoop e s bank index).ipos
      ++ payloadOf e s bank index).length ≥ e.NWREC := by
    rw [List.length_append, payloadOf_length, List.length_take, a3.buflen]
    have := a3.ipos_le
    omega
  have hhdr : t.mbuf.take 8 = t.mpr.map e.swap := by
    rw [take_header _ _ _ _ (contHeader_length e _ _ a3.mpr_len) (by rw [p3]; omega) p4, p6]
    rfl
  refine ⟨t, WriteBank_slow e s bank index t hs.isOpen hne a1 ht (p7.mError.trans a3.noError),
    ?_, p1, p2, p3, p4, p5, p7⟩
  refine Healthy.of_steer a3 p7 p1 ?_ (by rw [p3]; omega) _ p6 p5 hhdr
  rw [List.length_append, List.length_take, Nat.min_eq_left hR]
  simp [hcm2]

theorem regionOf_length (e : Env) (s : Writer) (bank : List Nat) (index : Nat)
    (h : (preLoop e s bank index).ipos ≤ (preLoop e s bank index).mbuf.length) :
    (regionOf e s bank index).length = totalOf e s bank index := by
  unfold regionOf totalOf
  rw [List.length_append, payloadOf_length, List.length_take, Nat.min_eq_left h]

theorem steeringOf_length (e : Env) (s : Writer) (bank : List Nat) (index : Nat)
    (h : (preLoop e s bank index).ipos ≤ (preLoop e s bank index).mbuf.length)
    (hT : e.NWREC ≤ totalOf e s bank index) : (steeringOf e s bank index).length = e.NWREC := by
  unfold steeringOf
  rw [List.length_set, List.length_take, regionOf_length e s bank index h, Nat.min_eq_left hT]

theorem tailOf_length (e : Env) (s : Writer) (bank : List Nat) (index : Nat)
    (h : (preLoop e s bank index).ipos ≤ (preLoop e s bank index).mbuf.length) :
    (tailOf e s bank index).length = nleftOf e s bank index := by
  unfold tailOf nleftOf
  rw [List.length_drop, regionOf_length e s bank index h]

/-- The first crossing enters fast mode and the payload ends inside the last fast block:
the steering block, the full fast blocks and the padded last fast block are transferred,
then a new steering header is staged. -/
theorem WriteBank_fast_padded (e : Env) (hwf : e.WellFormed) (hio : e.NoFail) (s : Writer)
    (hs : Healthy e s) (bank : List Nat) (index : Nat) (hidx : index < NUM_BANKS)
    (hne : index ≠ kMASTindex) (cm2 : List Nat) (hsy2 : Synced e (preLoop e s bank index) cm2)
    (hcm2 : cm2.length % e.NWREC = 0)
    (hT : 2 * e.NWREC - NPHREC < totalOf e s bank index)
    (hk : nleftOf e s bank index ≤ nfastOf e (nleftOf e s bank index) * e.NWREC) :
    ∃ t, WriteBank e s bank index = (0, t, bankAfter e s bank index)
      ∧ Healthy e t
      ∧ Synced e t (cm2 ++ steeringOf e s bank index
          ++ (tailOf e s bank index).take ((nfastOf e (nleftOf e s bank index) - 1) * e.NWREC)
          ++ ((tailOf e s bank index).drop ((nfastOf e (nleftOf e s bank index) - 1) * e.NWREC)
              ++ padWords e (nleftOf e s bank index
                  - (nfastOf e (nleftOf e s bank index) - 1) * e.NWREC)))
      ∧ t.mWritePos = 0
      ∧ t.ipos = 8
      ∧ t.irec = ((preLoop e s bank index).irec + 1) % U32
      ∧ Static (preLoop e s bank index) t := by
  obtain ⟨cm, hsy, hcm⟩ := hs.toSynced
  obtain ⟨a1, a2, a3, a4, a5, a6, a7⟩ :=
    preLoop_ok e hwf hio s hs bank index hidx hne cm hsy hcm
  clear a7
  have hW : 8 ≤ e.NWREC := by
    have := overhead_bound e hwf s hs bank index hidx hne
    unfold NPHREC at this; omega
  have hnl : nleftOf e s bank index > e.NWREC - NPHREC := by
    unfold nleftOf
    unfold NPHREC at hT ⊢
    omega
  have hw0 : (preLoop e s bank index).mWritePos = 0 := by
    by_contra h
    have := a6 h
    unfold totalOf at hT
    omega
  have hible : (preLoop e s bank index).ipos ≤ (preLoop e s bank index).mbuf.length := by
    rw [a3.buflen]; exact a3.ipos_le
  have hT' : (preLoop e s bank index).ipos + (payloadOf e s bank index).length
      > 2 * e.NWREC - NPHREC := by
    rw [payloadOf_length]; exact hT
  have hfm := (payloadLoop_fastmode e hio hW (preLoop e s bank index) cm2
    (payloadOf e s bank index) hsy2 hw0 a3.mpr_len hT').1
  rw [payloadOf_length] at hfm
  obtain ⟨t0, ht0, p1, p2, p3, p4, p5, p6, p7⟩ := hfm hk
  clear hfm
  have hnb := nfastOf_bounds e (nleftOf e s bank index) hW hnl
  have hTW : e.NWREC ≤ totalOf e s bank index := by unfold NPHREC at hT; omega
  have hcm3 : (cm2 ++ steeringOf e s bank index
      ++ (tailOf e s bank index).take ((nfastOf e (nleftOf e s bank index) - 1) * e.NWREC)).length
      % e.NWREC = 0 := by
    rw [List.length_append, List.length_append, steeringOf_length e s bank index hible hTW,
      List.length_take, tailOf_length e s bank index hible,
      Nat.min_eq_left (by omega)]
    simp [Nat.add_mod, hcm2]
  obtain ⟨b1, b2, b3, b4, b5, b6, b7, b8, b9, b10⟩ :=
    startBlock_from e hio (preLoop e s bank index) t0 _ a3 p7 p6 p5 p1 hcm3 hW
  refine ⟨newSteering e (WritePhysicalRecord e t0).2,
    WriteBank_fast e s bank index t0 hs.isOpen hne a1 ht0 p1.noError b2, ?_, ?_, ?_, ?_, ?_, ?_⟩
  · rw [← b3]; exact b4
  · rw [← b3]
    rw [p4, p3] at b5
    exact b5
  · rw [← b3]; exact b6
  · rw [← b3]; exact b7
  · rw [← b3]; exact b8
  · rw [← b3]; exact b10

/-- The first crossing enters fast mode and the payload extends beyond the fast blocks:
the steering block and the fast blocks are transferred, then the rest of the payload
follows a continuation header. -/
theorem WriteBank_fast_continued (e : Env) (hwf : e.WellFormed) (hio : e.NoFail) (s : Writer)
    (hs : Healthy e s) (bank : List Nat) (index : Nat) (hidx : index < NUM_BANKS)
    (hne : index ≠ kMASTindex) (cm2 : List Nat) (hsy2 : Synced e (preLoop e s bank index) cm2)
    (hcm2 : cm2.length % e.NWREC = 0)
    (hT : 2 * e.NWREC - NPHREC < totalOf e s bank index)
    (hk : nfastOf e (nleftOf e s bank index) * e.NWREC < nleftOf e s bank index) :
    ∃ t, WriteBank e s bank index = (0, t, bankAfter e s bank index)
      ∧ Healthy e t
      ∧ Synced e t (cm2 ++ steeringOf e s bank index
          ++ (tailOf e s bank index).take (nfastOf e (nleftOf e s bank index) * e.NWREC))
      ∧ t.mWritePos = 0
      ∧ t.ipos = 8 + (nleftOf e s bank index - nfastOf e (nleftOf e s bank index) * e.NWREC)
      ∧ t.mbuf.take t.ipos
          = contHeader e (preLoop e s bank index)
              (nleftOf e s bank index - nfastOf e (nleftOf e s bank index) * e.NWREC)
            ++ (tailOf e s bank index).drop (nfastOf e (nleftOf e s bank index) * e.NWREC)
      ∧ t.irec = ((preLoop e s bank index).irec + 1) % U32
      ∧ Static (preLoop e s bank index) t := by
  obtain ⟨cm, hsy, hcm⟩ := hs.toSynced
  obtain ⟨a1, a2, a3, a4, a5, a6, a7⟩ :=
    preLoop_ok e hwf hio s hs bank index hidx hne cm hsy hcm
  clear a7
  have hW : 8 ≤ e.NWREC := by
    have := overhead_bound e hwf s hs bank index hidx hne
    unfold NPHREC at this; omega
  have hnl : nleftOf e s bank index > e.NWREC - NPHREC := by
    unfold nleftOf
    unfold NPHREC at hT ⊢
    omega
  have hw0 : (preLoop e s bank index).mWritePos = 0 := by
    by_contra h
    have := a6 h
    unfold totalOf at hT
    omega
  have hible : (preLoop e s bank index).ipos ≤ (preLoop e s bank index).mbuf.length := by
    rw [a3.buflen]; exact a3.ipos_le
  have hT' : (preLoop e s bank index).ipos + (payloadOf e s bank index).length
      > 2 * e.NWREC - NPHREC := by
    rw [payloadOf_length]; exact hT
  have hfm := (payloadLoop_fastmode e hio hW (preLoop e s bank index) cm2
    (payloadOf e s bank index) hsy2 hw0 a3.mpr_len hT').2
  rw [payloadOf_length] at hfm
  obtain ⟨t, ht, p1, p2, p3, p4, p5, p6, p7⟩ := hfm hk
  clear hfm
  have hTW : e.NWREC ≤ totalOf e s bank index := by unfold NPHREC at hT; omega
  have hcm3 : (cm2 ++ steeringOf e s bank index
      ++ (tailOf e s bank index).take (nfastOf e (nleftOf e s bank index) * e.NWREC)).length
      % e.NWREC = 0 := by
    rw [List.length_append, List.length_append, steeringOf_length e s bank index hible hTW,
      List.length_take, tailOf_length e s bank index hible,
      Nat.min_eq_left (Nat.le_of_lt hk)]
    simp [Nat.add_mod, hcm2]
  have hhdr : t.mbuf.take 8 = t.mpr.map e.swap := by
    rw [take_header _ _ _ _ (contHeader_length e _ _ a3.mpr_len) (by rw [p3]; omega) p4, p6]
    rfl
  exact ⟨t, WriteBank_slow e s bank index t hs.isOpen hne a1 ht p1.noError,
    Healthy.of_steer a3 p7 p1 hcm3 (by rw [p3]; omega) _ p6 p5 hhdr, p1, p2, p3, p4, p5, p7⟩

/-! ### The freshly constructed writer -/

theorem CatalogOK_init (e : Env) : CatalogOK e (sBankDefInit e) := by
  refine ⟨rfl, fun i hi => ⟨rfl, rfl, rfl, rfl, fun _ => rfl, ?_, rfl, fun _ => rfl⟩⟩
  unfold NUM_BANKS at hi
  interval_cases i <;> rfl

theorem new_fresh_healthy (e : Env) (name : String) (calcMD5 : Bool) (hname : name ≠ "")
    (hW : 8 ≤ e.NWREC) :
    Healthy e (new e (some name) calcMD5 none true)
    ∧ Synced e (new e (some name) calcMD5 none true) []
    ∧ (new e (some name) calcMD5 none true).ipos = 8
    ∧ (new e (some name) calcMD5 none true).irec = 0
    ∧ (new e (some name) calcMD5 none true).mWritePos = 0
    ∧ (new e (some name) calcMD5 none true).ahead = []
    ∧ (new e (some name) calcMD5 none true).mpr
        = [e.ZEBRA_SIG0, e.ZEBRA_SIG1, e.ZEBRA_SIG2, e.ZEBRA_SIG3, e.NWREC, 0, NPHREC, 0]
    ∧ (new e (some name) calcMD5 none true).mbuf
        = stagedHeader e 0 ++ List.replicate (e.NWREC - 8) 0 := by
  have hn : ¬ (some name = none ∨ some name = some "") := by simp [hname]
  have hm : (new e (some name) calcMD5 none true).mbuf
      = stagedHeader e 0 ++ List.replicate (e.NWREC - 8) 0 := by
    unfold new
    rw [if_neg hn]
    simp only [initRecords]
    rw [AddRecord_mbuf e _ _ _ rfl (Nat.zero_le _)]
    simp [poke, stagedHeader, U32]
  have hlen : (new e (some name) calcMD5 none true).mbuf.length = e.NWREC := by
    rw [hm]
    simp [stagedHeader]
    omega
  have hip : (new e (some name) calcMD5 none true).ipos = 8 := by
    unfold new
    rw [if_neg hn]
    simp [initRecords, AddRecord]
  have hmpr : (new e (some name) calcMD5 none true).mpr
      = [e.ZEBRA_SIG0, e.ZEBRA_SIG1, e.ZEBRA_SIG2, e.ZEBRA_SIG3, e.NWREC, 0, NPHREC, 0] := by
    unfold new
    rw [if_neg hn]
    simp [initRecords, AddRecord, U32]
  have hrest : (new e (some name) calcMD5 none true).zdaboutput = true
      ∧ (new e (some name) calcMD5 none true).mError = 0
      ∧ (new e (some name) calcMD5 none true).mWritePos = 0
      ∧ (new e (some name) calcMD5 none true).behind = []
      ∧ (new e (some name) calcMD5 none true).ahead = []
      ∧ (new e (some name) calcMD5 none true).irec = 0
      ∧ (new e (some name) calcMD5 none true).mlr = [0, 2]
      ∧ (new e (some name) calcMD5 none true).mpili.length = 12
      ∧ (new e (some name) calcMD5 none true).mbk.length = 9
      ∧ (new e (some name) calcMD5 none true).sBankDef = sBankDefInit e := by
    unfold new
    rw [if_neg hn]
    simp [initRecords, AddRecord, U32]
  obtain ⟨r1, r2, r3, r4, r5, r6, r7, r8, r9, r10⟩ := hrest
  have hsy : Synced e (new e (some name) calcMD5 none true) [] :=
    ⟨r1, r2, hlen, by rw [hip]; exact hW, by rw [r3]; exact Nat.zero_le _, by rw [r4, r3]; rfl⟩
  refine ⟨⟨r1, r2, hlen, by rw [hip]; exact Nat.le_refl _, by rw [hip]; exact hW,
    by rw [r3]; exact Nat.zero_le _, ⟨[], hsy.behind_eq, by simp⟩, by rw [hmpr]; rfl,
    by rw [hmpr]; rfl, by rw [hmpr, r6]; rfl, by rw [hmpr]; rfl, by rw [r6]; decide, ?_,
    by rw [r7]; rfl, by rw [r7]; rfl, r8, r9, by rw [r10]; exact CatalogOK_init e⟩,
    hsy, hip, r6, r3, r5, hmpr, hm⟩
  rw [hm, hmpr]
  simp [stagedHeader, NPHREC]

theorem okEnv_wellFormed : okEnv.WellFormed :=
  ⟨bswap32_bswap32, by decide, by decide, rfl⟩

theorem okEnv_noFail : okEnv.NoFail := fun _ => rfl

/-! ### C1: the fast-block count -/

theorem take_append_pad (tl pad : List Nat) (n : Nat) (h : tl.length + pad.length = n) :
    (tl ++ pad).take n = tl ++ pad :=
  List.take_of_length_le (by rw [List.length_append]; omega)

/-- C1: a `WriteBank` call on a healthy writer, no stdio failure, whose payload has
`nleft > NWREC - NPHREC` words left at the first crossing of a block boundary.  The call
returns 0.  With `k = nfastOf nleft` (the ceiling of `(nleft - (NWREC - NPHREC)) / NWREC`)
the words it transfers after those transferred before the payload loop are: the steering
block, whose word 7 is `k` in wire order, followed by exactly `k` blocks made of the
payload words behind the crossing and the final padding, without any header; after
that the writer is healthy again, with a steering header staged in the buffer. -/
theorem C1_fast_block_count (e : Env) (hwf : e.WellFormed) (hio : e.NoFail) (s : Writer)
    (hs : Healthy e s) (bank : List Nat) (index : Nat) (hidx : index < NUM_BANKS)
    (hne : index ≠ kMASTindex)
    (hfast : nleftOf e s bank index > e.NWREC - NPHREC) :
    (WriteBank e s bank index).1 = 0
    ∧ nfastOf e (nleftOf e s bank index)
        = (nleftOf e s bank index - (e.NWREC - NPHREC) + e.NWREC - 1) / e.NWREC
    ∧ (nfastOf e (nleftOf e s bank index) - 1) * e.NWREC
        < nleftOf e s bank index - (e.NWREC - NPHREC)
    ∧ nleftOf e s bank index - (e.NWREC - NPHREC) ≤ nfastOf e (nleftOf e s bank index) * e.NWREC
    ∧ (steeringOf e s bank index).length = e.NWREC
    ∧ (steeringOf e s bank index).getD 7 0 = e.swap (nfastOf e (nleftOf e s bank index))
    ∧ (WriteBank e s bank index).2.1.behind
        = (preLoop e s bank index).behind ++ steeringOf e s bank index
          ++ (tailOf e s bank index
              ++ padWords e (nleftOf e s bank index
                  - (nfastOf e (nleftOf e s bank index) - 1) * e.NWREC)).take
              (nfastOf e (nleftOf e s bank index) * e.NWREC)
    ∧ ((tailOf e s bank index
          ++ padWords e (nleftOf e s bank index
              - (nfastOf e (nleftOf e s bank index) - 1) * e.NWREC)).take
          (nfastOf e (nleftOf e s bank index) * e.NWREC)).length
        = nfastOf e (nleftOf e s bank index) * e.NWREC
    ∧ (WriteBank e s bank index).2.1.mWritePos = 0
    ∧ Healthy e (WriteBank e s bank index).2.1 := by
  obtain ⟨cm, hsy, hcm⟩ := hs.toSynced
  obtain ⟨a1, a2, a3, a4, a5, a6, cm2, a7, a8, a9⟩ :=
    preLoop_ok e hwf hio s hs bank index hidx hne cm hsy hcm
  clear a9
  have hW : 8 ≤ e.NWREC := by
    have := overhead_bound e hwf s hs bank index hidx hne
    unfold NPHREC at this; omega
  obtain ⟨k1, k2, k3⟩ := nfastOf_bounds e _ hW hfast
  have hceil := nfastOf_eq_ceil e _ hW hfast
  have hT : 2 * e.NWREC - NPHREC < totalOf e s bank index := by
    unfold nleftOf at hfast
    unfold NPHREC at hfast ⊢
    omega
  have hw0 : (preLoop e s bank index).mWritePos = 0 := by
    by_contra h
    have := a6 h
    unfold totalOf at hT
    omega
  have hbeh : (preLoop e s bank index).behind = cm2 := by
    rw [a7.behind_eq, hw0, List.take_zero, List.append_nil]
  have hible : (preLoop e s bank index).ipos ≤ (preLoop e s bank index).mbuf.length := by
    rw [a3.buflen]; exact a3.ipos_le
  have hTW : e.NWREC ≤ totalOf e s bank index := by unfold NPHREC at hT; omega
  have hsl := steeringOf_length e s bank index hible hTW
  have htl := tailOf_length e s bank index hible
  have hget : (steeringOf e s bank index).getD 7 0
      = e.swap (nfastOf e (nleftOf e s bank index)) := by
    unfold steeringOf at hsl ⊢
    rw [List.length_set] at hsl
    rw [List.getD_eq_getElem?_getD, List.getElem?_set, if_pos rfl, if_pos (by rw [hsl]; omega)]
    rfl
  have hexp : nfastOf e (nleftOf e s bank index) * e.NWREC
      = (nfastOf e (nleftOf e s bank index) - 1) * e.NWREC + e.NWREC := by
    obtain ⟨j, hj⟩ : ∃ j, nfastOf e (nleftOf e s bank index) = j + 1 :=
      ⟨nfastOf e (nleftOf e s bank index) - 1, by omega⟩
    rw [hj, Nat.add_sub_cancel]
    ring
  unfold NPHREC at *
  by_cases hk : nleftOf e s bank index ≤ nfastOf e (nleftOf e s bank index) * e.NWREC
  · obtain ⟨t, ht, q1, q2, q3, q4, q5, q6⟩ :=
      WriteBank_fast_padded e hwf hio s hs bank index hidx hne cm2 a7 a8 hT hk
    have hpl : (tailOf e s bank index).length + (padWords e (nleftOf e s bank index
        - (nfastOf e (nleftOf e s bank index) - 1) * e.NWREC)).length
        = nfastOf e (nleftOf e s bank index) * e.NWREC := by
      rw [htl, padWords_length e _ (by omega)]
      omega
    rw [take_append_pad _ _ _ hpl, List.length_append, hpl, ht]
    refine ⟨rfl, hceil, by omega, by omega, hsl, hget, ?_, rfl, q3, q1⟩
    show t.behind = _
    rw [q2.behind_eq, q3, List.take_zero, List.append_nil, hbeh]
    simp only [List.append_assoc]
    rw [← List.append_assoc ((tailOf e s bank index).take _), List.take_append_drop]
  · obtain ⟨t, ht, q1, q2, q3, q4, q5, q6, q7⟩ :=
      WriteBank_fast_continued e hwf hio s hs bank index hidx hne cm2 a7 a8 hT (by omega)
    have htk : (tailOf e s bank index
        ++ padWords e (nleftOf e s bank index
            - (nfastOf e (nleftOf e s bank index) - 1) * e.NWREC)).take
          (nfastOf e (nleftOf e s bank index) * e.NWREC)
        = (tailOf e s bank index).take (nfastOf e (nleftOf e s bank index) * e.NWREC) :=
      List.take_append_of_le_length (by rw [htl]; omega)
    rw [htk, ht]
    refine ⟨rfl, hceil, by omega, by omega, hsl, hget, ?_, ?_, q3, q1⟩
    · show t.behind = _
      rw [q2.behind_eq, q3, List.take_zero, List.append_nil, hbeh]
    · rw [List.length_take, htl]
      omega

theorem C1_fast_block_count_witness :
    Healthy okEnv (new okEnv (some "run.zdab") false none true)
    ∧ nleftOf okEnv (new okEnv (some "run.zdab") false none true) (List.replicate 2000 7)
        kZDABindex > okEnv.NWREC - NPHREC
    ∧ (WriteBank okEnv (new okEnv (some "run.zdab") false none true) (List.replicate 2000 7)
        kZDABindex).1 = 0
    ∧ (steeringOf okEnv (new okEnv (some "run.zdab") false none true) (List.replicate 2000 7)
        kZDABindex).getD 7 0
        = okEnv.swap (nfastOf okEnv (nleftOf okEnv (new okEnv (some "run.zdab") false none true)
            (List.replicate 2000 7) kZDABindex)) :=
  ⟨(new_fresh_healthy okEnv "run.zdab" false (by decide) (by decide)).1, by decide!,
   (C1_fast_block_count okEnv okEnv_wellFormed okEnv_noFail
      (new okEnv (some "run.zdab") false none true)
      (new_fresh_healthy okEnv "run.zdab" false (by decide) (by decide)).1
      (List.replicate 2000 7) kZDABindex (by decide) (by decide) (by decide!)).1,
   (C1_fast_block_count okEnv okEnv_wellFormed okEnv_noFail
      (new okEnv (some "run.zdab") false none true)
      (new_fresh_healthy okEnv "run.zdab" false (by decide) (by decide)).1
      (List.replicate 2000 7) kZDABindex (by decide) (by decide) (by decide!)).2.2.2.2.2.1⟩


/-! ### C3: the payload words in the output -/

theorem staged_of_synced {e : Env} {s : Writer} {cm : List Nat} (hs : Synced e s cm) :
    staged s = cm ++ s.mbuf.take s.ipos := by
  unfold staged
  rw [hs.behind_eq, List.length_append, List.length_take, hs.buflen,
    Nat.min_eq_left (le_trans hs.wpos_le hs.ipos_le), Nat.add_sub_cancel, List.take_left]

theorem SWAP_INT32_front (e : Env) (b : List Nat) (n : Nat) (h : n ≤ b.length) :
    (SWAP_INT32 e b 0 n).take n = (b.take n).map e.swap := by
  unfold SWAP_INT32
  simp only [List.take_zero, List.drop_zero, List.nil_append, Nat.zero_add]
  exact List.take_left' (by rw [List.length_map, List.length_take]; omega)

theorem payloadOf_eq (e : Env) (s : Writer) (bank : List Nat) (index : Nat)
    (hsize : (prepared e s bank index).1.nsize ≤ bank.length) :
    (index ≠ kZDABindex →
      payloadOf e s bank index = (bank.take (prepared e s bank index).1.nsize).map e.swap)
    ∧ (index = kZDABindex →
      payloadOf e s bank index
        = (SWAP_INT32 e bank 3 1).take (prepared e s bank index).1.nsize) := by
  refine ⟨fun h0 => ?_, fun h0 => ?_⟩
  · have hp : (prepared e s bank index).2.2 = bank := by
      simp [prepared, resolveZDAB, h0]
    unfold payloadOf loopBank
    simp only [hp, if_pos h0]
    rw [window_eq_take _ _ (by rw [SWAP_INT32_length]; exact hsize),
      SWAP_INT32_front e bank _ hsize]
  · subst h0
    have hp : (prepared e s bank kZDABindex).2.2 = SWAP_INT32 e bank 3 1 := by
      simp [prepared, resolveZDAB]
    unfold payloadOf loopBank
    simp only [hp, ne_eq, not_true_eq_false, if_false]
    rw [window_eq_take _ _ (by rw [SWAP_INT32_length]; exact hsize)]

theorem contHeader_magic (e : Env) (s : Writer) (n : Nat) (hlen : s.mpr.length = 8)
    (hsig : s.mpr.take 5 = [e.ZEBRA_SIG0, e.ZEBRA_SIG1, e.ZEBRA_SIG2, e.ZEBRA_SIG3, e.NWREC]) :
    (contHeader e s n).take 4
      = [e.ZEBRA_SIG0, e.ZEBRA_SIG1, e.ZEBRA_SIG2, e.ZEBRA_SIG3].map e.swap := by
  obtain ⟨a0, a1, a2, a3, a4, a5, a6, a7, hm⟩ := list_length_eight s.mpr hlen
  rw [hm] at hsig
  simp at hsig
  unfold contHeader
  rw [hm]
  simp [hsig.1, hsig.2.1, hsig.2.2.1, hsig.2.2.2.1]

theorem add_block_mod (a W : Nat) (h : a % W = 0) : (a + W) % W = 0 := by
  rw [Nat.add_mod_right]; exact h

theorem take_append_drop_append (l : List Nat) (n : Nat) (r : List Nat) :
    l.take n ++ (l.drop n ++ r) = l ++ r := by
  rw [← List.append_assoc, List.take_append_drop]

theorem region_split (e : Env) (s : Writer) (bank : List Nat) (index : Nat)
    (h : (preLoop e s bank index).ipos ≤ (preLoop e s bank index).mbuf.length)
    (hW : (preLoop e s bank index).ipos ≤ e.NWREC) :
    (regionOf e s bank index).take e.NWREC
        = (preLoop e s bank index).mbuf.take (preLoop e s bank index).ipos
          ++ (payloadOf e s bank index).take (e.NWREC - (preLoop e s bank index).ipos)
    ∧ tailOf e s bank index
        = (payloadOf e s bank index).drop (e.NWREC - (preLoop e s bank index).ipos) := by
  have hl : ((preLoop e s bank index).mbuf.take (preLoop e s bank index).ipos).length
      = (preLoop e s bank index).ipos := by rw [List.length_take, Nat.min_eq_left h]
  unfold tailOf regionOf
  rw [List.take_append_eq_append_take, List.drop_append_eq_append_drop, hl,
    List.take_of_length_le (by rw [hl]; exact hW), List.drop_of_length_le (by rw [hl]; exact hW),
    List.nil_append]
  exact ⟨rfl, rfl⟩

theorem steering_split (e : Env) (s : Writer) (bank : List Nat) (index : Nat)
    (h : (preLoop e s bank index).ipos ≤ (preLoop e s bank index).mbuf.length)
    (hW : (preLoop e s bank index).ipos ≤ e.NWREC) (h8 : 8 ≤ (preLoop e s bank index).ipos) :
    steeringOf e s bank index
      = ((preLoop e s bank index).mbuf.take (preLoop e s bank index).ipos).set 7
          (e.swap (nfastOf e (nleftOf e s bank index)))
        ++ (payloadOf e s bank index).take (e.NWREC - (preLoop e s bank index).ipos) := by
  have hl : ((preLoop e s bank index).mbuf.take (preLoop e s bank index).ipos).length
      = (preLoop e s bank index).ipos := by rw [List.length_take, Nat.min_eq_left h]
  unfold steeringOf
  rw [(region_split e s bank index h hW).1, List.set_append, if_pos (by rw [hl]; omega)]
theorem FWriteRaw_full (e : Env) (hio : e.NoFail) (s : Writer) (off n : Nat)
    (hopen : s.zdaboutput = true) :
    (FWriteRaw e s off n).1 = s.mError
    ∧ (FWriteRaw e s off n).2.behind = s.behind ++ (s.mbuf.drop off).take n
    ∧ (FWriteRaw e s off n).2.ahead = s.ahead.drop ((s.mbuf.drop off).take n).length
    ∧ (FWriteRaw e s off n).2.mMD5
        = (if s.mCalcMD5 then s.mMD5 ++ (s.mbuf.drop off).take n else s.mMD5)
    ∧ (FWriteRaw e s off n).2.mBytesWritten = s.mBytesWritten + 4 * n
    ∧ (FWriteRaw e s off n).2.mWritePos = s.mWritePos
    ∧ (FWriteRaw e s off n).2.mbuf = s.mbuf
    ∧ (FWriteRaw e s off n).2.ipos = s.ipos
    ∧ (FWriteRaw e s off n).2.ops = s.ops ++ [FileOp.fwrite ((s.mbuf.drop off).take n).length] := by
  unfold FWriteRaw fwrite
  simp [hio s.ops.length, hopen]

theorem FWrite_full (e : Env) (hio : e.NoFail) (s : Writer)
    (hopen : s.zdaboutput = true) (hlen : s.mbuf.length = e.NWREC) (hw : s.mWritePos ≤ e.NWREC) :
    (FWrite e s 0 e.NWREC).1 = s.mError
    ∧ (FWrite e s 0 e.NWREC).2.behind = s.behind ++ s.mbuf.drop s.mWritePos
    ∧ (FWrite e s 0 e.NWREC).2.ahead = s.ahead.drop (e.NWREC - s.mWritePos)
    ∧ (FWrite e s 0 e.NWREC).2.mMD5
        = (if s.mCalcMD5 then s.mMD5 ++ s.mbuf.drop s.mWritePos else s.mMD5)
    ∧ (FWrite e s 0 e.NWREC).2.mBytesWritten = s.mBytesWritten + 4 * (e.NWREC - s.mWritePos)
    ∧ (FWrite e s 0 e.NWREC).2.mWritePos = 0
    ∧ (FWrite e s 0 e.NWREC).2.mbuf = s.mbuf
    ∧ (FWrite e s 0 e.NWREC).2.ipos = s.ipos := by
  unfold FWrite
  by_cases h0 : s.mWritePos = 0
  · rw [if_neg (by simp [h0])]
    obtain ⟨a1, a2, a3, a4, a5, a6, a7, a8, -⟩ := FWriteRaw_full e hio s 0 e.NWREC hopen
    have ht : (s.mbuf.drop 0).take e.NWREC = s.mbuf := by
      rw [List.drop_zero, List.take_of_length_le (by omega)]
    rw [ht] at a2 a3 a4
    rw [h0, List.drop_zero, Nat.sub_zero]
    rw [hlen] at a3
    exact ⟨a1, a2, a3, a4, a5, a6.trans h0, a7, a8⟩
  · rw [if_pos ⟨h0, rfl⟩]
    by_cases h1 : s.mWritePos ≥ e.NWREC
    · rw [if_pos h1]
      have he : s.mWritePos = e.NWREC := by omega
      have hd : s.mbuf.drop s.mWritePos = [] := List.drop_of_length_le (by omega)
      rw [hd]
      refine ⟨rfl, by simp, by simp [he], by simp, by simp [he], rfl, rfl, rfl⟩
    · rw [if_neg h1]
      obtain ⟨a1, a2, a3, a4, a5, a6, a7, a8, -⟩ :=
        FWriteRaw_full e hio { s with mWritePos := 0 } s.mWritePos (e.NWREC - s.mWritePos) hopen
      have ht : (s.mbuf.drop s.mWritePos).take (e.NWREC - s.mWritePos)
          = s.mbuf.drop s.mWritePos := by
        rw [List.take_of_length_le (by rw [List.length_drop]; omega)]
      dsimp only at a1 a2 a3 a4 a5 a6 a7 a8
      rw [ht] at a2 a3 a4
      rw [List.length_drop, hlen] at a3
      exact ⟨a1, a2, a3, a4, a5, a6, a7, a8⟩

/-! ### Direct requests for the supporting bank -/

/-- C16: on an open writer `WriteBank` with the index of the supporting (MAST) bank
returns 0 and leaves the writer (block buffer, both cursors, sequence counter, catalog,
file) and the caller's buffer exactly as they were. -/
theorem C16_mast_request_is_noop (e : Env) (s : Writer) (bank : List Nat)
    (hopen : s.zdaboutput = true) :
    WriteBank e s bank kMASTindex = (0, s, bank) := by
  unfold WriteBank
  simp [hopen]

theorem C16_mast_request_is_noop_witness :
    (new okEnv (some "run.zdab") false none true).zdaboutput = true
    ∧ WriteBank okEnv (new okEnv (some "run.zdab") false none true) [1, 2, 3] kMASTindex
        = (0, new okEnv (some "run.zdab") false none true, [1, 2, 3]) :=
  ⟨by decide, C16_mast_request_is_noop okEnv _ [1, 2, 3] (by decide)⟩

/-! ### Completing a block -/

/-- C12: `WritePhysicalRecord` on an open writer whose fill cursor `p` is at most `NWREC`
(no stdio failure) keeps the words below `p`; with at least two free words it stores
`NWREC - p - 1` and `5` in wire byte order at `p` and `p + 1` and zeros up to the end of
the block, with one free word it stores a single zero, with none it stores nothing; the
fill cursor and the durable cursor end at 0 and the words of the block from the durable
cursor on are appended to the file. -/
theorem C12_padding_record (e : Env) (hio : e.NoFail) (s : Writer)
    (hopen : s.zdaboutput = true) (hlen : s.mbuf.length = e.NWREC) (hp : s.ipos ≤ e.NWREC)
    (hw : s.mWritePos ≤ e.NWREC) :
    (WritePhysicalRecord e s).2.mbuf.length = e.NWREC
    ∧ (WritePhysicalRecord e s).2.mbuf.take s.ipos = s.mbuf.take s.ipos
    ∧ (s.ipos + 2 ≤ e.NWREC →
        (WritePhysicalRecord e s).2.mbuf.getD s.ipos 0 = e.swap (e.NWREC - s.ipos - 1)
        ∧ (WritePhysicalRecord e s).2.mbuf.getD (s.ipos + 1) 0 = e.swap 5
        ∧ ∀ i, s.ipos + 2 ≤ i → i < e.NWREC → (WritePhysicalRecord e s).2.mbuf.getD i 0 = 0)
    ∧ (s.ipos + 1 = e.NWREC → (WritePhysicalRecord e s).2.mbuf.getD s.ipos 0 = 0)
    ∧ (s.ipos = e.NWREC → (WritePhysicalRecord e s).2.mbuf = s.mbuf)
    ∧ (WritePhysicalRecord e s).2.ipos = 0
    ∧ (WritePhysicalRecord e s).2.mWritePos = 0
    ∧ (WritePhysicalRecord e s).2.behind
        = s.behind ++ (WritePhysicalRecord e s).2.mbuf.drop s.mWritePos := by
  have hbuf := padded_buffer e s.mbuf s.ipos hlen hp
  have hl : (s.mbuf.take s.ipos ++ padWords e s.ipos).length = e.NWREC := by
    rw [List.length_append, padWords_length e _ hp, List.length_take, hlen]
    omega
  have htl : (s.mbuf.take s.ipos).length = s.ipos := by
    rw [List.length_take, hlen]; omega
  obtain ⟨-, r2, -, -, -, r6, r7, r8⟩ := FWrite_full e hio
    { s with mbuf := s.mbuf.take s.ipos ++ padWords e s.ipos, ipos := 0 } hopen hl hw
  have hm : (WritePhysicalRecord e s).2.mbuf = s.mbuf.take s.ipos ++ padWords e s.ipos := by
    unfold WritePhysicalRecord
    simp only [hbuf]
    exact r7
  have hi : (WritePhysicalRecord e s).2.ipos = 0 := by
    unfold WritePhysicalRecord
    simp only [hbuf]
    exact r8
  have hwp : (WritePhysicalRecord e s).2.mWritePos = 0 := by
    unfold WritePhysicalRecord
    simp only [hbuf]
    exact r6
  have hb : (WritePhysicalRecord e s).2.behind
      = s.behind ++ (s.mbuf.take s.ipos ++ padWords e s.ipos).drop s.mWritePos := by
    unfold WritePhysicalRecord
    simp only [hbuf]
    exact r2
  rw [hm]
  refine ⟨hl, List.take_left' htl, ?_, ?_, ?_, hi, hwp, hb⟩
  · intro h2
    have hpad : padWords e s.ipos
        = [e.swap (e.NWREC - s.ipos - 1), e.swap 5] ++ List.replicate (e.NWREC - s.ipos - 2) 0 := by
      unfold padWords
      rw [if_pos (by omega)]
    rw [hpad]
    refine ⟨?_, ?_, ?_⟩
    · rw [List.getD_eq_getElem?_getD, List.getElem?_append_right (by omega), htl]
      simp
    · rw [List.getD_eq_getElem?_getD, List.getElem?_append_right (by omega), htl]
      simp
    · intro i hi1 hi2
      rw [List.getD_eq_getElem?_getD, List.getElem?_append_right (by omega), htl,
        List.getElem?_append_right (by simp; omega)]
      simp only [List.length_cons, List.length_nil]
      rw [List.getElem?_replicate]
      split_ifs <;> rfl
  · intro h1
    have hpad : padWords e s.ipos = [0] := by
      unfold padWords
      rw [if_neg (by omega), if_pos (by omega)]
    rw [hpad, List.getD_eq_getElem?_getD, List.getElem?_append_right (by omega), htl]
    simp
  · intro h0
    have hpad : padWords e s.ipos = [] := by
      unfold padWords
      rw [if_neg (by omega), if_neg (by omega)]
    rw [hpad, List.append_nil, List.take_of_length_le (by omega)]

theorem C12_padding_record_witness :
    (new okEnv (some "run.zdab") false none true).zdaboutput = true
    ∧ (new okEnv (some "run.zdab") false none true).ipos = 8
    ∧ (WritePhysicalRecord okEnv (new okEnv (some "run.zdab") false none true)).2.mbuf.getD 8 0
        = okEnv.swap 891
    ∧ (WritePhysicalRecord okEnv (new okEnv (some "run.zdab") false none true)).2.mbuf.getD 9 0
        = okEnv.swap 5 :=
  ⟨by decide, by decide,
   ((C12_padding_record okEnv okEnv_noFail (new okEnv (some "run.zdab") false none true)
      (by decide) (new_fresh_healthy okEnv "run.zdab" false (by decide) (by decide)).1.buflen
      (by decide) (by decide)).2.2.1 (by decide)).1,
   ((C12_padding_record okEnv okEnv_noFail (new okEnv (some "run.zdab") false none true)
      (by decide) (new_fresh_healthy okEnv "run.zdab" false (by decide) (by decide)).1.buflen
      (by decide) (by decide)).2.2.1 (by decide)).2.1⟩


/-! ### Flush -/

theorem Flush_full (e : Env) (hio : e.NoFail) (s : Writer)
    (hopen : s.zdaboutput = true) (herr : s.mError = 0) (hlen : s.mbuf.length = e.NWREC)
    (hw : s.mWritePos ≤ s.ipos) (hp : s.ipos ≤ e.NWREC) :
    (Flush e s).1 = 0
    ∧ (Flush e s).2.behind = s.behind ++ (s.mbuf.drop s.mWritePos).take (s.ipos - s.mWritePos)
    ∧ (Flush e s).2.ahead = s.ahead.drop (s.ipos - s.mWritePos)
    ∧ (Flush e s).2.mMD5
        = (if s.mCalcMD5 then s.mMD5 ++ (s.mbuf.drop s.mWritePos).take (s.ipos - s.mWritePos)
           else s.mMD5)
    ∧ (Flush e s).2.mBytesWritten = s.mBytesWritten + 4 * (s.ipos - s.mWritePos)
    ∧ (Flush e s).2.mWritePos = s.ipos
    ∧ (Flush e s).2.mbuf = s.mbuf
    ∧ (Flush e s).2.ipos = s.ipos
    ∧ (Flush e s).2.irec = s.irec
    ∧ (Flush e s).2.mpr = s.mpr
    ∧ Static s (Flush e s).2 := by
  by_cases hgt : s.ipos > s.mWritePos
  · have hc : ¬ (s.mWritePos ≠ 0 ∧ s.ipos - s.mWritePos = e.NWREC) := by omega
    have hF : FWrite e s s.mWritePos (s.ipos - s.mWritePos)
        = FWriteRaw e s s.mWritePos (s.ipos - s.mWritePos) := by
      unfold FWrite
      rw [if_neg hc]
    obtain ⟨a1, a2, a3, a4, a5, a6, a7, a8, -⟩ :=
      FWriteRaw_full e hio s s.mWritePos (s.ipos - s.mWritePos) hopen
    obtain ⟨-, -, -, -, -, b6, b7, b8⟩ :=
      FWriteRaw_ok e hio s s.mWritePos (s.ipos - s.mWritePos) hopen
    have hl : ((s.mbuf.drop s.mWritePos).take (s.ipos - s.mWritePos)).length
        = s.ipos - s.mWritePos := by
      rw [List.length_take, List.length_drop, hlen]
      omega
    rw [hl] at a3
    have hfl : Flush e s
        = (0, { (FWriteRaw e s s.mWritePos (s.ipos - s.mWritePos)).2 with
                  mWritePos := (FWriteRaw e s s.mWritePos (s.ipos - s.mWritePos)).2.ipos,
                  ops := (FWriteRaw e s s.mWritePos (s.ipos - s.mWritePos)).2.ops
                          ++ [FileOp.fflush] }) := by
      unfold Flush
      simp only [if_pos hgt, hF, a1, herr, fflush]
      simp [hio _]
    rw [hfl]
    exact ⟨rfl, a2, a3, a4, a5, a8, a7, a8, b6, b7,
      ⟨b8.zdaboutput, b8.mError, b8.mCalcMD5, b8.mlr, b8.mpili, b8.mbk, b8.sBankDef, b8.buflen⟩⟩
  · have he : s.ipos = s.mWritePos := by omega
    have hfl : Flush e s = (0, { s with ops := s.ops ++ [FileOp.fflush] }) := by
      unfold Flush
      simp only [if_neg hgt, fflush]
      simp [hio _]
    rw [hfl]
    refine ⟨rfl, by simp [he], by simp [he], by simp [he], by simp [he], he.symm, rfl, rfl, rfl,
      rfl, ⟨rfl, rfl, rfl, rfl, rfl, rfl, rfl, rfl⟩⟩

theorem WritePhysicalRecord_full (e : Env) (hio : e.NoFail) (s : Writer)
    (hopen : s.zdaboutput = true) (hlen : s.mbuf.length = e.NWREC) (hp : s.ipos ≤ e.NWREC)
    (hw : s.mWritePos ≤ e.NWREC) :
    (WritePhysicalRecord e s).1 = s.mError
    ∧ (WritePhysicalRecord e s).2.behind
        = s.behind ++ (s.mbuf.take s.ipos ++ padWords e s.ipos).drop s.mWritePos
    ∧ (WritePhysicalRecord e s).2.ahead = s.ahead.drop (e.NWREC - s.mWritePos)
    ∧ (WritePhysicalRecord e s).2.mMD5
        = (if s.mCalcMD5 then s.mMD5 ++ (s.mbuf.take s.ipos ++ padWords e s.ipos).drop s.mWritePos
           else s.mMD5)
    ∧ (WritePhysicalRecord e s).2.mBytesWritten = s.mBytesWritten + 4 * (e.NWREC - s.mWritePos)
    ∧ (WritePhysicalRecord e s).2.mWritePos = 0
    ∧ (WritePhysicalRecord e s).2.mbuf = s.mbuf.take s.ipos ++ padWords e s.ipos
    ∧ (WritePhysicalRecord e s).2.ipos = 0 := by
  have hbuf := padded_buffer e s.mbuf s.ipos hlen hp
  have hl : (s.mbuf.take s.ipos ++ padWords e s.ipos).length = e.NWREC := by
    rw [List.length_append, padWords_length e _ hp, List.length_take, hlen]
    omega
  have h := FWrite_full e hio
    { s with mbuf := s.mbuf.take s.ipos ++ padWords e s.ipos, ipos := 0 } hopen hl hw
  unfold WritePhysicalRecord
  simp only [hbuf]
  exact h

/-- C17: on an open writer without error whose durable cursor is 0 and whose fill cursor
`p` is at most `NWREC` (no stdio failure), `Flush` followed by `WritePhysicalRecord`
succeeds and leaves on the file, and in the MD5 accumulator, exactly what
`WritePhysicalRecord` alone leaves there: the former content followed by one block of
`NWREC` words (the `p` filled words and the padding), each word once; both ways the fill
cursor and the durable cursor end at 0 and the byte counter has advanced by `4 * NWREC`. -/
theorem C17_flush_then_block (e : Env) (hio : e.NoFail) (s : Writer)
    (hopen : s.zdaboutput = true) (herr : s.mError = 0) (hlen : s.mbuf.length = e.NWREC)
    (hw : s.mWritePos = 0) (hp : s.ipos ≤ e.NWREC) :
    (Flush e s).1 = 0
    ∧ (WritePhysicalRecord e (Flush e s).2).1 = 0
    ∧ (WritePhysicalRecord e s).1 = 0
    ∧ (s.mbuf.take s.ipos ++ padWords e s.ipos).length = e.NWREC
    ∧ (WritePhysicalRecord e s).2.behind = s.behind ++ (s.mbuf.take s.ipos ++ padWords e s.ipos)
    ∧ (WritePhysicalRecord e (Flush e s).2).2.behind = (WritePhysicalRecord e s).2.behind
    ∧ (WritePhysicalRecord e s).2.mMD5
        = (if s.mCalcMD5 then s.mMD5 ++ (s.mbuf.take s.ipos ++ padWords e s.ipos) else s.mMD5)
    ∧ (WritePhysicalRecord e (Flush e s).2).2.mMD5 = (WritePhysicalRecord e s).2.mMD5
    ∧ (WritePhysicalRecord e s).2.mBytesWritten = s.mBytesWritten + 4 * e.NWREC
    ∧ (WritePhysicalRecord e (Flush e s).2).2.mBytesWritten = s.mBytesWritten + 4 * e.NWREC
    ∧ (WritePhysicalRecord e (Flush e s).2).2.ahead = (WritePhysicalRecord e s).2.ahead
    ∧ (WritePhysicalRecord e s).2.ipos = 0 ∧ (WritePhysicalRecord e s).2.mWritePos = 0
    ∧ (WritePhysicalRecord e (Flush e s).2).2.ipos = 0
    ∧ (WritePhysicalRecord e (Flush e s).2).2.mWritePos = 0 := by
  obtain ⟨f1, f2, f3, f4, f5, f6, f7, f8, -, -, f11⟩ :=
    Flush_full e hio s hopen herr hlen (by omega) hp
  rw [hw, List.drop_zero, Nat.sub_zero] at f2 f4
  rw [hw, Nat.sub_zero] at f3 f5
  have hl : (s.mbuf.take s.ipos ++ padWords e s.ipos).length = e.NWREC := by
    rw [List.length_append, padWords_length e _ hp, List.length_take, hlen]
    omega
  have htl : (s.mbuf.take s.ipos).length = s.ipos := by
    rw [List.length_take, hlen]; omega
  obtain ⟨d1, d2, d3, d4, d5, d6, -, d8⟩ :=
    WritePhysicalRecord_full e hio s hopen hlen hp (by omega)
  rw [hw, List.drop_zero] at d2 d4
  rw [hw, Nat.sub_zero] at d3 d5
  obtain ⟨g1, g2, g3, g4, g5, g6, -, g8⟩ :=
    WritePhysicalRecord_full e hio (Flush e s).2 (f11.zdaboutput.trans hopen) (f7 ▸ hlen)
      (f8 ▸ hp) (f6 ▸ hp)
  rw [f7, f8, f6, List.drop_left' htl] at g2 g4
  rw [f6] at g3 g5
  rw [f2, List.append_assoc] at g2
  rw [f11.mCalcMD5, f4] at g4
  rw [f3, List.drop_drop] at g3
  rw [f5] at g5
  refine ⟨f1, ?_, ?_, hl, d2, g2.trans d2.symm, d4, ?_, d5, ?_, ?_, d8, d6, g8, g6⟩
  · rw [g1, f11.mError, herr]
  · rw [d1, herr]
  · rw [g4, d4]
    cases s.mCalcMD5 <;> simp
  · rw [g5]; omega
  · rw [g3, d3]
    congr 1
    omega

theorem C17_flush_then_block_witness :
    (new okEnv (some "run.zdab") true none true).mWritePos = 0
    ∧ (WritePhysicalRecord okEnv (Flush okEnv (new okEnv (some "run.zdab") true none true)).2).2.behind
        = (WritePhysicalRecord okEnv (new okEnv (some "run.zdab") true none true)).2.behind
    ∧ (WritePhysicalRecord okEnv (Flush okEnv (new okEnv (some "run.zdab") true none true)).2).2.mMD5
        = (WritePhysicalRecord okEnv (new okEnv (some "run.zdab") true none true)).2.mMD5 :=
  ⟨by decide,
   (C17_flush_then_block okEnv okEnv_noFail (new okEnv (some "run.zdab") true none true)
      (by decide) (by decide)
      (new_fresh_healthy okEnv "run.zdab" true (by decide) (by decide)).1.buflen
      (by decide) (by decide)).2.2.2.2.2.1,
   (C17_flush_then_block okEnv okEnv_noFail (new okEnv (some "run.zdab") true none true)
      (by decide) (by decide)
      (new_fresh_healthy okEnv "run.zdab" true (by decide) (by decide)).1.buflen
      (by decide) (by decide)).2.2.2.2.2.2.2.1⟩


/-! ### Members no transfer touches: the catalog, and an empty rest of the file -/

theorem fwrite_kept (e : Env) (s : Writer) (data : List Nat) :
    (fwrite e s data).2.sBankDef = s.sBankDef
    ∧ (s.ahead = [] → (fwrite e s data).2.ahead = []) := by
  unfold fwrite
  split_ifs
  · exact ⟨rfl, fun h => h⟩
  · refine ⟨rfl, fun h => ?_⟩
    simp [h]

theorem FWriteRaw_kept (e : Env) (s : Writer) (off n : Nat) :
    (FWriteRaw e s off n).2.sBankDef = s.sBankDef
    ∧ (s.ahead = [] → (FWriteRaw e s off n).2.ahead = []) := by
  have h := fwrite_kept e s ((s.mbuf.drop off).take n)
  unfold FWriteRaw
  simp only []
  split_ifs <;> exact h

theorem FWrite_kept (e : Env) (s : Writer) (off n : Nat) :
    (FWrite e s off n).2.sBankDef = s.sBankDef
    ∧ (s.ahead = [] → (FWrite e s off n).2.ahead = []) := by
  unfold FWrite
  split_ifs
  · exact ⟨rfl, fun h => h⟩
  · exact FWriteRaw_kept e { s with mWritePos := 0 } _ _
  · exact FWriteRaw_kept e s _ _

theorem WritePhysicalRecord_kept (e : Env) (s : Writer) :
    (WritePhysicalRecord e s).2.sBankDef = s.sBankDef
    ∧ (s.ahead = [] → (WritePhysicalRecord e s).2.ahead = []) := by
  unfold WritePhysicalRecord
  exact FWrite_kept e _ _ _

theorem closeOnError_kept (e : Env) (s : Writer) :
    (closeOnError e s).sBankDef = s.sBankDef ∧ (closeOnError e s).ahead = s.ahead :=
  ⟨rfl, rfl⟩

theorem AddRecord_kept (e : Env) (s : Writer) (data : List Nat) (n : Nat) :
    (AddRecord e s data n).sBankDef = s.sBankDef ∧ (AddRecord e s data n).ahead = s.ahead :=
  ⟨rfl, rfl⟩

theorem newSteering_kept (e : Env) (s : Writer) :
    (newSteering e s).sBankDef = s.sBankDef ∧ (newSteering e s).ahead = s.ahead :=
  ⟨rfl, rfl⟩

theorem startBlock_kept (e : Env) (s : Writer) :
    (startBlock e s).2.sBankDef = s.sBankDef
    ∧ (s.ahead = [] → (startBlock e s).2.ahead = []) := by
  have h := WritePhysicalRecord_kept e s
  unfold startBlock
  simp only []
  split_ifs
  · exact ⟨(closeOnError_kept e _).1.trans h.1, fun h0 => (closeOnError_kept e _).2.trans (h.2 h0)⟩
  · exact ⟨(newSteering_kept e _).1.trans h.1, fun h0 => (newSteering_kept e _).2.trans (h.2 h0)⟩

theorem placeRecord_kept (e : Env) (s : Writer) (z : Sizes) :
    (placeRecord e s z).2.sBankDef = s.sBankDef
    ∧ (s.ahead = [] → (placeRecord e s z).2.ahead = []) := by
  have h1 := startBlock_kept e s
  have h2 := startBlock_kept e (startBlock e s).2
  unfold placeRecord
  simp only []
  split_ifs
  · exact h1
  · exact ⟨h2.1.trans h1.1, fun h0 => h2.2 (h1.2 h0)⟩
  · exact h1
  · exact ⟨rfl, fun h => h⟩
  · exact h1
  · exact ⟨rfl, fun h => h⟩

theorem payloadLoop_kept (e : Env) (ws : List Nat) :
    ∀ (s : Writer) (fast : Bool),
      (payloadLoop e ws s fast).1.sBankDef = s.sBankDef
      ∧ (s.ahead = [] → (payloadLoop e ws s fast).1.ahead = []) := by
  induction ws with
  | nil => intro s fast; exact ⟨rfl, fun h => h⟩
  | cons w ws ih =>
    intro s fast
    unfold payloadLoop
    simp only []
    split_ifs
    · exact ⟨rfl, fun h => h⟩
    · exact ⟨(FWrite_kept e _ _ _).1, fun h0 => (FWrite_kept e _ _ _).2 h0⟩
    · exact ⟨((ih _ _).1.trans (FWrite_kept e _ _ _).1),
        fun h0 => (ih _ _).2 ((FWrite_kept e _ _ _).2 h0)⟩
    · exact ⟨(FWrite_kept e _ _ _).1, fun h0 => (FWrite_kept e _ _ _).2 h0⟩
    · exact ⟨((ih _ _).1.trans (FWrite_kept e _ _ _).1),
        fun h0 => (ih _ _).2 ((FWrite_kept e _ _ _).2 h0)⟩
    · exact ⟨(FWrite_kept e _ _ _).1, fun h0 => (FWrite_kept e _ _ _).2 h0⟩
    · exact ⟨((ih _ _).1.trans (FWrite_kept e _ _ _).1),
        fun h0 => (ih _ _).2 ((FWrite_kept e _ _ _).2 h0)⟩
    · exact ih _ _

theorem prepared_kept (e : Env) (s : Writer) (bank : List Nat) (index : Nat) :
    (prepared e s bank index).2.1.ahead = s.ahead
    ∧ (prepared e s bank index).2.1.sBankDef
        = if index = kZDABindex then
            s.sBankDef.set kZDABindex
              { bankAt s.sBankDef kZDABindex with nwords := e.GetSize bank / 4 }
          else s.sBankDef := by
  unfold prepared resolveZDAB computeSizes
  by_cases h0 : index = kZDABindex
  · simp [h0]
  · simp [h0]

theorem stageHeaders_ahead (e : Env) (s : Writer) (index : Nat) (z : Sizes) :
    (stageHeaders e s index z).ahead = s.ahead := by
  by_cases h0 : index = kZDABindex
  · simp [stageHeaders, stagePilot, stageBankHeader, AddRecord, h0]
  · simp [stageHeaders, stagePilot, stageBankHeader, AddRecord, h0, addMAST]

theorem preLoop_kept (e : Env) (s : Writer) (bank : List Nat) (index : Nat) :
    (s.ahead = [] → (preLoop e s bank index).ahead = [])
    ∧ (preLoop e s bank index).sBankDef
        = if index ≠ kZDABindex then
            (prepared e s bank index).2.1.sBankDef.set kMASTindex
              { bankAt (prepared e s bank index).2.1.sBankDef kMASTindex with
                iochar := mastIochar (placeRecord e (prepared e s bank index).2.1
                  (prepared e s bank index).1).2 index (prepared e s bank index).1 }
          else (prepared e s bank index).2.1.sBankDef := by
  have hp := placeRecord_kept e (prepared e s bank index).2.1 (prepared e s bank index).1
  have ht := (stageHeaders_templates e (placeRecord e (prepared e s bank index).2.1
    (prepared e s bank index).1).2 index (prepared e s bank index).1).2.2.2
  rw [hp.1] at ht
  refine ⟨fun h0 => ?_, ht⟩
  unfold preLoop
  simp only []
  rw [stageHeaders_ahead]
  exact hp.2 ((prepared_kept e s bank index).1.trans h0)

theorem WriteBank_kept (e : Env) (s : Writer) (bank : List Nat) (index : Nat) :
    ((WriteBank e s bank index).2.1.sBankDef = s.sBankDef
      ∨ (WriteBank e s bank index).2.1.sBankDef = (prepared e s bank index).2.1.sBankDef
      ∨ (WriteBank e s bank index).2.1.sBankDef = (preLoop e s bank index).sBankDef)
    ∧ (s.ahead = [] → (WriteBank e s bank index).2.1.ahead = []) := by
  have hp := placeRecord_kept e (prepared e s bank index).2.1 (prepared e s bank index).1
  have hpa := (prepared_kept e s bank index).1
  have hl := payloadLoop_kept e
    (window (loopBank e s bank index) (prepared e s bank index).1.nsize)
    (preLoop e s bank index) false
  have hpl := (preLoop_kept e s bank index).1
  unfold WriteBank
  simp only []
  split_ifs
  · exact ⟨Or.inl rfl, fun h => h⟩
  · exact ⟨Or.inl rfl, fun h => h⟩
  · exact ⟨Or.inr (Or.inl hp.1), fun h0 => hp.2 (hpa.trans h0)⟩
  · exact ⟨Or.inr (Or.inr hl.1), fun h0 => hl.2 (hpl h0)⟩
  · exact ⟨Or.inr (Or.inr ((closeOnError_kept e _).1.trans
        ((WritePhysicalRecord_kept e _).1.trans hl.1))),
      fun h0 => (closeOnError_kept e _).2.trans ((WritePhysicalRecord_kept e _).2 (hl.2 (hpl h0)))⟩
  · exact ⟨Or.inr (Or.inr ((newSteering_kept e _).1.trans
        ((WritePhysicalRecord_kept e _).1.trans hl.1))),
      fun h0 => (newSteering_kept e _).2.trans ((WritePhysicalRecord_kept e _).2 (hl.2 (hpl h0)))⟩
  · exact ⟨Or.inr (Or.inr hl.1), fun h0 => hl.2 (hpl h0)⟩

/-! ### What a call changes in the catalog -/

theorem CatalogKept_refl (d : List SBankDef) : CatalogKept d d :=
  ⟨rfl, fun _ => ⟨rfl, rfl, rfl, rfl, fun _ => rfl, fun _ => rfl, rfl, rfl⟩⟩

theorem CatalogKept_trans {d1 d2 d3 : List SBankDef} (h1 : CatalogKept d1 d2)
    (h2 : CatalogKept d2 d3) : CatalogKept d1 d3 := by
  refine ⟨h2.1.trans h1.1, fun i => ?_⟩
  obtain ⟨a1, a2, a3, a4, a5, a6, a7, a8⟩ := h1.2 i
  obtain ⟨b1, b2, b3, b4, b5, b6, b7, b8⟩ := h2.2 i
  exact ⟨b1.trans a1, b2.trans a2, b3.trans a3, b4.trans a4, fun h => (b5 h).trans (a5 h),
    fun h => (b6 h).trans (a6 h), b7.trans a7, b8.trans a8⟩

theorem CatalogKept_set_nwords (d : List SBankDef) (n : Nat) (hl : kZDABindex < d.length) :
    CatalogKept d (d.set kZDABindex { bankAt d kZDABindex with nwords := n }) := by
  refine ⟨List.length_set _ _ _, fun i => ?_⟩
  rw [bankAt_set d kZDABindex i _ hl]
  by_cases h : kZDABindex = i
  · subst h
    rw [if_pos rfl]
    exact ⟨rfl, rfl, rfl, rfl, fun h => absurd rfl h, fun _ => rfl, rfl, rfl⟩
  · rw [if_neg h]
    exact ⟨rfl, rfl, rfl, rfl, fun _ => rfl, fun _ => rfl, rfl, rfl⟩

theorem CatalogKept_set_mast (d : List SBankDef) (io : List Nat) (hl : kMASTindex < d.length)
    (h1 : io.length = (bankAt d kMASTindex).iochar.length)
    (h0 : io.getD 0 0 = (bankAt d kMASTindex).iochar.getD 0 0) :
    CatalogKept d (d.set kMASTindex { bankAt d kMASTindex with iochar := io }) := by
  refine ⟨List.length_set _ _ _, fun i => ?_⟩
  rw [bankAt_set d kMASTindex i _ hl]
  by_cases h : kMASTindex = i
  · subst h
    rw [if_pos rfl]
    exact ⟨rfl, rfl, rfl, rfl, fun _ => rfl, fun h => absurd rfl h, h1, h0⟩
  · rw [if_neg h]
    exact ⟨rfl, rfl, rfl, rfl, fun _ => rfl, fun _ => rfl, rfl, rfl⟩

set_option maxRecDepth 100000 in
/-- C18, as stated, fails: after a header record (index 2, identifier 5) has been
written to a fresh file, word 21 of the `iochar` array of the supporting bank's catalog
entry holds the link 339, where it held 0 before the call. -/
theorem C18_supporting_links_rewritten :
    (bankAt (new okEnv (some "run.zdab") false none true).sBankDef kMASTindex).iochar.getD 21 0 = 0
    ∧ (WriteBank okEnv (new okEnv (some "run.zdab") false none true) (List.range 20) 2).1 = 0
    ∧ (bankAt (WriteBank okEnv (new okEnv (some "run.zdab") false none true)
        (List.range 20) 2).2.1.sBankDef kMASTindex).iochar.getD 21 0 = 339 := by
  decide

/-- C18, amended: for every call of `WriteBank` with a catalog index, whatever the
payload and the outcome, every field of every catalog entry is the same after the call as
before it, except the word count of the primary bank and the link words of the supporting
bank (the words of its `iochar` array after the first). -/
theorem C18_catalog_frame (e : Env) (s : Writer) (bank : List Nat) (index : Nat)
    (hc : CatalogOK e s.sBankDef) (hidx : index < NUM_BANKS) :
    CatalogKept s.sBankDef (WriteBank e s bank index).2.1.sBankDef := by
  have hlen : s.sBankDef.length = 8 := hc.1
  have hprep : CatalogKept s.sBankDef (prepared e s bank index).2.1.sBankDef := by
    rw [(prepared_kept e s bank index).2]
    split_ifs
    · exact CatalogKept_set_nwords _ _ (by rw [hlen]; decide)
    · exact CatalogKept_refl _
  have hcp : CatalogOK e (prepared e s bank index).2.1.sBankDef := by
    rw [(prepared_kept e s bank index).2]
    split_ifs
    · exact CatalogOK_set_nwords e _ _ hc
    · exact hc
  rcases (WriteBank_kept e s bank index).1 with h | h | h
  · rw [h]; exact CatalogKept_refl _
  · rw [h]; exact hprep
  · rw [h, (preLoop_kept e s bank index).2]
    by_cases h0 : index = kZDABindex
    · rw [if_neg (by simp [h0])]
      exact hprep
    · rw [if_pos h0]
      refine CatalogKept_trans hprep ?_
      have hpk := (placeRecord_kept e (prepared e s bank index).2.1 (prepared e s bank index).1).1
      have hcq : CatalogOK e (placeRecord e (prepared e s bank index).2.1
          (prepared e s bank index).1).2.sBankDef := by rw [hpk]; exact hcp
      have hm : (prepared e s bank index).1.mast_nio_nl = 25 := by
        have h25 := (catalog_entry e _ hc kMASTindex (by decide)).2.1 rfl
        unfold prepared resolveZDAB computeSizes
        simp only [if_neg h0, if_pos h0]
        exact h25
      obtain ⟨m1, m2⟩ := mastIochar_ok e _ index (prepared e s bank index).1 hcq hidx h0 hm
      rw [hpk] at m2
      have hl26 := (catalog_entry e _ hcp kMASTindex (by decide)).2.2.1
      exact CatalogKept_set_mast _ _ (by rw [hcp.1]; decide) (m1.trans hl26.symm) m2

theorem C18_catalog_frame_witness :
    CatalogOK okEnv (new okEnv (some "run.zdab") false none true).sBankDef
    ∧ CatalogKept (new okEnv (some "run.zdab") false none true).sBankDef
        (WriteBank okEnv (new okEnv (some "run.zdab") false none true)
          (List.range 20) 2).2.1.sBankDef :=
  ⟨(new_fresh_healthy okEnv "run.zdab" false (by decide) (by decide)).1.catalog,
   C18_catalog_frame okEnv (new okEnv (some "run.zdab") false none true) (List.range 20) 2
     (new_fresh_healthy okEnv "run.zdab" false (by decide) (by decide)).1.catalog (by decide)⟩


/-! ### The words of the record headers -/

theorem emits_refl (e : Env) (s : Writer) : Emits e s s [] 0 :=
  ⟨by simp, rfl, rfl, rfl⟩

theorem emits_of_eq (e : Env) (s t t2 : Writer) (ws : List Nat) (k : Nat)
    (h : Emits e s t ws k) (hb : t2.mbuf = t.mbuf) (hi : t2.ipos = t.ipos) :
    Emits e s t2 ws k := by
  unfold Emits at *
  rw [hb, hi]
  exact h

theorem emits_AddRecord (e : Env) (s t : Writer) (ws : List Nat) (k k2 : Nat)
    (data : List Nat) (n : Nat) (h : Emits e s t ws k) (hn : n ≤ data.length)
    (hk : k2 = k + n) (hroom : s.ipos + k2 ≤ s.mbuf.length) :
    Emits e s (AddRecord e t data n) (ws ++ data.take n) k2 := by
  obtain ⟨h1, h2, h3, h4⟩ := h
  have hl : (data.take n).length = n := by rw [List.length_take]; omega
  have hA : AddRecord e t data n = AddRecord e t (data.take n) n := by
    unfold AddRecord
    rw [List.take_take, Nat.min_self]
  have hm := AddRecord_mbuf e t (data.take n) n hl.symm (by rw [h3, h4]; omega)
  have hi : (AddRecord e t data n).ipos = t.ipos + n := rfl
  refine ⟨?_, by rw [List.length_append, hl, h2, hk], by rw [hi, h3, hk]; omega, ?_⟩
  · rw [hi, hA, hm]
    have := take_poke_self t.mbuf t.ipos ((data.take n).map e.swap) (by rw [h3, h4]; omega)
    rw [List.length_map, hl] at this
    rw [this, h1, List.map_append, List.append_assoc]
  · rw [hA, hm, poke_length _ _ _ (by rw [List.length_map, hl, h3, h4]; omega), h4]

theorem set_length_ne (defs : List SBankDef) (i j : Nat) (x : SBankDef) (h : i ≠ j) :
    bankAt (defs.set i x) j = bankAt defs j := by
  unfold bankAt
  rw [List.getD_eq_getElem?_getD, List.getD_eq_getElem?_getD, List.getElem?_set, if_neg h]

theorem stagePilot_emits (e : Env) (s : Writer) (z : Sizes) (hmlr : s.mlr.length = 2)
    (hpil : z.npilot ≤ s.mpili.length)
    (hroom : s.ipos + (2 + z.npilot) ≤ s.mbuf.length) :
    Emits e s (stagePilot e s z)
      (s.mlr.set 0 (z.npilot + z.hdr_size + z.nsize)
        ++ (s.mpili.set 7 (z.hdr_size + z.nsize)).take z.npilot) (2 + z.npilot) := by
  unfold stagePilot
  simp only []
  refine emits_AddRecord e s _ _ 2 _ _ _ ?_ (by rw [List.length_set]; exact hpil) rfl hroom
  refine emits_of_eq e s (AddRecord e { s with mlr := s.mlr.set 0 (z.npilot + z.hdr_size + z.nsize) }
    (s.mlr.set 0 (z.npilot + z.hdr_size + z.nsize))
    (s.mlr.set 0 (z.npilot + z.hdr_size + z.nsize)).length) _ _ _ ?_ rfl rfl
  have h := emits_AddRecord e s { s with mlr := s.mlr.set 0 (z.npilot + z.hdr_size + z.nsize) } []
    0 2 (s.mlr.set 0 (z.npilot + z.hdr_size + z.nsize))
    (s.mlr.set 0 (z.npilot + z.hdr_size + z.nsize)).length
    (emits_of_eq e s s _ [] 0 (emits_refl e s) rfl rfl) (Nat.le_refl _)
    (by rw [List.length_set, hmlr]) (by omega)
  rw [List.take_length, List.nil_append] at h
  exact h

theorem addMAST_emits (e : Env) (s t : Writer) (ws : List Nat) (k k2 : Nat) (index : Nat)
    (z : Sizes) (h : Emits e s t ws k)
    (hlen : kMASTindex < t.sBankDef.length)
    (hio : z.mast_nio_nl + 1 ≤ (mastIochar t index z).length)
    (hk : k2 = k + (z.mast_nio_nl + 1) + 9 + e.mMastData.length)
    (hroom : s.ipos + k2 ≤ s.mbuf.length) :
    Emits e s (addMAST e t index z) (ws ++ mastWords e t index z) k2 := by
  have hbk : mastBankHeader (AddRecord e
      { t with sBankDef := (t.sBankDef.set kMASTindex
          ({ bankAt t.sBankDef kMASTindex with iochar := mastIochar t index z } : SBankDef)) }
      (mastIochar t index z) (z.mast_nio_nl + 1)) = mastBankHeader t := by
    unfold mastBankHeader
    simp only [AddRecord]
    rw [bankAt_set _ _ _ _ hlen, if_pos rfl]
  unfold addMAST mastWords
  simp only []
  rw [hbk, ← List.append_assoc, ← List.append_assoc]
  have h3 := emits_AddRecord e s _ _ k (k + (z.mast_nio_nl + 1)) (mastIochar t index z)
    (z.mast_nio_nl + 1)
    (emits_of_eq e s t { t with sBankDef := (t.sBankDef.set kMASTindex
          ({ bankAt t.sBankDef kMASTindex with iochar := mastIochar t index z } : SBankDef)) } ws k h rfl rfl)
    hio rfl (by omega)
  have h4 := emits_AddRecord e s _ _ _ (k + (z.mast_nio_nl + 1) + 9) (mastBankHeader t)
    (mastBankHeader t).length
    (emits_of_eq e s _ { (AddRecord e
      { t with sBankDef := (t.sBankDef.set kMASTindex
          ({ bankAt t.sBankDef kMASTindex with iochar := mastIochar t index z } : SBankDef)) }
      (mastIochar t index z) (z.mast_nio_nl + 1)) with mbk := mastBankHeader t } _ _ h3 rfl rfl)
    (Nat.le_refl _) (by simp [mastBankHeader]) (by omega)
  have h5 := emits_AddRecord e s _ _ _ k2 e.mMastData e.mMastData.length h4 (Nat.le_refl _) hk
    hroom
  rw [List.take_length] at h4 h5
  rw [List.take_length] at h5
  exact h5

theorem stageBankHeader_emits (e : Env) (s t : Writer) (ws : List Nat) (k k2 : Nat)
    (index : Nat) (z : Sizes) (h : Emits e s t ws k)
    (hio : z.nio_nl + 1 ≤ (bankAt t.sBankDef index).iochar.length)
    (hk : k2 = k + (z.nio_nl + 1) + 9) (hroom : s.ipos + k2 ≤ s.mbuf.length) :
    Emits e s (stageBankHeader e t index z)
      (ws ++ (bankAt t.sBankDef index).iochar.take (z.nio_nl + 1)
        ++ payloadBankHeader t index z.nsize) k2 := by
  have hbk : payloadBankHeader (AddRecord e t (bankAt t.sBankDef index).iochar (z.nio_nl + 1))
      index z.nsize = payloadBankHeader t index z.nsize := rfl
  unfold stageBankHeader
  simp only []
  rw [hbk]
  have h3 := emits_AddRecord e s t ws k (k + (z.nio_nl + 1)) (bankAt t.sBankDef index).iochar
    (z.nio_nl + 1) h hio rfl (by omega)
  have h4 := emits_AddRecord e s _ _ _ k2 (payloadBankHeader t index z.nsize)
    (payloadBankHeader t index z.nsize).length
    (emits_of_eq e s _ { (AddRecord e t (bankAt t.sBankDef index).iochar (z.nio_nl + 1)) with
      mbk := payloadBankHeader t index z.nsize } _ _ h3 rfl rfl)
    (Nat.le_refl _) (by simp [payloadBankHeader, hk]) hroom
  rw [List.take_length] at h4
  exact h4

theorem stageHeaders_emits (e : Env) (s : Writer) (index : Nat) (z : Sizes)
    (hne : index ≠ kMASTindex) (hlen : kMASTindex < s.sBankDef.length)
    (hmlr : s.mlr.length = 2) (hpil : z.npilot ≤ s.mpili.length)
    (hio : z.nio_nl + 1 ≤ (bankAt s.sBankDef index).iochar.length)
    (hmio : index ≠ kZDABindex → z.mast_nio_nl + 1 ≤ (mastIochar s index z).length)
    (hz0 : index = kZDABindex → z.hdr_size = 1 + z.nio_nl + NBANK)
    (hz1 : index ≠ kZDABindex → z.hdr_size = 1 + z.nio_nl + NBANK
        + (1 + z.mast_nio_nl + NBANK + e.mMastData.length))
    (hroom : s.ipos + overhead z ≤ s.mbuf.length) :
    Emits e s (stageHeaders e s index z) (recordHeader e s index z) (overhead z) := by
  unfold overhead NLOGIC at *
  have hp := stagePilot_emits e s z hmlr hpil (by omega)
  have hsb : (stagePilot e s z).sBankDef = s.sBankDef := rfl
  have hmb : (stagePilot e s z).mbk = s.mbk := rfl
  unfold stageHeaders recordHeader
  simp only []
  by_cases h0 : index = kZDABindex
  · have hz := hz0 h0
    unfold NBANK at hz
    rw [if_neg (by simp [h0]), if_neg (by simp [h0]), List.append_nil]
    have h := stageBankHeader_emits e s _ _ _ (2 + z.npilot + z.hdr_size) index z hp
      (by rw [hsb]; exact hio) (by omega) hroom
    rw [hsb] at h
    have hb : payloadBankHeader (stagePilot e s z) index z.nsize
        = payloadBankHeader s index z.nsize := by
      unfold payloadBankHeader
      rw [hsb, hmb]
    rw [hb] at h
    exact h
  · have hz := hz1 h0
    unfold NBANK at hz
    rw [if_pos h0, if_pos h0]
    have hm := addMAST_emits e s _ _ _
      (2 + z.npilot + (z.mast_nio_nl + 1) + 9 + e.mMastData.length) index z hp
      (by rw [hsb]; exact hlen)
      (by
        have : mastIochar (stagePilot e s z) index z = mastIochar s index z := by
          unfold mastIochar
          rw [hsb]
        rw [this]
        exact hmio h0) rfl (by omega)
    have hmw : mastWords e (stagePilot e s z) index z = mastWords e s index z := by
      unfold mastWords mastIochar mastBankHeader
      rw [hsb, hmb]
    rw [hmw] at hm
    have hsb2 : bankAt (addMAST e (stagePilot e s z) index z).sBankDef index
        = bankAt s.sBankDef index := by
      unfold addMAST
      simp only [AddRecord]
      rw [hsb, set_length_ne _ _ _ _ (Ne.symm hne)]
    have h := stageBankHeader_emits e s _ _ _ (2 + z.npilot + z.hdr_size) index z hm
      (by rw [hsb2]; exact hio) (by omega) hroom
    have hb : payloadBankHeader (addMAST e (stagePilot e s z) index z) index z.nsize
        = payloadBankHeader s index z.nsize := by
      unfold payloadBankHeader
      rw [hsb2]
      have : (addMAST e (stagePilot e s z) index z).mbk.getD 0 0 = s.mbk.getD 0 0 := by
        unfold addMAST
        simp only [AddRecord, mastBankHeader]
        rw [hmb]
        rfl
      rw [this]
    rw [hsb2, hb] at h
    exact h


/-! ### Close -/

theorem closeBlock (e : Env) (hio : e.NoFail) (r : Writer) (cm : List Nat) (rec : List Nat)
    (hs : Synced e r cm) (hi : r.ipos = 0) (hw : r.mWritePos = 0) (hmpr : r.mpr.length = 8)
    (hrec : 8 + rec.length ≤ e.NWREC) :
    (WritePhysicalRecord e (AddRecord e (AddRecord e r r.mpr r.mpr.length) rec rec.length)).1 = 0
    ∧ Synced e (WritePhysicalRecord e
          (AddRecord e (AddRecord e r r.mpr r.mpr.length) rec rec.length)).2
        (cm ++ (r.mpr.map e.swap ++ rec.map e.swap ++ padWords e (8 + rec.length)))
    ∧ (WritePhysicalRecord e
          (AddRecord e (AddRecord e r r.mpr r.mpr.length) rec rec.length)).2.ipos = 0
    ∧ (WritePhysicalRecord e
          (AddRecord e (AddRecord e r r.mpr r.mpr.length) rec rec.length)).2.mWritePos = 0
    ∧ (WritePhysicalRecord e
          (AddRecord e (AddRecord e r r.mpr r.mpr.length) rec rec.length)).2.mpr = r.mpr
    ∧ (WritePhysicalRecord e
          (AddRecord e (AddRecord e r r.mpr r.mpr.length) rec rec.length)).2.irec = r.irec
    ∧ (r.ahead = [] → (WritePhysicalRecord e
          (AddRecord e (AddRecord e r r.mpr r.mpr.length) rec rec.length)).2.ahead = [])
    ∧ Static r (WritePhysicalRecord e
          (AddRecord e (AddRecord e r r.mpr r.mpr.length) rec rec.length)).2 := by
  have hbl := hs.buflen
  have e1 := emits_AddRecord e r r [] 0 8 r.mpr r.mpr.length (emits_refl e r) (Nat.le_refl _)
    (by rw [hmpr]) (by rw [hi, hbl]; omega)
  have e2 := emits_AddRecord e r _ _ 8 (8 + rec.length) rec rec.length e1 (Nat.le_refl _) rfl
    (by rw [hi, hbl]; omega)
  rw [List.take_length, List.nil_append] at e1 e2
  rw [List.take_length] at e2
  obtain ⟨t, ht⟩ : ∃ t, t = AddRecord e (AddRecord e r r.mpr r.mpr.length) rec rec.length :=
    ⟨_, rfl⟩
  rw [← ht] at e2 ⊢
  obtain ⟨m1, _, m3, m4⟩ := e2
  rw [hi, List.take_zero, List.nil_append, List.map_append] at m1
  rw [hi, Nat.zero_add] at m3
  have hsy : Synced e t cm := by
    refine ⟨?_, ?_, by rw [m4]; exact hbl, by rw [m3]; exact hrec, ?_, ?_⟩
    · rw [ht]; exact hs.isOpen
    · rw [ht]; exact hs.noError
    · rw [ht]; show r.mWritePos ≤ _; omega
    · have hb : t.behind = r.behind := by rw [ht]; rfl
      have hwp : t.mWritePos = 0 := by rw [ht]; exact hw
      rw [hb, hwp, hs.behind_eq, hw]
      simp
  obtain ⟨w1, w2, w3, w4, w5, w6, w7, w8⟩ := WritePhysicalRecord_ok e hio t cm hsy
  rw [m3] at m1
  rw [m3, m1] at w2 w4
  have hl : (WritePhysicalRecord e t).2.mbuf.length = e.NWREC := by
    rw [w8.buflen, m4]; exact hbl
  refine ⟨w1, ⟨?_, ?_, hl, by rw [w5]; omega, by rw [w3]; omega, ?_⟩, w5, w3, ?_, ?_, ?_, ?_⟩
  · rw [w8.zdaboutput]; exact hsy.isOpen
  · rw [w8.mError]; exact hsy.noError
  · rw [w2, w3]; simp
  · rw [w7, ht]; rfl
  · rw [w6, ht]; rfl
  · intro h0
    exact (WritePhysicalRecord_kept e t).2 (by rw [ht]; exact h0)
  · refine ⟨?_, ?_, ?_, ?_, ?_, ?_, ?_, ?_⟩
    · rw [w8.zdaboutput, ht]; rfl
    · rw [w8.mError, ht]; rfl
    · rw [w8.mCalcMD5, ht]; rfl
    · rw [w8.mlr, ht]; rfl
    · rw [w8.mpili, ht]; rfl
    · rw [w8.mbk, ht]; rfl
    · rw [w8.sBankDef, ht]; rfl
    · rw [hl, hbl]

theorem Close_full (e : Env) (hio : e.NoFail) (s : Writer) (cm : List Nat)
    (hs : Synced e s cm) (hmpr : s.mpr.length = 8) (hW : 14 ≤ e.NWREC) :
    (Close e s).1 = 0
    ∧ (Close e s).2.zdaboutput = false
    ∧ (Close e s).2.mError = 0
    ∧ (Close e s).2.behind
        = cm ++ (s.mbuf.take s.ipos ++ padWords e s.ipos) ++ eorBlock e s.mpr ++ eozBlock e s.mpr
    ∧ (s.ahead = [] → (Close e s).2.ahead = [])
    ∧ (Close e s).2.ops.getLast? = some FileOp.fclose := by
  obtain ⟨w1, w2, w3, w4, w5, w6, w7, w8⟩ := WritePhysicalRecord_ok e hio s cm hs
  obtain ⟨r, hr⟩ : ∃ r, r = { (WritePhysicalRecord e s).2 with
      mpr := closingHeader (WritePhysicalRecord e s).2.mpr } := ⟨_, rfl⟩
  have hrm : r.mpr = closingHeader s.mpr := by rw [hr, ← w7]
  have hrl : r.mpr.length = 8 := by
    rw [hrm]; unfold closingHeader; simp [hmpr]
  have hsyr : Synced e r (cm ++ (s.mbuf.take s.ipos ++ padWords e s.ipos)) := by
    refine ⟨?_, ?_, ?_, ?_, ?_, ?_⟩
    · rw [hr]; exact w8.zdaboutput.trans hs.isOpen
    · rw [hr]; exact w8.mError.trans hs.noError
    · rw [hr]; exact w8.buflen.trans hs.buflen
    · rw [hr]; show (WritePhysicalRecord e s).2.ipos ≤ _; rw [w5]; omega
    · rw [hr]; show (WritePhysicalRecord e s).2.mWritePos ≤ (WritePhysicalRecord e s).2.ipos
      rw [w3, w5]
    · rw [hr]; show (WritePhysicalRecord e s).2.behind = _ ++ List.take
        (WritePhysicalRecord e s).2.mWritePos (WritePhysicalRecord e s).2.mbuf
      rw [w2, w3]; simp
  have hri : r.ipos = 0 := by rw [hr]; exact w5
  have hrw : r.mWritePos = 0 := by rw [hr]; exact w3
  obtain ⟨b1, b2, b3, b4, b5, b6, b7, b8⟩ := closeBlock e hio r _ meor hsyr hri hrw hrl
    (by simp [meor]; omega)
  obtain ⟨r2, hr2⟩ : ∃ r2, r2 = (WritePhysicalRecord e
      (AddRecord e (AddRecord e r r.mpr r.mpr.length) meor meor.length)).2 := ⟨_, rfl⟩
  rw [← hr2] at b2 b3 b4 b5 b6 b7 b8
  obtain ⟨c1, c2, c3, c4, c5, c6, c7, c8⟩ := closeBlock e hio r2 _ meoz b2 b3 b4 (b5 ▸ hrl)
    (by simp [meoz]; omega)
  obtain ⟨r3, hr3⟩ : ∃ r3, r3 = (WritePhysicalRecord e
      (AddRecord e (AddRecord e r2 r2.mpr r2.mpr.length) meoz meoz.length)).2 := ⟨_, rfl⟩
  rw [← hr3] at c2 c3 c4 c5 c6 c7 c8
  have hC : Close e s = ((if (fclose e r3).1 then (fclose e r3).2
        else { (fclose e r3).2 with mError := 1 }).mError,
      { (if (fclose e r3).1 then (fclose e r3).2
        else { (fclose e r3).2 with mError := 1 }) with zdaboutput := false }) := by
    unfold Close
    rw [if_pos hs.isOpen]
    simp only []
    rw [hr3, hr2, hr]
    rfl
  have hf : (fclose e r3).1 = true := by
    unfold fclose
    simp [hio _, c2.isOpen]
  rw [hC, if_pos hf]
  refine ⟨c2.noError, rfl, c2.noError, ?_, ?_, ?_⟩
  · show r3.behind = _
    rw [c2.behind_eq, c4, b5, hrm]
    unfold eorBlock eozBlock
    simp [meor, meoz]
  · intro h0
    show r3.ahead = []
    refine c7 (b7 ?_)
    rw [hr]
    exact (WritePhysicalRecord_kept e s).2 h0
  · show (r3.ops ++ [FileOp.fclose]).getLast? = _
    simp

theorem closingHeader_eq (e : Env) (mpr : List Nat) (hl : mpr.length = 8)
    (hsig : mpr.take 5 = [e.ZEBRA_SIG0, e.ZEBRA_SIG1, e.ZEBRA_SIG2, e.ZEBRA_SIG3, e.NWREC]) :
    closingHeader mpr
      = [e.ZEBRA_SIG0, e.ZEBRA_SIG1, e.ZEBRA_SIG2, e.ZEBRA_SIG3, EOR_TAG, 0, NPHREC, 0] := by
  obtain ⟨a0, a1, a2, a3, a4, a5, a6, a7, rfl⟩ := list_length_eight mpr hl
  simp only [List.take, List.cons.injEq, and_true] at hsig
  obtain ⟨h0, h1, h2, h3, -⟩ := hsig
  subst h0 h1 h2 h3
  rfl

/-- C11: `Close` on a healthy open writer (no stdio failure) returns 0, releases the
handle after an `fclose` as its last stdio call, and leaves on the file the whole blocks
written before, the current block completed by the padding of `WritePhysicalRecord`,
and exactly two further blocks of `NWREC` words: the end-of-run block, whose header
carries the magic words, `0x40000f00` in word 4 and sequence number 0, immediately
followed by the record `[1, 1, 0]` and the padding record `[NWREC - 12, 5, 0, ...]`;
and the end-of-container block, the same header immediately followed by the record
`[4, 1, 0xFFFFFFFF, 0, 0, 73]` and the padding record `[NWREC - 15, 5, 0, ...]`
(all words in wire byte order). -/
theorem C11_close_blocks (e : Env) (hwf : e.WellFormed) (hio : e.NoFail) (s : Writer)
    (hs : Healthy e s) (cm : List Nat) (hsy : Synced e s cm) :
    (Close e s).1 = 0
    ∧ (Close e s).2.zdaboutput = false
    ∧ (Close e s).2.ops.getLast? = some FileOp.fclose
    ∧ (Close e s).2.behind
        = cm ++ (s.mbuf.take s.ipos ++ padWords e s.ipos)
          ++ ([e.ZEBRA_SIG0, e.ZEBRA_SIG1, e.ZEBRA_SIG2, e.ZEBRA_SIG3, 0x40000f00, 0, NPHREC, 0].map
                e.swap
              ++ [1, 1, 0].map e.swap
              ++ ([e.swap (e.NWREC - 12), e.swap 5] ++ List.replicate (e.NWREC - 13) 0))
          ++ ([e.ZEBRA_SIG0, e.ZEBRA_SIG1, e.ZEBRA_SIG2, e.ZEBRA_SIG3, 0x40000f00, 0, NPHREC, 0].map
                e.swap
              ++ [4, 1, 0xFFFFFFFF, 0, 0, 73].map e.swap
              ++ ([e.swap (e.NWREC - 15), e.swap 5] ++ List.replicate (e.NWREC - 16) 0))
    ∧ (s.mbuf.take s.ipos ++ padWords e s.ipos).length = e.NWREC
    ∧ (eorBlock e s.mpr).length = e.NWREC
    ∧ (eozBlock e s.mpr).length = e.NWREC := by
  have hW : 70 ≤ e.NWREC := by
    have := hwf.roomy
    unfold NPHREC NLOGIC NPILOT NBANK at this
    omega
  obtain ⟨c1, c2, -, c4, -, c6⟩ := Close_full e hio s cm hsy hs.mpr_len (by omega)
  have hch := closingHeader_eq e s.mpr hs.mpr_len hs.mpr_sig
  have hp11 : padWords e (8 + 3)
      = [e.swap (e.NWREC - 12), e.swap 5] ++ List.replicate (e.NWREC - 13) 0 := by
    unfold padWords
    rw [if_pos (by omega)]
    rfl
  have hp14 : padWords e (8 + 6)
      = [e.swap (e.NWREC - 15), e.swap 5] ++ List.replicate (e.NWREC - 16) 0 := by
    unfold padWords
    rw [if_pos (by omega)]
    rfl
  have he1 : eorBlock e s.mpr
      = [e.ZEBRA_SIG0, e.ZEBRA_SIG1, e.ZEBRA_SIG2, e.ZEBRA_SIG3, 0x40000f00, 0, NPHREC, 0].map e.swap
        ++ [1, 1, 0].map e.swap
        ++ ([e.swap (e.NWREC - 12), e.swap 5] ++ List.replicate (e.NWREC - 13) 0) := by
    unfold eorBlock
    rw [hch, hp11]
    rfl
  have he2 : eozBlock e s.mpr
      = [e.ZEBRA_SIG0, e.ZEBRA_SIG1, e.ZEBRA_SIG2, e.ZEBRA_SIG3, 0x40000f00, 0, NPHREC, 0].map e.swap
        ++ [4, 1, 0xFFFFFFFF, 0, 0, 73].map e.swap
        ++ ([e.swap (e.NWREC - 15), e.swap 5] ++ List.replicate (e.NWREC - 16) 0) := by
    unfold eozBlock
    rw [hch, hp14]
    rfl
  refine ⟨c1, c2, c6, ?_, ?_, ?_, ?_⟩
  · rw [c4, he1, he2]
  · rw [List.length_append, padWords_length e _ hs.ipos_le, List.length_take, hs.buflen]
    have := hs.ipos_le
    omega
  · rw [he1]
    simp
    omega
  · rw [he2]
    simp
    omega

theorem C11_close_blocks_witness :
    Healthy okEnv (new okEnv (some "run.zdab") false none true)
    ∧ (Close okEnv (new okEnv (some "run.zdab") false none true)).1 = 0
    ∧ (Close okEnv (new okEnv (some "run.zdab") false none true)).2.zdaboutput = false :=
  ⟨(new_fresh_healthy okEnv "run.zdab" false (by decide) (by decide)).1,
   (C11_close_blocks okEnv okEnv_wellFormed okEnv_noFail _
      (new_fresh_healthy okEnv "run.zdab" false (by decide) (by decide)).1 []
      (new_fresh_healthy okEnv "run.zdab" false (by decide) (by decide)).2.1).1,
   (C11_close_blocks okEnv okEnv_wellFormed okEnv_noFail _
      (new_fresh_healthy okEnv "run.zdab" false (by decide) (by decide)).1 []
      (new_fresh_healthy okEnv "run.zdab" false (by decide) (by decide)).2.1).2.1⟩


/-! ### A payload that exactly fills the block, and one word more -/

/-- C14: a `WriteBank` call on a healthy writer (no stdio failure); `p` is the fill cursor
right after the record headers have been staged, the file then holds the whole blocks
`cm2` and the flushed part of the buffer.  If the payload has exactly `NWREC - p` words,
the call issues no stdio call and adds nothing to the file during the payload phase and
returns with the fill cursor at `NWREC`; a following `Close` then leaves `cm2`, the full
block without any padding, the end-of-run block and the end-of-container block, three
blocks in all.  If the payload has exactly `NWREC - p + 1` words, the call transfers
exactly one block of `NWREC` words and returns with the fill cursor at `NPHREC + 1`,
the buffer starting with a steering header whose word 6 is `NPHREC + 1` and whose
sequence number is the next one. -/
theorem C14_exact_fit_boundary (e : Env) (hwf : e.WellFormed) (hio : e.NoFail) (s : Writer)
    (hs : Healthy e s) (bank : List Nat) (index : Nat) (hidx : index < NUM_BANKS)
    (hne : index ≠ kMASTindex) :
    ∃ cm2, Synced e (preLoop e s bank index) cm2 ∧ cm2.length % e.NWREC = 0
      ∧ ((prepared e s bank index).1.nsize = e.NWREC - (preLoop e s bank index).ipos →
          ∃ t, WriteBank e s bank index = (0, t, bankAfter e s bank index)
            ∧ t.ipos = e.NWREC
            ∧ t.behind = (preLoop e s bank index).behind
            ∧ t.ops = (preLoop e s bank index).ops
            ∧ t.mWritePos = (preLoop e s bank index).mWritePos
            ∧ padWords e t.ipos = []
            ∧ (Close e t).1 = 0
            ∧ (Close e t).2.behind
                = cm2 ++ regionOf e s bank index ++ eorBlock e t.mpr ++ eozBlock e t.mpr
            ∧ (Close e t).2.behind.length = cm2.length + 3 * e.NWREC)
      ∧ ((prepared e s bank index).1.nsize = e.NWREC - (preLoop e s bank index).ipos + 1 →
          ∃ t, WriteBank e s bank index = (0, t, bankAfter e s bank index)
            ∧ t.behind = cm2 ++ (regionOf e s bank index).take e.NWREC
            ∧ ((regionOf e s bank index).take e.NWREC).length = e.NWREC
            ∧ t.mWritePos = 0
            ∧ t.ipos = NPHREC + 1
            ∧ t.mbuf.take 8
                = (((preLoop e s bank index).mpr.set 5 (((preLoop e s bank index).irec + 1) % U32)).set
                    6 (NPHREC + 1)).map e.swap
            ∧ t.irec = ((preLoop e s bank index).irec + 1) % U32) := by
  obtain ⟨cm, hsy, hcm⟩ := hs.toSynced
  obtain ⟨a1, a2, a3, a4, a5, a6, cm2, a7, a8, a9⟩ :=
    preLoop_ok e hwf hio s hs bank index hidx hne cm hsy hcm
  clear a9
  have hW : 70 ≤ e.NWREC := by
    have := hwf.roomy
    unfold NPHREC NLOGIC NPILOT NBANK at this
    omega
  have hible : (preLoop e s bank index).ipos ≤ (preLoop e s bank index).mbuf.length := by
    rw [a3.buflen]; exact a3.ipos_le
  have hPlen := payloadOf_length e s bank index
  have hRlen := regionOf_length e s bank index hible
  refine ⟨cm2, a7, a8, ?_, ?_⟩
  · intro hn
    have hT : totalOf e s bank index = e.NWREC := by
      unfold totalOf
      have := a3.ipos_le
      omega
    obtain ⟨hw, hh⟩ := WriteBank_fits e hwf hio s hs bank index hidx hne (by omega)
    have hsyt : Synced e (fill (preLoop e s bank index) (payloadOf e s bank index)) cm2 :=
      Synced_fill e _ cm2 _ a7 (by rw [hPlen]; unfold totalOf at hT; omega)
    have hip : (fill (preLoop e s bank index) (payloadOf e s bank index)).ipos = e.NWREC := by
      show (preLoop e s bank index).ipos + (payloadOf e s bank index).length = _
      rw [hPlen]
      unfold totalOf at hT
      exact hT
    have hpad : padWords e (fill (preLoop e s bank index) (payloadOf e s bank index)).ipos = [] := by
      rw [hip]
      unfold padWords
      rw [if_neg (by omega), if_neg (by omega)]
    obtain ⟨c1, -, -, c4, -, -⟩ := Close_full e hio _ cm2 hsyt hh.mpr_len (by omega)
    rw [hpad, List.append_nil, fill_mbuf_take _ _ hible] at c4
    have hreg : (preLoop e s bank index).mbuf.take (preLoop e s bank index).ipos
        ++ payloadOf e s bank index = regionOf e s bank index := rfl
    rw [hreg] at c4
    have hel : (eorBlock e (fill (preLoop e s bank index) (payloadOf e s bank index)).mpr).length
        = e.NWREC := by
      unfold eorBlock
      rw [List.length_append, List.length_append, padWords_length e _ (by omega)]
      simp [closingHeader, hh.mpr_len, meor]
      omega
    have hzl : (eozBlock e (fill (preLoop e s bank index) (payloadOf e s bank index)).mpr).length
        = e.NWREC := by
      unfold eozBlock
      rw [List.length_append, List.length_append, padWords_length e _ (by omega)]
      simp [closingHeader, hh.mpr_len, meoz]
      omega
    refine ⟨_, hw, hip, rfl, rfl, rfl, hpad, c1, c4, ?_⟩
    rw [c4, List.length_append, List.length_append, List.length_append, hel, hzl, hRlen, hT]
    omega
  · intro hn
    have hT : totalOf e s bank index = e.NWREC + 1 := by
      unfold totalOf
      have := a3.ipos_le
      omega
    obtain ⟨t, ht, q1, q2, q3, q4, q5, q6, q7⟩ :=
      WriteBank_continues e hwf hio s hs bank index hidx hne cm2 a7 a8 (by omega)
        (by unfold NPHREC; omega)
    have hx : totalOf e s bank index - e.NWREC = 1 := by omega
    rw [hx] at q4 q5
    refine ⟨t, ht, ?_, ?_, q3, by rw [q4]; rfl, ?_, q6⟩
    · rw [q2.behind_eq, q3]; simp
    · rw [List.length_take, hRlen, hT]; omega
    · exact take_header _ _ _ _
        (by simp [a3.mpr_len]) (by rw [q4]; omega) q5

set_option maxRecDepth 100000 in
theorem C14_exact_fit_boundary_witness :
    Healthy okEnv (new okEnv (some "run.zdab") false none true)
    ∧ (prepared okEnv (new okEnv (some "run.zdab") false none true)
          (List.replicate 870 7) 0).1.nsize
        = okEnv.NWREC - (preLoop okEnv (new okEnv (some "run.zdab") false none true)
            (List.replicate 870 7) 0).ipos
    ∧ ∃ t, WriteBank okEnv (new okEnv (some "run.zdab") false none true) (List.replicate 870 7) 0
          = (0, t, bankAfter okEnv (new okEnv (some "run.zdab") false none true)
              (List.replicate 870 7) 0)
        ∧ t.ipos = okEnv.NWREC := by
  have hn : (prepared okEnv (new okEnv (some "run.zdab") false none true)
          (List.replicate 870 7) 0).1.nsize
        = okEnv.NWREC - (preLoop okEnv (new okEnv (some "run.zdab") false none true)
            (List.replicate 870 7) 0).ipos := by decide
  obtain ⟨cm2, -, -, h1, -⟩ := C14_exact_fit_boundary okEnv okEnv_wellFormed okEnv_noFail
    (new okEnv (some "run.zdab") false none true)
    (new_fresh_healthy okEnv "run.zdab" false (by decide) (by decide)).1
    (List.replicate 870 7) 0 (by decide) (by decide)
  obtain ⟨t, ht, hip, -⟩ := h1 hn
  exact ⟨(new_fresh_healthy okEnv "run.zdab" false (by decide) (by decide)).1, hn, t, ht, hip⟩


/-! ### The stream of staged words after a call -/

theorem WriteBank_stream (e : Env) (hwf : e.WellFormed) (hio : e.NoFail) (s : Writer)
    (hs : Healthy e s) (bank : List Nat) (index : Nat) (hidx : index < NUM_BANKS)
    (hne : index ≠ kMASTindex) :
    (WriteBank e s bank index).1 = 0
    ∧ Healthy e (WriteBank e s bank index).2.1
    ∧ ∃ cm2 B P1 H P2 post,
        Synced e (preLoop e s bank index) cm2 ∧ cm2.length % e.NWREC = 0
        ∧ Synced e (placed e s bank index) cm2
        ∧ (B = (preLoop e s bank index).mbuf.take (preLoop e s bank index).ipos
            ∨ ∃ w, B = ((preLoop e s bank index).mbuf.take (preLoop e s bank index).ipos).set 7 w)
        ∧ staged (WriteBank e s bank index).2.1 = cm2 ++ B ++ P1 ++ H ++ P2 ++ post
        ∧ P1 ++ P2 = payloadOf e s bank index
        ∧ (H = [] ∨ (H.length = NPHREC
            ∧ H.take 4 = [e.ZEBRA_SIG0, e.ZEBRA_SIG1, e.ZEBRA_SIG2, e.ZEBRA_SIG3].map e.swap
            ∧ (cm2 ++ B ++ P1).length % e.NWREC = 0)) := by
  obtain ⟨cm, hsy, hcm⟩ := hs.toSynced
  obtain ⟨a1, a2, a3, a4, a5, a6, cm2, a7, a8, a9, -⟩ :=
    preLoop_ok e hwf hio s hs bank index hidx hne cm hsy hcm
  have hW : 8 ≤ e.NWREC := by
    have := overhead_bound e hwf s hs bank index hidx hne
    unfold NPHREC at this; omega
  have hible : (preLoop e s bank index).ipos ≤ (preLoop e s bank index).mbuf.length := by
    rw [a3.buflen]; exact a3.ipos_le
  have hB0 : ((preLoop e s bank index).mbuf.take (preLoop e s bank index).ipos).length
      = (preLoop e s bank index).ipos := by rw [List.length_take, Nat.min_eq_left hible]
  have hPlen := payloadOf_length e s bank index
  obtain ⟨hrt, hrd⟩ := region_split e s bank index hible a3.ipos_le
  have h8 : 8 ≤ (preLoop e s bank index).ipos := a3.ipos_ge
  by_cases c1 : totalOf e s bank index ≤ e.NWREC
  · -- the record fits
    obtain ⟨hw, hh⟩ := WriteBank_fits e hwf hio s hs bank index hidx hne c1
    have hsyt : Synced e (fill (preLoop e s bank index) (payloadOf e s bank index)) cm2 :=
      Synced_fill e _ cm2 _ a7 (by rw [hPlen]; exact c1)
    rw [hw]
    refine ⟨rfl, hh, cm2, (preLoop e s bank index).mbuf.take (preLoop e s bank index).ipos,
      payloadOf e s bank index, [], [], [], a7, a8, a9, Or.inl rfl, ?_, by simp, Or.inl rfl⟩
    show staged (fill _ _) = _
    rw [staged_of_synced hsyt, fill_mbuf_take _ _ hible]
    simp
  · by_cases c2 : totalOf e s bank index ≤ 2 * e.NWREC - NPHREC
    · -- one crossing, continuation header
      obtain ⟨t, ht, q1, q2, q3, q4, q5, q6, q7⟩ :=
        WriteBank_continues e hwf hio s hs bank index hidx hne cm2 a7 a8 (by omega) c2
      rw [ht]
      refine ⟨rfl, q1, cm2, (preLoop e s bank index).mbuf.take (preLoop e s bank index).ipos,
        (payloadOf e s bank index).take (e.NWREC - (preLoop e s bank index).ipos),
        contHeader e (preLoop e s bank index) (totalOf e s bank index - e.NWREC),
        (payloadOf e s bank index).drop (e.NWREC - (preLoop e s bank index).ipos), [],
        a7, a8, a9, Or.inl rfl, ?_, List.take_append_drop _ _,
        Or.inr ⟨contHeader_length e _ _ a3.mpr_len,
          contHeader_magic e _ _ a3.mpr_len a3.mpr_sig, ?_⟩⟩
      · show staged t = _
        rw [staged_of_synced q2, q5, hrt]
        show _ ++ (_ ++ tailOf e s bank index) = _
        rw [hrd]
        simp
      · rw [List.length_append, List.length_append, hB0, List.length_take, hPlen]
        unfold totalOf at c1
        have : e.NWREC - (preLoop e s bank index).ipos ≤ (prepared e s bank index).1.nsize := by
          omega
        rw [Nat.min_eq_left this]
        have hx : cm2.length + ((preLoop e s bank index).ipos
            + (e.NWREC - (preLoop e s bank index).ipos)) = cm2.length + e.NWREC := by omega
        rw [Nat.add_assoc, hx]
        exact add_block_mod _ _ a8
    · -- the first crossing enters fast mode
      have hT : 2 * e.NWREC - NPHREC < totalOf e s bank index := by omega
      have hnl : nleftOf e s bank index > e.NWREC - NPHREC := by
        unfold nleftOf
        unfold NPHREC at hT ⊢
        omega
      obtain ⟨k1, k2, k3⟩ := nfastOf_bounds e _ hW hnl
      have hss := steering_split e s bank index hible a3.ipos_le h8
      have htl := tailOf_length e s bank index hible
      have hb : e.NWREC - (preLoop e s bank index).ipos ≤ (payloadOf e s bank index).length := by
        rw [hPlen]
        unfold totalOf at c1
        omega
      by_cases hk : nleftOf e s bank index ≤ nfastOf e (nleftOf e s bank index) * e.NWREC
      · obtain ⟨t, ht, q1, q2, q3, q4, q5, q6⟩ :=
          WriteBank_fast_padded e hwf hio s hs bank index hidx hne cm2 a7 a8 hT hk
        rw [ht]
        refine ⟨rfl, q1, cm2,
          ((preLoop e s bank index).mbuf.take (preLoop e s bank index).ipos).set 7
            (e.swap (nfastOf e (nleftOf e s bank index))),
          payloadOf e s bank index, [], [],
          padWords e (nleftOf e s bank index - (nfastOf e (nleftOf e s bank index) - 1) * e.NWREC)
            ++ t.mbuf.take t.ipos,
          a7, a8, a9, Or.inr ⟨_, rfl⟩, ?_, by simp, Or.inl rfl⟩
        show staged t = _
        rw [staged_of_synced q2, hss]
        simp only [List.append_assoc, List.nil_append]
        rw [take_append_drop_append, hrd, take_append_drop_append]
      · obtain ⟨t, ht, q1, q2, q3, q4, q5, q6, q7⟩ :=
          WriteBank_fast_continued e hwf hio s hs bank index hidx hne cm2 a7 a8 hT (by omega)
        rw [ht]
        refine ⟨rfl, q1, cm2,
          ((preLoop e s bank index).mbuf.take (preLoop e s bank index).ipos).set 7
            (e.swap (nfastOf e (nleftOf e s bank index))),
          (payloadOf e s bank index).take (e.NWREC - (preLoop e s bank index).ipos)
            ++ (tailOf e s bank index).take (nfastOf e (nleftOf e s bank index) * e.NWREC),
          contHeader e (preLoop e s bank index)
            (nleftOf e s bank index - nfastOf e (nleftOf e s bank index) * e.NWREC),
          (tailOf e s bank index).drop (nfastOf e (nleftOf e s bank index) * e.NWREC), [],
          a7, a8, a9, Or.inr ⟨_, rfl⟩, ?_, ?_, Or.inr ⟨contHeader_length e _ _ a3.mpr_len,
            contHeader_magic e _ _ a3.mpr_len a3.mpr_sig, ?_⟩⟩
        · show staged t = _
          rw [staged_of_synced q2, q5, hss]
          simp only [List.append_assoc, List.append_nil]
        · rw [List.append_assoc, List.take_append_drop, hrd, List.take_append_drop]
        · rw [List.length_append, List.length_append, List.length_append, List.length_set, hB0,
            List.length_take, List.length_take, htl, Nat.min_eq_left hb,
            Nat.min_eq_left (by omega)]
          have hx : cm2.length + (preLoop e s bank index).ipos
              + (e.NWREC - (preLoop e s bank index).ipos
                + nfastOf e (nleftOf e s bank index) * e.NWREC)
              = cm2.length + e.NWREC + nfastOf e (nleftOf e s bank index) * e.NWREC := by
            have := a3.ipos_le
            omega
          rw [hx, Nat.add_mul_mod_self_right]
          exact add_block_mod _ _ a8

theorem recordHeader_split (e : Env) (s : Writer) (index : Nat) (z : Sizes)
    (hl : s.mlr.length = 2) (ht : s.mlr.getD 1 0 = 2) :
    recordHeader e s index z
      = [z.npilot + z.hdr_size + z.nsize, 2] ++ recordRest e s index z := by
  have hm : s.mlr.set 0 (z.npilot + z.hdr_size + z.nsize) = [z.npilot + z.hdr_size + z.nsize, 2] := by
    match hmlr : s.mlr, hl with
    | [a, b], _ =>
      rw [hmlr] at ht
      simp at ht
      subst ht
      rfl
  unfold recordHeader recordRest
  rw [hm]
  simp only [List.append_assoc]

theorem preLoop_emits (e : Env) (hwf : e.WellFormed) (hio : e.NoFail) (s : Writer)
    (hs : Healthy e s) (bank : List Nat) (index : Nat) (hidx : index < NUM_BANKS)
    (hne : index ≠ kMASTindex) :
    Emits e (placed e s bank index) (preLoop e s bank index)
      (recordHeader e (placed e s bank index) index (prepared e s bank index).1)
      (overhead (prepared e s bank index).1)
    ∧ Healthy e (placed e s bank index)
    ∧ (placed e s bank index).mlr = (prepared e s bank index).2.1.mlr
    ∧ (placed e s bank index).mpili = (prepared e s bank index).2.1.mpili
    ∧ (placed e s bank index).mbk = (prepared e s bank index).2.1.mbk
    ∧ (placed e s bank index).sBankDef = (prepared e s bank index).2.1.sBankDef := by
  obtain ⟨cm, hsy, hcm⟩ := hs.toSynced
  obtain ⟨a1, a2, a3, a4, a5, a6, cm2, a7, a8, a9, a10⟩ :=
    preLoop_ok e hwf hio s hs bank index hidx hne cm hsy hcm
  obtain ⟨p1, p2, p3, p4, p5, p6, p7, p8, p9⟩ :=
    prepared_ok e s hs bank index hidx hne hwf.mast_len
  have hst : Static (prepared e s bank index).2.1 (placed e s bank index) := by
    unfold placed
    rcases a10 with ⟨-, h⟩ | ⟨-, h⟩
    · rw [h]; exact Static_refl _
    · rw [h]
      obtain ⟨cmp, hsyp, hcmp⟩ := p1.toSynced
      have hW : 8 ≤ e.NWREC := by
        have := hwf.roomy
        unfold NPHREC at this; omega
      exact (startBlock_ok e hio _ cmp p1 hsyp hcmp hW).2.2.2.2.2.2.2
  have hpl : placed e s bank index
      = (placeRecord e (prepared e s bank index).2.1 (prepared e s bank index).1).2 := rfl
  rw [← hpl] at a2 a4
  have hcat := a2.catalog
  have hlen8 : (placed e s bank index).sBankDef.length = 8 := hcat.1
  obtain ⟨c1, c2, c3, c4, c5⟩ := catalog_entry e _ hcat index hidx
  have hnio : (prepared e s bank index).1.nio_nl ≤ 2 := p5
  refine ⟨?_, a2, hst.mlr, hst.mpili, hst.mbk, hst.sBankDef⟩
  unfold preLoop
  simp only []
  rw [← hpl]
  refine stageHeaders_emits e _ index _ hne (by rw [hlen8]; decide) a2.mlr_len ?_ ?_ ?_
    (fun h0 => (p8 h0).1) ?_ ?_
  · rw [a2.mpili_len]
    by_cases h0 : index = kZDABindex
    · rw [(p8 h0).2]; decide
    · rw [(p9 h0).2.1]; decide
  · rw [c3]; unfold NIOCHAR; omega
  · intro h0
    obtain ⟨m1, -⟩ := mastIochar_ok e (placed e s bank index) index (prepared e s bank index).1
      hcat hidx h0 (p9 h0).2.2
    rw [m1, (p9 h0).2.2]; decide
  · intro h0
    rw [(p9 h0).1, (p9 h0).2.2]
  · rw [a2.buflen]
    have := a4.2
    have := a5
    omega

theorem WriteBank_record_stream (e : Env) (hwf : e.WellFormed) (hio : e.NoFail) (s : Writer)
    (hs : Healthy e s) (bank : List Nat) (index : Nat) (hidx : index < NUM_BANKS)
    (hne : index ≠ kMASTindex) :
    (WriteBank e s bank index).1 = 0
    ∧ ∃ front P1 H P2 post,
        staged (WriteBank e s bank index).2.1
          = front ++ (recordHeader e (placed e s bank index) index
              (prepared e s bank index).1).map e.swap ++ P1 ++ H ++ P2 ++ post
        ∧ front.length = (staged (placed e s bank index)).length
        ∧ P1 ++ P2 = payloadOf e s bank index
        ∧ (H = [] ∨ (H.length = NPHREC
            ∧ H.take 4 = [e.ZEBRA_SIG0, e.ZEBRA_SIG1, e.ZEBRA_SIG2, e.ZEBRA_SIG3].map e.swap
            ∧ (front ++ (recordHeader e (placed e s bank index) index
                (prepared e s bank index).1).map e.swap ++ P1).length % e.NWREC = 0)) := by
  obtain ⟨w1, -, cm2, B, P1, H, P2, post, b1, b2, b3, b4, b5, b6, b7⟩ :=
    WriteBank_stream e hwf hio s hs bank index hidx hne
  obtain ⟨⟨m1, m2, m3, m4⟩, hp, -⟩ := preLoop_emits e hwf hio s hs bank index hidx hne
  have hpl : ((placed e s bank index).mbuf.take (placed e s bank index).ipos).length
      = (placed e s bank index).ipos := by
    rw [List.length_take, hp.buflen]
    exact Nat.min_eq_left hp.ipos_le
  have hst := staged_of_synced b3
  have hB : ∃ X, X.length = (placed e s bank index).ipos
      ∧ B = X ++ (recordHeader e (placed e s bank index) index
        (prepared e s bank index).1).map e.swap := by
    rcases b4 with h | ⟨w, h⟩
    · exact ⟨_, hpl, by rw [h, m1]⟩
    · refine ⟨((placed e s bank index).mbuf.take (placed e s bank index).ipos).set 7 w,
        by rw [List.length_set, hpl], ?_⟩
      rw [h, m1, List.set_append, if_pos (by rw [hpl]; have := hp.ipos_ge; unfold NPHREC at this; omega)]
  obtain ⟨X, hX, hBX⟩ := hB
  subst hBX
  refine ⟨w1, cm2 ++ X, P1, H, P2, post, ?_, ?_, b6, ?_⟩
  · rw [b5]; simp only [List.append_assoc]
  · rw [hst, List.length_append, List.length_append, hX, hpl]
  · rcases b7 with h | ⟨h1, h2, h3⟩
    · exact Or.inl h
    · refine Or.inr ⟨h1, h2, ?_⟩
      rw [← h3]
      simp only [List.append_assoc]

theorem mastIochar_eq (e : Env) (s : Writer) (index : Nat) (z : Sizes)
    (hc : CatalogOK e s.sBankDef) (hidx : index < NUM_BANKS) (h0 : index ≠ kZDABindex)
    (hm : z.mast_nio_nl = 25) :
    mastIochar s index z
      = (0x00030025 :: List.replicate 25 0).set (1 + 25 - (bankAt s.sBankDef index).id)
          (BASE_LINK + 1 + 25 + NBANK + e.WORD_SIZE_MAST + 1 + z.nio_nl)
    ∧ 1 ≤ 1 + 25 - (bankAt s.sBankDef index).id
    ∧ 1 + 25 - (bankAt s.sBankDef index).id ≤ 25 := by
  obtain ⟨_, _, m3, m4, _⟩ := catalog_entry e _ hc kMASTindex (by decide)
  obtain ⟨_, _, _, _, i5⟩ := catalog_entry e _ hc index hidx
  have hid := i5 h0
  have hnl := (m4 rfl).2
  have hnw := (m4 rfl).1
  have h00 : (bankAt s.sBankDef kMASTindex).iochar.getD 0 0 = 0x00030025 := by
    rw [(hc.2 kMASTindex (by decide)).2.2.2.2.2.2.1]
    rfl
  unfold NIOCHAR at m3
  refine ⟨?_, by omega, by omega⟩
  unfold mastIochar
  simp only [hm, hnl, hnw, Nat.sub_self, Nat.add_zero]
  have hpk : poke (bankAt s.sBankDef kMASTindex).iochar 1 (List.replicate 25 0)
      = 0x00030025 :: List.replicate 25 0 := by
    unfold poke
    cases hio : (bankAt s.sBankDef kMASTindex).iochar with
    | nil => rw [hio] at m3; simp at m3
    | cons x xs =>
      rw [hio] at h00 m3
      simp at h00
      subst h00
      rw [List.drop_of_length_le (by simp at m3 ⊢; omega)]
      simp
  rw [hpk]

/-- C13: a `WriteBank` call on a healthy writer (no stdio failure).  The words staged
behind the logical-record header, `recordRest`, are in host order (they are staged in
wire byte order): for a bank other than the primary one, the pilot of `NPILOT + 2`
words, then the 26 I/O words of the supporting bank, its nine-word bank header, its
data words, and right behind them the I/O words and the header of the payload bank;
the first of the 26 words is the I/O word `0x00030025`, and of the 25 link words behind
it the one at index `1 + mast_nio_nl - id` holds
`BASE_LINK + 1 + mast_nio_nl + NBANK + WORD_SIZE_MAST + 1 + nio_nl`, which is not zero,
and all others are zero (`mast_nio_nl = 25`).  For the primary bank the pilot of
`NPILOT` words, whose word 6 (the relocation count) is 0, is followed directly by the
I/O words and the header of the payload bank. -/
theorem C13_supporting_bank (e : Env) (hwf : e.WellFormed) (hio : e.NoFail) (s : Writer)
    (hs : Healthy e s) (bank : List Nat) (index : Nat) (hidx : index < NUM_BANKS)
    (hne : index ≠ kMASTindex) :
    (WriteBank e s bank index).1 = 0
    ∧ (∃ front P1 H P2 post,
        staged (WriteBank e s bank index).2.1
          = front
            ++ ([(prepared e s bank index).1.npilot + (prepared e s bank index).1.hdr_size
                  + (prepared e s bank index).1.nsize, 2]
                ++ recordRest e (placed e s bank index) index (prepared e s bank index).1).map e.swap
            ++ P1 ++ H ++ P2 ++ post
        ∧ front.length = (staged (placed e s bank index)).length
        ∧ P1 ++ P2 = payloadOf e s bank index)
    ∧ (index ≠ kZDABindex →
        (prepared e s bank index).1.mast_nio_nl = 25
        ∧ ∃ pilot mastIo mbk0,
          recordRest e (placed e s bank index) index (prepared e s bank index).1
            = pilot ++ mastIo
              ++ [mbk0, 0, 0, 1, e.MAST_RECORD, 25, 25, e.WORD_SIZE_MAST, 4]
              ++ e.mMastData
              ++ (bankAt (placed e s bank index).sBankDef index).iochar.take
                  ((prepared e s bank index).1.nio_nl + 1)
              ++ payloadBankHeader (placed e s bank index) index (prepared e s bank index).1.nsize
          ∧ pilot.length = NPILOT + 2
          ∧ mastIo.length = 26
          ∧ mastIo.getD 0 0 = 0x00030025
          ∧ 1 ≤ 1 + 25 - (bankAt s.sBankDef index).id
          ∧ 1 + 25 - (bankAt s.sBankDef index).id ≤ 25
          ∧ mastIo.getD (1 + 25 - (bankAt s.sBankDef index).id) 0
              = BASE_LINK + 1 + 25 + NBANK + e.WORD_SIZE_MAST + 1
                + (prepared e s bank index).1.nio_nl
          ∧ BASE_LINK + 1 + 25 + NBANK + e.WORD_SIZE_MAST + 1
                + (prepared e s bank index).1.nio_nl ≠ 0
          ∧ (∀ j, 1 ≤ j → j ≤ 25 → j ≠ 1 + 25 - (bankAt s.sBankDef index).id →
              mastIo.getD j 0 = 0)
          ∧ e.mMastData.length = e.WORD_SIZE_MAST)
    ∧ (index = kZDABindex →
        ∃ pilot,
          recordRest e (placed e s bank index) index (prepared e s bank index).1
            = pilot
              ++ (bankAt (placed e s bank index).sBankDef index).iochar.take
                  ((prepared e s bank index).1.nio_nl + 1)
              ++ payloadBankHeader (placed e s bank index) index (prepared e s bank index).1.nsize
          ∧ pilot.length = NPILOT
          ∧ pilot.getD 6 0 = 0) := by
  obtain ⟨w1, front, P1, H, P2, post, b1, b2, b3, -⟩ :=
    WriteBank_record_stream e hwf hio s hs bank index hidx hne
  obtain ⟨-, hp, -, hmp, -, hsb⟩ := preLoop_emits e hwf hio s hs bank index hidx hne
  obtain ⟨-, -, -, -, -, -, -, p8, p9⟩ :=
    prepared_ok e s hs bank index hidx hne hwf.mast_len
  have hsp := recordHeader_split e (placed e s bank index) index (prepared e s bank index).1
    hp.mlr_len hp.mlr_type
  rw [hsp] at b1
  refine ⟨w1, ⟨front, P1, H, P2, post, b1, b2, b3⟩, ?_, ?_⟩
  · intro h0
    obtain ⟨q1, q2, q3⟩ := p9 h0
    obtain ⟨m1, m2, m3⟩ := mastIochar_eq e (placed e s bank index) index
      (prepared e s bank index).1 hp.catalog hidx h0 q3
    have hid : (bankAt (placed e s bank index).sBankDef index).id
        = (bankAt s.sBankDef index).id := by
      rw [(hp.catalog.2 index hidx).2.1, (hs.catalog.2 index hidx).2.1]
    rw [hid] at m1 m2 m3
    obtain ⟨_, _, _, c4, _⟩ := catalog_entry e _ hp.catalog kMASTindex (by decide)
    obtain ⟨k1, k2, k3, k4, -⟩ := hp.catalog.2 kMASTindex (by decide)
    have hmh : mastBankHeader (placed e s bank index)
        = [(placed e s bank index).mbk.getD 0 0, 0, 0, 1, e.MAST_RECORD, 25, 25,
            e.WORD_SIZE_MAST, 4] := by
      unfold mastBankHeader
      simp only []
      rw [(c4 rfl).1, k1, k2, k3, k4]
      rfl
    have hlen26 : (mastIochar (placed e s bank index) index (prepared e s bank index).1).length
        = 26 := by
      rw [m1, List.length_set]
      simp
    refine ⟨q3, ((placed e s bank index).mpili.set 7 ((prepared e s bank index).1.hdr_size
        + (prepared e s bank index).1.nsize)).take (prepared e s bank index).1.npilot,
      mastIochar (placed e s bank index) index (prepared e s bank index).1,
      (placed e s bank index).mbk.getD 0 0, ?_, ?_, hlen26, ?_, m2, m3, ?_, ?_, ?_, hwf.mast_len⟩
    · unfold recordRest mastWords
      have htk : (mastIochar (placed e s bank index) index (prepared e s bank index).1).take (25 + 1)
          = mastIochar (placed e s bank index) index (prepared e s bank index).1 :=
        List.take_of_length_le (by rw [hlen26])
      rw [if_pos h0, q3, hmh, htk]
      simp only [List.append_assoc]
    · rw [List.length_take, List.length_set, hp.mpili_len, q2]
      decide
    · rw [m1, List.getD_eq_getElem?_getD, List.getElem?_set, if_neg (by omega)]
      rfl
    · rw [m1, List.getD_eq_getElem?_getD, List.getElem?_set, if_pos rfl,
        if_pos (by simp; omega)]
      rfl
    · unfold BASE_LINK; omega
    · intro j hj1 hj2 hj3
      rw [m1, List.getD_eq_getElem?_getD, List.getElem?_set, if_neg (by omega)]
      obtain ⟨j2, rfl⟩ : ∃ j2, j = j2 + 1 := ⟨j - 1, by omega⟩
      rw [List.getElem?_cons_succ, List.getElem?_replicate]
      split_ifs <;> rfl
  · intro h0
    obtain ⟨q1, q2⟩ := p8 h0
    have hmpili : (placed e s bank index).mpili = (s.mpili.set 6 0).set 8 0 := by
      rw [hmp]
      unfold prepared resolveZDAB computeSizes
      simp [h0]
    refine ⟨((placed e s bank index).mpili.set 7 ((prepared e s bank index).1.hdr_size
        + (prepared e s bank index).1.nsize)).take (prepared e s bank index).1.npilot, ?_, ?_, ?_⟩
    · unfold recordRest
      rw [if_neg (by simp [h0]), List.append_nil]
    · rw [List.length_take, List.length_set, hp.mpili_len, q2]
      decide
    · rw [q2, hmpili, List.getD_eq_getElem?_getD, List.getElem?_take, if_pos (by decide),
        List.getElem?_set, if_neg (by decide), List.getElem?_set, if_neg (by decide),
        List.getElem?_set, if_pos rfl, if_pos (by rw [hs.mpili_len]; decide)]
      rfl

theorem C13_supporting_bank_witness :
    Healthy okEnv (new okEnv (some "run.zdab") false none true)
    ∧ (WriteBank okEnv (new okEnv (some "run.zdab") false none true) (List.range 20) 2).1 = 0
    ∧ (prepared okEnv (new okEnv (some "run.zdab") false none true)
        (List.range 20) 2).1.mast_nio_nl = 25 :=
  ⟨(new_fresh_healthy okEnv "run.zdab" false (by decide) (by decide)).1,
   (C13_supporting_bank okEnv okEnv_wellFormed okEnv_noFail _
      (new_fresh_healthy okEnv "run.zdab" false (by decide) (by decide)).1
      (List.range 20) 2 (by decide) (by decide)).1,
   ((C13_supporting_bank okEnv okEnv_wellFormed okEnv_noFail _
      (new_fresh_healthy okEnv "run.zdab" false (by decide) (by decide)).1
      (List.range 20) 2 (by decide) (by decide)).2.2.1 (by decide)).1⟩


/-! ### One primary bank on a fresh file -/

theorem new_fresh_templates (e : Env) (name : String) (calcMD5 : Bool) (hname : name ≠ "") :
    (new e (some name) calcMD5 none true).mlr = [0, 2]
    ∧ (new e (some name) calcMD5 none true).mpili
        = [0x4640e400, 37700, 0, 0, 0, 0, 0, 0, 0, 0, BASE_LINK, 0]
    ∧ (new e (some name) calcMD5 none true).mbk = [0, 0, 0, 0, 0, 0, 0, 0, 0]
    ∧ (new e (some name) calcMD5 none true).sBankDef = sBankDefInit e
    ∧ (new e (some name) calcMD5 none true).behind = [] := by
  have hn : ¬ ((some name : Option String) = none ∨ some name = some "") := by
    simp [hname]
  unfold new
  rw [if_neg hn]
  simp [initRecords, AddRecord]

theorem fresh_prepared (e : Env) (s : Writer) (bank : List Nat)
    (h1 : s.mlr = [0, 2])
    (h2 : s.mpili = [0x4640e400, 37700, 0, 0, 0, 0, 0, 0, 0, 0, BASE_LINK, 0])
    (h3 : s.mbk = [0, 0, 0, 0, 0, 0, 0, 0, 0]) (h4 : s.sBankDef = sBankDefInit e) :
    (prepared e s bank kZDABindex).1
      = { nsize := e.GetSize bank / 4, nio_nl := 0, hdr_size := 1 + NBANK, mast_nio_nl := 0,
          npilot := NPILOT }
    ∧ recordHeader e (prepared e s bank kZDABindex).2.1 kZDABindex (prepared e s bank kZDABindex).1
      = [NPILOT + 1 + NBANK + e.GetSize bank / 4, 2]
        ++ [0x4640e400, 37700, 0, 0, 0, 0, 0, 1 + NBANK + e.GetSize bank / 4, 0, 0]
        ++ [0x0002000c]
        ++ [0, 327, 321, 6, e.ZDAB_RECORD, 0, 0, e.GetSize bank / 4, 0] := by
  have hz : (prepared e s bank kZDABindex).1
      = { nsize := e.GetSize bank / 4, nio_nl := 0, hdr_size := 1 + NBANK, mast_nio_nl := 0,
          npilot := NPILOT } := by
    unfold prepared resolveZDAB computeSizes
    simp [h4, sBankDefInit, bankAt, iocharInit, kZDABindex, NPILOT]
  refine ⟨hz, ?_⟩
  rw [hz]
  unfold recordHeader payloadBankHeader prepared resolveZDAB computeSizes
  simp [h1, h2, h3, h4, sBankDefInit, bankAt, iocharInit, kZDABindex, NPILOT, NBANK,
    SUPP_BANK_LINK, NIOCHAR, BASE_LINK]

set_option maxRecDepth 100000 in
/-- C10, as stated, fails: after the primary bank `[1, 2, 3, 4]` has been written to a
fresh file and the file closed, the four payload words of the first block (words 30 to
33) are `1, 2, 3` unconverted and the wire conversion of `4`; they are neither the wire
conversion of the four payload words nor the four words as supplied. -/
theorem C10_primary_payload_on_file :
    (WriteBank okEnv (new okEnv (some "run.zdab") false none true) [1, 2, 3, 4] kZDABindex).1 = 0
    ∧ (((Close okEnv (WriteBank okEnv (new okEnv (some "run.zdab") false none true)
          [1, 2, 3, 4] kZDABindex).2.1).2.behind.drop 30).take 4)
        = [1, 2, 3, okEnv.swap 4]
    ∧ [1, 2, 3, okEnv.swap 4] ≠ [1, 2, 3, 4].map okEnv.swap
    ∧ [1, 2, 3, okEnv.swap 4] ≠ [1, 2, 3, 4] := by
  decide

/-- C10, amended: on a freshly created file, for a primary-bank record of
`N = GetSize / 4` words that the caller's buffer holds and with
`NPHREC + NLOGIC + NPILOT + 1 + NBANK + N ≤ NWREC`, `WriteBank` followed by `Close` (no
stdio failure) both return 0 and leave a file of exactly three blocks of `NWREC` words.
The first block is the wire conversion of the header `[magic x4, NWREC, 0, NPHREC, 0]`,
the logical-record header `[NPILOT + 1 + NBANK + N, 2]`, the pilot (relocation count 0,
bank-material size `1 + NBANK + N`), the I/O word `0x0002000c` and the bank header
`[0, 327, 321, 6, ZDAB name, 0, 0, N, 0]`, then the `N` payload words as the caller
supplied them except that word 3 is converted, then the padding record.  The other two
blocks are the end-of-run and the end-of-container block. -/
theorem C10_one_primary_bank (e : Env) (hwf : e.WellFormed) (hio : e.NoFail) (name : String)
    (calcMD5 : Bool) (hname : name ≠ "") (bank : List Nat)
    (hN : NPHREC + NLOGIC + NPILOT + 1 + NBANK + e.GetSize bank / 4 ≤ e.NWREC)
    (hsize : e.GetSize bank / 4 ≤ bank.length) :
    (WriteBank e (new e (some name) calcMD5 none true) bank kZDABindex).1 = 0
    ∧ (Close e (WriteBank e (new e (some name) calcMD5 none true) bank kZDABindex).2.1).1 = 0
    ∧ (Close e (WriteBank e (new e (some name) calcMD5 none true) bank kZDABindex).2.1).2.ahead = []
    ∧ (Close e (WriteBank e (new e (some name) calcMD5 none true) bank kZDABindex).2.1).2.behind
        = (([e.ZEBRA_SIG0, e.ZEBRA_SIG1, e.ZEBRA_SIG2, e.ZEBRA_SIG3, e.NWREC, 0, NPHREC, 0]
              ++ [NPILOT + 1 + NBANK + e.GetSize bank / 4, 2]
              ++ [0x4640e400, 37700, 0, 0, 0, 0, 0, 1 + NBANK + e.GetSize bank / 4, 0, 0]
              ++ [0x0002000c]
              ++ [0, 327, 321, 6, e.ZDAB_RECORD, 0, 0, e.GetSize bank / 4, 0]).map e.swap
            ++ (SWAP_INT32 e bank 3 1).take (e.GetSize bank / 4)
            ++ padWords e (NPHREC + NLOGIC + NPILOT + 1 + NBANK + e.GetSize bank / 4))
          ++ eorBlock e [e.ZEBRA_SIG0, e.ZEBRA_SIG1, e.ZEBRA_SIG2, e.ZEBRA_SIG3, e.NWREC, 0, NPHREC, 0]
          ++ eozBlock e [e.ZEBRA_SIG0, e.ZEBRA_SIG1, e.ZEBRA_SIG2, e.ZEBRA_SIG3, e.NWREC, 0, NPHREC, 0]
    ∧ (Close e (WriteBank e (new e (some name) calcMD5 none true) bank kZDABindex).2.1).2.behind.length
        = 3 * e.NWREC := by
  have hW : 70 ≤ e.NWREC := by
    have := hwf.roomy
    unfold NPHREC NLOGIC NPILOT NBANK at this
    omega
  obtain ⟨F, hF⟩ : ∃ F, F = new e (some name) calcMD5 none true := ⟨_, rfl⟩
  obtain ⟨f1, f2, f3, f4, f5, f6, f7, -⟩ := new_fresh_healthy e name calcMD5 hname (by omega)
  obtain ⟨g1, g2, g3, g4, -⟩ := new_fresh_templates e name calcMD5 hname
  rw [← hF] at f1 f2 f3 f4 f5 f6 f7 g1 g2 g3 g4 ⊢
  obtain ⟨hz, hrh⟩ := fresh_prepared e F bank g1 g2 g3 g4
  obtain ⟨p1, p2, p3, p4, -⟩ := prepared_ok e F f1 bank kZDABindex (by decide) (by decide)
    hwf.mast_len
  have hov : overhead (prepared e F bank kZDABindex).1 = 22 := by rw [hz]; rfl
  have hns : (prepared e F bank kZDABindex).1.nsize = e.GetSize bank / 4 := by rw [hz]
  have hpl : placed e F bank kZDABindex = (prepared e F bank kZDABindex).2.1 := by
    unfold placed
    rw [placeRecord_eq e _ _ hio p1 (by rw [hov]; unfold NPHREC; omega) hwf.small, if_neg]
    rw [p2.mWritePos, f5, p3, f3, hov]
    omega
  obtain ⟨⟨m1, m2, m3, m4⟩, hp, -⟩ :=
    preLoop_emits e hwf hio F f1 bank kZDABindex (by decide) (by decide)
  rw [hpl, hrh, p3, f3, p4] at m1
  rw [hpl, p3, f3, hov] at m3
  have hhdr : F.mbuf.take 8
      = [e.ZEBRA_SIG0, e.ZEBRA_SIG1, e.ZEBRA_SIG2, e.ZEBRA_SIG3, e.NWREC, 0, NPHREC, 0].map e.swap := by
    rw [f1.header, f7]
  rw [hhdr] at m1
  obtain ⟨cm, hsy, hcm⟩ := f1.toSynced
  obtain ⟨-, -, a3, a4, -⟩ :=
    preLoop_ok e hwf hio F f1 bank kZDABindex (by decide) (by decide) cm hsy hcm
  have ha4 : Added (placed e F bank kZDABindex) (preLoop e F bank kZDABindex) := a4.1
  rw [hpl] at ha4
  have hsyp : Synced e (preLoop e F bank kZDABindex) [] :=
    (Added_trans p2 ha4).synced f2 a3.ipos_le
  have hT : totalOf e F bank kZDABindex = 30 + e.GetSize bank / 4 := by
    unfold totalOf
    rw [m3, hns]
  unfold NPHREC NLOGIC NPILOT NBANK at hN
  obtain ⟨hw, hh⟩ := WriteBank_fits e hwf hio F f1 bank kZDABindex (by decide) (by decide)
    (by rw [hT]; omega)
  have hPlen := payloadOf_length e F bank kZDABindex
  have hPeq := (payloadOf_eq e F bank kZDABindex (by rw [hns]; exact hsize)).2 rfl
  rw [hns] at hPeq hPlen
  have hible : (preLoop e F bank kZDABindex).ipos ≤ (preLoop e F bank kZDABindex).mbuf.length := by
    rw [a3.buflen]; exact a3.ipos_le
  have hsyt : Synced e (fill (preLoop e F bank kZDABindex) (payloadOf e F bank kZDABindex)) [] :=
    Synced_fill e _ [] _ hsyp (by rw [hPlen, m3]; omega)
  have hmpr : (fill (preLoop e F bank kZDABindex) (payloadOf e F bank kZDABindex)).mpr
      = [e.ZEBRA_SIG0, e.ZEBRA_SIG1, e.ZEBRA_SIG2, e.ZEBRA_SIG3, e.NWREC, 0, NPHREC, 0] := by
    show (preLoop e F bank kZDABindex).mpr = _
    rw [ha4.mpr, p2.mpr, f7]
  have hip : (fill (preLoop e F bank kZDABindex) (payloadOf e F bank kZDABindex)).ipos
      = 30 + e.GetSize bank / 4 := by
    show (preLoop e F bank kZDABindex).ipos + (payloadOf e F bank kZDABindex).length = _
    rw [m3, hPlen]
  have htk := fill_mbuf_take (preLoop e F bank kZDABindex) (payloadOf e F bank kZDABindex) hible
  have hah : (WriteBank e F bank kZDABindex).2.1.ahead = [] :=
    (WriteBank_kept e F bank kZDABindex).2 f6
  rw [hw] at hah ⊢
  dsimp only at hah ⊢
  obtain ⟨t, ht⟩ : ∃ t, t = fill (preLoop e F bank kZDABindex) (payloadOf e F bank kZDABindex) :=
    ⟨_, rfl⟩
  rw [← ht] at hmpr hip htk hah hsyt hh ⊢
  rw [m1, hPeq] at htk
  obtain ⟨c1, -, -, c4, c5, -⟩ := Close_full e hio t [] hsyt hh.mpr_len (by omega)
  rw [htk, hmpr, hip, List.nil_append] at c4
  have hfirst : 30 + e.GetSize bank / 4 = 8 + 2 + 10 + 1 + 9 + e.GetSize bank / 4 := by omega
  refine ⟨rfl, c1, c5 hah, ?_, ?_⟩
  · rw [c4]
    unfold NPHREC NLOGIC NPILOT NBANK
    rw [hfirst]
    simp only [List.append_assoc, List.map_append]
  · rw [c4]
    have hpw := padWords_length e (30 + e.GetSize bank / 4) (by omega)
    have hp11 := padWords_length e (8 + 3) (by omega)
    have hp14 := padWords_length e (8 + 6) (by omega)
    have htl : ((SWAP_INT32 e bank 3 1).take (e.GetSize bank / 4)).length = e.GetSize bank / 4 := by
      rw [List.length_take, SWAP_INT32_length]
      omega
    unfold eorBlock eozBlock closingHeader
    simp only [List.length_append, List.length_map, List.length_cons, List.length_nil,
      List.length_set, hpw, hp11, hp14, htl, meor, meoz]
    omega

theorem C10_one_primary_bank_witness :
    (WriteBank okEnv (new okEnv (some "run.zdab") false none true) [1, 2, 3, 4] kZDABindex).1 = 0
    ∧ (Close okEnv (WriteBank okEnv (new okEnv (some "run.zdab") false none true)
        [1, 2, 3, 4] kZDABindex).2.1).2.behind.length = 3 * okEnv.NWREC :=
  ⟨(C10_one_primary_bank okEnv okEnv_wellFormed okEnv_noFail "run.zdab" false (by decide)
      [1, 2, 3, 4] (by decide) (by decide)).1,
   (C10_one_primary_bank okEnv okEnv_wellFormed okEnv_noFail "run.zdab" false (by decide)
      [1, 2, 3, 4] (by decide) (by decide)).2.2.2.2⟩


/-! ### The scan over a file made of groups -/

theorem resumeScan_exact (e : Env) (groups : List (List (List Nat))) :
    ∀ (bl : List (List Nat)) (eor : List Nat) (rest : List (List Nat)) (irec k : Nat)
      (mbuf : List Nat), bl = groups.flatten ++ eor :: rest →
      (∀ g ∈ groups, IsGroup e g ∧ headWord e g 4 ≠ EOR_TAG) → IsEndOfRun e eor →
      resumeScan e bl 0 irec k mbuf
        = { found := true, nblocks := k + groups.flatten.length,
            irec := lastSeq e irec groups, mbuf := SWAP_INT32 e eor 0 e.NWREC } := by
  induction groups with
  | nil =>
    intro bl eor rest irec k mbuf hbl _ heor
    subst hbl
    simp only [List.flatten_nil, List.nil_append, List.length_nil, Nat.add_zero]
    rw [resumeScan_eor e eor rest irec k mbuf heor]
    simp [lastSeq]
  | cons g gs ih =>
    intro bl eor rest irec k mbuf hbl hg heor
    obtain ⟨⟨h, fast, hgeq, hm, hfl⟩, h4⟩ := hg g (List.mem_cons_self _ _)
    subst hgeq
    subst hbl
    have h4b : wordOf e h 4 ≠ EOR_TAG := by simpa [headWord] using h4
    simp only [List.flatten_cons, List.cons_append, List.append_assoc]
    rw [resumeScan_header e h _ irec k mbuf hm h4b]
    have hs := resumeScan_skip e (wordOf e h 7) (fast ++ (gs.flatten ++ eor :: rest))
      (wordOf e h 5) (k + 1) (SWAP_INT32 e h 0 e.NWREC)
    obtain ⟨m, hm2⟩ := hs.1 (by simp only [List.length_append]; omega)
    rw [hm2, ← hfl, List.drop_left]
    rw [ih _ eor rest _ _ m rfl (fun g2 hg2 => hg g2 (List.mem_cons_of_mem _ hg2)) heor,
      lastSeq_cons]
    simp only [headWord, List.headD_cons, List.length_append, List.length_cons]
    congr 1
    omega

theorem toBlocks_cons (e : Env) (b rest : List Nat) (hb : b.length = e.NWREC)
    (hW : 0 < e.NWREC) : toBlocks e (b ++ rest) = b :: toBlocks e rest := by
  unfold toBlocks
  have hd : (b ++ rest).length / e.NWREC = rest.length / e.NWREC + 1 := by
    rw [List.length_append, hb, Nat.add_comm, Nat.add_div_right _ hW]
  rw [hd, List.range_succ_eq_map, List.map_cons, List.map_map]
  congr 1
  · simp [hb]
  · apply List.map_congr_left
    intro i _
    simp only [Function.comp]
    rw [Nat.succ_mul, Nat.add_comm (i * e.NWREC), ← hb, ← List.drop_drop, List.drop_left]

theorem toBlocks_flatten (e : Env) (hW : 0 < e.NWREC) (bs : List (List Nat))
    (h : ∀ b ∈ bs, b.length = e.NWREC) : toBlocks e bs.flatten = bs := by
  induction bs with
  | nil => simp [toBlocks]
  | cons b bs ih =>
    rw [List.flatten_cons, toBlocks_cons e b _ (h b (List.mem_cons_self _ _)) hW,
      ih (fun b2 hb2 => h b2 (List.mem_cons_of_mem _ hb2))]

theorem toBlocks_whole (e : Env) (hW : 0 < e.NWREC) (n : Nat) :
    ∀ (l : List Nat), l.length = n * e.NWREC →
      (toBlocks e l).flatten = l ∧ (toBlocks e l).length = n
      ∧ ∀ b ∈ toBlocks e l, b.length = e.NWREC := by
  induction n with
  | zero =>
    intro l hl
    have : l = [] := List.length_eq_zero.mp (by simpa using hl)
    subst this
    simp [toBlocks]
  | succ n ih =>
    intro l hl
    have hge : e.NWREC ≤ l.length := by
      rw [hl, Nat.succ_mul]; omega
    have htl : (l.take e.NWREC).length = e.NWREC := by
      rw [List.length_take]; omega
    have hdl : (l.drop e.NWREC).length = n * e.NWREC := by
      rw [List.length_drop, hl, Nat.succ_mul]; omega
    obtain ⟨i1, i2, i3⟩ := ih _ hdl
    have hsplit : toBlocks e l = l.take e.NWREC :: toBlocks e (l.drop e.NWREC) := by
      conv_lhs => rw [← List.take_append_drop e.NWREC l]
      exact toBlocks_cons e _ _ htl hW
    rw [hsplit]
    refine ⟨?_, by simp [i2], ?_⟩
    · rw [List.flatten_cons, i1, List.take_append_drop]
    · intro b hb
      rcases List.mem_cons.mp hb with h | h
      · rw [h]; exact htl
      · exact i3 b h


/-! ### Groups of blocks with consecutive sequence numbers -/

theorem SWAP_INT32_all (e : Env) (b : List Nat) (n : Nat) (h : b.length ≤ n) :
    SWAP_INT32 e b 0 n = b.map e.swap := by
  unfold SWAP_INT32
  rw [List.take_zero, List.nil_append, List.drop_zero, Nat.zero_add,
    List.take_of_length_le h, List.drop_of_length_le h, List.append_nil]

theorem heads_of_take (e : Env) (hss : ∀ w, e.swap (e.swap w) = w) (hd hdr : List Nat)
    (hlen : hd.length = e.NWREC) (ht : hd.take 8 = hdr.map e.swap) (hl : hdr.length = 8)
    (hsig : hdr.take 5 = [e.ZEBRA_SIG0, e.ZEBRA_SIG1, e.ZEBRA_SIG2, e.ZEBRA_SIG3, e.NWREC]) :
    Heads e hd (hdr.getD 5 0) (hdr.getD 7 0) := by
  have hw : ∀ i, i < 8 → wordOf e hd i = hdr.getD i 0 := by
    intro i hi
    unfold wordOf
    rw [SWAP_INT32_all e hd _ (by rw [hlen])]
    have h1 : (hd.map e.swap).getD i 0 = ((hd.map e.swap).take 8).getD i 0 := by
      rw [List.getD_eq_getElem?_getD, List.getD_eq_getElem?_getD, List.getElem?_take, if_pos hi]
    rw [h1, ← List.map_take, ht, List.map_map]
    have : e.swap ∘ e.swap = id := by
      funext w; exact hss w
    rw [this, List.map_id]
  obtain ⟨a0, a1, a2, a3, a4, a5, a6, a7, rfl⟩ := list_length_eight hdr hl
  simp only [List.take, List.cons.injEq, and_true] at hsig
  obtain ⟨h0, h1, h2, h3, h4⟩ := hsig
  refine ⟨hlen, ⟨?_, ?_, ?_, ?_⟩, ?_, ?_, ?_⟩
  · rw [hw 0 (by omega)]; simpa using h0
  · rw [hw 1 (by omega)]; simpa using h1
  · rw [hw 2 (by omega)]; simpa using h2
  · rw [hw 3 (by omega)]; simpa using h3
  · rw [hw 4 (by omega)]; simpa using h4
  · rw [hw 5 (by omega)]
  · rw [hw 7 (by omega)]

theorem blocks_length (n : Nat) (bs : List (List Nat)) (h : ∀ b ∈ bs, b.length = n) :
    bs.flatten.length = bs.length * n := by
  induction bs with
  | nil => simp
  | cons b bs ih =>
    rw [List.flatten_cons, List.length_append, h b (List.mem_cons_self _ _),
      ih (fun b2 hb2 => h b2 (List.mem_cons_of_mem _ hb2)), List.length_cons, Nat.succ_mul]
    omega

theorem GroupsOK_blocks (e : Env) (first : Nat) (groups : List (List (List Nat)))
    (h : GroupsOK e first groups) : ∀ b ∈ groups.flatten, b.length = e.NWREC := by
  intro b hb
  obtain ⟨g, hg, hbg⟩ := List.mem_flatten.mp hb
  obtain ⟨hd, fast, seq, rfl, hh, hf⟩ := h.1 g hg
  rcases List.mem_cons.mp hbg with h1 | h1
  · rw [h1]; exact hh.1
  · exact hf b h1

theorem GroupsOK_length (e : Env) (first : Nat) (groups : List (List (List Nat)))
    (h : GroupsOK e first groups) : groups.flatten.flatten.length % e.NWREC = 0 := by
  rw [blocks_length e.NWREC _ (GroupsOK_blocks e first groups h)]
  exact Nat.mul_mod_left _ _

theorem GroupsOK_nil (e : Env) (first : Nat) : GroupsOK e first [] :=
  ⟨fun _ h => absurd h (List.not_mem_nil _), rfl⟩

theorem GroupsOK_snoc (e : Env) (hW : 0 < e.NWREC) (first : Nat)
    (groups : List (List (List Nat))) (hd words : List Nat) (k : Nat)
    (h : GroupsOK e first groups) (hh : Heads e hd ((first + groups.length) % U32) k)
    (hw : words.length = k * e.NWREC) :
    GroupsOK e first (groups ++ [hd :: toBlocks e words])
    ∧ (groups ++ [hd :: toBlocks e words]).flatten.flatten
        = groups.flatten.flatten ++ hd ++ words
    ∧ (groups ++ [hd :: toBlocks e words]).length = groups.length + 1 := by
  obtain ⟨t1, t2, t3⟩ := toBlocks_whole e hW k words hw
  refine ⟨⟨?_, ?_⟩, ?_, by simp⟩
  · intro g hg
    rcases List.mem_append.mp hg with h1 | h1
    · exact h.1 g h1
    · rw [List.mem_singleton.mp h1]
      exact ⟨hd, _, _, rfl, by rw [t2]; exact hh, t3⟩
  · rw [List.map_append, h.2, List.length_append, List.length_singleton, List.range_succ,
      List.map_append]
    simp only [List.map_cons, List.map_nil, headWord, List.headD_cons]
    rw [hh.2.2.2.1]
  · simp only [List.flatten_append, List.flatten_cons, List.flatten_nil, List.append_nil, t1,
      List.append_assoc]

theorem Chained_grow (e : Env) (hwf : e.WellFormed) (base : List Nat) (first : Nat)
    (groups : List (List (List Nat))) (hg : GroupsOK e first groups) (t : Writer)
    (hd words hdr : List Nat) (k : Nat)
    (hsy : Synced e t (base ++ groups.flatten.flatten ++ hd ++ words))
    (hlen : hd.length = e.NWREC) (ht : hd.take 8 = hdr.map e.swap) (hl : hdr.length = 8)
    (hsig : hdr.take 5 = [e.ZEBRA_SIG0, e.ZEBRA_SIG1, e.ZEBRA_SIG2, e.ZEBRA_SIG3, e.NWREC])
    (h5 : hdr.getD 5 0 = (first + groups.length) % U32) (h7 : hdr.getD 7 0 = k)
    (hw : words.length = k * e.NWREC)
    (hir : t.irec = ((first + groups.length) % U32 + 1) % U32) :
    Chained e base first t := by
  have hW : 0 < e.NWREC := by
    have := hwf.roomy
    omega
  have hh := heads_of_take e hwf.swap_swap hd hdr hlen ht hl hsig
  rw [h5, h7] at hh
  obtain ⟨g1, g2, g3⟩ := GroupsOK_snoc e hW first groups hd words k hg hh hw
  refine ⟨_, g1, ?_, ?_⟩
  · rw [g2]
    simp only [List.append_assoc] at hsy ⊢
    exact hsy
  · rw [g3, hir]
    unfold U32
    omega

theorem padded_heads (e : Env) (s : Writer) (hs : Healthy e s) :
    (s.mbuf.take s.ipos ++ padWords e s.ipos).length = e.NWREC
    ∧ (s.mbuf.take s.ipos ++ padWords e s.ipos).take 8 = s.mpr.map e.swap := by
  have hl : (s.mbuf.take s.ipos).length = s.ipos := by
    rw [List.length_take, hs.buflen]
    exact Nat.min_eq_left hs.ipos_le
  refine ⟨?_, ?_⟩
  · rw [List.length_append, padWords_length e _ hs.ipos_le, hl]
    have := hs.ipos_le
    omega
  · have h8 : 8 ≤ s.ipos := hs.ipos_ge
    rw [List.take_append_of_le_length (by rw [hl]; exact h8), List.take_take,
      Nat.min_eq_left h8]
    exact hs.header

theorem mod_add_zero (a b n : Nat) (ha : a % n = 0) (hb : b % n = 0) : (a + b) % n = 0 := by
  rw [Nat.add_mod, ha, hb]
  simp

theorem preLoop_chained (e : Env) (hwf : e.WellFormed) (hio : e.NoFail) (s : Writer)
    (hs : Healthy e s) (bank : List Nat) (index : Nat) (hidx : index < NUM_BANKS)
    (hne : index ≠ kMASTindex) (base : List Nat) (first : Nat)
    (hb : base.length % e.NWREC = 0) (hc : Chained e base first s) :
    Chained e base first (preLoop e s bank index) := by
  obtain ⟨groups, hg, hsy, hir⟩ := hc
  have hcm : (base ++ groups.flatten.flatten).length % e.NWREC = 0 := by
    rw [List.length_append]
    exact mod_add_zero _ _ _ hb (GroupsOK_length e first groups hg)
  obtain ⟨-, -, a3, a4, -, -, cm2, a7, -, -, a10⟩ :=
    preLoop_ok e hwf hio s hs bank index hidx hne _ hsy hcm
  obtain ⟨p1, p2, -⟩ := prepared_ok e s hs bank index hidx hne hwf.mast_len
  rcases a10 with ⟨h1, h2⟩ | ⟨h1, h2⟩
  · refine ⟨groups, hg, h1 ▸ a7, ?_⟩
    rw [a4.1.irec, h2, p2.irec]
    exact hir
  · obtain ⟨q1, q2⟩ := padded_heads e s hs
    have hW : 8 ≤ e.NWREC := by
      have := hwf.roomy
      unfold NPHREC at this; omega
    obtain ⟨cmp, hsyp, hcmp⟩ := p1.toSynced
    have hsb := (startBlock_ok e hio _ cmp p1 hsyp hcmp hW).2.2.2.2.2.1
    refine Chained_grow e hwf base first groups hg _
      (s.mbuf.take s.ipos ++ padWords e s.ipos) [] s.mpr 0 ?_ q1 q2 hs.mpr_len hs.mpr_sig
      (hs.mpr_seq.trans hir) hs.mpr_fast (by simp) ?_
    · rw [List.append_nil]
      rw [h1] at a7
      exact a7
    · rw [a4.1.irec, h2, hsb, p2.irec, hir]

theorem take8_set7 (l hdr : List Nat) (w : Nat) (h : l.take 8 = hdr) (hl : hdr.length = 8) :
    (l.set 7 w).take 8 = hdr.set 7 w := by
  have hsp : l = hdr ++ l.drop 8 := by
    rw [← h, List.take_append_drop]
  rw [hsp, List.set_append, if_pos (by rw [hl]; omega),
    List.take_left' (by rw [List.length_set, hl])]

theorem header_set7 (e : Env) (mpr : List Nat) (nf : Nat) (hl : mpr.length = 8)
    (hsig : mpr.take 5 = [e.ZEBRA_SIG0, e.ZEBRA_SIG1, e.ZEBRA_SIG2, e.ZEBRA_SIG3, e.NWREC]) :
    (mpr.map e.swap).set 7 (e.swap nf) = (mpr.set 7 nf).map e.swap
    ∧ (mpr.set 7 nf).length = 8
    ∧ (mpr.set 7 nf).take 5 = [e.ZEBRA_SIG0, e.ZEBRA_SIG1, e.ZEBRA_SIG2, e.ZEBRA_SIG3, e.NWREC]
    ∧ (mpr.set 7 nf).getD 5 0 = mpr.getD 5 0
    ∧ (mpr.set 7 nf).getD 7 0 = nf := by
  obtain ⟨a0, a1, a2, a3, a4, a5, a6, a7, rfl⟩ := list_length_eight mpr hl
  exact ⟨rfl, rfl, hsig, rfl, rfl⟩

theorem WriteBank_chained (e : Env) (hwf : e.WellFormed) (hio : e.NoFail) (s : Writer)
    (hs : Healthy e s) (bank : List Nat) (index : Nat) (hidx : index < NUM_BANKS)
    (base : List Nat) (first : Nat) (hb : base.length % e.NWREC = 0)
    (hc : Chained e base first s) :
    (WriteBank e s bank index).1 = 0
    ∧ Healthy e (WriteBank e s bank index).2.1
    ∧ Chained e base first (WriteBank e s bank index).2.1 := by
  by_cases hne : index = kMASTindex
  · have hw : WriteBank e s bank index = (0, s, bank) := by
      unfold WriteBank
      simp [hs.isOpen, hne]
    rw [hw]
    exact ⟨rfl, hs, hc⟩
  obtain ⟨groups, hg, a7, hir⟩ :=
    preLoop_chained e hwf hio s hs bank index hidx hne base first hb hc
  have a8 : (base ++ groups.flatten.flatten).length % e.NWREC = 0 := by
    rw [List.length_append]
    exact mod_add_zero _ _ _ hb (GroupsOK_length e first groups hg)
  obtain ⟨cm, hsy, hcm⟩ := hs.toSynced
  obtain ⟨-, -, a3, -⟩ := preLoop_ok e hwf hio s hs bank index hidx hne cm hsy hcm
  have hW : 8 ≤ e.NWREC := by
    have := hwf.roomy
    unfold NPHREC at this; omega
  have hible : (preLoop e s bank index).ipos ≤ (preLoop e s bank index).mbuf.length := by
    rw [a3.buflen]; exact a3.ipos_le
  have hB0 : ((preLoop e s bank index).mbuf.take (preLoop e s bank index).ipos).length
      = (preLoop e s bank index).ipos := by rw [List.length_take, Nat.min_eq_left hible]
  have hPlen := payloadOf_length e s bank index
  obtain ⟨hrt, hrd⟩ := region_split e s bank index hible a3.ipos_le
  have h8 : 8 ≤ (preLoop e s bank index).ipos := a3.ipos_ge
  have hRlen := regionOf_length e s bank index hible
  have hB8 : ((preLoop e s bank index).mbuf.take (preLoop e s bank index).ipos).take 8
      = (preLoop e s bank index).mpr.map e.swap := by
    rw [List.take_take, Nat.min_eq_left h8]
    exact a3.header
  have hR8 : ((regionOf e s bank index).take e.NWREC).take 8
      = (preLoop e s bank index).mpr.map e.swap := by
    rw [hrt, List.take_append_of_le_length (by rw [hB0]; exact h8)]
    exact hB8
  by_cases c1 : totalOf e s bank index ≤ e.NWREC
  · obtain ⟨hw, hh⟩ := WriteBank_fits e hwf hio s hs bank index hidx hne c1
    have hsyt : Synced e (fill (preLoop e s bank index) (payloadOf e s bank index))
        (base ++ groups.flatten.flatten) :=
      Synced_fill e _ _ _ a7 (by rw [hPlen]; exact c1)
    rw [hw]
    exact ⟨rfl, hh, groups, hg, hsyt, hir⟩
  · by_cases c2 : totalOf e s bank index ≤ 2 * e.NWREC - NPHREC
    · obtain ⟨t, ht, q1, q2, q3, q4, q5, q6, q7⟩ :=
        WriteBank_continues e hwf hio s hs bank index hidx hne _ a7 a8 (by omega) c2
      rw [ht]
      refine ⟨rfl, q1, Chained_grow e hwf base first groups hg t
        ((regionOf e s bank index).take e.NWREC) [] (preLoop e s bank index).mpr 0 ?_ ?_ hR8
        a3.mpr_len a3.mpr_sig (a3.mpr_seq.trans hir) a3.mpr_fast (by simp) ?_⟩
      · rw [List.append_nil]; exact q2
      · rw [List.length_take, hRlen]; omega
      · rw [q6, hir]
    · have hT : 2 * e.NWREC - NPHREC < totalOf e s bank index := by omega
      have hnl : nleftOf e s bank index > e.NWREC - NPHREC := by
        unfold nleftOf
        unfold NPHREC at hT ⊢
        omega
      obtain ⟨k1, k2, k3⟩ := nfastOf_bounds e _ hW hnl
      have htl := tailOf_length e s bank index hible
      have hsl := steeringOf_length e s bank index hible (by unfold NPHREC at hT; omega)
      obtain ⟨s1, s2, s3, s4, s5⟩ := header_set7 e (preLoop e s bank index).mpr
        (nfastOf e (nleftOf e s bank index)) a3.mpr_len a3.mpr_sig
      have hS8 : (steeringOf e s bank index).take 8
          = ((preLoop e s bank index).mpr.set 7 (nfastOf e (nleftOf e s bank index))).map e.swap := by
        unfold steeringOf
        rw [take8_set7 _ _ _ hR8 (by rw [List.length_map]; exact a3.mpr_len), s1]
      obtain ⟨m, hm⟩ : ∃ m, nfastOf e (nleftOf e s bank index) = m + 1 :=
        ⟨nfastOf e (nleftOf e s bank index) - 1, by omega⟩
      by_cases hk : nleftOf e s bank index ≤ nfastOf e (nleftOf e s bank index) * e.NWREC
      · obtain ⟨t, ht, q1, q2, q3, q4, q5, q6⟩ :=
          WriteBank_fast_padded e hwf hio s hs bank index hidx hne _ a7 a8 hT hk
        rw [ht]
        refine ⟨rfl, q1, Chained_grow e hwf base first groups hg t (steeringOf e s bank index)
          ((tailOf e s bank index).take ((nfastOf e (nleftOf e s bank index) - 1) * e.NWREC)
            ++ ((tailOf e s bank index).drop ((nfastOf e (nleftOf e s bank index) - 1) * e.NWREC)
              ++ padWords e (nleftOf e s bank index
                  - (nfastOf e (nleftOf e s bank index) - 1) * e.NWREC)))
          ((preLoop e s bank index).mpr.set 7 (nfastOf e (nleftOf e s bank index)))
          (nfastOf e (nleftOf e s bank index)) ?_ hsl hS8 s2 s3
          (s4.trans (a3.mpr_seq.trans hir)) s5 ?_ ?_⟩
        · simp only [List.append_assoc] at q2 ⊢
          exact q2
        · rw [hm, Nat.succ_mul] at hk ⊢
          rw [hm] at k2
          simp only [Nat.add_sub_cancel] at k2 ⊢
          rw [List.length_append, List.length_append, List.length_take, List.length_drop, htl,
            padWords_length e _ (by omega)]
          omega
        · rw [q5, hir]
      · obtain ⟨t, ht, q1, q2, q3, q4, q5, q6, q7⟩ :=
          WriteBank_fast_continued e hwf hio s hs bank index hidx hne _ a7 a8 hT (by omega)
        rw [ht]
        refine ⟨rfl, q1, Chained_grow e hwf base first groups hg t (steeringOf e s bank index)
          ((tailOf e s bank index).take (nfastOf e (nleftOf e s bank index) * e.NWREC))
          ((preLoop e s bank index).mpr.set 7 (nfastOf e (nleftOf e s bank index)))
          (nfastOf e (nleftOf e s bank index)) ?_ hsl hS8 s2 s3
          (s4.trans (a3.mpr_seq.trans hir)) s5 ?_ ?_⟩
        · simp only [List.append_assoc] at q2 ⊢
          exact q2
        · rw [List.length_take, htl]
          omega
        · rw [q6, hir]


/-! ### Flush and sequences of calls -/

theorem Flush_healthy (e : Env) (hio : e.NoFail) (s : Writer) (hs : Healthy e s)
    (base : List Nat) (first : Nat) (hc : Chained e base first s) :
    (Flush e s).1 = 0 ∧ Healthy e (Flush e s).2 ∧ Chained e base first (Flush e s).2 := by
  obtain ⟨f1, f2, -, -, -, f6, f7, f8, f9, f10, f11⟩ :=
    Flush_full e hio s hs.isOpen hs.noError hs.buflen hs.wpos_le hs.ipos_le
  have hbe : ∀ cm, s.behind = cm ++ s.mbuf.take s.mWritePos →
      (Flush e s).2.behind = cm ++ (Flush e s).2.mbuf.take (Flush e s).2.mWritePos := by
    intro cm h
    rw [f2, f6, f7, h, List.append_assoc]
    congr 1
    have h1 : s.mbuf.take s.ipos = (s.mbuf.take s.ipos).take s.mWritePos
        ++ (s.mbuf.take s.ipos).drop s.mWritePos := (List.take_append_drop _ _).symm
    rw [List.take_take, Nat.min_eq_left hs.wpos_le, List.drop_take] at h1
    rw [h1]
  refine ⟨f1, ⟨?_, ?_, ?_, ?_, ?_, ?_, ?_, ?_, ?_, ?_, ?_, ?_, ?_, ?_, ?_, ?_, ?_, ?_⟩, ?_⟩
  · rw [f11.zdaboutput]; exact hs.isOpen
  · rw [f11.mError]; exact hs.noError
  · rw [f11.buflen]; exact hs.buflen
  · rw [f8]; exact hs.ipos_ge
  · rw [f8]; exact hs.ipos_le
  · rw [f6, f8]
  · obtain ⟨cm, h1, h2⟩ := hs.synced
    exact ⟨cm, hbe cm h1, h2⟩
  · rw [f10]; exact hs.mpr_len
  · rw [f10]; exact hs.mpr_sig
  · rw [f10, f9]; exact hs.mpr_seq
  · rw [f10]; exact hs.mpr_fast
  · rw [f9]; exact hs.irec_lt
  · rw [f7, f10]; exact hs.header
  · rw [f11.mlr]; exact hs.mlr_len
  · rw [f11.mlr]; exact hs.mlr_type
  · rw [f11.mpili]; exact hs.mpili_len
  · rw [f11.mbk]; exact hs.mbk_len
  · rw [f11.sBankDef]; exact hs.catalog
  · obtain ⟨groups, hg, hsy, hir⟩ := hc
    refine ⟨groups, hg, ⟨?_, ?_, ?_, ?_, ?_, hbe _ hsy.behind_eq⟩, by rw [f9]; exact hir⟩
    · rw [f11.zdaboutput]; exact hs.isOpen
    · rw [f11.mError]; exact hs.noError
    · rw [f11.buflen]; exact hs.buflen
    · rw [f8]; exact hs.ipos_le
    · rw [f6, f8]

theorem run_chained (e : Env) (hwf : e.WellFormed) (hio : e.NoFail) (base : List Nat)
    (first : Nat) (hb : base.length % e.NWREC = 0) (cs : List Call) :
    ∀ (s : Writer), Healthy e s → Chained e base first s → ValidCalls cs →
      Healthy e (run e s cs) ∧ Chained e base first (run e s cs) := by
  induction cs with
  | nil => intro s hs hc _; exact ⟨hs, hc⟩
  | cons c cs ih =>
    intro s hs hc hv
    have hv2 : ValidCalls cs := fun c2 h2 => hv c2 (List.mem_cons_of_mem _ h2)
    cases c with
    | writeBank bank index =>
      have hidx : index < NUM_BANKS := hv (Call.writeBank bank index) (List.mem_cons_self _ _)
      obtain ⟨-, w2, w3⟩ := WriteBank_chained e hwf hio s hs bank index hidx base first hb hc
      exact ih _ w2 w3 hv2
    | flush =>
      obtain ⟨-, w2, w3⟩ := Flush_healthy e hio s hs base first hc
      exact ih _ w2 w3 hv2


/-! ### Construction leaves a healthy writer -/

theorem toBlocks_length (e : Env) (hW : 0 < e.NWREC) (file : List Nat) :
    ∀ b ∈ toBlocks e file, b.length = e.NWREC := by
  intro b hb
  unfold toBlocks at hb
  obtain ⟨i, hi, rfl⟩ := List.mem_map.mp hb
  rw [List.mem_range] at hi
  have h1 : (i + 1) * e.NWREC ≤ file.length := (Nat.le_div_iff_mul_le hW).mp hi
  rw [Nat.succ_mul] at h1
  rw [List.length_take, List.length_drop]
  omega

theorem initRecords_healthy (e : Env) (s : Writer) (hW : 8 ≤ e.NWREC)
    (hopen : s.zdaboutput = true) (herr : s.mError = 0) (hlen : s.mbuf.length = e.NWREC)
    (hw : s.mWritePos = 0) (hb : s.behind.length % e.NWREC = 0)
    (hcat : s.sBankDef = sBankDefInit e) :
    Healthy e (initRecords e s) ∧ Synced e (initRecords e s) s.behind
    ∧ (initRecords e s).irec = (s.irec + 1) % U32 := by
  obtain ⟨i1, i2, i3, -, i5, i6, i7⟩ := initRecords_frame e s
  have hm := initRecords_mbuf_take e s
  have hmpr : (initRecords e s).mpr
      = [e.ZEBRA_SIG0, e.ZEBRA_SIG1, e.ZEBRA_SIG2, e.ZEBRA_SIG3, e.NWREC, (s.irec + 1) % U32,
          NPHREC, 0] := by
    simp [initRecords, AddRecord]
  have hrest : (initRecords e s).mlr = [0, 2] ∧ (initRecords e s).mpili.length = 12
      ∧ (initRecords e s).mbk.length = 9 ∧ (initRecords e s).sBankDef = s.sBankDef := by
    simp [initRecords, AddRecord]
  obtain ⟨r1, r2, r3, r4⟩ := hrest
  have hbl : (initRecords e s).mbuf.length = e.NWREC := by
    simp only [initRecords]
    rw [AddRecord_mbuf e _ _ _ rfl (Nat.zero_le _), poke_length _ _ _ (by
      simp only [List.length_map, List.length_cons, List.length_nil]
      omega)]
    exact hlen
  have hsy : Synced e (initRecords e s) s.behind :=
    ⟨i1.trans hopen, i2.trans herr, hbl, by rw [i5]; exact hW, by rw [i6, hw]; exact Nat.zero_le _,
      by rw [i3, i6, hw]; simp⟩
  have hlt : (s.irec + 1) % U32 < U32 := Nat.mod_lt _ (by decide)
  refine ⟨⟨i1.trans hopen, i2.trans herr, hbl, by rw [i5]; exact Nat.le_refl _,
    by rw [i5]; exact hW, by rw [i6, hw]; exact Nat.zero_le _, ⟨_, hsy.behind_eq, hb⟩,
    by rw [hmpr]; rfl, by rw [hmpr]; rfl, by rw [hmpr, i7]; rfl, by rw [hmpr]; rfl,
    by rw [i7]; exact hlt, ?_, by rw [r1]; rfl, by rw [r1]; rfl, r2, r3,
    by rw [r4, hcat]; exact CatalogOK_init e⟩, hsy, i7⟩
  rw [hm, hmpr]
  rfl

theorem new_open_healthy (e : Env) (hW : 8 ≤ e.NWREC) (file_name : Option String)
    (calcMD5 : Bool) (existing : Option (List Nat)) (canCreate : Bool)
    (hopen : (new e file_name calcMD5 existing canCreate).zdaboutput = true) :
    Healthy e (new e file_name calcMD5 existing canCreate)
    ∧ ∃ base, base.length % e.NWREC = 0
        ∧ Synced e (new e file_name calcMD5 existing canCreate) base := by
  by_cases hn : file_name = none ∨ file_name = some ""
  · unfold new at hopen
    rw [if_pos hn] at hopen
    exact absurd hopen (by simp)
  cases existing with
  | none =>
    have hc : canCreate = true := by
      unfold new at hopen
      rw [if_neg hn] at hopen
      simpa [initRecords, AddRecord] using hopen
    have hnew : new e file_name calcMD5 none canCreate
        = initRecords e
            { mBytesWritten := 0, mWritePos := 0, mError := 0, mCalcMD5 := calcMD5,
              mMD5 := [], mbuf := List.replicate e.NWREC 0, ipos := 0, irec := U32 - 1,
              zdaboutput := true, mpr := [], mlr := [], mpili := [], mbk := [],
              sBankDef := sBankDefInit e, behind := [], ahead := [], ops := [] } := by
      unfold new
      rw [if_neg hn, hc]
      rfl
    rw [hnew]
    obtain ⟨h1, h2, -⟩ := initRecords_healthy e
      { mBytesWritten := 0, mWritePos := 0, mError := 0, mCalcMD5 := calcMD5,
        mMD5 := [], mbuf := List.replicate e.NWREC 0, ipos := 0, irec := U32 - 1,
        zdaboutput := true, mpr := [], mlr := [], mpili := [], mbk := [],
        sBankDef := sBankDefInit e, behind := [], ahead := [], ops := [] }
      hW rfl rfl (List.length_replicate _ _) rfl (Nat.zero_mod _) rfl
    exact ⟨h1, [], by simp, h2⟩
  | some file =>
    obtain ⟨name, rfl, hname⟩ : ∃ name, file_name = some name ∧ name ≠ "" := by
      cases file_name with
      | none => exact absurd (Or.inl rfl) hn
      | some nm => exact ⟨nm, rfl, fun h => hn (Or.inr (by rw [h]))⟩
    rw [new_existing e name calcMD5 canCreate file hname] at hopen ⊢
    by_cases hf : (resumeScan e (toBlocks e file) 0 (U32 - 1) 0 (List.replicate e.NWREC 0)).found
        = true
    · rw [if_pos hf]
      obtain ⟨groups, eor, rest, hbl, -, -, hnb, -, hmb⟩ :=
        resumeScan_sound e (toBlocks e file).length (toBlocks e file) (U32 - 1) 0
          (List.replicate e.NWREC 0) (Nat.le_refl _) hf
      have hel : eor.length = e.NWREC :=
        toBlocks_length e (by omega) file eor (by rw [hbl]; simp)
      have hcnt : (groups.flatten.length + 1) * e.NWREC ≤ file.length := by
        have h1 : groups.flatten.length + 1 ≤ (toBlocks e file).length := by
          rw [hbl]; simp
        have h2 : (toBlocks e file).length = file.length / e.NWREC := by
          simp [toBlocks]
        rw [h2] at h1
        exact (Nat.le_div_iff_mul_le (by omega)).mp h1
      rw [Nat.succ_mul] at hcnt
      have hbm : (file.take ((resumeScan e (toBlocks e file) 0 (U32 - 1) 0
          (List.replicate e.NWREC 0)).nblocks * e.NWREC)).length % e.NWREC = 0 := by
        rw [hnb, List.length_take, Nat.zero_add, Nat.min_eq_left (by omega)]
        exact Nat.mul_mod_left _ _
      have hml : (resumeScan e (toBlocks e file) 0 (U32 - 1) 0
          (List.replicate e.NWREC 0)).mbuf.length = e.NWREC := by
        rw [hmb, SWAP_INT32_length]; exact hel
      obtain ⟨h1, h2, -⟩ := initRecords_healthy e
        { mBytesWritten := 0, mWritePos := 0, mError := 0, mCalcMD5 := calcMD5, mMD5 := [],
          mbuf := (resumeScan e (toBlocks e file) 0 (U32 - 1) 0 (List.replicate e.NWREC 0)).mbuf,
          ipos := 0,
          irec := (resumeScan e (toBlocks e file) 0 (U32 - 1) 0 (List.replicate e.NWREC 0)).irec,
          zdaboutput := true, mpr := [], mlr := [], mpili := [], mbk := [],
          sBankDef := sBankDefInit e,
          behind := file.take
            ((resumeScan e (toBlocks e file) 0 (U32 - 1) 0 (List.replicate e.NWREC 0)).nblocks
              * e.NWREC),
          ahead := file.drop
            ((resumeScan e (toBlocks e file) 0 (U32 - 1) 0 (List.replicate e.NWREC 0)).nblocks
              * e.NWREC),
          ops := [] } hW rfl rfl hml rfl hbm rfl
      exact ⟨h1, _, hbm, h2⟩
    · rw [if_neg hf] at hopen
      exact absurd hopen (by simp)

theorem new_created_irec (e : Env) (file_name : Option String) (calcMD5 : Bool)
    (canCreate : Bool) (hopen : (new e file_name calcMD5 none canCreate).zdaboutput = true) :
    (new e file_name calcMD5 none canCreate).irec = 0 := by
  by_cases hn : file_name = none ∨ file_name = some ""
  · unfold new at hopen
    rw [if_pos hn] at hopen
    exact absurd hopen (by simp)
  · unfold new
    rw [if_neg hn]
    simp [initRecords, AddRecord, U32]

theorem Healthy_inBounds (e : Env) (s : Writer) (hs : Healthy e s) : InBounds e s := by
  refine ⟨hs.buflen, hs.ipos_le, hs.wpos_le, hs.ipos_ge, hs.header, ?_⟩
  have h := congrArg (List.take 4) hs.mpr_sig
  rw [List.take_take] at h
  exact h

theorem chained_start (e : Env) (s : Writer) (base : List Nat) (hs : Healthy e s)
    (hsy : Synced e s base) : Chained e base s.irec s := by
  refine ⟨[], GroupsOK_nil e _, by simpa using hsy, ?_⟩
  simp only [List.length_nil, Nat.add_zero]
  exact (Nat.mod_eq_of_lt hs.irec_lt).symm

/-- C20: the bounds of the block buffer (no stdio call fails).  A construction that
leaves the file open leaves a healthy writer; from a healthy writer every `WriteBank`
call with a catalog index and every `Flush` return 0 and leave a healthy writer again,
and `WritePhysicalRecord` returns 0 with both cursors at 0 and a buffer of `NWREC`
words.  A healthy writer is within bounds (`InBounds`): the buffer has `NWREC` words,
`NPHREC ≤ ipos ≤ NWREC`, `mWritePos ≤ ipos`, and the buffer starts with the staged
steering header, which bears the magic words.  Inside `WriteBank` the record headers go
to the words from the fill cursor of the state after placement up to that cursor plus
`overhead`, which is below `NWREC`, and the buffer keeps its `NWREC` words. -/
theorem C20_buffer_bounds (e : Env) (hwf : e.WellFormed) (hio : e.NoFail) :
    (∀ file_name calcMD5 existing canCreate,
        (new e file_name calcMD5 existing canCreate).zdaboutput = true →
        Healthy e (new e file_name calcMD5 existing canCreate)
        ∧ InBounds e (new e file_name calcMD5 existing canCreate))
    ∧ ∀ s, Healthy e s →
        InBounds e s
        ∧ (∀ bank index, index < NUM_BANKS →
            (WriteBank e s bank index).1 = 0
            ∧ Healthy e (WriteBank e s bank index).2.1
            ∧ InBounds e (WriteBank e s bank index).2.1
            ∧ (index ≠ kMASTindex →
                InBounds e (placed e s bank index)
                ∧ (preLoop e s bank index).ipos
                    = (placed e s bank index).ipos + overhead (prepared e s bank index).1
                ∧ (preLoop e s bank index).ipos < e.NWREC
                ∧ (preLoop e s bank index).mbuf.length = e.NWREC))
        ∧ ((Flush e s).1 = 0 ∧ Healthy e (Flush e s).2 ∧ InBounds e (Flush e s).2)
        ∧ ((WritePhysicalRecord e s).1 = 0
            ∧ (WritePhysicalRecord e s).2.mbuf.length = e.NWREC
            ∧ (WritePhysicalRecord e s).2.ipos = 0
            ∧ (WritePhysicalRecord e s).2.mWritePos = 0) := by
  have hW : 8 ≤ e.NWREC := by
    have := hwf.roomy
    unfold NPHREC at this; omega
  refine ⟨fun fn cmd ex cc hopen => ?_, fun s hs => ⟨Healthy_inBounds e s hs, ?_, ?_, ?_⟩⟩
  · obtain ⟨h1, -⟩ := new_open_healthy e hW fn cmd ex cc hopen
    exact ⟨h1, Healthy_inBounds e _ h1⟩
  · intro bank index hidx
    obtain ⟨cm, hsy, hcm⟩ := hs.toSynced
    obtain ⟨w1, w2, -⟩ := WriteBank_chained e hwf hio s hs bank index hidx cm s.irec hcm
      (chained_start e s cm hs hsy)
    refine ⟨w1, w2, Healthy_inBounds e _ w2, fun hne => ?_⟩
    obtain ⟨-, a2, a3, a4, a5, -⟩ := preLoop_ok e hwf hio s hs bank index hidx hne cm hsy hcm
    exact ⟨Healthy_inBounds e _ a2, a4.2, a5, a3.buflen⟩
  · obtain ⟨cm, hsy, hcm⟩ := hs.toSynced
    obtain ⟨f1, f2, -⟩ := Flush_healthy e hio s hs cm s.irec (chained_start e s cm hs hsy)
    exact ⟨f1, f2, Healthy_inBounds e _ f2⟩
  · obtain ⟨cm, hsy, hcm⟩ := hs.toSynced
    obtain ⟨w1, -, w3, -, w5, -, -, w8⟩ := WritePhysicalRecord_ok e hio s cm hsy
    exact ⟨w1, w8.buflen.trans hs.buflen, w5, w3⟩

theorem C20_buffer_bounds_witness :
    (new okEnv (some "run.zdab") false none true).zdaboutput = true
    ∧ InBounds okEnv (new okEnv (some "run.zdab") false none true)
    ∧ InBounds okEnv (WriteBank okEnv (new okEnv (some "run.zdab") false none true)
        (List.range 20) 2).2.1 :=
  ⟨by decide,
   ((C20_buffer_bounds okEnv okEnv_wellFormed okEnv_noFail).1 (some "run.zdab") false none true
      (by decide)).2,
   (((C20_buffer_bounds okEnv okEnv_wellFormed okEnv_noFail).2 _
      ((C20_buffer_bounds okEnv okEnv_wellFormed okEnv_noFail).1 (some "run.zdab") false none
        true (by decide)).1).2.1 (List.range 20) 2 (by decide)).2.2.1⟩


/-! ### Sequence numbers -/

/-- C15, as stated, fails at the end of the 32-bit range: resuming the file `wrapFile`,
whose last steering block has sequence number `0xFFFFFFFE`, the constructor stages a
header with sequence number `0xFFFFFFFF`; a `WriteBank` call with a primary bank of 880
words then transfers that block and stages the next header, whose sequence number is 0,
not one greater. -/
theorem C15_sequence_wraps :
    (new okEnv (some "run.zdab") false (some wrapFile) false).zdaboutput = true
    ∧ okEnv.swap ((new okEnv (some "run.zdab") false (some wrapFile) false).mbuf.getD 5 0)
        = 0xFFFFFFFF
    ∧ (WriteBank okEnv (new okEnv (some "run.zdab") false (some wrapFile) false)
        (List.replicate 880 0) kZDABindex).1 = 0
    ∧ okEnv.swap ((WriteBank okEnv (new okEnv (some "run.zdab") false (some wrapFile) false)
        (List.replicate 880 0) kZDABindex).2.1.mbuf.getD 5 0) = 0 := by
  decide!

/-- C15, amended: sequence numbers are consecutive modulo `2^32`.  After a construction
that leaves the file open (the words `base` of the existing file lie before the file
position; the staged header carries `first`, which is 0 on a freshly created file) and
any sequence of `WriteBank` calls with catalog indices and `Flush` calls, no stdio
failure: the blocks transferred since construction form groups, each a steering block
followed by the fast blocks it announces, the sequence numbers (header word 5) of the
steering blocks are `first`, `first + 1`, `first + 2`, ... reduced modulo `2^32`, in
file order, and the steering header staged in the buffer carries the next one. -/
theorem C15_sequence_numbers (e : Env) (hwf : e.WellFormed) (hio : e.NoFail)
    (file_name : Option String) (calcMD5 : Bool) (existing : Option (List Nat))
    (canCreate : Bool) (cs : List Call)
    (hopen : (new e file_name calcMD5 existing canCreate).zdaboutput = true)
    (hv : ValidCalls cs) :
    ∃ base groups,
      Synced e (new e file_name calcMD5 existing canCreate) base
      ∧ (new e file_name calcMD5 existing canCreate).mbuf.take 8
          = (new e file_name calcMD5 existing canCreate).mpr.map e.swap
      ∧ (new e file_name calcMD5 existing canCreate).mpr.getD 5 0
          = (new e file_name calcMD5 existing canCreate).irec
      ∧ (existing = none → (new e file_name calcMD5 existing canCreate).irec = 0)
      ∧ GroupsOK e (new e file_name calcMD5 existing canCreate).irec groups
      ∧ Synced e (run e (new e file_name calcMD5 existing canCreate) cs)
          (base ++ groups.flatten.flatten)
      ∧ (run e (new e file_name calcMD5 existing canCreate) cs).irec
          = ((new e file_name calcMD5 existing canCreate).irec + groups.length) % U32
      ∧ (run e (new e file_name calcMD5 existing canCreate) cs).mbuf.take 8
          = (run e (new e file_name calcMD5 existing canCreate) cs).mpr.map e.swap
      ∧ (run e (new e file_name calcMD5 existing canCreate) cs).mpr.getD 5 0
          = (run e (new e file_name calcMD5 existing canCreate) cs).irec := by
  have hW : 8 ≤ e.NWREC := by
    have := hwf.roomy
    unfold NPHREC at this; omega
  obtain ⟨h1, base, hb, hsy⟩ := new_open_healthy e hW file_name calcMD5 existing canCreate hopen
  obtain ⟨r1, groups, g1, g2, g3⟩ := run_chained e hwf hio base _ hb cs _ h1
    (chained_start e _ base h1 hsy) hv
  refine ⟨base, groups, hsy, h1.header, h1.mpr_seq, ?_, g1, g2, g3, r1.header, r1.mpr_seq⟩
  intro hnone
  subst hnone
  exact new_created_irec e file_name calcMD5 canCreate hopen

theorem C15_sequence_numbers_witness :
    (new okEnv (some "run.zdab") false none true).zdaboutput = true
    ∧ ValidCalls [Call.writeBank (List.range 20) 2, Call.flush]
    ∧ ∃ base groups,
        Synced okEnv (new okEnv (some "run.zdab") false none true) base
        ∧ GroupsOK okEnv (new okEnv (some "run.zdab") false none true).irec groups
        ∧ (run okEnv (new okEnv (some "run.zdab") false none true)
            [Call.writeBank (List.range 20) 2, Call.flush]).irec
          = ((new okEnv (some "run.zdab") false none true).irec + groups.length) % U32 := by
  have hv : ValidCalls [Call.writeBank (List.range 20) 2, Call.flush] := by
    intro c hc
    simp only [List.mem_cons, List.mem_singleton, List.not_mem_nil, or_false] at hc
    rcases hc with rfl | rfl
    · show 2 < NUM_BANKS
      decide
    · trivial
  obtain ⟨base, groups, h1, -, -, -, h5, -, h7, -⟩ :=
    C15_sequence_numbers okEnv okEnv_wellFormed okEnv_noFail (some "run.zdab") false none true
      [Call.writeBank (List.range 20) 2, Call.flush] (by decide) hv
  exact ⟨by decide, hv, base, groups, h1, h5, h7⟩


/-! ### Resuming a file that was written and closed -/

theorem run_fresh (e : Env) (hwf : e.WellFormed) (hio : e.NoFail) (base : List Nat)
    (first : Nat) (hb : base.length % e.NWREC = 0) (cs : List Call) :
    ∀ (s : Writer), Healthy e s → Chained e base first s → s.ahead = [] → ValidCalls cs →
      Healthy e (run e s cs) ∧ Chained e base first (run e s cs) ∧ (run e s cs).ahead = [] := by
  induction cs with
  | nil => intro s hs hc ha _; exact ⟨hs, hc, ha⟩
  | cons c cs ih =>
    intro s hs hc ha hv
    have hv2 : ValidCalls cs := fun c2 h2 => hv c2 (List.mem_cons_of_mem _ h2)
    cases c with
    | writeBank bank index =>
      have hidx : index < NUM_BANKS := hv (Call.writeBank bank index) (List.mem_cons_self _ _)
      obtain ⟨-, w2, w3⟩ := WriteBank_chained e hwf hio s hs bank index hidx base first hb hc
      exact ih _ w2 w3 ((WriteBank_kept e s bank index).2 ha) hv2
    | flush =>
      obtain ⟨-, w2, w3⟩ := Flush_healthy e hio s hs base first hc
      have hfa := (Flush_full e hio s hs.isOpen hs.noError hs.buflen hs.wpos_le hs.ipos_le).2.2.1
      exact ih _ w2 w3 (by rw [hfa, ha]; simp) hv2

theorem wordOf_take (e : Env) (hss : ∀ w, e.swap (e.swap w) = w) (hd hdr : List Nat)
    (hlen : hd.length = e.NWREC) (ht : hd.take 8 = hdr.map e.swap) (i : Nat) (hi : i < 8) :
    wordOf e hd i = hdr.getD i 0 := by
  unfold wordOf
  rw [SWAP_INT32_all e hd _ (by rw [hlen])]
  have h1 : (hd.map e.swap).getD i 0 = ((hd.map e.swap).take 8).getD i 0 := by
    rw [List.getD_eq_getElem?_getD, List.getD_eq_getElem?_getD, List.getElem?_take, if_pos hi]
  rw [h1, ← List.map_take, ht, List.map_map]
  have : e.swap ∘ e.swap = id := by
    funext w; exact hss w
  rw [this, List.map_id]

theorem eorBlock_ok (e : Env) (hwf : e.WellFormed) (mpr : List Nat) (hl : mpr.length = 8)
    (hsig : mpr.take 5 = [e.ZEBRA_SIG0, e.ZEBRA_SIG1, e.ZEBRA_SIG2, e.ZEBRA_SIG3, e.NWREC]) :
    (eorBlock e mpr).length = e.NWREC ∧ (eozBlock e mpr).length = e.NWREC
    ∧ IsEndOfRun e (eorBlock e mpr) := by
  have hW : 70 ≤ e.NWREC := by
    have := hwf.roomy
    unfold NPHREC NLOGIC NPILOT NBANK at this
    omega
  have hch := closingHeader_eq e mpr hl hsig
  have hl1 : (eorBlock e mpr).length = e.NWREC := by
    unfold eorBlock
    rw [List.length_append, List.length_append, padWords_length e _ (by omega), hch]
    simp [meor]
    omega
  have hl2 : (eozBlock e mpr).length = e.NWREC := by
    unfold eozBlock
    rw [List.length_append, List.length_append, padWords_length e _ (by omega), hch]
    simp [meoz]
    omega
  have ht : (eorBlock e mpr).take 8 = (closingHeader mpr).map e.swap := by
    unfold eorBlock
    rw [List.append_assoc, List.take_left' (by rw [hch]; rfl)]
  have hw := wordOf_take e hwf.swap_swap (eorBlock e mpr) (closingHeader mpr) hl1 ht
  rw [hch] at hw
  refine ⟨hl1, hl2, ⟨?_, ?_, ?_, ?_⟩, ?_⟩
  · rw [hw 0 (by omega)]; rfl
  · rw [hw 1 (by omega)]; rfl
  · rw [hw 2 (by omega)]; rfl
  · rw [hw 3 (by omega)]; rfl
  · rw [hw 4 (by omega)]; rfl

theorem GroupsOK_scan (e : Env) (hwf : e.WellFormed) (first : Nat)
    (groups : List (List (List Nat))) (h : GroupsOK e first groups) :
    ∀ g ∈ groups, IsGroup e g ∧ headWord e g 4 ≠ EOR_TAG := by
  intro g hg
  obtain ⟨hd, fast, seq, rfl, hh, -⟩ := h.1 g hg
  refine ⟨⟨hd, fast, rfl, hh.2.1, hh.2.2.2.2.symm⟩, ?_⟩
  simp only [headWord, List.headD_cons]
  rw [hh.2.2.1]
  have := hwf.small
  unfold EOR_TAG
  omega

/-- C5: a writer on a freshly created file, any sequence of `WriteBank` calls with
catalog indices (and `Flush` calls), then `Close`, no stdio failure; `t` is the writer
right before `Close`.  `Close` returns 0 and the file consists of the groups of blocks
transferred before, the last steering block `lastBlock` (the block in the buffer, which
`Close` completes; its sequence number is `t.irec`), the end-of-run block and the
end-of-container block.  Constructing a writer on that file succeeds: the handle is
open and the error flag clear, the file position is right before the end-of-run block
written by `Close`, and the staged first header carries the successor of the sequence
number of `lastBlock` as a 32-bit number, which is that number plus one unless it is
`0xFFFFFFFF`. -/
theorem C5_resume_after_close (e : Env) (hwf : e.WellFormed) (hio : e.NoFail) (name : String)
    (calcMD5 : Bool) (hname : name ≠ "") (cs : List Call) (hv : ValidCalls cs)
    (name2 : String) (calcMD5b canCreate : Bool) (hname2 : name2 ≠ "")
    (t R : Writer) (ht : t = run e (new e (some name) calcMD5 none true) cs)
    (hR : R = new e (some name2) calcMD5b (some (fileAfterClose e t)) canCreate) :
    (Close e t).1 = 0
    ∧ ∃ groups lastBlock,
        fileAfterClose e t
          = groups.flatten.flatten ++ lastBlock ++ eorBlock e t.mpr ++ eozBlock e t.mpr
        ∧ GroupsOK e 0 (groups ++ [[lastBlock]])
        ∧ lastBlock.take 8 = t.mbuf.take 8
        ∧ wordOf e lastBlock 5 = t.irec
        ∧ IsEndOfRun e (eorBlock e t.mpr)
        ∧ R.zdaboutput = true ∧ R.mError = 0
        ∧ R.behind = groups.flatten.flatten ++ lastBlock
        ∧ R.ahead = eorBlock e t.mpr ++ eozBlock e t.mpr
        ∧ R.ipos = 8
        ∧ R.mbuf.take 8 = stagedHeader e ((wordOf e lastBlock 5 + 1) % U32)
        ∧ R.irec = (wordOf e lastBlock 5 + 1) % U32
        ∧ (wordOf e lastBlock 5 ≠ 0xFFFFFFFF → R.irec = wordOf e lastBlock 5 + 1) := by
  have hW : 70 ≤ e.NWREC := by
    have := hwf.roomy
    unfold NPHREC NLOGIC NPILOT NBANK at this
    omega
  obtain ⟨f1, f2, -, f4, -, f6, -⟩ := new_fresh_healthy e name calcMD5 hname (by omega)
  have hc0 : Chained e [] 0 (new e (some name) calcMD5 none true) := by
    have := chained_start e _ [] f1 f2
    rw [f4] at this
    exact this
  obtain ⟨t1, ⟨groups, g1, g2, g3⟩, t3⟩ :=
    run_fresh e hwf hio [] 0 (by simp) cs _ f1 hc0 f6 hv
  rw [← ht] at t1 g2 g3 t3
  rw [List.nil_append] at g2
  rw [Nat.zero_add] at g3
  obtain ⟨c1, -, -, c4, c5, -⟩ := Close_full e hio t _ g2 t1.mpr_len (by omega)
  obtain ⟨p1, p2⟩ := padded_heads e t t1
  obtain ⟨L, hL⟩ : ∃ L, L = t.mbuf.take t.ipos ++ padWords e t.ipos := ⟨_, rfl⟩
  rw [← hL] at c4 p1 p2
  have hh : Heads e L ((0 + groups.length) % U32) 0 := by
    have := heads_of_take e hwf.swap_swap L t.mpr p1 p2 t1.mpr_len t1.mpr_sig
    rw [t1.mpr_seq, t1.mpr_fast, g3] at this
    rw [Nat.zero_add]
    exact this
  obtain ⟨s1, s2, -⟩ := GroupsOK_snoc e (by omega) 0 groups L [] 0 g1 hh (by simp)
  have htb : toBlocks e [] = [] := by simp [toBlocks]
  rw [htb] at s1 s2
  rw [List.append_nil] at s2
  obtain ⟨e1, e2, e3⟩ := eorBlock_ok e hwf t.mpr t1.mpr_len t1.mpr_sig
  have hfile : fileAfterClose e t
      = (groups ++ [[L]]).flatten.flatten ++ (eorBlock e t.mpr ++ eozBlock e t.mpr) := by
    unfold fileAfterClose
    rw [c5 t3, List.append_nil, c4, s2]
    simp only [List.append_assoc]
  have hblocks : toBlocks e (fileAfterClose e t)
      = (groups ++ [[L]]).flatten ++ eorBlock e t.mpr :: [eozBlock e t.mpr] := by
    have hfl : fileAfterClose e t
        = ((groups ++ [[L]]).flatten ++ [eorBlock e t.mpr, eozBlock e t.mpr]).flatten := by
      rw [hfile]
      simp
    rw [hfl]
    apply toBlocks_flatten e (by omega)
    intro b hb
    rcases List.mem_append.mp hb with h | h
    · exact GroupsOK_blocks e 0 _ s1 b h
    · simp only [List.mem_cons, List.mem_singleton, List.not_mem_nil, or_false] at h
      rcases h with rfl | rfl
      · exact e1
      · exact e2
  have hscan := resumeScan_exact e (groups ++ [[L]]) _ (eorBlock e t.mpr) [eozBlock e t.mpr]
    (U32 - 1) 0 (List.replicate e.NWREC 0) hblocks (GroupsOK_scan e hwf 0 _ s1) e3
  have hlast : lastSeq e (U32 - 1) (groups ++ [[L]]) = wordOf e L 5 := by
    simp [lastSeq, headWord]
  have hw5 : wordOf e L 5 = t.irec := by
    rw [hh.2.2.2.1, Nat.zero_add, g3]
  have hnb : ((groups ++ [[L]]).flatten.flatten).length
      = (0 + (groups ++ [[L]]).flatten.length) * e.NWREC := by
    rw [Nat.zero_add]
    exact blocks_length e.NWREC _ (GroupsOK_blocks e 0 _ s1)
  have hnew := new_existing e name2 calcMD5b canCreate (fileAfterClose e t) hname2
  rw [hscan] at hnew
  simp only [if_true] at hnew
  rw [← hR] at hnew
  obtain ⟨i1, i2, i3, i4, i5, -, i7⟩ := initRecords_frame e
    { mBytesWritten := 0, mWritePos := 0, mError := 0, mCalcMD5 := calcMD5b, mMD5 := [],
      mbuf := SWAP_INT32 e (eorBlock e t.mpr) 0 e.NWREC, ipos := 0,
      irec := lastSeq e (U32 - 1) (groups ++ [[L]]), zdaboutput := true, mpr := [], mlr := [],
      mpili := [], mbk := [], sBankDef := sBankDefInit e,
      behind := (fileAfterClose e t).take ((0 + (groups ++ [[L]]).flatten.length) * e.NWREC),
      ahead := (fileAfterClose e t).drop ((0 + (groups ++ [[L]]).flatten.length) * e.NWREC),
      ops := [] }
  have i8 := initRecords_mbuf_take e
    { mBytesWritten := 0, mWritePos := 0, mError := 0, mCalcMD5 := calcMD5b, mMD5 := [],
      mbuf := SWAP_INT32 e (eorBlock e t.mpr) 0 e.NWREC, ipos := 0,
      irec := lastSeq e (U32 - 1) (groups ++ [[L]]), zdaboutput := true, mpr := [], mlr := [],
      mpili := [], mbk := [], sBankDef := sBankDefInit e,
      behind := (fileAfterClose e t).take ((0 + (groups ++ [[L]]).flatten.length) * e.NWREC),
      ahead := (fileAfterClose e t).drop ((0 + (groups ++ [[L]]).flatten.length) * e.NWREC),
      ops := [] }
  rw [← hnew] at i1 i2 i3 i4 i5 i7 i8
  dsimp only at i1 i2 i3 i4 i7 i8
  rw [hlast] at i7 i8
  rw [hfile, List.take_left' hnb, s2] at i3
  rw [hfile, List.drop_left' hnb] at i4
  have hL8 : L.take 8 = t.mbuf.take 8 := by rw [p2, t1.header]
  refine ⟨c1, groups, L, ?_, s1, hL8, hw5, e3, i1, i2, i3, i4, i5, i8, i7, ?_⟩
  · rw [hfile, s2]
    simp only [List.append_assoc]
  · intro hne
    rw [i7]
    have hlt : wordOf e L 5 < U32 := by rw [hw5]; exact t1.irec_lt
    unfold U32 at hlt ⊢
    omega

theorem C5_resume_after_close_witness :
    ValidCalls [Call.writeBank (List.range 20) 2]
    ∧ (Close okEnv (run okEnv (new okEnv (some "run.zdab") false none true)
        [Call.writeBank (List.range 20) 2])).1 = 0 := by
  have hv : ValidCalls [Call.writeBank (List.range 20) 2] := by
    intro c hc
    simp only [List.mem_singleton] at hc
    subst hc
    show 2 < NUM_BANKS
    decide
  exact ⟨hv, (C5_resume_after_close okEnv okEnv_wellFormed okEnv_noFail "run.zdab" false
    (by decide) [Call.writeBank (List.range 20) 2] hv "run.zdab" false false (by decide) _ _
    rfl rfl).1⟩


/-! ### The writer's shape under arbitrary stdio outcomes -/

theorem FWriteRaw_frame (e : Env) (s : Writer) (off n : Nat) :
    (FWriteRaw e s off n).2.mbuf = s.mbuf ∧ (FWriteRaw e s off n).2.ipos = s.ipos
    ∧ (FWriteRaw e s off n).2.mpr = s.mpr ∧ (FWriteRaw e s off n).2.mlr = s.mlr
    ∧ (FWriteRaw e s off n).2.sBankDef = s.sBankDef
    ∧ (FWriteRaw e s off n).2.mWritePos = s.mWritePos := by
  unfold FWriteRaw fwrite
  simp only []
  split_ifs <;> exact ⟨rfl, rfl, rfl, rfl, rfl, rfl⟩

theorem FWrite_frame (e : Env) (s : Writer) (off n : Nat) :
    (FWrite e s off n).2.mbuf = s.mbuf ∧ (FWrite e s off n).2.ipos = s.ipos
    ∧ (FWrite e s off n).2.mpr = s.mpr ∧ (FWrite e s off n).2.mlr = s.mlr
    ∧ (FWrite e s off n).2.sBankDef = s.sBankDef
    ∧ (n = e.NWREC → (FWrite e s off n).2.mWritePos = 0) := by
  unfold FWrite
  split_ifs with h1 h2
  · exact ⟨rfl, rfl, rfl, rfl, rfl, fun _ => rfl⟩
  · obtain ⟨a1, a2, a3, a4, a5, a6⟩ :=
      FWriteRaw_frame e { s with mWritePos := 0 } s.mWritePos (n - s.mWritePos)
    exact ⟨a1, a2, a3, a4, a5, fun _ => a6⟩
  · obtain ⟨a1, a2, a3, a4, a5, a6⟩ := FWriteRaw_frame e s off n
    refine ⟨a1, a2, a3, a4, a5, fun hn => ?_⟩
    rw [a6]
    by_contra hc
    exact h1 ⟨hc, hn⟩

theorem WritePhysicalRecord_sane (e : Env) (s : Writer) (hs : Sane e s) :
    Sane e (WritePhysicalRecord e s).2 ∧ (WritePhysicalRecord e s).2.ipos = 0
    ∧ (WritePhysicalRecord e s).2.mWritePos = 0
    ∧ (WritePhysicalRecord e s).2.mpr = s.mpr := by
  have hbuf := padded_buffer e s.mbuf s.ipos hs.buflen hs.ipos_le
  have hl : (s.mbuf.take s.ipos ++ padWords e s.ipos).length = e.NWREC := by
    rw [List.length_append, padWords_length e _ hs.ipos_le, List.length_take, hs.buflen]
    have := hs.ipos_le
    omega
  obtain ⟨a1, a2, a3, a4, a5, a6⟩ := FWrite_frame e
    { s with mbuf := s.mbuf.take s.ipos ++ padWords e s.ipos, ipos := 0 } 0 e.NWREC
  have hW : WritePhysicalRecord e s
      = FWrite e { s with mbuf := s.mbuf.take s.ipos ++ padWords e s.ipos, ipos := 0 } 0 e.NWREC := by
    unfold WritePhysicalRecord
    simp only [hbuf]
  rw [hW]
  exact ⟨⟨by rw [a1]; exact hl, by rw [a2]; exact Nat.zero_le _, by rw [a3]; exact hs.mpr_len,
    by rw [a4]; exact hs.mlr_len, by rw [a5]; exact hs.catalog⟩, a2, a6 rfl, a3⟩

theorem closeOnError_sane (e : Env) (s : Writer) (hs : Sane e s) : Sane e (closeOnError e s) :=
  ⟨hs.buflen, hs.ipos_le, hs.mpr_len, hs.mlr_len, hs.catalog⟩

theorem newSteering_sane (e : Env) (s : Writer) (hs : Sane e s) (hW : 8 ≤ e.NWREC)
    (hi : s.ipos = 0) :
    Sane e (newSteering e s) ∧ (newSteering e s).ipos = 8
    ∧ (newSteering e s).mWritePos = s.mWritePos := by
  have hl : (((s.mpr.set 5 ((s.irec + 1) % U32)).set 6 NPHREC).set 7 0).length = 8 := by
    simp [hs.mpr_len]
  obtain ⟨a, i⟩ := AddRecord_added e
    { s with irec := (s.irec + 1) % U32,
             mpr := ((s.mpr.set 5 ((s.irec + 1) % U32)).set 6 NPHREC).set 7 0 }
    (((s.mpr.set 5 ((s.irec + 1) % U32)).set 6 NPHREC).set 7 0)
    (((s.mpr.set 5 ((s.irec + 1) % U32)).set 6 NPHREC).set 7 0).length
    (by show s.ipos + _ ≤ s.mbuf.length; rw [hl, hi, hs.buflen]; omega)
  have hn : newSteering e s = AddRecord e
    { s with irec := (s.irec + 1) % U32,
             mpr := ((s.mpr.set 5 ((s.irec + 1) % U32)).set 6 NPHREC).set 7 0 }
    (((s.mpr.set 5 ((s.irec + 1) % U32)).set 6 NPHREC).set 7 0)
    (((s.mpr.set 5 ((s.irec + 1) % U32)).set 6 NPHREC).set 7 0).length := rfl
  rw [hn]
  have hip : (AddRecord e
    { s with irec := (s.irec + 1) % U32,
             mpr := ((s.mpr.set 5 ((s.irec + 1) % U32)).set 6 NPHREC).set 7 0 }
    (((s.mpr.set 5 ((s.irec + 1) % U32)).set 6 NPHREC).set 7 0)
    (((s.mpr.set 5 ((s.irec + 1) % U32)).set 6 NPHREC).set 7 0).length).ipos = 8 := by
    rw [i, hl]
    show s.ipos + 8 = 8
    rw [hi]
  refine ⟨⟨a.buflen.trans hs.buflen, by rw [hip]; exact hW, by rw [a.mpr]; exact hl,
    hs.mlr_len, hs.catalog⟩, hip, a.mWritePos⟩

theorem startBlock_sane (e : Env) (s : Writer) (hs : Sane e s) (hW : 8 ≤ e.NWREC) :
    Sane e (startBlock e s).2
    ∧ ((startBlock e s).1 = true →
        (startBlock e s).2.ipos = 8 ∧ (startBlock e s).2.mWritePos = 0) := by
  obtain ⟨w1, w2, w3, -⟩ := WritePhysicalRecord_sane e s hs
  obtain ⟨n1, n2, n3⟩ := newSteering_sane e _ w1 hW w2
  unfold startBlock
  simp only []
  split_ifs with h
  · exact ⟨closeOnError_sane e _ w1, fun hc => absurd hc (by simp)⟩
  · exact ⟨n1, fun _ => ⟨n2, n3.trans w3⟩⟩

theorem prepared_sane (e : Env) (s : Writer) (hs : Sane e s) (bank : List Nat)
    (index : Nat) (hidx : index < NUM_BANKS) (hne : index ≠ kMASTindex)
    (hmast : e.mMastData.length = e.WORD_SIZE_MAST) :
    Sane e (prepared e s bank index).2.1
    ∧ (prepared e s bank index).2.1.ipos = s.ipos
    ∧ (prepared e s bank index).2.1.mWritePos = s.mWritePos
    ∧ (prepared e s bank index).1.nio_nl ≤ 2
    ∧ (index = kZDABindex →
        (prepared e s bank index).1.hdr_size = 1 + (prepared e s bank index).1.nio_nl + NBANK
        ∧ (prepared e s bank index).1.npilot = NPILOT)
    ∧ (index ≠ kZDABindex →
        (prepared e s bank index).1.hdr_size = 1 + (prepared e s bank index).1.nio_nl + NBANK
          + (1 + 25 + NBANK + e.mMastData.length)
        ∧ (prepared e s bank index).1.npilot = NPILOT + 2
        ∧ (prepared e s bank index).1.mast_nio_nl = 25) := by
  by_cases h0 : index = kZDABindex
  · subst h0
    have hc := CatalogOK_set_nwords e s.sBankDef (e.GetSize bank / 4) hs.catalog
    have hn := (catalog_entry e _ hc kZDABindex hidx).1 hne
    refine ⟨⟨hs.buflen, hs.ipos_le, hs.mpr_len, hs.mlr_len, ?_⟩, rfl, rfl, ?_, ?_, ?_⟩
    · simpa [prepared, resolveZDAB, computeSizes] using hc
    · simpa [prepared, resolveZDAB, computeSizes] using hn
    · intro _
      simp [prepared, resolveZDAB, computeSizes]
    · intro h
      exact absurd rfl h
  · have hn := (catalog_entry e _ hs.catalog index hidx).1 hne
    obtain ⟨_, m2, _, m4, _⟩ := catalog_entry e _ hs.catalog kMASTindex (by decide)
    have hm2 := m2 rfl
    have hm4 := (m4 rfl).1
    have h0n : index ≠ kZDABindex := h0
    simp only [prepared, resolveZDAB, computeSizes, if_neg h0, if_pos h0n]
    refine ⟨⟨hs.buflen, hs.ipos_le, hs.mpr_len, hs.mlr_len, hs.catalog⟩, ?_⟩
    rw [hm2, hm4, hmast]
    simp only [true_and, and_true, implies_true]
    exact ⟨hn, fun h => absurd h h0⟩

theorem overhead_sane (e : Env) (hwf : e.WellFormed) (s : Writer) (hs : Sane e s)
    (bank : List Nat) (index : Nat) (hidx : index < NUM_BANKS) (hne : index ≠ kMASTindex) :
    NPHREC + overhead (prepared e s bank index).1 < e.NWREC := by
  obtain ⟨-, -, -, p5, p8, p9⟩ := prepared_sane e s hs bank index hidx hne hwf.mast_len
  have hr := hwf.roomy
  rw [← hwf.mast_len] at hr
  unfold overhead
  unfold NPHREC NLOGIC NPILOT NBANK at *
  by_cases h0 : index = kZDABindex
  · obtain ⟨a, b⟩ := p8 h0
    omega
  · obtain ⟨a, b, _⟩ := p9 h0
    omega

theorem placeRecord_sane (e : Env) (s : Writer) (z : Sizes) (hs : Sane e s)
    (hroom : NPHREC + overhead z < e.NWREC) (hsmall : e.NWREC < 1073741824) :
    Sane e (placeRecord e s z).2
    ∧ ((placeRecord e s z).1 = true →
        (placeRecord e s z).2.ipos + overhead z < e.NWREC
        ∧ ((placeRecord e s z).2.mWritePos ≠ 0 →
            (placeRecord e s z).2.ipos + overhead z + z.nsize ≤ 2 * e.NWREC - NPHREC)) := by
  unfold NPHREC at hroom
  obtain ⟨b1, b2⟩ := startBlock_sane e s hs (by omega)
  have hu : u32cast ((e.NWREC : Int) - NLOGIC - z.npilot - z.hdr_size)
      = e.NWREC - overhead z := by
    unfold overhead
    exact u32cast_room e.NWREC NLOGIC z.npilot z.hdr_size (by unfold overhead at hroom; omega)
      (by omega)
  unfold placeRecord
  simp only [hu]
  have hov : s.ipos + NLOGIC + z.npilot + z.hdr_size + z.nsize
      = s.ipos + overhead z + z.nsize := by unfold overhead; omega
  rw [hov]
  by_cases c1 : s.mWritePos ≠ 0 ∧ s.ipos + overhead z + z.nsize > 2 * e.NWREC - NPHREC
  · rw [if_pos c1]
    by_cases hf : (startBlock e s).1 = true
    · obtain ⟨i1, i2⟩ := b2 hf
      simp only [hf, Bool.not_true, Bool.false_eq_true, if_false]
      rw [if_neg (by rw [i1]; omega)]
      exact ⟨b1, fun _ => ⟨by rw [i1]; omega, fun h => absurd i2 h⟩⟩
    · have hf2 : (startBlock e s).1 = false := by simpa using hf
      simp only [hf2, Bool.not_false, if_true]
      exact ⟨b1, fun h => absurd h (by simp)⟩
  · rw [if_neg c1]
    simp only [Bool.not_true, Bool.false_eq_true, if_false]
    by_cases c2 : s.ipos + overhead z ≥ e.NWREC
    · rw [if_pos (by omega)]
      refine ⟨b1, fun hf => ?_⟩
      obtain ⟨i1, i2⟩ := b2 hf
      exact ⟨by rw [i1]; omega, fun h => absurd i2 h⟩
    · rw [if_neg (by omega)]
      refine ⟨hs, fun _ => ⟨by show s.ipos + _ < _; omega, fun h => ?_⟩⟩
      show s.ipos + overhead z + z.nsize ≤ _
      have h2 : s.mWritePos ≠ 0 := h
      by_contra hc
      exact c1 ⟨h2, by omega⟩

theorem stageHeaders_sane (e : Env) (s : Writer) (index : Nat) (z : Sizes) (hs : Sane e s)
    (hidx : index < NUM_BANKS)
    (hz0 : index = kZDABindex → z.hdr_size = 1 + z.nio_nl + NBANK)
    (hz1 : index ≠ kZDABindex → z.hdr_size = 1 + z.nio_nl + NBANK
        + (1 + z.mast_nio_nl + NBANK + e.mMastData.length) ∧ z.mast_nio_nl = 25)
    (hroom : s.ipos + overhead z ≤ e.NWREC) :
    Sane e (stageHeaders e s index z)
    ∧ (stageHeaders e s index z).ipos = s.ipos + overhead z
    ∧ (stageHeaders e s index z).mWritePos = s.mWritePos := by
  obtain ⟨ha, hi⟩ := stageHeaders_adds e s index z hs.mlr_len hz0 (fun h => (hz1 h).1)
    (by rw [hs.buflen]; exact hroom)
  obtain ⟨t1, -, -, t4⟩ := stageHeaders_templates e s index z
  refine ⟨⟨ha.buflen.trans hs.buflen, by rw [hi]; exact hroom, by rw [ha.mpr]; exact hs.mpr_len,
    by rw [t1, List.length_set]; exact hs.mlr_len, ?_⟩, hi, ha.mWritePos⟩
  rw [t4]
  by_cases h0 : index = kZDABindex
  · rw [if_neg (by simp [h0])]; exact hs.catalog
  · rw [if_pos h0]
    obtain ⟨m1, m2⟩ := mastIochar_ok e s index z hs.catalog hidx h0 (hz1 h0).2
    exact CatalogOK_set_mast e _ _ hs.catalog m1 m2

theorem preLoop_sane (e : Env) (hwf : e.WellFormed) (s : Writer) (hs : Sane e s)
    (bank : List Nat) (index : Nat) (hidx : index < NUM_BANKS) (hne : index ≠ kMASTindex) :
    Sane e (placeRecord e (prepared e s bank index).2.1 (prepared e s bank index).1).2
    ∧ ((placeRecord e (prepared e s bank index).2.1 (prepared e s bank index).1).1 = true →
        Sane e (preLoop e s bank index)
        ∧ (preLoop e s bank index).ipos < e.NWREC
        ∧ ((preLoop e s bank index).mWritePos ≠ 0 →
            (preLoop e s bank index).ipos + (prepared e s bank index).1.nsize
              ≤ 2 * e.NWREC - NPHREC)) := by
  obtain ⟨p1, -, -, -, p8, p9⟩ := prepared_sane e s hs bank index hidx hne hwf.mast_len
  have hov := overhead_sane e hwf s hs bank index hidx hne
  obtain ⟨q1, q2⟩ := placeRecord_sane e _ (prepared e s bank index).1 p1 hov hwf.small
  refine ⟨q1, fun hf => ?_⟩
  obtain ⟨r1, r2⟩ := q2 hf
  obtain ⟨s1, s2, s3⟩ := stageHeaders_sane e _ index (prepared e s bank index).1 q1 hidx
    (fun h => (p8 h).1) (fun h => ⟨by rw [(p9 h).1, (p9 h).2.2], (p9 h).2.2⟩) (by omega)
  have hpre : preLoop e s bank index = stageHeaders e
      (placeRecord e (prepared e s bank index).2.1 (prepared e s bank index).1).2 index
      (prepared e s bank index).1 := rfl
  rw [hpre]
  refine ⟨s1, by rw [s2]; exact r1, fun h => ?_⟩
  rw [s2]
  rw [s3] at h
  exact r2 h

theorem FWrite_sane (e : Env) (s : Writer) (off n : Nat) (hs : Sane e s) :
    Sane e (FWrite e s off n).2 := by
  obtain ⟨a1, a2, a3, a4, a5, -⟩ := FWrite_frame e s off n
  exact ⟨by rw [a1]; exact hs.buflen, by rw [a2]; exact hs.ipos_le, by rw [a3]; exact hs.mpr_len,
    by rw [a4]; exact hs.mlr_len, by rw [a5]; exact hs.catalog⟩

theorem storeWord_sane (e : Env) (s : Writer) (w : Nat) (hs : Sane e s)
    (h : s.ipos < e.NWREC) : Sane e (storeWord s w) :=
  ⟨by show (s.mbuf.set s.ipos w).length = _; rw [List.length_set]; exact hs.buflen,
   by show s.ipos + 1 ≤ _; omega, hs.mpr_len, hs.mlr_len, hs.catalog⟩

theorem resetPos_sane (e : Env) (s : Writer) (hs : Sane e s) : Sane e { s with ipos := 0 } :=
  ⟨hs.buflen, Nat.zero_le _, hs.mpr_len, hs.mlr_len, hs.catalog⟩

theorem set7_sane (e : Env) (s : Writer) (x : Nat) (hs : Sane e s) :
    Sane e { s with mbuf := s.mbuf.set 7 x } :=
  ⟨by show (s.mbuf.set 7 x).length = _; rw [List.length_set]; exact hs.buflen,
   hs.ipos_le, hs.mpr_len, hs.mlr_len, hs.catalog⟩

theorem steerHeader_sane (e : Env) (r : Writer) (irec y : Nat) (hs : Sane e r)
    (hW : 8 ≤ e.NWREC) :
    Sane e (AddRecord e { r with ipos := 0, irec := irec, mpr := (r.mpr.set 5 irec).set 6 y }
      ((r.mpr.set 5 irec).set 6 y) ((r.mpr.set 5 irec).set 6 y).length)
    ∧ (AddRecord e { r with ipos := 0, irec := irec, mpr := (r.mpr.set 5 irec).set 6 y }
      ((r.mpr.set 5 irec).set 6 y) ((r.mpr.set 5 irec).set 6 y).length).ipos = 8
    ∧ (AddRecord e { r with ipos := 0, irec := irec, mpr := (r.mpr.set 5 irec).set 6 y }
      ((r.mpr.set 5 irec).set 6 y) ((r.mpr.set 5 irec).set 6 y).length).mWritePos
        = r.mWritePos := by
  have hl : ((r.mpr.set 5 irec).set 6 y).length = 8 := by simp [hs.mpr_len]
  obtain ⟨a, i⟩ := AddRecord_added e
    { r with ipos := 0, irec := irec, mpr := (r.mpr.set 5 irec).set 6 y }
    ((r.mpr.set 5 irec).set 6 y) ((r.mpr.set 5 irec).set 6 y).length
    (by show 0 + _ ≤ r.mbuf.length; rw [hl, hs.buflen]; omega)
  have hip : (AddRecord e { r with ipos := 0, irec := irec, mpr := (r.mpr.set 5 irec).set 6 y }
      ((r.mpr.set 5 irec).set 6 y) ((r.mpr.set 5 irec).set 6 y).length).ipos = 8 := by
    rw [i, hl]
  exact ⟨⟨a.buflen.trans hs.buflen, by rw [hip]; exact hW, by rw [a.mpr]; exact hl,
    hs.mlr_len, hs.catalog⟩, hip, a.mWritePos⟩

theorem payloadLoop_sane (e : Env) (hW : 9 ≤ e.NWREC) (ws : List Nat) :
    ∀ (s : Writer) (fast : Bool), Sane e s → Sane e (payloadLoop e ws s fast).1 := by
  induction ws with
  | nil => intro s fast hs; exact hs
  | cons w ws ih =>
    intro s fast hs
    unfold payloadLoop
    simp only []
    split_ifs with h1 h2 h3 h4 h5 h6 h7
    · exact closeOnError_sane e _ hs
    · exact closeOnError_sane e _ (FWrite_sane e _ _ _ (set7_sane e s _ hs))
    · exact ih _ _ (storeWord_sane e _ w
        (resetPos_sane e _ (FWrite_sane e _ _ _ (set7_sane e s _ hs))) (by show 0 < _; omega))
    · exact closeOnError_sane e _ (FWrite_sane e _ _ _ hs)
    · exact ih _ _ (storeWord_sane e _ w
        (resetPos_sane e _ (FWrite_sane e _ _ _ hs)) (by show 0 < _; omega))
    · exact closeOnError_sane e _ (FWrite_sane e _ _ _ hs)
    · obtain ⟨t1, t2, -⟩ := steerHeader_sane e (FWrite e s 0 e.NWREC).2
        (((FWrite e s 0 e.NWREC).2.irec + 1) % U32) (NPHREC + (ws.length + 1))
        (FWrite_sane e _ _ _ hs) (by omega)
      exact ih _ _ (storeWord_sane e _ w t1 (by rw [t2]; omega))
    · exact ih _ _ (storeWord_sane e _ w hs (by omega))

theorem guardCursors_zero (e : Env) (hW : 9 ≤ e.NWREC) (ws : List Nat) :
    ∀ (s : Writer) (fast : Bool), Sane e s →
      (fast = false → s.mWritePos ≠ 0 → s.ipos + ws.length ≤ 2 * e.NWREC - NPHREC) →
      ∀ x ∈ guardCursors e ws s fast, x = 0 := by
  induction ws with
  | nil =>
    intro s fast _ _ x hx
    simp [guardCursors] at hx
  | cons w ws ih =>
    intro s fast hs hinv x hx
    unfold guardCursors at hx
    simp only [] at hx
    have hle := hs.ipos_le
    split_ifs at hx with h1 h2 h3 h4 h5 h6 h7
    · -- the guard is taken: impossible
      simp only [Bool.and_eq_true, Bool.not_eq_true', decide_eq_true_eq] at h3
      have h0 : s.mWritePos ≠ 0 := by omega
      have := hinv h3.1 h0
      simp only [List.length_cons] at this
      unfold NPHREC at this h2
      omega
    · have hwp : s.mWritePos = 0 := by
        by_contra h0
        have := hinv (by simpa using h4) h0
        simp only [List.length_cons] at this
        unfold NPHREC at this h2
        omega
      simp only [List.mem_singleton] at hx
      rw [hx, hwp]
    · have hwp : s.mWritePos = 0 := by
        by_contra h0
        have := hinv (by simpa using h4) h0
        simp only [List.length_cons] at this
        unfold NPHREC at this h2
        omega
      rcases List.mem_append.mp hx with h | h
      · simp only [List.mem_singleton] at h
        rw [h, hwp]
      · exact ih _ true (storeWord_sane e _ w
          (resetPos_sane e _ (FWrite_sane e _ _ _ (set7_sane e s _ hs))) (by show 0 < _; omega))
          (fun hc => absurd hc (by simp)) x h
    · simp at hx
    · rw [List.nil_append] at hx
      exact ih _ true (storeWord_sane e _ w
        (resetPos_sane e _ (FWrite_sane e _ _ _ hs)) (by show 0 < _; omega))
        (fun hc => absurd hc (by simp)) x hx
    · simp at hx
    · obtain ⟨t1, t2, t3⟩ := steerHeader_sane e (FWrite e s 0 e.NWREC).2
        (((FWrite e s 0 e.NWREC).2.irec + 1) % U32) (NPHREC + (ws.length + 1))
        (FWrite_sane e _ _ _ hs) (by omega)
      have hz : (FWrite e s 0 e.NWREC).2.mWritePos = 0 := (FWrite_frame e s 0 e.NWREC).2.2.2.2.2 rfl
      exact ih _ false (storeWord_sane e _ w t1 (by rw [t2]; omega))
        (fun _ hne => absurd (t3.trans hz) hne) x hx
    · refine ih _ fast (storeWord_sane e _ w hs (by omega)) (fun hf hne => ?_) x hx
      have := hinv hf hne
      simp only [List.length_cons] at this
      show s.ipos + 1 + ws.length ≤ _
      omega

theorem WriteBank_sane (e : Env) (hwf : e.WellFormed) (s : Writer) (hs : Sane e s)
    (bank : List Nat) (index : Nat) (hidx : index < NUM_BANKS) :
    Sane e (WriteBank e s bank index).2.1 := by
  have hW : 70 ≤ e.NWREC := by
    have := hwf.roomy
    unfold NPHREC NLOGIC NPILOT NBANK at this
    omega
  unfold WriteBank
  simp only []
  split_ifs with h1 h2 h3 h4 h5 h6
  · exact hs
  · exact hs
  · exact (preLoop_sane e hwf s hs bank index hidx h2).1
  · have hf : (placeRecord e (prepared e s bank index).2.1 (prepared e s bank index).1).1 = true := by
      simpa using h3
    exact payloadLoop_sane e (by omega) _ _ _ ((preLoop_sane e hwf s hs bank index hidx h2).2 hf).1
  · have hf : (placeRecord e (prepared e s bank index).2.1 (prepared e s bank index).1).1 = true := by
      simpa using h3
    exact closeOnError_sane e _ (WritePhysicalRecord_sane e _
      (payloadLoop_sane e (by omega) _ _ _
        ((preLoop_sane e hwf s hs bank index hidx h2).2 hf).1)).1
  · have hf : (placeRecord e (prepared e s bank index).2.1 (prepared e s bank index).1).1 = true := by
      simpa using h3
    obtain ⟨w1, w2, -⟩ := WritePhysicalRecord_sane e _
      (payloadLoop_sane e (by omega) _ _ false
        ((preLoop_sane e hwf s hs bank index hidx h2).2 hf).1)
    exact (newSteering_sane e _ w1 (by omega) w2).1
  · have hf : (placeRecord e (prepared e s bank index).2.1 (prepared e s bank index).1).1 = true := by
      simpa using h3
    exact payloadLoop_sane e (by omega) _ _ _ ((preLoop_sane e hwf s hs bank index hidx h2).2 hf).1

theorem Flush_sane (e : Env) (s : Writer) (hs : Sane e s) : Sane e (Flush e s).2 := by
  obtain ⟨a1, a2, a3, a4, a5, -⟩ := FWrite_frame e s s.mWritePos (s.ipos - s.mWritePos)
  have hF : Sane e (FWrite e s s.mWritePos (s.ipos - s.mWritePos)).2 := FWrite_sane e _ _ _ hs
  unfold Flush
  simp only []
  split_ifs
  all_goals first
    | exact hs
    | exact ⟨hF.buflen, hF.ipos_le, hF.mpr_len, hF.mlr_len, hF.catalog⟩
    | exact ⟨hs.buflen, hs.ipos_le, hs.mpr_len, hs.mlr_len, hs.catalog⟩

theorem run_sane (e : Env) (hwf : e.WellFormed) (cs : List Call) :
    ∀ (s : Writer), Sane e s → ValidCalls cs → Sane e (run e s cs) := by
  induction cs with
  | nil => intro s hs _; exact hs
  | cons c cs ih =>
    intro s hs hv
    have hv2 : ValidCalls cs := fun c2 h2 => hv c2 (List.mem_cons_of_mem _ h2)
    cases c with
    | writeBank bank index =>
      have hidx : index < NUM_BANKS := hv (Call.writeBank bank index) (List.mem_cons_self _ _)
      exact ih _ (WriteBank_sane e hwf s hs bank index hidx) hv2
    | flush => exact ih _ (Flush_sane e s hs) hv2

/-- C21: the outcomes of the stdio calls are arbitrary.  In every state reached from a
construction that leaves the file open by `WriteBank` calls with catalog indices and
`Flush` calls, in every further `WriteBank` call with a catalog index, each time the
guard `if (mWritePos >= 7)` of the payload loop is evaluated, that is each time
fast-block mode is entered, the durable cursor `mWritePos` is 0; so the guard is never
taken. -/
theorem C21_guard_never_taken (e : Env) (hwf : e.WellFormed) (file_name : Option String)
    (calcMD5 : Bool) (existing : Option (List Nat)) (canCreate : Bool) (cs : List Call)
    (hopen : (new e file_name calcMD5 existing canCreate).zdaboutput = true)
    (hv : ValidCalls cs) (bank : List Nat) (index : Nat) (hidx : index < NUM_BANKS) :
    ∀ x ∈ guardCursorsOf e (run e (new e file_name calcMD5 existing canCreate) cs) bank index,
      x = 0 ∧ ¬ x ≥ 7 := by
  have hW : 70 ≤ e.NWREC := by
    have := hwf.roomy
    unfold NPHREC NLOGIC NPILOT NBANK at this
    omega
  obtain ⟨h1, -⟩ := new_open_healthy e (by omega) file_name calcMD5 existing canCreate hopen
  have hs0 : Sane e (new e file_name calcMD5 existing canCreate) :=
    ⟨h1.buflen, h1.ipos_le, h1.mpr_len, h1.mlr_len, h1.catalog⟩
  have hs := run_sane e hwf cs _ hs0 hv
  obtain ⟨t, ht⟩ : ∃ t, t = run e (new e file_name calcMD5 existing canCreate) cs := ⟨_, rfl⟩
  rw [← ht] at hs ⊢
  intro x hx
  have hx0 : x = 0 := by
    unfold guardCursorsOf at hx
    simp only [] at hx
    split_ifs at hx with c1 c2 c3
    · simp at hx
    · simp at hx
    · simp at hx
    · have hf : (placeRecord e (prepared e t bank index).2.1 (prepared e t bank index).1).1
          = true := by simpa using c3
      obtain ⟨p1, -, p3⟩ := (preLoop_sane e hwf t hs bank index hidx c2).2 hf
      refine guardCursors_zero e (by omega) _ _ false p1 (fun _ hne => ?_) x hx
      rw [window_length]
      exact p3 hne
  exact ⟨hx0, by omega⟩

theorem C21_guard_never_taken_witness :
    (new okEnv (some "run.zdab") false none true).zdaboutput = true
    ∧ ValidCalls [Call.flush]
    ∧ guardCursorsOf okEnv (run okEnv (new okEnv (some "run.zdab") false none true) [Call.flush])
        (List.replicate 2000 0) kZDABindex = [0]
    ∧ ∀ x ∈ guardCursorsOf okEnv
        (run okEnv (new okEnv (some "run.zdab") false none true) [Call.flush])
        (List.replicate 2000 0) kZDABindex, x = 0 ∧ ¬ x ≥ 7 := by
  have hv : ValidCalls [Call.flush] := by
    intro c hc
    simp only [List.mem_singleton] at hc
    subst hc
    trivial
  exact ⟨by decide, hv, by decide!,
    C21_guard_never_taken okEnv okEnv_wellFormed (some "run.zdab") false none true [Call.flush]
      (by decide) hv (List.replicate 2000 0) kZDABindex (by decide)⟩

end PZdabWriter
